import Mathlib

/-!
# Oriented bounding boxes of `fcl/math/bv/OBB-inl.h`

A shallow embedding of the templated class `OBB<S>` and of the free functions of
`OBB-inl.h`.  The scalar type `S` of the template is an arbitrary linearly
ordered field `K` (exact arithmetic); the embedding is executable at `K = ℚ`.
Square roots (`std::sqrt`) and the constant `std::numeric_limits<S>::max()`
are parameters of the functions that use them.

The namespace `Rounded` holds the same functions with a rounding after every
arithmetic operation, and `roundDouble` is the rounding of binary64.  A property
that holds in exact arithmetic only is stated for the field, next to an input
on which the functions with rounding break it.

The second part embeds what `test/ccd/test_heightmap_pair_ccd.cpp` exercises:
the box-pair translational sweep, the layered heightmap with its height
updates, the pixel codec and the heightmap-pair solver.  The definitions of
these parts follow the spec and say so in their documentation.

The third part embeds the cylinder mesh generator of
`test/make_cylinder_mesh.h` from its source.
-/

namespace fcl

/-! ## Vectors and matrices (the part of Eigen the header uses) -/

/-- The type `Vector3<S>`: the components `v[0]`, `v[1]`, `v[2]`. -/
@[ext]
structure Vector3 (K : Type) where
  x : K
  y : K
  z : K
deriving DecidableEq, Repr

/-- The type `Matrix3<S>`: `mij` is the coefficient `M(i, j)` (row `i`, column `j`). -/
@[ext]
structure Matrix3 (K : Type) where
  m00 : K
  m01 : K
  m02 : K
  m10 : K
  m11 : K
  m12 : K
  m20 : K
  m21 : K
  m22 : K
deriving DecidableEq, Repr

section Linear

variable {K : Type} [LinearOrderedField K]

namespace Vector3

/-- The vector `Vector3<S>::Zero()`. -/
def zero : Vector3 K := ⟨0, 0, 0⟩

/-- Componentwise sum `u + v`. -/
def add (u v : Vector3 K) : Vector3 K := ⟨u.x + v.x, u.y + v.y, u.z + v.z⟩

/-- Componentwise difference `u - v`. -/
def sub (u v : Vector3 K) : Vector3 K := ⟨u.x - v.x, u.y - v.y, u.z - v.z⟩

/-- Product with a scalar, `v * s`. -/
def smul (v : Vector3 K) (s : K) : Vector3 K := ⟨v.x * s, v.y * s, v.z * s⟩

/-- The inner product `u.dot(v)`. -/
def dot (u v : Vector3 K) : K := u.x * v.x + u.y * v.y + u.z * v.z

/-- The value of `v.squaredNorm()`. -/
def squaredNorm (v : Vector3 K) : K := v.dot v

/-- The value of `v.norm()`, with the square root as a parameter. -/
def norm (sqrt : K → K) (v : Vector3 K) : K := sqrt v.squaredNorm

/-- The call `v.normalize()` of Eigen: divide by the norm unless the squared norm is not positive. -/
def normalize (sqrt : K → K) (v : Vector3 K) : Vector3 K :=
  let z := v.squaredNorm
  if z > 0 then ⟨v.x / sqrt z, v.y / sqrt z, v.z / sqrt z⟩ else v

end Vector3

namespace Matrix3

/-- The column `M.col(j)` for `j = 0`. -/
def col0 (M : Matrix3 K) : Vector3 K := ⟨M.m00, M.m10, M.m20⟩

/-- The column `M.col(j)` for `j = 1`. -/
def col1 (M : Matrix3 K) : Vector3 K := ⟨M.m01, M.m11, M.m21⟩

/-- The column `M.col(j)` for `j = 2`. -/
def col2 (M : Matrix3 K) : Vector3 K := ⟨M.m02, M.m12, M.m22⟩

/-- The row `M.row(i)` for `i = 0`. -/
def row0 (M : Matrix3 K) : Vector3 K := ⟨M.m00, M.m01, M.m02⟩

/-- The row `M.row(i)` for `i = 1`. -/
def row1 (M : Matrix3 K) : Vector3 K := ⟨M.m10, M.m11, M.m12⟩

/-- The row `M.row(i)` for `i = 2`. -/
def row2 (M : Matrix3 K) : Vector3 K := ⟨M.m20, M.m21, M.m22⟩

/-- The matrix with the given three columns. -/
def ofCols (c0 c1 c2 : Vector3 K) : Matrix3 K :=
  ⟨c0.x, c1.x, c2.x, c0.y, c1.y, c2.y, c0.z, c1.z, c2.z⟩

/-- The identity matrix. -/
def identity : Matrix3 K := ⟨1, 0, 0, 0, 1, 0, 0, 0, 1⟩

/-- The transposed matrix `M.transpose()`. -/
def transpose (M : Matrix3 K) : Matrix3 K :=
  ⟨M.m00, M.m10, M.m20, M.m01, M.m11, M.m21, M.m02, M.m12, M.m22⟩

/-- The matrix product `M * N`. -/
def mul (M N : Matrix3 K) : Matrix3 K :=
  ⟨M.row0.dot N.col0, M.row0.dot N.col1, M.row0.dot N.col2,
   M.row1.dot N.col0, M.row1.dot N.col1, M.row1.dot N.col2,
   M.row2.dot N.col0, M.row2.dot N.col1, M.row2.dot N.col2⟩

/-- The matrix-vector product `M * v`. -/
def mulVec (M : Matrix3 K) (v : Vector3 K) : Vector3 K :=
  ⟨M.row0.dot v, M.row1.dot v, M.row2.dot v⟩

/-- The coefficientwise absolute value `M.cwiseAbs()`. -/
def cwiseAbs (M : Matrix3 K) : Matrix3 K :=
  ⟨|M.m00|, |M.m01|, |M.m02|, |M.m10|, |M.m11|, |M.m12|, |M.m20|, |M.m21|, |M.m22|⟩

/-- The update `M.array() += s`: the scalar is added to every coefficient. -/
def addScalar (M : Matrix3 K) (s : K) : Matrix3 K :=
  ⟨M.m00 + s, M.m01 + s, M.m02 + s, M.m10 + s, M.m11 + s, M.m12 + s,
   M.m20 + s, M.m21 + s, M.m22 + s⟩

/-- The trace `M.trace()`. -/
def trace (M : Matrix3 K) : K := M.m00 + M.m11 + M.m22

end Matrix3

/-! ## The box and its predicates -/

/-- The class `OBB<S>`: the columns of `axis` are the box axes, `To` is the
centre and `extent` holds the three half-extents. -/
@[ext]
structure OBB (K : Type) where
  axis : Matrix3 K
  To : Vector3 K
  extent : Vector3 K
deriving DecidableEq, Repr

/-- The function `obbDisjoint(B, T, a, b)` (lines 320-436): the fifteen
separating-axis tests in the order of the source, each one returning `true`
at once when it succeeds. -/
def obbDisjoint (B : Matrix3 K) (T a b : Vector3 K) : Bool :=
  let reps : K := 1 / 1000000
  let Bf := B.cwiseAbs.addScalar reps
  -- A1 x A2 = A0
  let t := if T.x < 0 then -T.x else T.x
  if t > a.x + Bf.row0.dot b then true else
  -- B1 x B2 = B0
  let s := B.col0.dot T
  let t := if s < 0 then -s else s
  if t > b.x + Bf.col0.dot a then true else
  -- A2 x A0 = A1
  let t := if T.y < 0 then -T.y else T.y
  if t > a.y + Bf.row1.dot b then true else
  -- A0 x A1 = A2
  let t := if T.z < 0 then -T.z else T.z
  if t > a.z + Bf.row2.dot b then true else
  -- B2 x B0 = B1
  let s := B.col1.dot T
  let t := if s < 0 then -s else s
  if t > b.y + Bf.col1.dot a then true else
  -- B0 x B1 = B2
  let s := B.col2.dot T
  let t := if s < 0 then -s else s
  if t > b.z + Bf.col2.dot a then true else
  -- A0 x B0
  let s := T.z * B.m10 - T.y * B.m20
  let t := if s < 0 then -s else s
  if t > a.y * Bf.m20 + a.z * Bf.m10 + b.y * Bf.m02 + b.z * Bf.m01 then true else
  -- A0 x B1
  let s := T.z * B.m11 - T.y * B.m21
  let t := if s < 0 then -s else s
  if t > a.y * Bf.m21 + a.z * Bf.m11 + b.x * Bf.m02 + b.z * Bf.m00 then true else
  -- A0 x B2
  let s := T.z * B.m12 - T.y * B.m22
  let t := if s < 0 then -s else s
  if t > a.y * Bf.m22 + a.z * Bf.m12 + b.x * Bf.m01 + b.y * Bf.m00 then true else
  -- A1 x B0
  let s := T.x * B.m20 - T.z * B.m00
  let t := if s < 0 then -s else s
  if t > a.x * Bf.m20 + a.z * Bf.m00 + b.y * Bf.m12 + b.z * Bf.m11 then true else
  -- A1 x B1
  let s := T.x * B.m21 - T.z * B.m01
  let t := if s < 0 then -s else s
  if t > a.x * Bf.m21 + a.z * Bf.m01 + b.x * Bf.m12 + b.z * Bf.m10 then true else
  -- A1 x B2
  let s := T.x * B.m22 - T.z * B.m02
  let t := if s < 0 then -s else s
  if t > a.x * Bf.m22 + a.z * Bf.m02 + b.x * Bf.m11 + b.y * Bf.m10 then true else
  -- A2 x B0
  let s := T.y * B.m00 - T.x * B.m10
  let t := if s < 0 then -s else s
  if t > a.x * Bf.m10 + a.y * Bf.m00 + b.y * Bf.m22 + b.z * Bf.m21 then true else
  -- A2 x B1
  let s := T.y * B.m01 - T.x * B.m11
  let t := if s < 0 then -s else s
  if t > a.x * Bf.m11 + a.y * Bf.m01 + b.x * Bf.m22 + b.z * Bf.m20 then true else
  -- A2 x B2
  let s := T.y * B.m02 - T.x * B.m12
  let t := if s < 0 then -s else s
  if t > a.x * Bf.m12 + a.y * Bf.m02 + b.x * Bf.m21 + b.y * Bf.m20 then true else
  false

namespace OBB

/-- The member `OBB<S>::overlap(other)` (lines 64-71). -/
def overlap (self other : OBB K) : Bool :=
  let t := other.To.sub self.To
  let T : Vector3 K := ⟨self.axis.col0.dot t, self.axis.col1.dot t, self.axis.col2.dot t⟩
  let R := self.axis.transpose.mul other.axis
  !obbDisjoint R T self.extent other.extent

/-- The member `OBB<S>::contain(p)` (lines 83-95). -/
def contain (self : OBB K) (p : Vector3 K) : Bool :=
  let local_p := p.sub self.To
  let proj := local_p.dot self.axis.col0
  if proj > self.extent.x ∨ proj < -self.extent.x then false else
  let proj := local_p.dot self.axis.col1
  if proj > self.extent.y ∨ proj < -self.extent.y then false else
  let proj := local_p.dot self.axis.col2
  if proj > self.extent.z ∨ proj < -self.extent.z then false else
  true

end OBB

/-! ## Corner vertices -/

/-- The function `computeVertices(b, vertices)` (lines 176-193): the eight
corners, in the order in which the source writes `vertices[0..7]`. -/
def computeVertices (b : OBB K) : List (Vector3 K) :=
  let extent := b.extent
  let To := b.To
  let extAxis0 := b.axis.col0.smul extent.x
  let extAxis1 := b.axis.col1.smul extent.y
  let extAxis2 := b.axis.col2.smul extent.z
  [ ((To.sub extAxis0).sub extAxis1).sub extAxis2,
    ((To.add extAxis0).sub extAxis1).sub extAxis2,
    ((To.add extAxis0).add extAxis1).sub extAxis2,
    ((To.sub extAxis0).add extAxis1).sub extAxis2,
    ((To.sub extAxis0).sub extAxis1).add extAxis2,
    ((To.add extAxis0).sub extAxis1).add extAxis2,
    ((To.add extAxis0).add extAxis1).add extAxis2,
    ((To.sub extAxis0).add extAxis1).add extAxis2 ]

/-! ## Unit quaternions (the part of Eigen that `merge_smalldist` uses) -/

/-- The type `Quaternion<S>` of Eigen, with the coefficients `w`, `x`, `y`, `z`. -/
@[ext]
structure Quaternion (K : Type) where
  w : K
  x : K
  y : K
  z : K
deriving DecidableEq, Repr

namespace Quaternion

/-- The conversion `Quaternion<S>(mat)` of a rotation matrix in Eigen (the
algorithm of Shoemake, as in `Eigen/src/Geometry/Quaternion.h`): one branch for a positive
trace, and otherwise one branch for each position `i` of the largest diagonal
coefficient. -/
def ofMatrix (sqrt : K → K) (mat : Matrix3 K) : Quaternion K :=
  let t := mat.trace
  if t > 0 then
    let t := sqrt (t + 1)
    let w := 1 / 2 * t
    let t := 1 / 2 / t
    ⟨w, (mat.m21 - mat.m12) * t, (mat.m02 - mat.m20) * t, (mat.m10 - mat.m01) * t⟩
  else
    -- i = 0; if (mat(1,1) > mat(0,0)) i = 1; if (mat(2,2) > mat(i,i)) i = 2;
    if mat.m11 > mat.m00 then
      if mat.m22 > mat.m11 then
        -- i = 2, j = 0, k = 1
        let t := sqrt (mat.m22 - mat.m00 - mat.m11 + 1)
        let qi := 1 / 2 * t
        let t := 1 / 2 / t
        ⟨(mat.m10 - mat.m01) * t, (mat.m02 + mat.m20) * t, (mat.m12 + mat.m21) * t, qi⟩
      else
        -- i = 1, j = 2, k = 0
        let t := sqrt (mat.m11 - mat.m22 - mat.m00 + 1)
        let qi := 1 / 2 * t
        let t := 1 / 2 / t
        ⟨(mat.m02 - mat.m20) * t, (mat.m01 + mat.m10) * t, qi, (mat.m21 + mat.m12) * t⟩
    else
      if mat.m22 > mat.m00 then
        -- i = 2, j = 0, k = 1
        let t := sqrt (mat.m22 - mat.m00 - mat.m11 + 1)
        let qi := 1 / 2 * t
        let t := 1 / 2 / t
        ⟨(mat.m10 - mat.m01) * t, (mat.m02 + mat.m20) * t, (mat.m12 + mat.m21) * t, qi⟩
      else
        -- i = 0, j = 1, k = 2
        let t := sqrt (mat.m00 - mat.m11 - mat.m22 + 1)
        let qi := 1 / 2 * t
        let t := 1 / 2 / t
        ⟨(mat.m21 - mat.m12) * t, qi, (mat.m10 + mat.m01) * t, (mat.m20 + mat.m02) * t⟩

/-- The inner product `q0.dot(q1)` of the coefficient vectors. -/
def dot (p q : Quaternion K) : K := p.w * q.w + p.x * q.x + p.y * q.y + p.z * q.z

/-- The assignment `q.coeffs() = -q.coeffs()`. -/
def neg (q : Quaternion K) : Quaternion K := ⟨-q.w, -q.x, -q.y, -q.z⟩

/-- The quaternion built from `p.coeffs() + q.coeffs()`. -/
def add (p q : Quaternion K) : Quaternion K := ⟨p.w + q.w, p.x + q.x, p.y + q.y, p.z + q.z⟩

/-- The call `q.normalize()` of Eigen: the coefficients are divided by their norm when
the squared norm is positive. -/
def normalize (sqrt : K → K) (q : Quaternion K) : Quaternion K :=
  let z := q.dot q
  if z > 0 then ⟨q.w / sqrt z, q.x / sqrt z, q.y / sqrt z, q.z / sqrt z⟩ else q

/-- The call `q.toRotationMatrix()` of Eigen. -/
def toRotationMatrix (q : Quaternion K) : Matrix3 K :=
  let tx := 2 * q.x
  let ty := 2 * q.y
  let tz := 2 * q.z
  let twx := tx * q.w
  let twy := ty * q.w
  let twz := tz * q.w
  let txx := tx * q.x
  let txy := ty * q.x
  let txz := tz * q.x
  let tyy := ty * q.y
  let tyz := tz * q.y
  let tzz := tz * q.z
  ⟨1 - (tyy + tzz), txy - twz, txz + twy,
   txy + twz, 1 - (txx + tzz), tyz - twx,
   txz - twy, tyz + twx, 1 - (txx + tyy)⟩

end Quaternion

/-! ## Merging two boxes -/

/-- The routines of `fcl/math/geometry.h` that `merge_largedist` calls.  They
are declared outside the header and are taken as given: the covariance matrix
of a point set, the eigenvalues and eigenvectors of a symmetric matrix, and
the centre and half-extents of a point set in a given frame. -/
structure GeometryRoutines (K : Type) where
  getCovariance : List (Vector3 K) → Matrix3 K
  eigen_old : Matrix3 K → Vector3 K × Matrix3 K
  getExtentAndCenter : List (Vector3 K) → Matrix3 K → Vector3 K × Vector3 K

/-- The component `v[i]`. -/
def Vector3.get (v : Vector3 K) (i : Fin 3) : K :=
  match i with
  | 0 => v.x
  | 1 => v.y
  | 2 => v.z

/-- The row `M.row(i)`. -/
def Matrix3.row (M : Matrix3 K) (i : Fin 3) : Vector3 K :=
  match i with
  | 0 => M.row0
  | 1 => M.row1
  | 2 => M.row2

/-- The choice of the indices `(min, mid, max)` among the eigenvalues `s` in
`merge_largedist` (lines 218-235). -/
def eigenOrder (s : Vector3 K) : Fin 3 × Fin 3 × Fin 3 :=
  let mm : Fin 3 × Fin 3 := if s.get 0 > s.get 1 then (1, 0) else (0, 1)
  let min := mm.1
  let max := mm.2
  if s.get 2 < s.get min then (2, min, max)
  else if s.get 2 > s.get max then (min, max, 2)
  else (min, 2, max)

/-- The sixteen projected vertices `vertex_proj` of `merge_largedist` (lines
198-213): each corner of the two boxes minus its component along the
normalised difference of the centres. -/
def largedistProjected (sqrt : K → K) (b1 b2 : OBB K) : List (Vector3 K) :=
  let vertex := computeVertices b1 ++ computeVertices b2
  let axis0 := (b1.To.sub b2.To).normalize sqrt
  vertex.map (fun v => v.sub (axis0.smul (v.dot axis0)))

/-- The pair `(s, E)` of `merge_largedist` (lines 215-216): the eigenvalues
and the eigenvector matrix of the covariance matrix of the projected vertices. -/
def largedistEigen (sqrt : K → K) (G : GeometryRoutines K) (b1 b2 : OBB K) :
    Vector3 K × Matrix3 K :=
  G.eigen_old (G.getCovariance (largedistProjected sqrt b1 b2))

/-- The function `merge_largedist(b1, b2)` (lines 196-244).  The vector
`(E.col(0)[i], E.col(1)[i], E.col(2)[i])` is the row `i` of `E`. -/
def merge_largedist (sqrt : K → K) (G : GeometryRoutines K) (b1 b2 : OBB K) : OBB K :=
  let vertex := computeVertices b1 ++ computeVertices b2
  let axis0 := (b1.To.sub b2.To).normalize sqrt
  let sE := largedistEigen sqrt G b1 b2
  let s := sE.1
  let E := sE.2
  let order := eigenOrder s
  let mid := order.2.1
  let max := order.2.2
  let axis := Matrix3.ofCols axis0 (E.row max) (E.row mid)
  let ce := G.getExtentAndCenter vertex axis
  ⟨axis, ce.1, ce.2⟩

/-- One pass of the body of the loop over `j` in `merge_smalldist` (lines
268-272) on the pair `(pmax[j], pmin[j])`. -/
def trackMinMax (dot : K) (pm : K × K) : K × K :=
  if dot > pm.1 then (dot, pm.2)
  else if dot < pm.2 then (pm.1, dot)
  else pm

/-- One pass of the loop over the vertices in `merge_smalldist` (lines
266-273): the state is the pair `(pmax, pmin)`. -/
def minmaxStep (axis : Matrix3 K) (To : Vector3 K) (st : Vector3 K × Vector3 K)
    (v : Vector3 K) : Vector3 K × Vector3 K :=
  let diff := v.sub To
  let r0 := trackMinMax (diff.dot axis.col0) (st.1.x, st.2.x)
  let r1 := trackMinMax (diff.dot axis.col1) (st.1.y, st.2.y)
  let r2 := trackMinMax (diff.dot axis.col2) (st.1.z, st.2.z)
  (⟨r0.1, r1.1, r2.1⟩, ⟨r0.2, r1.2, r2.2⟩)

/-- The midpoint `(b1.To + b2.To) * 0.5` of `merge_smalldist` (line 250). -/
def smalldistMidpoint (b1 b2 : OBB K) : Vector3 K := (b1.To.add b2.To).smul (1 / 2)

/-- The averaged frame of `merge_smalldist` (lines 251-257). -/
def smalldistAxis (sqrt : K → K) (b1 b2 : OBB K) : Matrix3 K :=
  let q0 := Quaternion.ofMatrix sqrt b1.axis
  let q1 := Quaternion.ofMatrix sqrt b2.axis
  let q1 := if q0.dot q1 < 0 then q1.neg else q1
  let q := (q0.add q1).normalize sqrt
  q.toRotationMatrix

/-- The pair `(pmax, pmin)` after the two vertex loops of `merge_smalldist`
(lines 259-286); `real_max` is `std::numeric_limits<S>::max()`. -/
def smalldistMinMax (sqrt : K → K) (real_max : K) (b1 b2 : OBB K) :
    Vector3 K × Vector3 K :=
  let To := smalldistMidpoint b1 b2
  let axis := smalldistAxis sqrt b1 b2
  let pmin : Vector3 K := ⟨real_max, real_max, real_max⟩
  let pmax : Vector3 K := ⟨-real_max, -real_max, -real_max⟩
  let st := (computeVertices b1).foldl (minmaxStep axis To) (pmax, pmin)
  (computeVertices b2).foldl (minmaxStep axis To) st

/-- The function `merge_smalldist(b1, b2)` (lines 247-294). -/
def merge_smalldist (sqrt : K → K) (real_max : K) (b1 b2 : OBB K) : OBB K :=
  let To := smalldistMidpoint b1 b2
  let axis := smalldistAxis sqrt b1 b2
  let pm := smalldistMinMax sqrt real_max b1 b2
  let pmax := pm.1
  let pmin := pm.2
  let To := To.add (axis.col0.smul (1 / 2 * (pmax.x + pmin.x)))
  let To := To.add (axis.col1.smul (1 / 2 * (pmax.y + pmin.y)))
  let To := To.add (axis.col2.smul (1 / 2 * (pmax.z + pmin.z)))
  ⟨axis, To, ⟨1 / 2 * (pmax.x - pmin.x), 1 / 2 * (pmax.y - pmin.y), 1 / 2 * (pmax.z - pmin.z)⟩⟩

namespace OBB

/-- The member `OBB<S>::operator+(other)` (lines 115-126). -/
def add (sqrt : K → K) (real_max : K) (G : GeometryRoutines K) (self other : OBB K) : OBB K :=
  let center_diff := self.To.sub other.To
  let max_extent := max (max self.extent.x self.extent.y) self.extent.z
  let max_extent2 := max (max other.extent.x other.extent.y) other.extent.z
  if center_diff.norm sqrt > 2 * (max_extent + max_extent2) then
    merge_largedist sqrt G self other
  else
    merge_smalldist sqrt real_max self other

/-- The member `OBB<S>::operator+=(const OBB<S>& other)` (lines 107-112): the
value of `*this` after the call. -/
def addAssign (sqrt : K → K) (real_max : K) (G : GeometryRoutines K) (self other : OBB K) :
    OBB K :=
  add sqrt real_max G self other

/-- The member `OBB<S>::operator+=(const Vector3<S>& p)` (lines 98-104): the
value of `*this` after the call. -/
def addAssignPoint (sqrt : K → K) (real_max : K) (G : GeometryRoutines K) (self : OBB K)
    (p : Vector3 K) : OBB K :=
  let bvp : OBB K := ⟨self.axis, p, Vector3.zero⟩
  addAssign sqrt real_max G self bvp

end OBB

/-! ## Orthonormal frames -/

namespace Matrix3

/-- The columns of `M` have unit length and are mutually orthogonal: the
invariant of the field `axis` of a box. -/
def IsOrthonormal (M : Matrix3 K) : Prop :=
  M.col0.dot M.col0 = 1 ∧ M.col1.dot M.col1 = 1 ∧ M.col2.dot M.col2 = 1 ∧
  M.col0.dot M.col1 = 0 ∧ M.col0.dot M.col2 = 0 ∧ M.col1.dot M.col2 = 0

instance (M : Matrix3 K) : Decidable M.IsOrthonormal := by
  unfold IsOrthonormal
  infer_instance

/-- The determinant of `M`. -/
def det (M : Matrix3 K) : K :=
  M.m00 * (M.m11 * M.m22 - M.m12 * M.m21) - M.m01 * (M.m10 * M.m22 - M.m12 * M.m20) +
    M.m02 * (M.m10 * M.m21 - M.m11 * M.m20)

/-- The same coefficients as a matrix of Mathlib. -/
def toMatrix (M : Matrix3 K) : Matrix (Fin 3) (Fin 3) K :=
  !![M.m00, M.m01, M.m02; M.m10, M.m11, M.m12; M.m20, M.m21, M.m22]

end Matrix3

/-- The opposite vector `-v`. -/
def Vector3.neg (v : Vector3 K) : Vector3 K := ⟨-v.x, -v.y, -v.z⟩

/-- The relative rotation `R = axis.transpose() * other.axis` of `overlap`. -/
def relRotation (A B : OBB K) : Matrix3 K := A.axis.transpose.mul B.axis

/-- The relative offset `T` of `overlap`: the coordinates of `other.To - To`
in the frame of the first box. -/
def relOffset (A B : OBB K) : Vector3 K :=
  ⟨A.axis.col0.dot (B.To.sub A.To), A.axis.col1.dot (B.To.sub A.To),
   A.axis.col2.dot (B.To.sub A.To)⟩

/-! ## Sample boxes -/

/-- A box with unit half-extents centred at the origin; its frame is the
rotation of unit quaternion `(9, -1, 3, -3) / 10`. -/
def sampleA : OBB K :=
  ⟨⟨16 / 25, 12 / 25, 3 / 5, -3 / 5, 4 / 5, 0, -12 / 25, -9 / 25, 4 / 5⟩, ⟨0, 0, 0⟩, ⟨1, 1, 1⟩⟩

/-- A small box centred at the origin; its frame is the rotation of unit
quaternion `(9, 1, -3, 3) / 10`, the inverse of the frame of `sampleA`. -/
def sampleB : OBB K :=
  ⟨⟨16 / 25, -3 / 5, -12 / 25, 12 / 25, 4 / 5, -9 / 25, 3 / 5, 0, 4 / 5⟩, ⟨0, 0, 0⟩,
   ⟨1 / 10, 1 / 10, 1 / 10⟩⟩

/-- The largest finite double, the value of `std::numeric_limits<double>::max()`. -/
def maxDouble : K := 2 ^ 1024 - 2 ^ 971

/-- A copy of the unit box of `sampleA` centred at `(8, 0, 0)`. -/
def sampleFar : OBB K :=
  ⟨⟨16 / 25, 12 / 25, 3 / 5, -3 / 5, 4 / 5, 0, -12 / 25, -9 / 25, 4 / 5⟩, ⟨8, 0, 0⟩, ⟨1, 1, 1⟩⟩

/-- A copy of the unit box of `sampleA` centred at `(4, 0, 0)`. -/
def sampleEdge : OBB K :=
  ⟨⟨16 / 25, 12 / 25, 3 / 5, -3 / 5, 4 / 5, 0, -12 / 25, -9 / 25, 4 / 5⟩, ⟨4, 0, 0⟩, ⟨1, 1, 1⟩⟩

/-- The least of the projections on the direction `d` of the points of a
list, each taken relative to `To` (zero for the empty list). -/
def projMin (d To : Vector3 K) : List (Vector3 K) → K
  | [] => 0
  | v :: vs => vs.foldl (fun acc w => min acc ((w.sub To).dot d)) ((v.sub To).dot d)

/-- The greatest of the projections on the direction `d` of the points of a
list, each taken relative to `To` (zero for the empty list). -/
def projMax (d To : Vector3 K) : List (Vector3 K) → K
  | [] => 0
  | v :: vs => vs.foldl (fun acc w => max acc ((w.sub To).dot d)) ((v.sub To).dot d)

/-! ## The distance query -/

/-- What a call of `OBB<S>::distance(other, P, Q)` leaves behind: the returned
value, the vectors behind the two out-pointers after the call (`none` for a
null pointer) and the text written to `std::cerr`. -/
structure DistanceCall (K : Type) where
  value : K
  P : Option (Vector3 K)
  Q : Option (Vector3 K)
  cerr : List String

/-- The member `OBB<S>::distance(other, P, Q)` (lines 165-173): the three
arguments are unused, a diagnostic is written and `0.0` is returned. -/
def OBB.distance (_self _other : OBB K) (P Q : Option (Vector3 K)) : DistanceCall K :=
  ⟨0, P, Q, ["OBB distance not implemented!\n"]⟩

/-! ## The fifteen candidate axes, by index -/

/-- The coefficient `M(i, j)`. -/
def Matrix3.coeff (M : Matrix3 K) (i j : Fin 3) : K :=
  (M.row i).get j

/-- The coefficient `(i, j)` of the matrix `Bf` of `obbDisjoint`: the absolute
value of `B(i, j)` plus `1e-6`. -/
def biased (B : Matrix3 K) (i j : Fin 3) : K := |B.coeff i j| + 1 / 1000000

/-- The inequality `|L·T| > r_a(L) + r_b(L)` for `L` the axis `i` of the first
box, in the frame of the first box: `L·T = T[i]`, `r_a = a[i]` and `r_b` is the
sum of the `b[j]` weighted by the biased `|B(i, j)|`. -/
def separatesOnAxisA (B : Matrix3 K) (T a b : Vector3 K) (i : Fin 3) : Prop :=
  |T.get i| > a.get i + (biased B i 0 * b.get 0 + biased B i 1 * b.get 1 + biased B i 2 * b.get 2)

/-- The inequality `|L·T| > r_a(L) + r_b(L)` for `L` the axis `j` of the second
box: `L·T` is the product of column `j` of `B` with `T`, `r_b = b[j]` and `r_a`
is the sum of the `a[i]` weighted by the biased `|B(i, j)|`. -/
def separatesOnAxisB (B : Matrix3 K) (T a b : Vector3 K) (j : Fin 3) : Prop :=
  |B.coeff 0 j * T.get 0 + B.coeff 1 j * T.get 1 + B.coeff 2 j * T.get 2| >
    (biased B 0 j * a.get 0 + biased B 1 j * a.get 1 + biased B 2 j * a.get 2) + b.get j

/-- The inequality `|L·T| > r_a(L) + r_b(L)` for `L` the cross product of axis
`i` of the first box and axis `j` of the second box; the indices `i + 1`,
`i + 2`, `j + 1`, `j + 2` are taken modulo three. -/
def separatesOnCross (B : Matrix3 K) (T a b : Vector3 K) (i j : Fin 3) : Prop :=
  |T.get (i + 2) * B.coeff (i + 1) j - T.get (i + 1) * B.coeff (i + 2) j| >
    (a.get (i + 1) * biased B (i + 2) j + a.get (i + 2) * biased B (i + 1) j) +
      (b.get (j + 1) * biased B i (j + 2) + b.get (j + 2) * biased B i (j + 1))

instance (B : Matrix3 K) (T a b : Vector3 K) (i : Fin 3) :
    Decidable (separatesOnAxisA B T a b i) := by
  unfold separatesOnAxisA
  infer_instance

instance (B : Matrix3 K) (T a b : Vector3 K) (j : Fin 3) :
    Decidable (separatesOnAxisB B T a b j) := by
  unfold separatesOnAxisB
  infer_instance

instance (B : Matrix3 K) (T a b : Vector3 K) (i j : Fin 3) :
    Decidable (separatesOnCross B T a b i j) := by
  unfold separatesOnCross
  infer_instance

/-- The outcomes of the fifteen comparisons, one per candidate axis: the three
axes of the first box, the three axes of the second box, the nine cross
products. -/
def axisTests (B : Matrix3 K) (T a b : Vector3 K) : List Bool :=
  (List.finRange 3).map (fun i => decide (separatesOnAxisA B T a b i)) ++
  (List.finRange 3).map (fun j => decide (separatesOnAxisB B T a b j)) ++
  (List.finRange 3).flatMap (fun i =>
    (List.finRange 3).map (fun j => decide (separatesOnCross B T a b i j)))

/-- Two unit cubes with the same frame whose centres are `2 + 1e-7` apart: they
share no point, and the gap `1e-7` is below the bias of `obbDisjoint`. -/
def cubeNear : OBB K := ⟨Matrix3.identity, ⟨2 + 1 / 10000000, 0, 0⟩, ⟨1, 1, 1⟩⟩

/-- The unit cube centred at the origin with the identity frame. -/
def cubeUnit : OBB K := ⟨Matrix3.identity, ⟨0, 0, 0⟩, ⟨1, 1, 1⟩⟩

/-- The unit cube with the identity frame centred at `(5, 0, 0)`. -/
def cubeFar : OBB K := ⟨Matrix3.identity, ⟨5, 0, 0⟩, ⟨1, 1, 1⟩⟩

/-! ## Contacts -/

/-- The class `AABB<S>` of the two fields `o1_bv` and `o2_bv` of a contact:
the two corners `min_` and `max_`. -/
structure AABB (K : Type) where
  min_ : Vector3 K
  max_ : Vector3 K

/-- The struct `Contact<S>` of `contact.h` (lines 46-98); the two geometry
pointers are kept as addresses and `b1`, `b2` are the `intptr_t` primitive
identifiers (`-1` is `NONE`). -/
structure Contact (K : Type) where
  o1 : Nat
  o2 : Nat
  b1 : Int
  b2 : Int
  normal : Vector3 K
  pos : Vector3 K
  penetration_depth : K
  o1_bv : AABB K
  o2_bv : AABB K

/-- The lexicographic comparison of two contacts on a list of scalar fields. -/
def lexScalars : List (Contact K → K) → Contact K → Contact K → Bool
  | [], _, _ => false
  | f :: fs, c, d => if f c = f d then lexScalars fs c d else decide (f c < f d)

/-- Modelled from the spec: `Contact<S>::operator<` is declared in `contact.h`
(line 97) and its body is in `contact-inl.h`, which is not among the sources.
The spec has the contacts compared by `(b1, b2)` and then by scalar fields: the
comparison is lexicographic on `b1`, then `b2`, then the scalar fields
`scalars` in their order (the empty list gives the order on `(b1, b2)` alone). -/
def Contact.lt (scalars : List (Contact K → K)) (c d : Contact K) : Bool :=
  if c.b1 = d.b1 then
    if c.b2 = d.b2 then lexScalars scalars c d else decide (c.b2 < d.b2)
  else decide (c.b1 < d.b1)

/-- A strict weak order, given by a comparison `r`: irreflexive, asymmetric,
transitive, and with a transitive incomparability. -/
def IsStrictWeakOrder {α : Type} (r : α → α → Bool) : Prop :=
  (∀ a, r a a = false) ∧
  (∀ a b, r a b = true → r b a = false) ∧
  (∀ a b c, r a b = true → r b c = true → r a c = true) ∧
  (∀ a b c, (r a b = false ∧ r b a = false) → (r b c = false ∧ r c b = false) →
    (r a c = false ∧ r c a = false))

/-- A comparison `r` that is irreflexive and transitive and whose
incomparability is the transitive relation `E`. -/
structure StrictWeakWith {α : Type} (r : α → α → Bool) (E : α → α → Prop) : Prop where
  irrefl : ∀ a, r a a = false
  trans : ∀ a b c, r a b = true → r b c = true → r a c = true
  incomp : ∀ a b, (r a b = false ∧ r b a = false) ↔ E a b
  etrans : ∀ a b c, E a b → E b c → E a c

/-! ## The box-pair translational sweep -/

/-- Modelled from the spec: the type `TranslationalDisplacement<S>` is not
among the sources.  It holds a unit axis, given in the frame of the first
shape, and a scalar displacement; the displacement at time `t` in `[0, 1]` is
`t * scalar_displacement * unit_axis_in_shape1`. -/
structure TranslationalDisplacement (K : Type) where
  unit_axis_in_shape1 : Vector3 K
  scalar_displacement : K

/-- Modelled from the spec: the type `Interval<S>` is not among the sources.
It holds the two ends of a range of the sweep parameter; the range is empty
when `upper < lower`. -/
structure Interval (K : Type) where
  lower : K
  upper : K

/-- The time `t` lies in the interval. -/
def Interval.Contains (I : Interval K) (t : K) : Prop := I.lower ≤ t ∧ t ≤ I.upper

/-- The times of the interval `I` at which a candidate axis does not separate
the two boxes: the centre offset projects to `p + t * v` on the axis and the
summed radius is `r`, so the times are those with `|p + t * v| ≤ r`. -/
def clipWindow (I : Interval K) (p v r : K) : Interval K :=
  if v > 0 then ⟨max I.lower ((-r - p) / v), min I.upper ((r - p) / v)⟩
  else if v < 0 then ⟨max I.lower ((r - p) / v), min I.upper ((-r - p) / v)⟩
  else if |p| > r then ⟨1, 0⟩
  else I

/-- The fifteen candidate axes of `obbDisjoint`, in its order, for an offset
that moves as `T + t * D`: for each axis the projection of `T`, the projection
of `D` and the summed radius, all three with the expressions of `obbDisjoint`. -/
def axisWindows (B : Matrix3 K) (T D a b : Vector3 K) : List (K × K × K) :=
  let reps : K := 1 / 1000000
  let Bf := B.cwiseAbs.addScalar reps
  [
    -- A0
    (T.x, D.x, a.x + Bf.row0.dot b),
    -- B0
    (B.col0.dot T, B.col0.dot D, b.x + Bf.col0.dot a),
    -- A1
    (T.y, D.y, a.y + Bf.row1.dot b),
    -- A2
    (T.z, D.z, a.z + Bf.row2.dot b),
    -- B1
    (B.col1.dot T, B.col1.dot D, b.y + Bf.col1.dot a),
    -- B2
    (B.col2.dot T, B.col2.dot D, b.z + Bf.col2.dot a),
    -- A0 x B0
    (T.z * B.m10 - T.y * B.m20, D.z * B.m10 - D.y * B.m20,
      a.y * Bf.m20 + a.z * Bf.m10 + b.y * Bf.m02 + b.z * Bf.m01),
    -- A0 x B1
    (T.z * B.m11 - T.y * B.m21, D.z * B.m11 - D.y * B.m21,
      a.y * Bf.m21 + a.z * Bf.m11 + b.x * Bf.m02 + b.z * Bf.m00),
    -- A0 x B2
    (T.z * B.m12 - T.y * B.m22, D.z * B.m12 - D.y * B.m22,
      a.y * Bf.m22 + a.z * Bf.m12 + b.x * Bf.m01 + b.y * Bf.m00),
    -- A1 x B0
    (T.x * B.m20 - T.z * B.m00, D.x * B.m20 - D.z * B.m00,
      a.x * Bf.m20 + a.z * Bf.m00 + b.y * Bf.m12 + b.z * Bf.m11),
    -- A1 x B1
    (T.x * B.m21 - T.z * B.m01, D.x * B.m21 - D.z * B.m01,
      a.x * Bf.m21 + a.z * Bf.m01 + b.x * Bf.m12 + b.z * Bf.m10),
    -- A1 x B2
    (T.x * B.m22 - T.z * B.m02, D.x * B.m22 - D.z * B.m02,
      a.x * Bf.m22 + a.z * Bf.m02 + b.x * Bf.m11 + b.y * Bf.m10),
    -- A2 x B0
    (T.y * B.m00 - T.x * B.m10, D.y * B.m00 - D.x * B.m10,
      a.x * Bf.m10 + a.y * Bf.m00 + b.y * Bf.m22 + b.z * Bf.m21),
    -- A2 x B1
    (T.y * B.m01 - T.x * B.m11, D.y * B.m01 - D.x * B.m11,
      a.x * Bf.m11 + a.y * Bf.m01 + b.x * Bf.m22 + b.z * Bf.m20),
    -- A2 x B2
    (T.y * B.m02 - T.x * B.m12, D.y * B.m02 - D.x * B.m12,
      a.x * Bf.m12 + a.y * Bf.m02 + b.x * Bf.m21 + b.y * Bf.m20) ]

/-- The times of `[0, 1]` at which no candidate axis separates the boxes, for
an offset that moves as `T + t * D`. -/
def sweepInterval (B : Matrix3 K) (T D a b : Vector3 K) : Interval K :=
  (axisWindows B T D a b).foldl (fun I w => clipWindow I w.1 w.2.1 w.2.2) ⟨0, 1⟩

/-- Modelled from the spec: `BoxPairTranslationalCCD<S>::IsDisjoint(obb1,
displacement, obb2, interval, time_epsilon)` is not among the sources.  The
second box moves relative to the frame of the first one along the unit axis
for the scalar displacement over `t` in `[0, 1]`; the call decides whether the
static separating-axis test is ever `false` during the sweep.  The answer is
`true` when it never is, and the interval is then the empty one; otherwise
the answer is `false` and the interval is the range of `t` where the boxes
overlap, widened by `time_epsilon` and kept inside `[0, 1]`. -/
def IsDisjoint (obb1 : OBB K) (displacement : TranslationalDisplacement K) (obb2 : OBB K)
    (time_epsilon : K) : Bool × Interval K :=
  let R := relRotation obb1 obb2
  let T := relOffset obb1 obb2
  let D := displacement.unit_axis_in_shape1.smul displacement.scalar_displacement
  let I := sweepInterval R T D obb1.extent obb2.extent
  if I.upper < I.lower then (true, I)
  else (false, ⟨max 0 (I.lower - time_epsilon), min 1 (I.upper + time_epsilon)⟩)

/-! ## The layered heightmap -/

/-- Modelled from the spec: `heightmap::Pixel` is not among the sources.  A
pixel is a grid coordinate `(x, y)` of unsigned integers within one layer (the
test builds it from two `uint16_t`). -/
structure Pixel where
  x : Nat
  y : Nat
deriving DecidableEq, Repr

/-- The four finer cells that the coarse cell `p` aggregates: the 2x2 block
with corner `(2 x, 2 y)` of the layer below. -/
def Pixel.children (p : Pixel) : List Pixel :=
  [⟨2 * p.x, 2 * p.y⟩, ⟨2 * p.x + 1, 2 * p.y⟩, ⟨2 * p.x, 2 * p.y + 1⟩,
   ⟨2 * p.x + 1, 2 * p.y + 1⟩]

/-- The coarse cell of the layer above that aggregates the cell `p`. -/
def Pixel.parent (p : Pixel) : Pixel := ⟨p.x / 2, p.y / 2⟩

/-- The number of cells along one direction in layer `l`, for `n` cells in
the bottom layer: each coarser layer covers the layer below by blocks of two. -/
def shapeAt (n : Nat) : Nat → Nat
  | 0 => n
  | l + 1 => (shapeAt n l + 1) / 2

/-- Modelled from the spec: `heightmap::LayeredHeightMap<S>` is not among the
sources.  It is a stack of `n_layers` grid layers of decreasing resolution,
layer `0` being the bottom (finest) one with the cell pitch `pitch_x`,
`pitch_y` and with `bottom_shape_x` by `bottom_shape_y` cells, which cover
`[-half_range_x, half_range_x] x [-half_range_y, half_range_y]`; each cell of
a coarser layer aggregates a 2x2 block of the layer below.  The stored height
of the cell `(x, y)` of layer `l` is `height_mm l x y`, in millimetres. -/
structure LayeredHeightMap (K : Type) where
  pitch_x : K
  pitch_y : K
  n_layers : Nat
  bottom_shape_x : Nat
  bottom_shape_y : Nat
  height_mm : Nat → Nat → Nat → Nat

namespace LayeredHeightMap

/-- The number of cells of layer `l` along `x`. -/
def full_shape_x (hm : LayeredHeightMap K) (l : Nat) : Nat := shapeAt hm.bottom_shape_x l

/-- The number of cells of layer `l` along `y`. -/
def full_shape_y (hm : LayeredHeightMap K) (l : Nat) : Nat := shapeAt hm.bottom_shape_y l

/-- Half of the range that the bottom layer covers along `x`. -/
def half_range_x (hm : LayeredHeightMap K) : K := hm.pitch_x * hm.bottom_shape_x / 2

/-- Half of the range that the bottom layer covers along `y`. -/
def half_range_y (hm : LayeredHeightMap K) : K := hm.pitch_y * hm.bottom_shape_y / 2

/-- The pixel `p` is inside the index range of layer `l`. -/
def Valid (hm : LayeredHeightMap K) (l : Nat) (p : Pixel) : Prop :=
  p.x < hm.full_shape_x l ∧ p.y < hm.full_shape_y l

instance (hm : LayeredHeightMap K) (l : Nat) (p : Pixel) : Decidable (hm.Valid l p) := by
  unfold Valid
  infer_instance

/-- The pixels of layer `l`, row after row. -/
def pixels (hm : LayeredHeightMap K) (l : Nat) : List Pixel :=
  (List.range (hm.full_shape_y l)).flatMap (fun y =>
    (List.range (hm.full_shape_x l)).map (fun x => ⟨x, y⟩))

/-- The invariant of the data model: the stored height of every cell of every
coarser layer is at least the stored height of each finer cell it aggregates. -/
def AggregationInvariant (hm : LayeredHeightMap K) : Prop :=
  ∀ (l : Nat) (p c : Pixel), l + 1 < hm.n_layers → hm.Valid (l + 1) p → c ∈ p.children →
    hm.Valid l c → hm.height_mm l c.x c.y ≤ hm.height_mm (l + 1) p.x p.y

end LayeredHeightMap

/-- Modelled from the spec: the shape `Box<S>` is not among the sources; it
is given by its three side lengths. -/
structure Box (K : Type) where
  side : Vector3 K

/-- Modelled from the spec: the rigid transform `Transform3<S>` is not among
the sources; it is given by its linear part and its translation. -/
structure Transform3 (K : Type) where
  linear : Matrix3 K
  translation : Vector3 K

/-- The composition `tf * other` of two transforms. -/
def Transform3.mul (tf other : Transform3 K) : Transform3 K :=
  ⟨tf.linear.mul other.linear, (tf.linear.mulVec other.translation).add tf.translation⟩

/-- The three sides of the box of the cell `p` of layer `l`: the pitch of the
layer along `x` and `y` (the pitch doubles with each layer) and the stored
height of the cell, in metres. -/
def LayeredHeightMap.cellSide (hm : LayeredHeightMap K) (l : Nat) (p : Pixel) : Vector3 K :=
  ⟨hm.pitch_x * 2 ^ l, hm.pitch_y * 2 ^ l, (hm.height_mm l p.x p.y : K) / 1000⟩

/-- The centre of the box of the cell `p` of layer `l`: the centre of the
footprint of the cell and the middle of its height range. -/
def LayeredHeightMap.cellCentre (hm : LayeredHeightMap K) (l : Nat) (p : Pixel) : Vector3 K :=
  ⟨(p.x + 1 / 2) * (hm.pitch_x * 2 ^ l) - hm.half_range_x,
   (p.y + 1 / 2) * (hm.pitch_y * 2 ^ l) - hm.half_range_y,
   (hm.height_mm l p.x p.y : K) / 1000 / 2⟩

/-- Modelled from the spec: `pixelToBox(pixel, box, transform)` of a layer is
not among the sources.  It fails for a pixel outside the index range of the
layer; otherwise the box has the footprint of the cell (the pitch of the
layer in `x` and `y`) and the stored height of the cell, and the transform
puts its centre at the centre of the cell and of the height range, without
any rotation. -/
def LayeredHeightMap.pixelToBox (hm : LayeredHeightMap K) (l : Nat) (p : Pixel) :
    Option (Box K × Transform3 K) :=
  if hm.Valid l p then some (⟨hm.cellSide l p⟩, ⟨Matrix3.identity, hm.cellCentre l p⟩)
  else none

/-- Modelled from the spec: `computeBV(box, tf, obb)` is not among the
sources.  The bounding box of a box shape under a placement has the frame
and the translation of the placement and half of the sides as half-extents. -/
def computeBV (box : Box K) (tf : Transform3 K) : OBB K :=
  ⟨tf.linear, tf.translation, box.side.smul (1 / 2)⟩

/-- The oriented box of the cell `p` of layer `l` under the placement `tf`:
`pixelToBox`, then the placement, then `computeBV`, as in lines 86-93 of the
test. -/
def LayeredHeightMap.cellOBB (hm : LayeredHeightMap K) (tf : Transform3 K) (l : Nat)
    (p : Pixel) : Option (OBB K) :=
  match hm.pixelToBox l p with
  | some (box, box_tf) => some (computeBV box (tf.mul box_tf))
  | none => none

/-- Modelled from the spec: `heightmap::encodePixel` is not among the
sources.  The code of a pixel is one 32-bit `int` that holds its two
coordinates, which are 16-bit in the test: `x` in the upper half and `y` in
the lower half, read as a signed number. -/
def encodePixel (p : Pixel) : Int :=
  let u : Nat := p.x % 65536 * 65536 + p.y % 65536
  if u < 2147483648 then (u : Int) else (u : Int) - 4294967296

/-- Modelled from the spec: `heightmap::decodePixel` is not among the sources;
it splits the 32 bits of a code into the two 16-bit coordinates again. -/
def decodePixel (id : Int) : Pixel :=
  let u : Nat := (id % 4294967296).toNat
  ⟨u / 65536, u % 65536⟩

/-! ## The heightmap-pair sweep -/

/-- Modelled from the spec: `ContinuousCollisionRequest<S>` is not among the
sources; it carries the cap on the number of contacts. -/
structure ContinuousCollisionRequest where
  num_max_contacts : Nat

/-- The contact that the heightmap pair records for a pair of bottom cells:
the two codes of the pixels as `b1` and `b2`, every other field zero. -/
def cellContact (p1 p2 : Pixel) : Contact K :=
  ⟨0, 0, encodePixel p1, encodePixel p2, Vector3.zero, Vector3.zero, 0,
    ⟨Vector3.zero, Vector3.zero⟩, ⟨Vector3.zero, Vector3.zero⟩⟩

/-- The input of `RunHeightMapPair` apart from the request and the result:
the two heightmaps, their placements, the displacement, and the tolerance
that the solver passes to the box-pair sweep. -/
structure HeightMapPair (K : Type) where
  hm1 : LayeredHeightMap K
  tf1 : Transform3 K
  displacement : TranslationalDisplacement K
  hm2 : LayeredHeightMap K
  tf2 : Transform3 K
  time_epsilon : K

/-- The test of one pair of cells, cell `p1` of layer `l1` of the first map
against cell `p2` of layer `l2` of the second map: `true` when both boxes
exist and the box-pair sweep does not find them disjoint. -/
def HeightMapPair.cellsCollide (q : HeightMapPair K) (l1 l2 : Nat) (p1 p2 : Pixel) : Bool :=
  match q.hm1.cellOBB q.tf1 l1 p1, q.hm2.cellOBB q.tf2 l2 p2 with
  | some obb1, some obb2 => !(IsDisjoint obb1 q.displacement obb2 q.time_epsilon).1
  | _, _ => false

/-- Modelled from the spec: the recursion of `RunHeightMapPair`, which is not
among the sources.  The pair of cells is tested with the box-pair sweep; a
disjoint pair is pruned with everything below it; otherwise the recursion
goes into the children of whichever cell has children, and at the bottom
layer of both maps the contact of the pair is recorded. -/
def HeightMapPair.contactsBelow (q : HeightMapPair K) :
    Nat → Nat → Pixel → Pixel → List (Contact K)
  | 0, 0, p1, p2 => if q.cellsCollide 0 0 p1 p2 then [cellContact p1 p2] else []
  | l1 + 1, 0, p1, p2 =>
    if q.cellsCollide (l1 + 1) 0 p1 p2 then
      p1.children.flatMap (fun c1 => q.contactsBelow l1 0 c1 p2)
    else []
  | 0, l2 + 1, p1, p2 =>
    if q.cellsCollide 0 (l2 + 1) p1 p2 then
      p2.children.flatMap (fun c2 => q.contactsBelow 0 l2 p1 c2)
    else []
  | l1 + 1, l2 + 1, p1, p2 =>
    if q.cellsCollide (l1 + 1) (l2 + 1) p1 p2 then
      p1.children.flatMap (fun c1 =>
        p2.children.flatMap (fun c2 => q.contactsBelow l1 l2 c1 c2))
    else []
termination_by l1 l2 => l1 + l2

/-- Modelled from the spec: `TranslationalDisplacementHeightMapSolver<S>::
RunHeightMapPair`, which is not among the sources.  The layers are compared
top-down from every pair of cells of the two top layers; the contacts are
appended to the result in the order of the traversal, and the enumeration
stops once the result holds `num_max_contacts` contacts. -/
def RunHeightMapPair (q : HeightMapPair K) (request : ContinuousCollisionRequest)
    (result : List (Contact K)) : List (Contact K) :=
  let top1 := q.hm1.n_layers - 1
  let top2 := q.hm2.n_layers - 1
  let found := (q.hm1.pixels top1).flatMap (fun p1 =>
    (q.hm2.pixels top2).flatMap (fun p2 => q.contactsBelow top1 top2 p1 p2))
  result ++ found.take (request.num_max_contacts - result.length)

/-! ## Height updates -/

namespace LayeredHeightMap

/-- The map with the height `h` stored in the cell `p` of layer `l`. -/
def setHeight (hm : LayeredHeightMap K) (l : Nat) (p : Pixel) (h : Nat) : LayeredHeightMap K :=
  { hm with
    height_mm := fun l2 x y => if l2 = l ∧ x = p.x ∧ y = p.y then h else hm.height_mm l2 x y }

/-- The maximum of the stored heights of the cells of layer `l` that the cell
`p` of layer `l + 1` aggregates. -/
def aggregate (hm : LayeredHeightMap K) (l : Nat) (p : Pixel) : Nat :=
  ((p.children.filter (fun c => decide (hm.Valid l c))).map
    (fun c => hm.height_mm l c.x c.y)).foldl max 0

/-- Modelled from the spec: the upward propagation of a changed height, which
is not among the sources.  After the cell `p` of layer `l` has changed, the
cell above it in each of the `n` coarser layers, from the layer `l + 1` up,
takes the maximum of the cells it aggregates. -/
def propagate : Nat → LayeredHeightMap K → Nat → Pixel → LayeredHeightMap K
  | 0, hm, _, _ => hm
  | n + 1, hm, l, p =>
    propagate n (hm.setHeight (l + 1) p.parent (hm.aggregate l p.parent)) (l + 1) p.parent

/-- The height `h` stored in the cell `p` of the bottom layer, with the change
propagated through every coarser layer. -/
def updateCell (hm : LayeredHeightMap K) (p : Pixel) (h : Nat) : LayeredHeightMap K :=
  propagate (hm.n_layers - 1) (hm.setHeight 0 p h) 0 p

/-- Modelled from the spec: `updateHeightsByPointCloud3D`, which is not among
the sources.  Each point that falls in a cell of the bottom layer raises the
stored height of that cell to the maximum of the current height and the
height of the point, and the change is propagated upward.  The cell and the
height in millimetres that belong to a point come from `cellOf`, the
ingestion of the point cloud, which the spec leaves to the data source. -/
def updateHeightsByPointCloud3D (cellOf : Vector3 K → Option (Pixel × Nat))
    (hm : LayeredHeightMap K) (points : List (Vector3 K)) : LayeredHeightMap K :=
  points.foldl (fun hm pt =>
    match cellOf pt with
    | some (p, h) => if hm.Valid 0 p then hm.updateCell p (max (hm.height_mm 0 p.x p.y) h) else hm
    | none => hm) hm

/-- The centre of the footprint of the bottom cell `p`. -/
def cellBottomCenter (hm : LayeredHeightMap K) (p : Pixel) : K × K :=
  ((p.x + 1 / 2) * hm.pitch_x - hm.half_range_x, (p.y + 1 / 2) * hm.pitch_y - hm.half_range_y)

/-- The visits of `updateHeightsByBottomLayerUpdateFunctor` to the cells of
the list: the visitor gets the pixel, the centre of its footprint and the
current height, and returns the stop flag and the new height; the new height
is stored and propagated, and a raised flag ends the visits. -/
def visitCells (visitor : Pixel → K × K → Nat → Bool × Nat) :
    List Pixel → LayeredHeightMap K → LayeredHeightMap K
  | [], hm => hm
  | p :: ps, hm =>
    let r := visitor p (hm.cellBottomCenter p) (hm.height_mm 0 p.x p.y)
    let hm2 := hm.updateCell p r.2
    if r.1 then hm2 else visitCells visitor ps hm2

/-- Modelled from the spec: `updateHeightsByBottomLayerUpdateFunctor`, which
is not among the sources: the visitor is called once for each cell of the
bottom layer, until it raises the stop flag. -/
def updateHeightsByBottomLayerUpdateFunctor (hm : LayeredHeightMap K)
    (visitor : Pixel → K × K → Nat → Bool × Nat) : LayeredHeightMap K :=
  visitCells visitor (hm.pixels 0) hm

end LayeredHeightMap

/-- One height update of a layered heightmap: from a point cloud or from a
visitor of the bottom layer. -/
inductive HeightUpdate (K : Type) where
  | pointCloud (cellOf : Vector3 K → Option (Pixel × Nat)) (points : List (Vector3 K))
  | functor (visitor : Pixel → K × K → Nat → Bool × Nat)

/-- The heightmap after one update. -/
def HeightUpdate.apply (hm : LayeredHeightMap K) : HeightUpdate K → LayeredHeightMap K
  | .pointCloud cellOf points => hm.updateHeightsByPointCloud3D cellOf points
  | .functor visitor => hm.updateHeightsByBottomLayerUpdateFunctor visitor

/-- The heightmap after a sequence of updates. -/
def applyUpdates (hm : LayeredHeightMap K) (updates : List (HeightUpdate K)) :
    LayeredHeightMap K :=
  updates.foldl HeightUpdate.apply hm

/-- A heightmap with the given pitch and shape whose stored heights are all
zero. -/
def flatHeightMap (pitch : K) (n_layers shape_x shape_y : Nat) : LayeredHeightMap K :=
  ⟨pitch, pitch, n_layers, shape_x, shape_y, fun _ _ _ => 0⟩

/-- The cell of the layer `l` levels up that aggregates, through the layers
between, the cell `q`. -/
def Pixel.ancestor (q : Pixel) (l : Nat) : Pixel := ⟨q.x / 2 ^ l, q.y / 2 ^ l⟩

/-- The box with centre `c` and half-extents `e` lies inside the box with
centre `c0` and half-extents `e0`, both given in the same frame. -/
def BoxInside (c e c0 e0 : Vector3 K) : Prop :=
  |c.x - c0.x| + e.x ≤ e0.x ∧ |c.y - c0.y| + e.y ≤ e0.y ∧ |c.z - c0.z| + e.z ≤ e0.z

/-- The oriented box that `cellOBB` gives for a pixel inside the layer. -/
def LayeredHeightMap.cellBox (hm : LayeredHeightMap K) (tf : Transform3 K) (l : Nat)
    (p : Pixel) : OBB K :=
  ⟨tf.linear, (tf.linear.mulVec (hm.cellCentre l p)).add tf.translation,
    (hm.cellSide l p).smul (1 / 2)⟩

/-- The assumptions on the input of `RunHeightMapPair`: both heightmaps
satisfy the aggregation invariant and have non-negative pitches, and both
placements are rigid. -/
def HeightMapPair.WellFormed (q : HeightMapPair K) : Prop :=
  q.hm1.AggregationInvariant ∧ q.hm2.AggregationInvariant ∧
  0 ≤ q.hm1.pitch_x ∧ 0 ≤ q.hm1.pitch_y ∧ 0 ≤ q.hm2.pitch_x ∧ 0 ≤ q.hm2.pitch_y ∧
  q.tf1.linear.IsOrthonormal ∧ q.tf2.linear.IsOrthonormal

/-- The brute-force comparison of lines 75-103 of the test: every pair of
cells of the two bottom layers is tested directly, and the pair of the codes
of the two pixels is kept when both boxes exist and the box-pair sweep with
the tolerance `1e-4` does not find the two boxes disjoint. -/
def naiveContactSet (q : HeightMapPair K) : List (Int × Int) :=
  (q.hm1.pixels 0).flatMap (fun hm1_pixel =>
    (q.hm2.pixels 0).flatMap (fun hm2_pixel =>
      match q.hm1.cellOBB q.tf1 0 hm1_pixel, q.hm2.cellOBB q.tf2 0 hm2_pixel with
      | some obb1, some obb2 =>
        if !(IsDisjoint obb1 q.displacement obb2 (1 / 10000)).1 then
          [(encodePixel hm1_pixel, encodePixel hm2_pixel)]
        else []
      | _, _ => []))

/-- A heightmap of two layers with 2x2 cells of pitch one in the bottom
layer, whose heights rise along the diagonal. -/
def sampleHeightMap : LayeredHeightMap K :=
  ⟨1, 1, 2, 2, 2, fun l x y => if l = 0 then 500 * (x + y) else 1000⟩

/-- The sample heightmap against itself, the second copy moved by one cell
along `x`, for a displacement of half a cell along `x`. -/
def sampleHeightMapPair : HeightMapPair K :=
  ⟨sampleHeightMap, ⟨Matrix3.identity, Vector3.zero⟩, ⟨⟨1, 0, 0⟩, 1 / 2⟩,
   sampleHeightMap, ⟨Matrix3.identity, ⟨1, 0, 0⟩⟩, 1 / 10000⟩

/-- The aggregation invariant with one exception: the bound of the cell `p0`
of layer `l0` by the cell above it may fail, as it does between a change of
the cell and the recomputation of the cell above. -/
def LayeredHeightMap.InvariantExcept (hm : LayeredHeightMap K) (l0 : Nat) (p0 : Pixel) : Prop :=
  ∀ (l : Nat) (p c : Pixel), l + 1 < hm.n_layers → hm.Valid (l + 1) p → c ∈ p.children →
    hm.Valid l c → ¬(l = l0 ∧ c = p0) → hm.height_mm l c.x c.y ≤ hm.height_mm (l + 1) p.x p.y

/-! ## The other free functions of the header -/

/-- The overload `obbDisjoint(tf, a, b)` (lines 439-568): the same fifteen
tests, written on `tf.linear()` and `tf.translation()`. -/
def Transform3.obbDisjoint (tf : Transform3 K) (a b : Vector3 K) : Bool :=
  let reps : K := 1 / 1000000
  let Bf := tf.linear.cwiseAbs.addScalar reps
  -- A1 x A2 = A0
  let t := if tf.translation.x < 0 then -tf.translation.x else tf.translation.x
  if t > a.x + Bf.row0.dot b then true else
  -- B1 x B2 = B0
  let s := tf.linear.col0.dot tf.translation
  let t := if s < 0 then -s else s
  if t > b.x + Bf.col0.dot a then true else
  -- A2 x A0 = A1
  let t := if tf.translation.y < 0 then -tf.translation.y else tf.translation.y
  if t > a.y + Bf.row1.dot b then true else
  -- A0 x A1 = A2
  let t := if tf.translation.z < 0 then -tf.translation.z else tf.translation.z
  if t > a.z + Bf.row2.dot b then true else
  -- B2 x B0 = B1
  let s := tf.linear.col1.dot tf.translation
  let t := if s < 0 then -s else s
  if t > b.y + Bf.col1.dot a then true else
  -- B0 x B1 = B2
  let s := tf.linear.col2.dot tf.translation
  let t := if s < 0 then -s else s
  if t > b.z + Bf.col2.dot a then true else
  -- A0 x B0
  let s := tf.translation.z * tf.linear.m10 - tf.translation.y * tf.linear.m20
  let t := if s < 0 then -s else s
  if t > a.y * Bf.m20 + a.z * Bf.m10 + b.y * Bf.m02 + b.z * Bf.m01 then true else
  -- A0 x B1
  let s := tf.translation.z * tf.linear.m11 - tf.translation.y * tf.linear.m21
  let t := if s < 0 then -s else s
  if t > a.y * Bf.m21 + a.z * Bf.m11 + b.x * Bf.m02 + b.z * Bf.m00 then true else
  -- A0 x B2
  let s := tf.translation.z * tf.linear.m12 - tf.translation.y * tf.linear.m22
  let t := if s < 0 then -s else s
  if t > a.y * Bf.m22 + a.z * Bf.m12 + b.x * Bf.m01 + b.y * Bf.m00 then true else
  -- A1 x B0
  let s := tf.translation.x * tf.linear.m20 - tf.translation.z * tf.linear.m00
  let t := if s < 0 then -s else s
  if t > a.x * Bf.m20 + a.z * Bf.m00 + b.y * Bf.m12 + b.z * Bf.m11 then true else
  -- A1 x B1
  let s := tf.translation.x * tf.linear.m21 - tf.translation.z * tf.linear.m01
  let t := if s < 0 then -s else s
  if t > a.x * Bf.m21 + a.z * Bf.m01 + b.x * Bf.m12 + b.z * Bf.m10 then true else
  -- A1 x B2
  let s := tf.translation.x * tf.linear.m22 - tf.translation.z * tf.linear.m02
  let t := if s < 0 then -s else s
  if t > a.x * Bf.m22 + a.z * Bf.m02 + b.x * Bf.m11 + b.y * Bf.m10 then true else
  -- A2 x B0
  let s := tf.translation.y * tf.linear.m00 - tf.translation.x * tf.linear.m10
  let t := if s < 0 then -s else s
  if t > a.x * Bf.m10 + a.y * Bf.m00 + b.y * Bf.m22 + b.z * Bf.m21 then true else
  -- A2 x B1
  let s := tf.translation.y * tf.linear.m01 - tf.translation.x * tf.linear.m11
  let t := if s < 0 then -s else s
  if t > a.x * Bf.m11 + a.y * Bf.m01 + b.x * Bf.m22 + b.z * Bf.m20 then true else
  -- A2 x B2
  let s := tf.translation.y * tf.linear.m02 - tf.translation.x * tf.linear.m12
  let t := if s < 0 then -s else s
  if t > a.x * Bf.m12 + a.y * Bf.m02 + b.x * Bf.m21 + b.y * Bf.m20 then true else
  false

/-- The function `translate(bv, t)` (lines 297-302): a copy of the box with
`t` added to the centre. -/
def translate (bv : OBB K) (t : Vector3 K) : OBB K :=
  let res := bv
  { res with To := res.To.add t }

/-- The free function `overlap(R0, T0, b1, b2)` (lines 305-316).  The product
`Ttemp.transpose() * b1.axis` is the row of the inner products of `Ttemp` with
the three columns of `b1.axis`. -/
def overlap (R0 : Matrix3 K) (T0 : Vector3 K) (b1 b2 : OBB K) : Bool :=
  let R0b2 := R0.mul b2.axis
  let R := b1.axis.transpose.mul R0b2
  let Ttemp := ((R0.mulVec b2.To).add T0).sub b1.To
  let T : Vector3 K := ⟨Ttemp.dot b1.axis.col0, Ttemp.dot b1.axis.col1, Ttemp.dot b1.axis.col2⟩
  !obbDisjoint R T b1.extent b2.extent

/-- The componentwise order `u ≤ v` of two vectors of half-extents. -/
def Vector3.le (u v : Vector3 K) : Prop := u.x ≤ v.x ∧ u.y ≤ v.y ∧ u.z ≤ v.z

/-- The point `To ± extent0 * axis0 ± extent1 * axis1 ± extent2 * axis2` of a
box, for one choice of the three signs (`true` is plus, `false` is minus). -/
def corner (b : OBB K) (s : Bool × Bool × Bool) : Vector3 K :=
  let sign : Bool → K := fun t => if t then 1 else -1
  ((b.To.add (b.axis.col0.smul (sign s.1 * b.extent.x))).add
    (b.axis.col1.smul (sign s.2.1 * b.extent.y))).add
    (b.axis.col2.smul (sign s.2.2 * b.extent.z))

/-- The signs of the eight corners in the order in which `computeVertices`
writes them. -/
def vertexSigns : List (Bool × Bool × Bool) :=
  [(false, false, false), (true, false, false), (true, true, false), (false, true, false),
   (false, false, true), (true, false, true), (true, true, true), (false, true, true)]

/-- What the code needs of `std::sqrt`: on a non-negative argument the result
is the non-negative number with that square. -/
def IsSqrt (sqrt : K → K) : Prop := ∀ z : K, 0 ≤ z → 0 ≤ sqrt z ∧ sqrt z * sqrt z = z

/-- The frame `M` is a proper rotation: orthonormal with determinant one. -/
def Matrix3.IsProperRotation (M : Matrix3 K) : Prop := M.IsOrthonormal ∧ M.det = 1

/-- The pair `(pmax, pmin)` of `merge_smalldist` after the loop over the
vertices of the first box (lines 259-274). -/
def smalldistFirstLoop (sqrt : K → K) (real_max : K) (b1 b2 : OBB K) :
    Vector3 K × Vector3 K :=
  let To := smalldistMidpoint b1 b2
  let axis := smalldistAxis sqrt b1 b2
  let pmin : Vector3 K := ⟨real_max, real_max, real_max⟩
  let pmax : Vector3 K := ⟨-real_max, -real_max, -real_max⟩
  (computeVertices b1).foldl (minmaxStep axis To) (pmax, pmin)

/-- The values of `dot` (line 268) on the new axis `d` for the vertices of a
list: the projections of the vertices, each taken relative to `To`. -/
def projections (d To : Vector3 K) (vs : List (Vector3 K)) : List K :=
  vs.map (fun v => (v.sub To).dot d)

/-- The column `M.col(j)`. -/
def Matrix3.col (M : Matrix3 K) (j : Fin 3) : Vector3 K :=
  match j with
  | 0 => M.col0
  | 1 => M.col1
  | 2 => M.col2

/-- Stand-ins for the three routines of `fcl/math/geometry.h` in closed
examples: they return the identity frame and zero vectors.  What the examples
state does not depend on what the routines return. -/
def sampleRoutines : GeometryRoutines K :=
  ⟨fun _ => Matrix3.identity, fun _ => (Vector3.zero, Matrix3.identity),
    fun _ _ => (Vector3.zero, Vector3.zero)⟩

/-! ## Bounded boxes and the gaps of the separating axis test -/

/-- The gap between the projections of two boxes on the axis `i` of the first
box, in the frame of the first box: the distance `|T[i]|` of the projected
centres minus the two radii `a[i]` and the sum of the `b[j]` weighted by
`|B(i, j)|`, without the bias of `obbDisjoint`. -/
def gapOnAxisA (B : Matrix3 K) (T a b : Vector3 K) (i : Fin 3) : K :=
  |T.get i| -
    (a.get i + (|B.coeff i 0| * b.get 0 + |B.coeff i 1| * b.get 1 + |B.coeff i 2| * b.get 2))

/-- The gap between the projections of two boxes on the axis `j` of the second
box, without the bias of `obbDisjoint`. -/
def gapOnAxisB (B : Matrix3 K) (T a b : Vector3 K) (j : Fin 3) : K :=
  |B.coeff 0 j * T.get 0 + B.coeff 1 j * T.get 1 + B.coeff 2 j * T.get 2| -
    ((|B.coeff 0 j| * a.get 0 + |B.coeff 1 j| * a.get 1 + |B.coeff 2 j| * a.get 2) + b.get j)

/-- The gap between the projections of two boxes on the cross product of the
axis `i` of the first box and the axis `j` of the second box, without the bias
of `obbDisjoint`; the indices `i + 1`, `i + 2`, `j + 1`, `j + 2` are taken
modulo three. -/
def gapOnCross (B : Matrix3 K) (T a b : Vector3 K) (i j : Fin 3) : K :=
  |T.get (i + 2) * B.coeff (i + 1) j - T.get (i + 1) * B.coeff (i + 2) j| -
    ((a.get (i + 1) * |B.coeff (i + 2) j| + a.get (i + 2) * |B.coeff (i + 1) j|) +
      (b.get (j + 1) * |B.coeff i (j + 2)| + b.get (j + 2) * |B.coeff i (j + 1)|))

/-- The integer nearest to `N / D`, the even one of the two at a tie. -/
def roundToEven (N D : Nat) : Nat :=
  let q := N / D
  let r := N % D
  if 2 * r < D then q
  else if D < 2 * r then q + 1
  else if q % 2 = 0 then q else q + 1

/-- The binary logarithm of a positive integer `n`, rounded down; the first
argument bounds the number of steps. -/
def floorLog2 : Nat → Nat → Nat
  | 0, _ => 0
  | f + 1, n => if n < 2 then 0 else floorLog2 f (n / 2) + 1

/-- The exponent of a positive rational `n / d`: the integer `e` with
`2 ^ e ≤ n / d < 2 ^ (e + 1)`. -/
def binaryExponent (n d : Nat) : Int :=
  let e0 : Int := (floorLog2 n n : Int) - (floorLog2 d d : Int)
  if d * 2 ^ e0.toNat ≤ n * 2 ^ (-e0).toNat then e0 else e0 - 1

/-- The rounding of a rational number to binary64: the nearest number with 53
significant binary digits, ties to even. -/
def roundDouble (x : ℚ) : ℚ :=
  if x = 0 then 0 else
  let n := x.num.natAbs
  let d := x.den
  let k : Int := 52 - binaryExponent n d
  let m := roundToEven (n * 2 ^ k.toNat) (d * 2 ^ (-k).toNat)
  let v : ℚ := (m : ℚ) * 2 ^ (-k).toNat / 2 ^ k.toNat
  if x < 0 then -v else v

/-- The integer square root of `n`, bit by bit from bit `k - 1` down, for
`n < 4 ^ k`. -/
def sqrtBits : Nat → Nat → Nat → Nat
  | 0, _, r => r
  | k + 1, n, r => sqrtBits k n (if (r + 2 ^ k) * (r + 2 ^ k) ≤ n then r + 2 ^ k else r)

/-- The function `std::sqrt` of binary64 on a positive rational: the square
root, rounded to the nearest number with 53 significant binary digits.  The
argument is scaled by a power of 4 into the range from `2 ^ 104` to `2 ^ 106`,
where the square root has 53 binary digits. -/
def sqrtDouble (x : ℚ) : ℚ :=
  if x ≤ 0 then 0 else
  let n := x.num.natAbs
  let d := x.den
  let k : Int := 52 - binaryExponent n d / 2
  let N := n * 4 ^ k.toNat
  let D := d * 4 ^ (-k).toNat
  let m0 := sqrtBits 53 (N / D) 0
  let m :=
    if (2 * m0 + 1) * (2 * m0 + 1) * D < 4 * N then m0 + 1
    else if 4 * N < (2 * m0 + 1) * (2 * m0 + 1) * D then m0
    else if m0 % 2 = 0 then m0 else m0 + 1
  (m : ℚ) * 2 ^ (-k).toNat / 2 ^ k.toNat

namespace Rounded

/-- The sum `u + v` of two vectors. -/
def add (rnd : K → K) (u v : Vector3 K) : Vector3 K :=
  ⟨rnd (u.x + v.x), rnd (u.y + v.y), rnd (u.z + v.z)⟩

/-- The difference `u - v` of two vectors. -/
def sub (rnd : K → K) (u v : Vector3 K) : Vector3 K :=
  ⟨rnd (u.x - v.x), rnd (u.y - v.y), rnd (u.z - v.z)⟩

/-- The product `v * s` of a vector and a scalar. -/
def smul (rnd : K → K) (v : Vector3 K) (s : K) : Vector3 K :=
  ⟨rnd (v.x * s), rnd (v.y * s), rnd (v.z * s)⟩

/-- The inner product `u.dot(v)`. -/
def dot (rnd : K → K) (u v : Vector3 K) : K :=
  rnd (rnd (rnd (u.x * v.x) + rnd (u.y * v.y)) + rnd (u.z * v.z))

/-- The matrix product `M * N`. -/
def mul (rnd : K → K) (M N : Matrix3 K) : Matrix3 K :=
  ⟨dot rnd M.row0 N.col0, dot rnd M.row0 N.col1, dot rnd M.row0 N.col2,
   dot rnd M.row1 N.col0, dot rnd M.row1 N.col1, dot rnd M.row1 N.col2,
   dot rnd M.row2 N.col0, dot rnd M.row2 N.col1, dot rnd M.row2 N.col2⟩

/-- The update `M.array() += s`. -/
def addScalar (rnd : K → K) (M : Matrix3 K) (s : K) : Matrix3 K :=
  ⟨rnd (M.m00 + s), rnd (M.m01 + s), rnd (M.m02 + s),
   rnd (M.m10 + s), rnd (M.m11 + s), rnd (M.m12 + s),
   rnd (M.m20 + s), rnd (M.m21 + s), rnd (M.m22 + s)⟩

/-- The sum `p * x + q * y + r * z + s * w` of the nine cross-axis tests of
`obbDisjoint`, from left to right. -/
def sum4 (rnd : K → K) (p x q y r z s w : K) : K :=
  rnd (rnd (rnd (rnd (p * x) + rnd (q * y)) + rnd (r * z)) + rnd (s * w))

/-- The function `obbDisjoint(B, T, a, b)` (lines 320-436) with rounding; the
literal `1e-6` is the rounding of that number. -/
def obbDisjoint (rnd : K → K) (B : Matrix3 K) (T a b : Vector3 K) : Bool :=
  let reps : K := rnd (1 / 1000000)
  let Bf := addScalar rnd B.cwiseAbs reps
  -- A1 x A2 = A0
  let t := if T.x < 0 then -T.x else T.x
  if t > rnd (a.x + dot rnd Bf.row0 b) then true else
  -- B1 x B2 = B0
  let s := dot rnd B.col0 T
  let t := if s < 0 then -s else s
  if t > rnd (b.x + dot rnd Bf.col0 a) then true else
  -- A2 x A0 = A1
  let t := if T.y < 0 then -T.y else T.y
  if t > rnd (a.y + dot rnd Bf.row1 b) then true else
  -- A0 x A1 = A2
  let t := if T.z < 0 then -T.z else T.z
  if t > rnd (a.z + dot rnd Bf.row2 b) then true else
  -- B2 x B0 = B1
  let s := dot rnd B.col1 T
  let t := if s < 0 then -s else s
  if t > rnd (b.y + dot rnd Bf.col1 a) then true else
  -- B0 x B1 = B2
  let s := dot rnd B.col2 T
  let t := if s < 0 then -s else s
  if t > rnd (b.z + dot rnd Bf.col2 a) then true else
  -- A0 x B0
  let s := rnd (rnd (T.z * B.m10) - rnd (T.y * B.m20))
  let t := if s < 0 then -s else s
  if t > sum4 rnd a.y Bf.m20 a.z Bf.m10 b.y Bf.m02 b.z Bf.m01 then true else
  -- A0 x B1
  let s := rnd (rnd (T.z * B.m11) - rnd (T.y * B.m21))
  let t := if s < 0 then -s else s
  if t > sum4 rnd a.y Bf.m21 a.z Bf.m11 b.x Bf.m02 b.z Bf.m00 then true else
  -- A0 x B2
  let s := rnd (rnd (T.z * B.m12) - rnd (T.y * B.m22))
  let t := if s < 0 then -s else s
  if t > sum4 rnd a.y Bf.m22 a.z Bf.m12 b.x Bf.m01 b.y Bf.m00 then true else
  -- A1 x B0
  let s := rnd (rnd (T.x * B.m20) - rnd (T.z * B.m00))
  let t := if s < 0 then -s else s
  if t > sum4 rnd a.x Bf.m20 a.z Bf.m00 b.y Bf.m12 b.z Bf.m11 then true else
  -- A1 x B1
  let s := rnd (rnd (T.x * B.m21) - rnd (T.z * B.m01))
  let t := if s < 0 then -s else s
  if t > sum4 rnd a.x Bf.m21 a.z Bf.m01 b.x Bf.m12 b.z Bf.m10 then true else
  -- A1 x B2
  let s := rnd (rnd (T.x * B.m22) - rnd (T.z * B.m02))
  let t := if s < 0 then -s else s
  if t > sum4 rnd a.x Bf.m22 a.z Bf.m02 b.x Bf.m11 b.y Bf.m10 then true else
  -- A2 x B0
  let s := rnd (rnd (T.y * B.m00) - rnd (T.x * B.m10))
  let t := if s < 0 then -s else s
  if t > sum4 rnd a.x Bf.m10 a.y Bf.m00 b.y Bf.m22 b.z Bf.m21 then true else
  -- A2 x B1
  let s := rnd (rnd (T.y * B.m01) - rnd (T.x * B.m11))
  let t := if s < 0 then -s else s
  if t > sum4 rnd a.x Bf.m11 a.y Bf.m01 b.x Bf.m22 b.z Bf.m20 then true else
  -- A2 x B2
  let s := rnd (rnd (T.y * B.m02) - rnd (T.x * B.m12))
  let t := if s < 0 then -s else s
  if t > sum4 rnd a.x Bf.m12 a.y Bf.m02 b.x Bf.m21 b.y Bf.m20 then true else
  false

/-- The member `OBB<S>::overlap(other)` (lines 64-71) with rounding. -/
def overlap (rnd : K → K) (self other : OBB K) : Bool :=
  let t := sub rnd other.To self.To
  let T : Vector3 K :=
    ⟨dot rnd self.axis.col0 t, dot rnd self.axis.col1 t, dot rnd self.axis.col2 t⟩
  let R := mul rnd self.axis.transpose other.axis
  !obbDisjoint rnd R T self.extent other.extent

/-- The member `OBB<S>::contain(p)` (lines 83-95) with rounding. -/
def contain (rnd : K → K) (self : OBB K) (p : Vector3 K) : Bool :=
  let local_p := sub rnd p self.To
  let proj := dot rnd local_p self.axis.col0
  if proj > self.extent.x ∨ proj < -self.extent.x then false else
  let proj := dot rnd local_p self.axis.col1
  if proj > self.extent.y ∨ proj < -self.extent.y then false else
  let proj := dot rnd local_p self.axis.col2
  if proj > self.extent.z ∨ proj < -self.extent.z then false else
  true

/-- The function `computeVertices(b, vertices)` (lines 176-193) with
rounding. -/
def computeVertices (rnd : K → K) (b : OBB K) : List (Vector3 K) :=
  let extent := b.extent
  let To := b.To
  let extAxis0 := smul rnd b.axis.col0 extent.x
  let extAxis1 := smul rnd b.axis.col1 extent.y
  let extAxis2 := smul rnd b.axis.col2 extent.z
  [ sub rnd (sub rnd (sub rnd To extAxis0) extAxis1) extAxis2,
    sub rnd (sub rnd (add rnd To extAxis0) extAxis1) extAxis2,
    sub rnd (add rnd (add rnd To extAxis0) extAxis1) extAxis2,
    sub rnd (add rnd (sub rnd To extAxis0) extAxis1) extAxis2,
    add rnd (sub rnd (sub rnd To extAxis0) extAxis1) extAxis2,
    add rnd (sub rnd (add rnd To extAxis0) extAxis1) extAxis2,
    add rnd (add rnd (add rnd To extAxis0) extAxis1) extAxis2,
    add rnd (add rnd (sub rnd To extAxis0) extAxis1) extAxis2 ]

/-- The function `translate(bv, t)` (lines 297-302) with rounding: the update
`res.To += t` rounds the three sums. -/
def translate (rnd : K → K) (bv : OBB K) (t : Vector3 K) : OBB K :=
  let res := bv
  { res with To := add rnd res.To t }

/-- The conversion `Quaternion<S>(mat)` of Eigen with rounding. -/
def quaternionOfMatrix (rnd : K → K) (sqrt : K → K) (mat : Matrix3 K) : Quaternion K :=
  let t := rnd (rnd (mat.m00 + mat.m11) + mat.m22)
  if t > 0 then
    let t := sqrt (rnd (t + 1))
    let w := rnd (1 / 2 * t)
    let t := rnd (1 / 2 / t)
    ⟨w, rnd (rnd (mat.m21 - mat.m12) * t), rnd (rnd (mat.m02 - mat.m20) * t),
      rnd (rnd (mat.m10 - mat.m01) * t)⟩
  else
    if mat.m11 > mat.m00 then
      if mat.m22 > mat.m11 then
        -- i = 2, j = 0, k = 1
        let t := sqrt (rnd (rnd (rnd (mat.m22 - mat.m00) - mat.m11) + 1))
        let qi := rnd (1 / 2 * t)
        let t := rnd (1 / 2 / t)
        ⟨rnd (rnd (mat.m10 - mat.m01) * t), rnd (rnd (mat.m02 + mat.m20) * t),
          rnd (rnd (mat.m12 + mat.m21) * t), qi⟩
      else
        -- i = 1, j = 2, k = 0
        let t := sqrt (rnd (rnd (rnd (mat.m11 - mat.m22) - mat.m00) + 1))
        let qi := rnd (1 / 2 * t)
        let t := rnd (1 / 2 / t)
        ⟨rnd (rnd (mat.m02 - mat.m20) * t), rnd (rnd (mat.m01 + mat.m10) * t), qi,
          rnd (rnd (mat.m21 + mat.m12) * t)⟩
    else
      if mat.m22 > mat.m00 then
        -- i = 2, j = 0, k = 1
        let t := sqrt (rnd (rnd (rnd (mat.m22 - mat.m00) - mat.m11) + 1))
        let qi := rnd (1 / 2 * t)
        let t := rnd (1 / 2 / t)
        ⟨rnd (rnd (mat.m10 - mat.m01) * t), rnd (rnd (mat.m02 + mat.m20) * t),
          rnd (rnd (mat.m12 + mat.m21) * t), qi⟩
      else
        -- i = 0, j = 1, k = 2
        let t := sqrt (rnd (rnd (rnd (mat.m00 - mat.m11) - mat.m22) + 1))
        let qi := rnd (1 / 2 * t)
        let t := rnd (1 / 2 / t)
        ⟨rnd (rnd (mat.m21 - mat.m12) * t), qi, rnd (rnd (mat.m10 + mat.m01) * t),
          rnd (rnd (mat.m20 + mat.m02) * t)⟩

/-- The inner product `q0.dot(q1)` of the coefficient vectors, the four rounded
products summed from left to right. -/
def quaternionDot (rnd : K → K) (p q : Quaternion K) : K :=
  rnd (rnd (rnd (rnd (p.w * q.w) + rnd (p.x * q.x)) + rnd (p.y * q.y)) + rnd (p.z * q.z))

/-- The quaternion built from `p.coeffs() + q.coeffs()`. -/
def quaternionAdd (rnd : K → K) (p q : Quaternion K) : Quaternion K :=
  ⟨rnd (p.w + q.w), rnd (p.x + q.x), rnd (p.y + q.y), rnd (p.z + q.z)⟩

/-- The call `q.normalize()` of Eigen with rounding. -/
def quaternionNormalize (rnd : K → K) (sqrt : K → K) (q : Quaternion K) : Quaternion K :=
  let z := quaternionDot rnd q q
  if z > 0 then ⟨rnd (q.w / sqrt z), rnd (q.x / sqrt z), rnd (q.y / sqrt z), rnd (q.z / sqrt z)⟩
  else q

/-- The call `q.toRotationMatrix()` of Eigen with rounding. -/
def toRotationMatrix (rnd : K → K) (q : Quaternion K) : Matrix3 K :=
  let tx := rnd (2 * q.x)
  let ty := rnd (2 * q.y)
  let tz := rnd (2 * q.z)
  let twx := rnd (tx * q.w)
  let twy := rnd (ty * q.w)
  let twz := rnd (tz * q.w)
  let txx := rnd (tx * q.x)
  let txy := rnd (ty * q.x)
  let txz := rnd (tz * q.x)
  let tyy := rnd (ty * q.y)
  let tyz := rnd (tz * q.y)
  let tzz := rnd (tz * q.z)
  ⟨rnd (1 - rnd (tyy + tzz)), rnd (txy - twz), rnd (txz + twy),
   rnd (txy + twz), rnd (1 - rnd (txx + tzz)), rnd (tyz - twx),
   rnd (txz - twy), rnd (tyz + twx), rnd (1 - rnd (txx + tyy))⟩

/-- One pass of the loop over the vertices in `merge_smalldist` (lines
266-273) with rounding. -/
def minmaxStep (rnd : K → K) (axis : Matrix3 K) (To : Vector3 K) (st : Vector3 K × Vector3 K)
    (v : Vector3 K) : Vector3 K × Vector3 K :=
  let diff := sub rnd v To
  let r0 := trackMinMax (dot rnd diff axis.col0) (st.1.x, st.2.x)
  let r1 := trackMinMax (dot rnd diff axis.col1) (st.1.y, st.2.y)
  let r2 := trackMinMax (dot rnd diff axis.col2) (st.1.z, st.2.z)
  (⟨r0.1, r1.1, r2.1⟩, ⟨r0.2, r1.2, r2.2⟩)

/-- The function `merge_smalldist(b1, b2)` (lines 247-294) with rounding. -/
def merge_smalldist (rnd : K → K) (sqrt : K → K) (real_max : K) (b1 b2 : OBB K) : OBB K :=
  let To := smul rnd (add rnd b1.To b2.To) (1 / 2)
  let q0 := quaternionOfMatrix rnd sqrt b1.axis
  let q1 := quaternionOfMatrix rnd sqrt b2.axis
  let q1 := if quaternionDot rnd q0 q1 < 0 then q1.neg else q1
  let q := quaternionNormalize rnd sqrt (quaternionAdd rnd q0 q1)
  let axis := toRotationMatrix rnd q
  let pmin : Vector3 K := ⟨real_max, real_max, real_max⟩
  let pmax : Vector3 K := ⟨-real_max, -real_max, -real_max⟩
  let st := (computeVertices rnd b1).foldl (minmaxStep rnd axis To) (pmax, pmin)
  let pm := (computeVertices rnd b2).foldl (minmaxStep rnd axis To) st
  let pmax := pm.1
  let pmin := pm.2
  let To := add rnd To (smul rnd axis.col0 (rnd (1 / 2 * rnd (pmax.x + pmin.x))))
  let To := add rnd To (smul rnd axis.col1 (rnd (1 / 2 * rnd (pmax.y + pmin.y))))
  let To := add rnd To (smul rnd axis.col2 (rnd (1 / 2 * rnd (pmax.z + pmin.z))))
  ⟨axis, To, ⟨rnd (1 / 2 * rnd (pmax.x - pmin.x)), rnd (1 / 2 * rnd (pmax.y - pmin.y)),
    rnd (1 / 2 * rnd (pmax.z - pmin.z))⟩⟩

end Rounded

/-- Two boxes and a point in binary64: the box `grazeA` ends at
`1.5 - 2 ^ (-53)` on the first axis, the flat box `grazeB` starts at `1.5`. -/
def grazeA : OBB ℚ := ⟨Matrix3.identity, ⟨1 / 4 - 1 / 2 ^ 53, 0, 0⟩, ⟨5 / 4, 1, 1⟩⟩

/-- The second box of the pair: the point `(1.5 + 2 ^ (-52), 0, 0)` widened by
`2 ^ (-52)` along the first axis. -/
def grazeB : OBB ℚ := ⟨Matrix3.identity, ⟨3 / 2 + 1 / 2 ^ 52, 0, 0⟩, ⟨1 / 2 ^ 52, 0, 0⟩⟩

/-- The unit cube centred at `(2 + 401 * 2 ^ (-27), 0, 0)`, about `2.00000299`
away from the origin. -/
def cubeClose : OBB ℚ := ⟨Matrix3.identity, ⟨2 + 401 / 2 ^ 27, 0, 0⟩, ⟨1, 1, 1⟩⟩

/-- The box with the centre `(1, 0, 0)` and the half-extents `(0.1, 1, 1)`, the
literal `0.1` read as a double. -/
def slabBox : OBB ℚ := ⟨Matrix3.identity, ⟨1, 0, 0⟩, ⟨roundDouble (1 / 10), 1, 1⟩⟩

/-- The box at the origin with the half-extents `(0.1, 1, 1)`. -/
def thinBox : OBB ℚ := ⟨Matrix3.identity, ⟨0, 0, 0⟩, ⟨roundDouble (1 / 10), 1, 1⟩⟩

/-- The box with the centre `(0.3, 0, 0)` and the half-extents `(0.2, 1, 1)`. -/
def wideBox : OBB ℚ :=
  ⟨Matrix3.identity, ⟨roundDouble (3 / 10), 0, 0⟩, ⟨roundDouble (1 / 5), 1, 1⟩⟩

/-! ## The cylinder mesh generator of `test/make_cylinder_mesh.h`

The header builds a tetrahedral mesh of a cylinder: a coarse mesh
(`MakeCylinderMeshLevel0`) that is refined level by level (`RefineCylinderMesh`),
every tetrahedron being split into eight.  Indices are the `int` of the source,
here integers.  A `std::vector` is a list; reading `v[i]` outside the vector has
no defined value, so the functions that read a vector return an `Option`.  A
failed `assert` ends the run, a conversion to `int` has a value only inside the
range of `int`, and so has a product of two `int`: the functions concerned
return `none` there.  The functions of `<cmath>` and
`std::numeric_limits<T>::epsilon()` are parameters, and so is the division of
the scalar type where its rounding decides an integer. -/

/-- The type `Vector2<T>` of Eigen: the components `v[0]`, `v[1]`. -/
@[ext]
structure Vector2 (K : Type) where
  x : K
  y : K
deriving DecidableEq, Repr

/-- The value of `v.squaredNorm()`. -/
def Vector2.squaredNorm (v : Vector2 K) : K := v.x * v.x + v.y * v.y

/-- The value of `v.norm()`, with the square root as a parameter. -/
def Vector2.norm (sqrt : K → K) (v : Vector2 K) : K := sqrt v.squaredNorm

/-- The call `v.normalize()` of Eigen: divide by the norm unless the squared norm is not positive. -/
def Vector2.normalize (sqrt : K → K) (v : Vector2 K) : Vector2 K :=
  let z := v.squaredNorm
  if z > 0 then ⟨v.x / sqrt z, v.y / sqrt z⟩ else v

namespace test

/-- The functor `PairHash` (lines 16-22).  The function `hash` is
`std::hash<int>`, which the standard library provides; a `std::size_t` has 64
bits, so its arithmetic is modulo `2 ^ 64`. -/
def PairHash (hash : Int → Nat) (key : Int × Int) : Nat :=
  let a := hash key.1 % 2 ^ 64
  let b := hash key.2 % 2 ^ 64
  if a ≥ b then (a * a + a + b) % 2 ^ 64 else (a + b * b) % 2 ^ 64

/-- The `std::hash<int>` of libstdc++ and of libc++: the integer converted to
`std::size_t`. -/
def identityHash (i : Int) : Nat := (i % 2 ^ 64).toNat

/-- The enumeration `CylinderVertexType` (line 33), the enumerators in the
order of the source. -/
inductive CylinderVertexType where
  | kInternal
  | kCap
  | kSide
deriving DecidableEq, Repr

/-- The underlying value of an enumerator, which the comparison of two
enumerators compares. -/
def CylinderVertexType.toNat : CylinderVertexType → Nat
  | kInternal => 0
  | kCap => 1
  | kSide => 2

/-- The call `std::min(a, b)` on two enumerators: `b` when `b < a`, else `a`. -/
def CylinderVertexType.min (a b : CylinderVertexType) : CylinderVertexType :=
  if b.toNat < a.toNat then b else a

/-- The type `MeshSimplex` of `fcl/math/mesh_simplex.h` as the header uses it:
built from four vertex indices, which `tet[0]` to `tet[3]` read. -/
structure MeshSimplex where
  v0 : Int
  v1 : Int
  v2 : Int
  v3 : Int
deriving DecidableEq, Repr

/-- The four indices of the simplex are indices of a vector of `n` elements. -/
def MeshSimplex.InRange (t : MeshSimplex) (n : Nat) : Prop :=
  (0 ≤ t.v0 ∧ t.v0 < n) ∧ (0 ≤ t.v1 ∧ t.v1 < n) ∧ (0 ≤ t.v2 ∧ t.v2 < n) ∧
    (0 ≤ t.v3 ∧ t.v3 < n)

instance (t : MeshSimplex) (n : Nat) : Decidable (t.InRange n) := by
  unfold MeshSimplex.InRange
  infer_instance

/-- The element `v[i]` of a `std::vector` for an `int` index: it has a value
when `0 ≤ i < v.size()`. -/
def vectorAt {α : Type} (v : List α) (i : Int) : Option α :=
  if 0 ≤ i then v[i.toNat]? else none

/-- The function `ProjectOntoCylinderSide` (lines 44-53).  The `assert` of
line 48 demands that `p` is at least half the radius away from the z-axis; the
result is `none` when it fails, and when the norm is zero, where the quotient of
line 50 is not a number. -/
def ProjectOntoCylinderSide (sqrt : K → K) (p : Vector3 K) (radius : K) : Option (Vector3 K) :=
  let p_xy : Vector2 K := ⟨p.x, p.y⟩
  let norm := p_xy.norm sqrt
  if radius / 2 ≤ norm ∧ norm ≠ 0 then
    let p_xy : Vector2 K := ⟨p_xy.x / norm, p_xy.y / norm⟩
    let cylinder_size_xy : Vector2 K := ⟨radius * p_xy.x, radius * p_xy.y⟩
    some ⟨cylinder_size_xy.x, cylinder_size_xy.y, p.z⟩
  else none

/-- The function `ProjectMidpointToMiddleCylinder` (lines 62-82); `kEps` is
`std::numeric_limits<T>::epsilon()`. -/
def ProjectMidpointToMiddleCylinder (sqrt : K → K) (kEps : K) (p q : Vector3 K) :
    Vector3 K :=
  let midpoint : Vector3 K := ⟨(p.x + q.x) / 2, (p.y + q.y) / 2, (p.z + q.z) / 2⟩
  let v_xy : Vector2 K := ⟨midpoint.x, midpoint.y⟩
  if v_xy.squaredNorm ≤ kEps * kEps then midpoint
  else
    let p_xy : Vector2 K := ⟨p.x, p.y⟩
    let q_xy : Vector2 K := ⟨q.x, q.y⟩
    let desired_length := (p_xy.norm sqrt + q_xy.norm sqrt) / 2
    let v_xy := v_xy.normalize sqrt
    let middle_circle_xy : Vector2 K := ⟨desired_length * v_xy.x, desired_length * v_xy.y⟩
    ⟨middle_circle_xy.x, middle_circle_xy.y, midpoint.z⟩

/-- The function `ProjectMidPoint` (lines 86-103). -/
def ProjectMidPoint (sqrt : K → K) (kEps : K) (x y : Vector3 K) (v_type : CylinderVertexType)
    (radius : K) : Option (Vector3 K) :=
  let v : Vector3 K := ⟨(x.x + y.x) / 2, (x.y + y.y) / 2, (x.z + y.z) / 2⟩
  match v_type with
  | CylinderVertexType.kSide => ProjectOntoCylinderSide sqrt v radius
  | CylinderVertexType.kCap => some (ProjectMidpointToMiddleCylinder sqrt kEps x y)
  | CylinderVertexType.kInternal => some (ProjectMidpointToMiddleCylinder sqrt kEps x y)

/-- The three containers that `CreateNewVertex` updates through its pointer
arguments.  The `std::unordered_map` from a pair of parents to their child is
the partial function of its entries; two keys are the same key when
`std::equal_to` on `std::pair<int, int>` says so, that is when both components
agree. -/
structure VertexStore (K : Type) where
  split_mesh_vertices : List (Vector3 K)
  split_vertex_type : List CylinderVertexType
  vertex_map : Int × Int → Option Int

/-- The function `CreateNewVertex` (lines 113-147): the returned index and
the updated containers. -/
def CreateNewVertex (sqrt : K → K) (kEps : K) (vertex_a_index vertex_b_index : Int)
    (st : VertexStore K) (radius : K) : Option (Int × VertexStore K) :=
  (vectorAt st.split_vertex_type vertex_a_index).bind fun ta =>
  (vectorAt st.split_vertex_type vertex_b_index).bind fun tb =>
  let p_vertex_type := CylinderVertexType.min ta tb
  (vectorAt st.split_mesh_vertices vertex_a_index).bind fun A =>
  (vectorAt st.split_mesh_vertices vertex_b_index).bind fun B =>
  (ProjectMidPoint sqrt kEps A B p_vertex_type radius).bind fun p =>
  let p_parents : Int × Int := (vertex_a_index, vertex_b_index)
  let new_vertex_index : Int := st.split_mesh_vertices.length
  some (new_vertex_index,
    ⟨st.split_mesh_vertices ++ [p], st.split_vertex_type ++ [p_vertex_type],
      Function.update st.vertex_map p_parents (some new_vertex_index)⟩)

/-- The closure `get_child_vertex` of `RefineCylinderTetrahdron` (lines
196-203). -/
def get_child_vertex (sqrt : K → K) (kEps : K) (radius : K) (p q : Int) (st : VertexStore K) :
    Option (Int × VertexStore K) :=
  let parents : Int × Int := (p, q)
  match st.vertex_map parents with
  | some child => some (child, st)
  | none => CreateNewVertex sqrt kEps parents.1 parents.2 st radius

/-- The function `RefineCylinderTetrahdron` (lines 162-226): the updated
containers and the updated vector of tetrahedra. -/
def RefineCylinderTetrahdron (sqrt : K → K) (kEps : K) (tet : MeshSimplex)
    (st : VertexStore K) (split_mesh_tetrahedra : List MeshSimplex) (radius : K) :
    Option (VertexStore K × List MeshSimplex) :=
  let a := tet.v0
  let b := tet.v1
  let c := tet.v2
  let d := tet.v3
  (get_child_vertex sqrt kEps radius a b st).bind fun e =>
  (get_child_vertex sqrt kEps radius a c e.2).bind fun f =>
  (get_child_vertex sqrt kEps radius a d f.2).bind fun g =>
  (get_child_vertex sqrt kEps radius b c g.2).bind fun h =>
  (get_child_vertex sqrt kEps radius b d h.2).bind fun i =>
  (get_child_vertex sqrt kEps radius c d i.2).bind fun j =>
  some (j.2, split_mesh_tetrahedra ++
    [⟨a, e.1, f.1, g.1⟩, ⟨b, h.1, e.1, i.1⟩, ⟨f.1, h.1, c, j.1⟩, ⟨j.1, g.1, i.1, d⟩,
      ⟨g.1, h.1, i.1, e.1⟩, ⟨g.1, f.1, h.1, e.1⟩, ⟨g.1, i.1, h.1, j.1⟩, ⟨g.1, h.1, f.1, j.1⟩])

/-- The loop of `RefineCylinderMesh` (lines 261-264) over the tetrahedra. -/
def refineTetrahedra (sqrt : K → K) (kEps : K) (radius : K) :
    List MeshSimplex → VertexStore K × List MeshSimplex →
      Option (VertexStore K × List MeshSimplex)
  | [], s => some s
  | t :: ts, s =>
    (RefineCylinderTetrahdron sqrt kEps t s.1 s.2 radius).bind
      (refineTetrahedra sqrt kEps radius ts)

/-- The function `RefineCylinderMesh` (lines 243-265).  The last argument is
the vector `split_mesh_tetrahedra` on entry, to which the function appends; the
two other output vectors are overwritten.  The result is
`(split_mesh_vertices, split_mesh_tetrahedra, split_vertex_type)`. -/
def RefineCylinderMesh (sqrt : K → K) (kEps : K) (vertices : List (Vector3 K))
    (tetrahedra : List MeshSimplex) (vertex_type : List CylinderVertexType) (radius : K)
    (split_mesh_tetrahedra : List MeshSimplex) :
    Option (List (Vector3 K) × List MeshSimplex × List CylinderVertexType) :=
  (refineTetrahedra sqrt kEps radius tetrahedra
      (⟨vertices, vertex_type, fun _ => none⟩, split_mesh_tetrahedra)).map
    fun s => (s.1.split_mesh_vertices, s.2, s.1.split_vertex_type)

/-- The conversion `static_cast<int>(x)` of a floating-point value that is
an integer: it has a value inside the range of a 32-bit `int` only. -/
def toInt (x : Int) : Option Int :=
  if -2147483648 ≤ x ∧ x ≤ 2147483647 then some x else none

/-- The number `subdivisions` of `MakeCylinderMeshLevel0` (lines 281-282): the
larger of 2 and the floor of the quotient `height / radius`, converted to
`int`.  The quotient is the one that the scalar type computes, `div height
radius`; a floating-point division rounds it. -/
def subdivisions [FloorRing K] (div : K → K → K) (height radius : K) : Option Int :=
  toInt ⌊max (2 : K) (⌊div height radius⌋ : Int)⌋

/-- The closure `add_slice_vertices` of `MakeCylinderMeshLevel0` (lines
329-335). -/
def add_slice_vertices (radius z : K) (vertices : List (Vector3 K)) : List (Vector3 K) :=
  vertices ++ [⟨radius, 0, z⟩, ⟨0, radius, z⟩, ⟨-radius, 0, z⟩, ⟨0, -radius, z⟩, ⟨0, 0, z⟩]

/-- The three tetrahedra that one pass of the inner loop of
`MakeCylinderMeshLevel0` adds (lines 348-357). -/
def prismTetrahedra (j i : Int) : List MeshSimplex :=
  let a := 5 * j + i
  let b := 5 * j + ((i + 1) % 4)
  let c := 5 * j + 4
  let d := 5 * (j + 1) + i
  let e := 5 * (j + 1) + ((i + 1) % 4)
  let f := 5 * (j + 1) + 4
  [⟨a, c, b, f⟩, ⟨a, b, e, f⟩, ⟨a, e, d, f⟩]

/-- The call `v.resize(n, fill)` of a `std::vector`. -/
def resize {α : Type} (v : List α) (n : Nat) (fill : α) : List α :=
  v.take n ++ List.replicate (n - v.length) fill

/-- The function `MakeCylinderMeshLevel0` (lines 271-374).  The three last
arguments are the vectors on entry; the result is
`(tetrahedra, vertices, vertex_type)` on return.  The largest `int` that the
function computes is `5 * (subdivisions + 1)`; the result is `none` when that
product leaves the range of `int`.  The writes to `vertex_type` fall inside the
size that the `resize` before them sets. -/
def MakeCylinderMeshLevel0 [FloorRing K] (div : K → K → K) (height radius : K)
    (tetrahedra : List MeshSimplex) (vertices : List (Vector3 K))
    (vertex_type : List CylinderVertexType) :
    Option (List MeshSimplex × List (Vector3 K) × List CylinderVertexType) :=
  (subdivisions div height radius).bind fun subdivisions =>
  if 5 * (subdivisions + 1) ≤ 2147483647 then
    let top_z := height / 2
    let bot_z := -top_z
    let slab_height := height / (subdivisions : K)
    let vertices := (List.range subdivisions.toNat).foldl
      (fun vs (i : Nat) => add_slice_vertices radius (top_z - (i : K) * slab_height) vs) vertices
    let vertices := add_slice_vertices radius bot_z vertices
    let tetrahedra := (List.range subdivisions.toNat).foldl
      (fun ts (j : Nat) =>
        (List.range 4).foldl (fun ts (i : Nat) => ts ++ prismTetrahedra (j : Int) (i : Int)) ts)
      tetrahedra
    let vertex_type :=
      resize vertex_type (5 * (subdivisions + 1)).toNat CylinderVertexType.kSide
    let vertex_type := vertex_type.set (4 : Int).toNat CylinderVertexType.kCap
    let vertex_type := vertex_type.set (5 * subdivisions + 4).toNat CylinderVertexType.kCap
    let vertex_type := (List.range (subdivisions.toNat - 1)).foldl
      (fun vt (k : Nat) => vt.set (5 * ((k : Int) + 1) + 4).toNat CylinderVertexType.kInternal)
      vertex_type
    some (tetrahedra, vertices, vertex_type)
  else none

/-- The type `Cylinder<S>` of `fcl/geometry/shape/cylinder.h` as the header
uses it: the radius and the length along the z-axis. -/
structure Cylinder (K : Type) where
  radius : K
  lz : K

/-- The refinement loop of `MakeCylinderBVHTetrahedronModel` (lines 516-526):
`n` passes, each calling `RefineCylinderMesh` with empty output vectors, on
the triple `(vertices, tetrahedra, vertex_type)`. -/
def refineLevels (sqrt : K → K) (kEps : K) (radius : K) :
    Nat → List (Vector3 K) × List MeshSimplex × List CylinderVertexType →
      Option (List (Vector3 K) × List MeshSimplex × List CylinderVertexType)
  | 0, m => some m
  | n + 1, m =>
    (RefineCylinderMesh sqrt kEps m.1 m.2.1 m.2.2 radius []).bind
      (refineLevels sqrt kEps radius n)

/-- The level `L` that the resolution hint asks for (lines 491-496); `log2`,
`asin` and `pi` are `std::log2`, `std::asin` and `constants<T>::pi()`.  The
ceiling is converted to `int` before 2 is subtracted. -/
def hintLevel [FloorRing K] (log2 asin : K → K) (pi : K) (radius resolution_hint : K) :
    Option Int :=
  let e := min resolution_hint (2 * radius)
  (toInt ⌈log2 (pi / asin (e / (2 * radius)))⌉).bind fun c =>
  (toInt (c - 2)).map fun l => max 0 l

/-- The number `refinement_level` of `MakeCylinderBVHTetrahedronModel` (lines
510-512) for a level-0 mesh of `n0` tetrahedra. -/
def refinement_level [FloorRing K] (log2 asin : K → K) (pi : K) (radius resolution_hint : K)
    (n0 : Nat) : Option Int :=
  (hintLevel log2 asin pi radius resolution_hint).bind fun L =>
  (toInt ⌊log2 (100000000 / (n0 : K)) / 3⌋).map fun l => min L l

/-- The function `MakeCylinderBVHTetrahedronModel` (lines 428-533).  The
result is the pair `(vertices, tetrahedra)` that the function hands to
`BVHModel::addSubModel`; the class `BVHModel` is outside the header.  The
`assert` of line 489 demands a positive resolution hint. -/
def MakeCylinderBVHTetrahedronModel [FloorRing K] (div : K → K → K) (sqrt : K → K) (kEps : K)
    (log2 asin : K → K) (pi : K) (cylinder : Cylinder K) (resolution_hint : K) :
    Option (List (Vector3 K) × List MeshSimplex) :=
  let length := cylinder.lz
  let radius := cylinder.radius
  (MakeCylinderMeshLevel0 div length radius [] [] []).bind fun level0 =>
  if 0 < resolution_hint then
    (refinement_level log2 asin pi radius resolution_hint level0.1.length).bind
      fun refinement_level =>
    (refineLevels sqrt kEps radius refinement_level.toNat
      (level0.2.1, level0.1, level0.2.2)).map fun m => (m.1, m.2.1)
  else none

/-- The well-formedness of the containers during a refinement: one type for
each vertex, and every child recorded in the map is the index of a vertex. -/
def VertexStore.WellFormed (st : VertexStore K) : Prop :=
  st.split_vertex_type.length = st.split_mesh_vertices.length ∧
    ∀ key child, st.vertex_map key = some child →
      0 ≤ child ∧ child < st.split_mesh_vertices.length

/-- The pairs of parents for which `RefineCylinderTetrahdron` asks for a child
(lines 206-211), in the order of the calls. -/
def parentPairs (t : MeshSimplex) : List (Int × Int) :=
  [(t.v0, t.v1), (t.v0, t.v2), (t.v0, t.v3), (t.v1, t.v2), (t.v1, t.v3), (t.v2, t.v3)]

/-- The ordered pairs of parents that the tetrahedra of a mesh list, each one
once. -/
def orderedEdges (tetrahedra : List MeshSimplex) : List (Int × Int) :=
  (tetrahedra.flatMap parentPairs).dedup

/-- The undirected edges of a mesh, each one once: the pairs of parents of
every tetrahedron, the smaller index first. -/
def undirectedEdges (tetrahedra : List MeshSimplex) : List (Int × Int) :=
  ((tetrahedra.flatMap parentPairs).map fun k => (min k.1 k.2, max k.1 k.2)).dedup

/-- During a refinement that started with `n0` vertices the containers are
well formed, the keys of the map are the pairs of `S`, and there is one vertex
beyond the first `n0` for each key. -/
def VertexStore.Tracks (st : VertexStore K) (n0 : Nat) (S : Finset (Int × Int)) : Prop :=
  st.WellFormed ∧ (∀ key, st.vertex_map key ≠ none ↔ key ∈ S) ∧
    st.split_mesh_vertices.length = n0 + S.card

/-- The precondition of `ProjectOntoCylinderSide` on the midpoint of two
vertices: the midpoint is at least half the radius away from the z-axis, and
not on it. -/
def SideMidpointClear (sqrt : K → K) (radius : K) (A B : Vector3 K) : Prop :=
  radius / 2 ≤ (⟨(A.x + B.x) / 2, (A.y + B.y) / 2⟩ : Vector2 K).norm sqrt ∧
    (⟨(A.x + B.x) / 2, (A.y + B.y) / 2⟩ : Vector2 K).norm sqrt ≠ 0

/-- The precondition of one refinement of a mesh: for every pair of parents
that a tetrahedron lists, both of the type `kSide`, the midpoint meets the
precondition of `ProjectOntoCylinderSide`. -/
def SideEdgesClear (sqrt : K → K) (vertices : List (Vector3 K)) (tetrahedra : List MeshSimplex)
    (vertex_type : List CylinderVertexType) (radius : K) : Prop :=
  ∀ t ∈ tetrahedra, ∀ key ∈ parentPairs t, ∀ A B : Vector3 K,
    vectorAt vertices key.1 = some A → vectorAt vertices key.2 = some B →
    vectorAt vertex_type key.1 = some CylinderVertexType.kSide →
    vectorAt vertex_type key.2 = some CylinderVertexType.kSide →
    SideMidpointClear sqrt radius A B

/-- The precondition of `n` passes of the refinement loop: the mesh of every
pass meets the precondition of one refinement. -/
def RefinementClear (sqrt : K → K) (kEps : K) (radius : K) :
    Nat → List (Vector3 K) × List MeshSimplex × List CylinderVertexType → Prop
  | 0, _ => True
  | n + 1, m =>
    SideEdgesClear sqrt m.1 m.2.1 m.2.2 radius ∧
      ∀ r, RefineCylinderMesh sqrt kEps m.1 m.2.1 m.2.2 radius [] = some r →
        RefinementClear sqrt kEps radius n r

end test

end Linear

end fcl

/-! # Properties -/

namespace fcl

section Properties

variable {K : Type} [LinearOrderedField K]

/-! ## The fifteen tests of `obbDisjoint` -/

theorem ite_true_else_iff (c : Prop) [Decidable c] (b : Bool) :
    (if c then true else b) = true ↔ c ∨ b = true := by
  by_cases h : c <;> simp [h]

theorem ite_neg_eq_abs (s : K) : (if s < 0 then -s else s) = |s| := by
  split_ifs with h
  · exact (abs_of_neg h).symm
  · exact (abs_of_nonneg (not_lt.mp h)).symm

/-- The function `obbDisjoint` answers `true` exactly when one of its fifteen
comparisons succeeds. -/
theorem obbDisjoint_eq_true_iff (B : Matrix3 K) (T a b : Vector3 K) :
    obbDisjoint B T a b = true ↔
      |T.x| > a.x + ((|B.m00| + 1 / 1000000) * b.x + (|B.m01| + 1 / 1000000) * b.y + (|B.m02| + 1 / 1000000) * b.z) ∨
      |B.m00 * T.x + B.m10 * T.y + B.m20 * T.z| > b.x + ((|B.m00| + 1 / 1000000) * a.x + (|B.m10| + 1 / 1000000) * a.y + (|B.m20| + 1 / 1000000) * a.z) ∨
      |T.y| > a.y + ((|B.m10| + 1 / 1000000) * b.x + (|B.m11| + 1 / 1000000) * b.y + (|B.m12| + 1 / 1000000) * b.z) ∨
      |T.z| > a.z + ((|B.m20| + 1 / 1000000) * b.x + (|B.m21| + 1 / 1000000) * b.y + (|B.m22| + 1 / 1000000) * b.z) ∨
      |B.m01 * T.x + B.m11 * T.y + B.m21 * T.z| > b.y + ((|B.m01| + 1 / 1000000) * a.x + (|B.m11| + 1 / 1000000) * a.y + (|B.m21| + 1 / 1000000) * a.z) ∨
      |B.m02 * T.x + B.m12 * T.y + B.m22 * T.z| > b.z + ((|B.m02| + 1 / 1000000) * a.x + (|B.m12| + 1 / 1000000) * a.y + (|B.m22| + 1 / 1000000) * a.z) ∨
      |T.z * B.m10 - T.y * B.m20| > a.y * (|B.m20| + 1 / 1000000) + a.z * (|B.m10| + 1 / 1000000) + b.y * (|B.m02| + 1 / 1000000) + b.z * (|B.m01| + 1 / 1000000) ∨
      |T.z * B.m11 - T.y * B.m21| > a.y * (|B.m21| + 1 / 1000000) + a.z * (|B.m11| + 1 / 1000000) + b.x * (|B.m02| + 1 / 1000000) + b.z * (|B.m00| + 1 / 1000000) ∨
      |T.z * B.m12 - T.y * B.m22| > a.y * (|B.m22| + 1 / 1000000) + a.z * (|B.m12| + 1 / 1000000) + b.x * (|B.m01| + 1 / 1000000) + b.y * (|B.m00| + 1 / 1000000) ∨
      |T.x * B.m20 - T.z * B.m00| > a.x * (|B.m20| + 1 / 1000000) + a.z * (|B.m00| + 1 / 1000000) + b.y * (|B.m12| + 1 / 1000000) + b.z * (|B.m11| + 1 / 1000000) ∨
      |T.x * B.m21 - T.z * B.m01| > a.x * (|B.m21| + 1 / 1000000) + a.z * (|B.m01| + 1 / 1000000) + b.x * (|B.m12| + 1 / 1000000) + b.z * (|B.m10| + 1 / 1000000) ∨
      |T.x * B.m22 - T.z * B.m02| > a.x * (|B.m22| + 1 / 1000000) + a.z * (|B.m02| + 1 / 1000000) + b.x * (|B.m11| + 1 / 1000000) + b.y * (|B.m10| + 1 / 1000000) ∨
      |T.y * B.m00 - T.x * B.m10| > a.x * (|B.m10| + 1 / 1000000) + a.y * (|B.m00| + 1 / 1000000) + b.y * (|B.m22| + 1 / 1000000) + b.z * (|B.m21| + 1 / 1000000) ∨
      |T.y * B.m01 - T.x * B.m11| > a.x * (|B.m11| + 1 / 1000000) + a.y * (|B.m01| + 1 / 1000000) + b.x * (|B.m22| + 1 / 1000000) + b.z * (|B.m20| + 1 / 1000000) ∨
      |T.y * B.m02 - T.x * B.m12| > a.x * (|B.m12| + 1 / 1000000) + a.y * (|B.m02| + 1 / 1000000) + b.x * (|B.m21| + 1 / 1000000) + b.y * (|B.m20| + 1 / 1000000) := by
  simp only [obbDisjoint, ite_true_else_iff, ite_neg_eq_abs, Matrix3.cwiseAbs, Matrix3.addScalar,
    Matrix3.row0, Matrix3.row1, Matrix3.row2, Matrix3.col0, Matrix3.col1, Matrix3.col2,
    Vector3.dot, Bool.false_eq_true, or_false]

/-- The function `obbDisjoint` answers `false` exactly when none of its fifteen
comparisons succeeds. -/
theorem obbDisjoint_eq_false_iff (B : Matrix3 K) (T a b : Vector3 K) :
    obbDisjoint B T a b = false ↔
      |T.x| ≤ a.x + ((|B.m00| + 1 / 1000000) * b.x + (|B.m01| + 1 / 1000000) * b.y + (|B.m02| + 1 / 1000000) * b.z) ∧
      |B.m00 * T.x + B.m10 * T.y + B.m20 * T.z| ≤ b.x + ((|B.m00| + 1 / 1000000) * a.x + (|B.m10| + 1 / 1000000) * a.y + (|B.m20| + 1 / 1000000) * a.z) ∧
      |T.y| ≤ a.y + ((|B.m10| + 1 / 1000000) * b.x + (|B.m11| + 1 / 1000000) * b.y + (|B.m12| + 1 / 1000000) * b.z) ∧
      |T.z| ≤ a.z + ((|B.m20| + 1 / 1000000) * b.x + (|B.m21| + 1 / 1000000) * b.y + (|B.m22| + 1 / 1000000) * b.z) ∧
      |B.m01 * T.x + B.m11 * T.y + B.m21 * T.z| ≤ b.y + ((|B.m01| + 1 / 1000000) * a.x + (|B.m11| + 1 / 1000000) * a.y + (|B.m21| + 1 / 1000000) * a.z) ∧
      |B.m02 * T.x + B.m12 * T.y + B.m22 * T.z| ≤ b.z + ((|B.m02| + 1 / 1000000) * a.x + (|B.m12| + 1 / 1000000) * a.y + (|B.m22| + 1 / 1000000) * a.z) ∧
      |T.z * B.m10 - T.y * B.m20| ≤ a.y * (|B.m20| + 1 / 1000000) + a.z * (|B.m10| + 1 / 1000000) + b.y * (|B.m02| + 1 / 1000000) + b.z * (|B.m01| + 1 / 1000000) ∧
      |T.z * B.m11 - T.y * B.m21| ≤ a.y * (|B.m21| + 1 / 1000000) + a.z * (|B.m11| + 1 / 1000000) + b.x * (|B.m02| + 1 / 1000000) + b.z * (|B.m00| + 1 / 1000000) ∧
      |T.z * B.m12 - T.y * B.m22| ≤ a.y * (|B.m22| + 1 / 1000000) + a.z * (|B.m12| + 1 / 1000000) + b.x * (|B.m01| + 1 / 1000000) + b.y * (|B.m00| + 1 / 1000000) ∧
      |T.x * B.m20 - T.z * B.m00| ≤ a.x * (|B.m20| + 1 / 1000000) + a.z * (|B.m00| + 1 / 1000000) + b.y * (|B.m12| + 1 / 1000000) + b.z * (|B.m11| + 1 / 1000000) ∧
      |T.x * B.m21 - T.z * B.m01| ≤ a.x * (|B.m21| + 1 / 1000000) + a.z * (|B.m01| + 1 / 1000000) + b.x * (|B.m12| + 1 / 1000000) + b.z * (|B.m10| + 1 / 1000000) ∧
      |T.x * B.m22 - T.z * B.m02| ≤ a.x * (|B.m22| + 1 / 1000000) + a.z * (|B.m02| + 1 / 1000000) + b.x * (|B.m11| + 1 / 1000000) + b.y * (|B.m10| + 1 / 1000000) ∧
      |T.y * B.m00 - T.x * B.m10| ≤ a.x * (|B.m10| + 1 / 1000000) + a.y * (|B.m00| + 1 / 1000000) + b.y * (|B.m22| + 1 / 1000000) + b.z * (|B.m21| + 1 / 1000000) ∧
      |T.y * B.m01 - T.x * B.m11| ≤ a.x * (|B.m11| + 1 / 1000000) + a.y * (|B.m01| + 1 / 1000000) + b.x * (|B.m22| + 1 / 1000000) + b.z * (|B.m20| + 1 / 1000000) ∧
      |T.y * B.m02 - T.x * B.m12| ≤ a.x * (|B.m12| + 1 / 1000000) + a.y * (|B.m02| + 1 / 1000000) + b.x * (|B.m21| + 1 / 1000000) + b.y * (|B.m20| + 1 / 1000000) := by
  rw [← Bool.not_eq_true, obbDisjoint_eq_true_iff]
  simp only [not_or, not_lt, gt_iff_lt]

/-! ## Containment -/

theorem Vector3.dot_comm (u v : Vector3 K) : u.dot v = v.dot u := by
  simp only [Vector3.dot]; ring

theorem gt_or_lt_neg_iff (x e : K) : (x > e ∨ x < -e) ↔ ¬ |x| ≤ e := by
  rw [abs_le, not_and_or, not_le, not_le]
  exact or_comm

theorem ite_false_else_iff (c : Prop) [Decidable c] (b : Bool) :
    (if c then false else b) = true ↔ ¬ c ∧ b = true := by
  by_cases h : c <;> simp [h]

/-- The three early returns of `contain` as one conjunction. -/
theorem contain_eq_true_iff (A : OBB K) (p : Vector3 K) :
    A.contain p = true ↔
      |(p.sub A.To).dot A.axis.col0| ≤ A.extent.x ∧
      |(p.sub A.To).dot A.axis.col1| ≤ A.extent.y ∧
      |(p.sub A.To).dot A.axis.col2| ≤ A.extent.z := by
  simp only [OBB.contain, ite_false_else_iff, gt_or_lt_neg_iff, not_not, and_true]

/-- Claim C7: `contain(p)` is `true` exactly when, on each of the three box
axes, the absolute value of the projection of `p - To` is at most the
half-extent of that axis (a point on a face is contained). -/
theorem contain_iff_abs_le (A : OBB K) (p : Vector3 K) :
    A.contain p = true ↔
      |(p.sub A.To).dot A.axis.col0| ≤ A.extent.x ∧
      |(p.sub A.To).dot A.axis.col1| ≤ A.extent.y ∧
      |(p.sub A.To).dot A.axis.col2| ≤ A.extent.z :=
  contain_eq_true_iff A p

/-! ## Overlap of a box with itself and with a point -/

theorem bias_nonneg (r : K) : 0 ≤ |r| + 1 / 1000000 := by
  have := abs_nonneg r
  linarith

theorem abs_mul_le_bias (r t c : K) (h : |t| ≤ c) : |r * t| ≤ (|r| + 1 / 1000000) * c := by
  have hc : 0 ≤ c := le_trans (abs_nonneg t) h
  rw [abs_mul]
  calc |r| * |t| ≤ |r| * c := mul_le_mul_of_nonneg_left h (abs_nonneg r)
    _ ≤ (|r| + 1 / 1000000) * c := by
        apply mul_le_mul_of_nonneg_right _ hc
        linarith

/-- With a zero offset between the centres and non-negative half-extents no
test of `obbDisjoint` succeeds. -/
theorem obbDisjoint_zero_offset (R : Matrix3 K) (a b : Vector3 K)
    (hax : 0 ≤ a.x) (hay : 0 ≤ a.y) (haz : 0 ≤ a.z)
    (hbx : 0 ≤ b.x) (hby : 0 ≤ b.y) (hbz : 0 ≤ b.z) :
    obbDisjoint R ⟨0, 0, 0⟩ a b = false := by
  rw [obbDisjoint_eq_false_iff]
  simp only [mul_zero, zero_mul, add_zero, sub_zero, abs_zero]
  refine ⟨?_, ?_, ?_, ?_, ?_, ?_, ?_, ?_, ?_, ?_, ?_, ?_, ?_, ?_, ?_⟩ <;>
    repeat' (first | exact bias_nonneg _ | apply add_nonneg | apply mul_nonneg | assumption)

/-- Against a box of zero half-extents only the three tests along the axes of
the first box can succeed. -/
theorem obbDisjoint_zero_extent (R : Matrix3 K) (T a : Vector3 K) :
    obbDisjoint R T a Vector3.zero = false ↔ |T.x| ≤ a.x ∧ |T.y| ≤ a.y ∧ |T.z| ≤ a.z := by
  rw [obbDisjoint_eq_false_iff]
  simp only [Vector3.zero, mul_zero, zero_mul, add_zero, zero_add]
  constructor
  · intro h
    exact ⟨h.1, h.2.2.1, h.2.2.2.1⟩
  · rintro ⟨hx, hy, hz⟩
    refine ⟨hx, ?_, hy, hz, ?_, ?_, ?_, ?_, ?_, ?_, ?_, ?_, ?_, ?_, ?_⟩
    · have h0 := abs_le.mp (abs_mul_le_bias R.m00 T.x a.x hx)
      have h1 := abs_le.mp (abs_mul_le_bias R.m10 T.y a.y hy)
      have h2 := abs_le.mp (abs_mul_le_bias R.m20 T.z a.z hz)
      exact abs_le.mpr ⟨by linarith, by linarith⟩
    · have h0 := abs_le.mp (abs_mul_le_bias R.m01 T.x a.x hx)
      have h1 := abs_le.mp (abs_mul_le_bias R.m11 T.y a.y hy)
      have h2 := abs_le.mp (abs_mul_le_bias R.m21 T.z a.z hz)
      exact abs_le.mpr ⟨by linarith, by linarith⟩
    · have h0 := abs_le.mp (abs_mul_le_bias R.m02 T.x a.x hx)
      have h1 := abs_le.mp (abs_mul_le_bias R.m12 T.y a.y hy)
      have h2 := abs_le.mp (abs_mul_le_bias R.m22 T.z a.z hz)
      exact abs_le.mpr ⟨by linarith, by linarith⟩
    · have h0 := abs_le.mp (abs_mul_le_bias R.m10 T.z a.z hz)
      have h1 := abs_le.mp (abs_mul_le_bias R.m20 T.y a.y hy)
      exact abs_le.mpr ⟨by linarith, by linarith⟩
    · have h0 := abs_le.mp (abs_mul_le_bias R.m11 T.z a.z hz)
      have h1 := abs_le.mp (abs_mul_le_bias R.m21 T.y a.y hy)
      exact abs_le.mpr ⟨by linarith, by linarith⟩
    · have h0 := abs_le.mp (abs_mul_le_bias R.m12 T.z a.z hz)
      have h1 := abs_le.mp (abs_mul_le_bias R.m22 T.y a.y hy)
      exact abs_le.mpr ⟨by linarith, by linarith⟩
    · have h0 := abs_le.mp (abs_mul_le_bias R.m20 T.x a.x hx)
      have h1 := abs_le.mp (abs_mul_le_bias R.m00 T.z a.z hz)
      exact abs_le.mpr ⟨by linarith, by linarith⟩
    · have h0 := abs_le.mp (abs_mul_le_bias R.m21 T.x a.x hx)
      have h1 := abs_le.mp (abs_mul_le_bias R.m01 T.z a.z hz)
      exact abs_le.mpr ⟨by linarith, by linarith⟩
    · have h0 := abs_le.mp (abs_mul_le_bias R.m22 T.x a.x hx)
      have h1 := abs_le.mp (abs_mul_le_bias R.m02 T.z a.z hz)
      exact abs_le.mpr ⟨by linarith, by linarith⟩
    · have h0 := abs_le.mp (abs_mul_le_bias R.m00 T.y a.y hy)
      have h1 := abs_le.mp (abs_mul_le_bias R.m10 T.x a.x hx)
      exact abs_le.mpr ⟨by linarith, by linarith⟩
    · have h0 := abs_le.mp (abs_mul_le_bias R.m01 T.y a.y hy)
      have h1 := abs_le.mp (abs_mul_le_bias R.m11 T.x a.x hx)
      exact abs_le.mpr ⟨by linarith, by linarith⟩
    · have h0 := abs_le.mp (abs_mul_le_bias R.m02 T.y a.y hy)
      have h1 := abs_le.mp (abs_mul_le_bias R.m12 T.x a.x hx)
      exact abs_le.mpr ⟨by linarith, by linarith⟩

/-- Claim C2: a box whose half-extents are all non-negative overlaps itself. -/
theorem overlap_self (A : OBB K) (hx : 0 ≤ A.extent.x) (hy : 0 ≤ A.extent.y)
    (hz : 0 ≤ A.extent.z) : A.overlap A = true := by
  have hT : (⟨A.axis.col0.dot (A.To.sub A.To), A.axis.col1.dot (A.To.sub A.To),
      A.axis.col2.dot (A.To.sub A.To)⟩ : Vector3 K) = ⟨0, 0, 0⟩ := by
    simp only [Vector3.dot, Vector3.sub, sub_self, mul_zero, add_zero]
  simp only [OBB.overlap, hT, obbDisjoint_zero_offset _ _ _ hx hy hz hx hy hz, Bool.not_false]

/-- Claim C3: for every box `A`, point `p` and axis frame `F`, `A.contain(p)`
equals `A.overlap(D)` for the box `D` centred at `p` with zero half-extents
and frame `F` (in particular the frame of `A`, as built by `operator+=`). -/
theorem contain_eq_overlap_degenerate (A : OBB K) (p : Vector3 K) (F : Matrix3 K) :
    A.contain p = A.overlap ⟨F, p, Vector3.zero⟩ := by
  rw [Bool.eq_iff_iff, contain_eq_true_iff]
  simp only [OBB.overlap, Bool.not_eq_true', obbDisjoint_zero_extent]
  rw [Vector3.dot_comm A.axis.col0, Vector3.dot_comm A.axis.col1, Vector3.dot_comm A.axis.col2]

/-! ## Orthonormal frames -/

theorem toMatrix_transpose {F : Type} (M : Matrix3 F) :
    M.transpose.toMatrix = M.toMatrix.transpose := by
  ext i j
  fin_cases i <;> fin_cases j <;> rfl

theorem toMatrix_mul (M N : Matrix3 K) : (M.mul N).toMatrix = M.toMatrix * N.toMatrix := by
  ext i j
  fin_cases i <;> fin_cases j <;>
    simp [Matrix3.toMatrix, Matrix3.mul, Matrix3.row0, Matrix3.row1, Matrix3.row2, Matrix3.col0,
      Matrix3.col1, Matrix3.col2, Vector3.dot, Matrix.mul_apply, Fin.sum_univ_three]

theorem isOrthonormal_iff_toMatrix (M : Matrix3 K) :
    M.IsOrthonormal ↔ M.transpose.toMatrix * M.toMatrix = 1 := by
  constructor
  · rintro ⟨h00, h11, h22, h01, h02, h12⟩
    simp only [Matrix3.col0, Matrix3.col1, Matrix3.col2, Vector3.dot] at h00 h11 h22 h01 h02 h12
    ext i j
    fin_cases i <;> fin_cases j <;>
      simp [Matrix3.toMatrix, Matrix3.transpose, Matrix.mul_apply, Fin.sum_univ_three] <;>
      linarith
  · intro h
    have e := fun i j => congrFun (congrFun h i) j
    have e00 := e 0 0
    have e11 := e 1 1
    have e22 := e 2 2
    have e01 := e 0 1
    have e02 := e 0 2
    have e12 := e 1 2
    simp [Matrix3.toMatrix, Matrix3.transpose, Matrix.mul_apply, Fin.sum_univ_three]
      at e00 e11 e22 e01 e02 e12
    simp only [Matrix3.IsOrthonormal, Matrix3.col0, Matrix3.col1, Matrix3.col2, Vector3.dot]
    exact ⟨e00, e11, e22, e01, e02, e12⟩

/-- The rows of a matrix with orthonormal columns are orthonormal too. -/
theorem isOrthonormal_transpose {M : Matrix3 K} (h : M.IsOrthonormal) :
    M.transpose.IsOrthonormal := by
  rw [isOrthonormal_iff_toMatrix] at h ⊢
  rw [toMatrix_transpose, toMatrix_transpose, Matrix.transpose_transpose]
  rw [toMatrix_transpose] at h
  exact Matrix.mul_eq_one_comm.mp h

/-- The relative rotation of two orthonormal frames is orthonormal. -/
theorem isOrthonormal_relative {A B : Matrix3 K} (hA : A.IsOrthonormal) (hB : B.IsOrthonormal) :
    (A.transpose.mul B).IsOrthonormal := by
  have hA2 := isOrthonormal_transpose hA
  rw [isOrthonormal_iff_toMatrix] at hA2 hB ⊢
  rw [toMatrix_transpose, toMatrix_transpose, Matrix.transpose_transpose] at hA2
  rw [toMatrix_transpose] at hB
  rw [toMatrix_transpose, toMatrix_mul, toMatrix_transpose, Matrix.transpose_mul,
    Matrix.transpose_transpose, Matrix.mul_assoc, ← Matrix.mul_assoc A.toMatrix, hA2,
    Matrix.one_mul, hB]

/-- For a matrix with orthonormal rows every two-by-two minor is the
determinant times the complementary coefficient, and the determinant squares
to one. -/
theorem cofactor_of_orthonormal_rows (M : Matrix3 K) (h : M.transpose.IsOrthonormal) :
    M.det * M.det = 1 ∧
    M.m11 * M.m22 - M.m12 * M.m21 = M.det * M.m00 ∧
    M.m12 * M.m20 - M.m10 * M.m22 = M.det * M.m01 ∧
    M.m10 * M.m21 - M.m11 * M.m20 = M.det * M.m02 ∧
    M.m21 * M.m02 - M.m22 * M.m01 = M.det * M.m10 ∧
    M.m22 * M.m00 - M.m20 * M.m02 = M.det * M.m11 ∧
    M.m20 * M.m01 - M.m21 * M.m00 = M.det * M.m12 ∧
    M.m01 * M.m12 - M.m02 * M.m11 = M.det * M.m20 ∧
    M.m02 * M.m10 - M.m00 * M.m12 = M.det * M.m21 ∧
    M.m00 * M.m11 - M.m01 * M.m10 = M.det * M.m22 := by
  obtain ⟨h00, h11, h22, h01, h02, h12⟩ := h
  simp only [Matrix3.transpose, Matrix3.col0, Matrix3.col1, Matrix3.col2, Vector3.dot]
    at h00 h11 h22 h01 h02 h12
  have c00 : M.m11 * M.m22 - M.m12 * M.m21 = M.det * M.m00 := by
    simp only [Matrix3.det]
    linear_combination (-(M.m11 * M.m22 - M.m12 * M.m21)) * h00 - (M.m21 * M.m02 - M.m22 * M.m01) * h01 - (M.m01 * M.m12 - M.m02 * M.m11) * h02
  have c01 : M.m12 * M.m20 - M.m10 * M.m22 = M.det * M.m01 := by
    simp only [Matrix3.det]
    linear_combination (-(M.m12 * M.m20 - M.m10 * M.m22)) * h00 - (M.m22 * M.m00 - M.m20 * M.m02) * h01 - (M.m02 * M.m10 - M.m00 * M.m12) * h02
  have c02 : M.m10 * M.m21 - M.m11 * M.m20 = M.det * M.m02 := by
    simp only [Matrix3.det]
    linear_combination (-(M.m10 * M.m21 - M.m11 * M.m20)) * h00 - (M.m20 * M.m01 - M.m21 * M.m00) * h01 - (M.m00 * M.m11 - M.m01 * M.m10) * h02
  have c10 : M.m21 * M.m02 - M.m22 * M.m01 = M.det * M.m10 := by
    simp only [Matrix3.det]
    linear_combination (-(M.m11 * M.m22 - M.m12 * M.m21)) * h01 - (M.m21 * M.m02 - M.m22 * M.m01) * h11 - (M.m01 * M.m12 - M.m02 * M.m11) * h12
  have c11 : M.m22 * M.m00 - M.m20 * M.m02 = M.det * M.m11 := by
    simp only [Matrix3.det]
    linear_combination (-(M.m12 * M.m20 - M.m10 * M.m22)) * h01 - (M.m22 * M.m00 - M.m20 * M.m02) * h11 - (M.m02 * M.m10 - M.m00 * M.m12) * h12
  have c12 : M.m20 * M.m01 - M.m21 * M.m00 = M.det * M.m12 := by
    simp only [Matrix3.det]
    linear_combination (-(M.m10 * M.m21 - M.m11 * M.m20)) * h01 - (M.m20 * M.m01 - M.m21 * M.m00) * h11 - (M.m00 * M.m11 - M.m01 * M.m10) * h12
  have c20 : M.m01 * M.m12 - M.m02 * M.m11 = M.det * M.m20 := by
    simp only [Matrix3.det]
    linear_combination (-(M.m11 * M.m22 - M.m12 * M.m21)) * h02 - (M.m21 * M.m02 - M.m22 * M.m01) * h12 - (M.m01 * M.m12 - M.m02 * M.m11) * h22
  have c21 : M.m02 * M.m10 - M.m00 * M.m12 = M.det * M.m21 := by
    simp only [Matrix3.det]
    linear_combination (-(M.m12 * M.m20 - M.m10 * M.m22)) * h02 - (M.m22 * M.m00 - M.m20 * M.m02) * h12 - (M.m02 * M.m10 - M.m00 * M.m12) * h22
  have c22 : M.m00 * M.m11 - M.m01 * M.m10 = M.det * M.m22 := by
    simp only [Matrix3.det]
    linear_combination (-(M.m10 * M.m21 - M.m11 * M.m20)) * h02 - (M.m20 * M.m01 - M.m21 * M.m00) * h12 - (M.m00 * M.m11 - M.m01 * M.m10) * h22
  refine ⟨?_, c00, c01, c02, c10, c11, c12, c20, c21, c22⟩
  linear_combination (-(M.det * M.det)) * h22 - (M.det * M.m20 + (M.m01 * M.m12 - M.m02 * M.m11)) * c20 - (M.det * M.m21 + (M.m02 * M.m10 - M.m00 * M.m12)) * c21 - (M.det * M.m22 + (M.m00 * M.m11 - M.m01 * M.m10)) * c22 + (M.m10 * M.m10 + M.m11 * M.m11 + M.m12 * M.m12) * h00 + h11 - (M.m00 * M.m10 + M.m01 * M.m11 + M.m02 * M.m12) * h01

theorem abs_eq_one_of_mul_self {d : K} (hd : d * d = 1) : |d| = 1 := by
  rcases mul_self_eq_one_iff.mp hd with h | h
  · rw [h, abs_one]
  · rw [h, abs_neg, abs_one]

theorem gt_transfer (d : K) {l l2 r r2 : K} (hd : d * d = 1) (h : |l| > r)
    (e1 : l2 = d * l) (e2 : r2 = r) : |l2| > r2 := by
  rw [e1, e2, abs_mul, abs_eq_one_of_mul_self hd, one_mul]
  exact h

/-- Swapping the two boxes, which replaces the relative transform `(R, T)` by
`(Rᵀ, -Rᵀ T)`, keeps every successful test of `obbDisjoint` successful. -/
theorem obbDisjoint_swap_imp (R : Matrix3 K) (T a b : Vector3 K)
    (h : R.transpose.IsOrthonormal) (hd : obbDisjoint R T a b = true) :
    obbDisjoint R.transpose (R.transpose.mulVec T).neg b a = true := by
  obtain ⟨hdet, c00, c01, c02, c10, c11, c12, c20, c21, c22⟩ := cofactor_of_orthonormal_rows R h
  obtain ⟨h00, h11, h22, h01, h02, h12⟩ := h
  simp only [Matrix3.transpose, Matrix3.col0, Matrix3.col1, Matrix3.col2, Vector3.dot]
    at h00 h11 h22 h01 h02 h12
  have hm : (-1 : K) * (-1) = 1 := by norm_num
  rw [obbDisjoint_eq_true_iff] at hd ⊢
  simp only [Matrix3.transpose, Matrix3.mulVec, Vector3.neg, Matrix3.row0, Matrix3.row1,
    Matrix3.row2, Vector3.dot]
  rcases hd with hd | hd | hd | hd | hd | hd | hd | hd | hd | hd | hd | hd | hd | hd | hd
  · refine Or.inr (Or.inl ?_)
    exact gt_transfer (-1) hm hd (by linear_combination (-T.x) * h00 + (-T.y) * h01 + (-T.z) * h02) (by ring)
  · refine Or.inl ?_
    exact gt_transfer (-1) hm hd (by ring) (by ring)
  · refine Or.inr (Or.inr (Or.inr (Or.inr (Or.inl ?_))))
    exact gt_transfer (-1) hm hd (by linear_combination (-T.x) * h01 + (-T.y) * h11 + (-T.z) * h12) (by ring)
  · refine Or.inr (Or.inr (Or.inr (Or.inr (Or.inr (Or.inl ?_)))))
    exact gt_transfer (-1) hm hd (by linear_combination (-T.x) * h02 + (-T.y) * h12 + (-T.z) * h22) (by ring)
  · refine Or.inr (Or.inr (Or.inl ?_))
    exact gt_transfer (-1) hm hd (by ring) (by ring)
  · refine Or.inr (Or.inr (Or.inr (Or.inl ?_)))
    exact gt_transfer (-1) hm hd (by ring) (by ring)
  · refine Or.inr (Or.inr (Or.inr (Or.inr (Or.inr (Or.inr (Or.inl ?_))))))
    exact gt_transfer R.det hdet hd (by linear_combination T.z * c10 - T.y * c20) (by ring)
  · refine Or.inr (Or.inr (Or.inr (Or.inr (Or.inr (Or.inr (Or.inr (Or.inr (Or.inr (Or.inl ?_)))))))))
    exact gt_transfer R.det hdet hd (by linear_combination T.z * c11 - T.y * c21) (by ring)
  · refine Or.inr (Or.inr (Or.inr (Or.inr (Or.inr (Or.inr (Or.inr (Or.inr (Or.inr (Or.inr (Or.inr (Or.inr (Or.inl ?_))))))))))))
    exact gt_transfer R.det hdet hd (by linear_combination T.z * c12 - T.y * c22) (by ring)
  · refine Or.inr (Or.inr (Or.inr (Or.inr (Or.inr (Or.inr (Or.inr (Or.inl ?_)))))))
    exact gt_transfer R.det hdet hd (by linear_combination T.x * c20 - T.z * c00) (by ring)
  · refine Or.inr (Or.inr (Or.inr (Or.inr (Or.inr (Or.inr (Or.inr (Or.inr (Or.inr (Or.inr (Or.inl ?_))))))))))
    exact gt_transfer R.det hdet hd (by linear_combination T.x * c21 - T.z * c01) (by ring)
  · refine Or.inr (Or.inr (Or.inr (Or.inr (Or.inr (Or.inr (Or.inr (Or.inr (Or.inr (Or.inr (Or.inr (Or.inr (Or.inr (Or.inl ?_)))))))))))))
    exact gt_transfer R.det hdet hd (by linear_combination T.x * c22 - T.z * c02) (by ring)
  · refine Or.inr (Or.inr (Or.inr (Or.inr (Or.inr (Or.inr (Or.inr (Or.inr (Or.inl ?_))))))))
    exact gt_transfer R.det hdet hd (by linear_combination T.y * c00 - T.x * c10) (by ring)
  · refine Or.inr (Or.inr (Or.inr (Or.inr (Or.inr (Or.inr (Or.inr (Or.inr (Or.inr (Or.inr (Or.inr (Or.inl ?_)))))))))))
    exact gt_transfer R.det hdet hd (by linear_combination T.y * c01 - T.x * c11) (by ring)
  · refine Or.inr (Or.inr (Or.inr (Or.inr (Or.inr (Or.inr (Or.inr (Or.inr (Or.inr (Or.inr (Or.inr (Or.inr (Or.inr (Or.inr (?_))))))))))))))
    exact gt_transfer R.det hdet hd (by linear_combination T.y * c02 - T.x * c12) (by ring)

/-! ## Symmetry of the overlap test -/

theorem overlap_eq (A B : OBB K) :
    A.overlap B = !obbDisjoint (relRotation A B) (relOffset A B) A.extent B.extent := rfl

theorem relRotation_swap (A B : OBB K) : relRotation B A = (relRotation A B).transpose := by
  simp only [relRotation, Matrix3.transpose, Matrix3.mul, Matrix3.row0, Matrix3.row1,
    Matrix3.row2, Matrix3.col0, Matrix3.col1, Matrix3.col2, Vector3.dot]
  ext <;> ring

theorem relOffset_swap (A B : OBB K) (hA : A.axis.IsOrthonormal) :
    relOffset B A = ((relRotation A B).transpose.mulVec (relOffset A B)).neg := by
  obtain ⟨g00, g11, g22, g01, g02, g12⟩ := isOrthonormal_transpose hA
  simp only [Matrix3.transpose, Matrix3.col0, Matrix3.col1, Matrix3.col2, Vector3.dot]
    at g00 g11 g22 g01 g02 g12
  simp only [relRotation, relOffset, Matrix3.transpose, Matrix3.mul, Matrix3.mulVec,
    Vector3.neg, Vector3.sub, Matrix3.row0, Matrix3.row1, Matrix3.row2, Matrix3.col0,
    Matrix3.col1, Matrix3.col2, Vector3.dot]
  ext
  · linear_combination B.axis.m00 * (B.To.x - A.To.x) * g00 + B.axis.m00 * (B.To.y - A.To.y) * g01 + B.axis.m00 * (B.To.z - A.To.z) * g02 + B.axis.m10 * (B.To.x - A.To.x) * g01 + B.axis.m10 * (B.To.y - A.To.y) * g11 + B.axis.m10 * (B.To.z - A.To.z) * g12 + B.axis.m20 * (B.To.x - A.To.x) * g02 + B.axis.m20 * (B.To.y - A.To.y) * g12 + B.axis.m20 * (B.To.z - A.To.z) * g22
  · linear_combination B.axis.m01 * (B.To.x - A.To.x) * g00 + B.axis.m01 * (B.To.y - A.To.y) * g01 + B.axis.m01 * (B.To.z - A.To.z) * g02 + B.axis.m11 * (B.To.x - A.To.x) * g01 + B.axis.m11 * (B.To.y - A.To.y) * g11 + B.axis.m11 * (B.To.z - A.To.z) * g12 + B.axis.m21 * (B.To.x - A.To.x) * g02 + B.axis.m21 * (B.To.y - A.To.y) * g12 + B.axis.m21 * (B.To.z - A.To.z) * g22
  · linear_combination B.axis.m02 * (B.To.x - A.To.x) * g00 + B.axis.m02 * (B.To.y - A.To.y) * g01 + B.axis.m02 * (B.To.z - A.To.z) * g02 + B.axis.m12 * (B.To.x - A.To.x) * g01 + B.axis.m12 * (B.To.y - A.To.y) * g11 + B.axis.m12 * (B.To.z - A.To.z) * g12 + B.axis.m22 * (B.To.x - A.To.x) * g02 + B.axis.m22 * (B.To.y - A.To.y) * g12 + B.axis.m22 * (B.To.z - A.To.z) * g22

theorem obbDisjoint_overlap_imp (A B : OBB K) (hA : A.axis.IsOrthonormal)
    (hB : B.axis.IsOrthonormal)
    (h : obbDisjoint (relRotation A B) (relOffset A B) A.extent B.extent = true) :
    obbDisjoint (relRotation B A) (relOffset B A) B.extent A.extent = true := by
  rw [relRotation_swap A B, relOffset_swap A B hA]
  apply obbDisjoint_swap_imp _ _ _ _ _ h
  rw [← relRotation_swap A B]
  exact isOrthonormal_relative hB hA

/-- Claim C1: for boxes with orthonormal axis frames the overlap test is
symmetric, `overlap(A, B) = overlap(B, A)`. -/
theorem overlap_comm (A B : OBB K) (hA : A.axis.IsOrthonormal) (hB : B.axis.IsOrthonormal) :
    A.overlap B = B.overlap A := by
  rw [overlap_eq, overlap_eq]
  congr 1
  rw [Bool.eq_iff_iff]
  exact ⟨obbDisjoint_overlap_imp A B hA hB, obbDisjoint_overlap_imp B A hB hA⟩

/-! ## Boxes that share a point -/

theorem abs_unit_mul_le {d x c : K} (hd : d * d = 1) (h : |x| ≤ c) : |d * x| ≤ c := by
  rw [abs_mul, abs_eq_one_of_mul_self hd, one_mul]
  exact h

theorem abs_neg_le {x c : K} (h : |x| ≤ c) : |-x| ≤ c := by
  rw [abs_neg]
  exact h

theorem abs_bound_one_three {l r : K} (u0 x1 u1 x2 u2 x3 u3 c0 c1 c2 c3 : K)
    (hl : l = u0 + x1 * u1 + x2 * u2 + x3 * u3)
    (h0 : |u0| ≤ c0) (h1 : |u1| ≤ c1) (h2 : |u2| ≤ c2) (h3 : |u3| ≤ c3)
    (hr : r = c0 + ((|x1| + 1 / 1000000) * c1 + (|x2| + 1 / 1000000) * c2 +
      (|x3| + 1 / 1000000) * c3)) : |l| ≤ r := by
  have b0 := abs_le.mp h0
  have b1 := abs_le.mp (abs_mul_le_bias x1 u1 c1 h1)
  have b2 := abs_le.mp (abs_mul_le_bias x2 u2 c2 h2)
  have b3 := abs_le.mp (abs_mul_le_bias x3 u3 c3 h3)
  rw [hl, hr]
  exact abs_le.mpr ⟨by linarith, by linarith⟩

theorem abs_bound_four {l r : K} (x1 u1 x2 u2 x3 u3 x4 u4 c1 c2 c3 c4 : K)
    (hl : l = x1 * u1 + x2 * u2 + x3 * u3 + x4 * u4)
    (h1 : |u1| ≤ c1) (h2 : |u2| ≤ c2) (h3 : |u3| ≤ c3) (h4 : |u4| ≤ c4)
    (hr : r = (|x1| + 1 / 1000000) * c1 + (|x2| + 1 / 1000000) * c2 +
      (|x3| + 1 / 1000000) * c3 + (|x4| + 1 / 1000000) * c4) : |l| ≤ r := by
  have b1 := abs_le.mp (abs_mul_le_bias x1 u1 c1 h1)
  have b2 := abs_le.mp (abs_mul_le_bias x2 u2 c2 h2)
  have b3 := abs_le.mp (abs_mul_le_bias x3 u3 c3 h3)
  have b4 := abs_le.mp (abs_mul_le_bias x4 u4 c4 h4)
  rw [hl, hr]
  exact abs_le.mpr ⟨by linarith, by linarith⟩

/-- When the offset `T` is `u - R v` for an orthonormal `R`, with `u` inside
the first box and `v` inside the second one (each in the frame of its box), no
test of `obbDisjoint` succeeds. -/
theorem obbDisjoint_common_point (R : Matrix3 K) (T a b u v : Vector3 K)
    (hrows : R.transpose.IsOrthonormal) (hcols : R.IsOrthonormal)
    (hT : T = u.sub (R.mulVec v))
    (hux : |u.x| ≤ a.x) (huy : |u.y| ≤ a.y) (huz : |u.z| ≤ a.z)
    (hvx : |v.x| ≤ b.x) (hvy : |v.y| ≤ b.y) (hvz : |v.z| ≤ b.z) :
    obbDisjoint R T a b = false := by
  obtain ⟨hdet, c00, c01, c02, c10, c11, c12, c20, c21, c22⟩ :=
    cofactor_of_orthonormal_rows R hrows
  obtain ⟨k00, k11, k22, k01, k02, k12⟩ := hcols
  simp only [Matrix3.col0, Matrix3.col1, Matrix3.col2, Vector3.dot] at k00 k11 k22 k01 k02 k12
  have hdn : (-R.det) * (-R.det) = 1 := by linear_combination hdet
  have hTx : T.x = u.x - (R.m00 * v.x + R.m01 * v.y + R.m02 * v.z) := by rw [hT]; rfl
  have hTy : T.y = u.y - (R.m10 * v.x + R.m11 * v.y + R.m12 * v.z) := by rw [hT]; rfl
  have hTz : T.z = u.z - (R.m20 * v.x + R.m21 * v.y + R.m22 * v.z) := by rw [hT]; rfl
  rw [obbDisjoint_eq_false_iff]
  refine ⟨?_, ?_, ?_, ?_, ?_, ?_, ?_, ?_, ?_, ?_, ?_, ?_, ?_, ?_, ?_⟩
  · exact abs_bound_one_three u.x R.m00 (-v.x) R.m01 (-v.y) R.m02 (-v.z)
      a.x b.x b.y b.z (by linear_combination hTx)
      hux (abs_neg_le hvx) (abs_neg_le hvy) (abs_neg_le hvz) (by ring)
  · exact abs_bound_one_three (-v.x) R.m00 u.x R.m10 u.y R.m20 u.z
      b.x a.x a.y a.z (by linear_combination R.m00 * hTx + R.m10 * hTy + R.m20 * hTz - v.x * k00 - v.y * k01 - v.z * k02)
      (abs_neg_le hvx) hux huy huz (by ring)
  · exact abs_bound_one_three u.y R.m10 (-v.x) R.m11 (-v.y) R.m12 (-v.z)
      a.y b.x b.y b.z (by linear_combination hTy)
      huy (abs_neg_le hvx) (abs_neg_le hvy) (abs_neg_le hvz) (by ring)
  · exact abs_bound_one_three u.z R.m20 (-v.x) R.m21 (-v.y) R.m22 (-v.z)
      a.z b.x b.y b.z (by linear_combination hTz)
      huz (abs_neg_le hvx) (abs_neg_le hvy) (abs_neg_le hvz) (by ring)
  · exact abs_bound_one_three (-v.y) R.m01 u.x R.m11 u.y R.m21 u.z
      b.y a.x a.y a.z (by linear_combination R.m01 * hTx + R.m11 * hTy + R.m21 * hTz - v.x * k01 - v.y * k11 - v.z * k12)
      (abs_neg_le hvy) hux huy huz (by ring)
  · exact abs_bound_one_three (-v.z) R.m02 u.x R.m12 u.y R.m22 u.z
      b.z a.x a.y a.z (by linear_combination R.m02 * hTx + R.m12 * hTy + R.m22 * hTz - v.x * k02 - v.y * k12 - v.z * k22)
      (abs_neg_le hvz) hux huy huz (by ring)
  · exact abs_bound_four R.m10 u.z R.m20 (-u.y) R.m02 (-R.det * v.y) R.m01 (R.det * v.z)
      a.z a.y b.y b.z (by linear_combination R.m10 * hTz - R.m20 * hTy - v.y * c02 + v.z * c01)
      huz (abs_neg_le huy) (abs_unit_mul_le hdn hvy) (abs_unit_mul_le hdet hvz) (by ring)
  · exact abs_bound_four R.m11 u.z R.m21 (-u.y) R.m00 (-R.det * v.z) R.m02 (R.det * v.x)
      a.z a.y b.z b.x (by linear_combination R.m11 * hTz - R.m21 * hTy - v.z * c00 + v.x * c02)
      huz (abs_neg_le huy) (abs_unit_mul_le hdn hvz) (abs_unit_mul_le hdet hvx) (by ring)
  · exact abs_bound_four R.m12 u.z R.m22 (-u.y) R.m01 (-R.det * v.x) R.m00 (R.det * v.y)
      a.z a.y b.x b.y (by linear_combination R.m12 * hTz - R.m22 * hTy - v.x * c01 + v.y * c00)
      huz (abs_neg_le huy) (abs_unit_mul_le hdn hvx) (abs_unit_mul_le hdet hvy) (by ring)
  · exact abs_bound_four R.m20 u.x R.m00 (-u.z) R.m12 (-R.det * v.y) R.m11 (R.det * v.z)
      a.x a.z b.y b.z (by linear_combination R.m20 * hTx - R.m00 * hTz - v.y * c12 + v.z * c11)
      hux (abs_neg_le huz) (abs_unit_mul_le hdn hvy) (abs_unit_mul_le hdet hvz) (by ring)
  · exact abs_bound_four R.m21 u.x R.m01 (-u.z) R.m10 (-R.det * v.z) R.m12 (R.det * v.x)
      a.x a.z b.z b.x (by linear_combination R.m21 * hTx - R.m01 * hTz - v.z * c10 + v.x * c12)
      hux (abs_neg_le huz) (abs_unit_mul_le hdn hvz) (abs_unit_mul_le hdet hvx) (by ring)
  · exact abs_bound_four R.m22 u.x R.m02 (-u.z) R.m11 (-R.det * v.x) R.m10 (R.det * v.y)
      a.x a.z b.x b.y (by linear_combination R.m22 * hTx - R.m02 * hTz - v.x * c11 + v.y * c10)
      hux (abs_neg_le huz) (abs_unit_mul_le hdn hvx) (abs_unit_mul_le hdet hvy) (by ring)
  · exact abs_bound_four R.m00 u.y R.m10 (-u.x) R.m22 (-R.det * v.y) R.m21 (R.det * v.z)
      a.y a.x b.y b.z (by linear_combination R.m00 * hTy - R.m10 * hTx - v.y * c22 + v.z * c21)
      huy (abs_neg_le hux) (abs_unit_mul_le hdn hvy) (abs_unit_mul_le hdet hvz) (by ring)
  · exact abs_bound_four R.m01 u.y R.m11 (-u.x) R.m20 (-R.det * v.z) R.m22 (R.det * v.x)
      a.y a.x b.z b.x (by linear_combination R.m01 * hTy - R.m11 * hTx - v.z * c20 + v.x * c22)
      huy (abs_neg_le hux) (abs_unit_mul_le hdn hvz) (abs_unit_mul_le hdet hvx) (by ring)
  · exact abs_bound_four R.m02 u.y R.m12 (-u.x) R.m21 (-R.det * v.x) R.m20 (R.det * v.y)
      a.y a.x b.x b.y (by linear_combination R.m02 * hTy - R.m12 * hTx - v.x * c21 + v.y * c20)
      huy (abs_neg_le hux) (abs_unit_mul_le hdn hvx) (abs_unit_mul_le hdet hvy) (by ring)

/-- Two boxes with orthonormal frames that contain a common point pass none
of the fifteen tests. -/
theorem overlap_eq_true_of_contain (A B : OBB K) (hA : A.axis.IsOrthonormal)
    (hB : B.axis.IsOrthonormal) (p : Vector3 K) (hpA : A.contain p = true)
    (hpB : B.contain p = true) : A.overlap B = true := by
  rw [contain_eq_true_iff] at hpA hpB
  obtain ⟨hux, huy, huz⟩ := hpA
  obtain ⟨hvx, hvy, hvz⟩ := hpB
  obtain ⟨g00, g11, g22, g01, g02, g12⟩ := isOrthonormal_transpose hB
  simp only [Matrix3.transpose, Matrix3.col0, Matrix3.col1, Matrix3.col2, Vector3.dot]
    at g00 g11 g22 g01 g02 g12
  have hR := isOrthonormal_relative hA hB
  have hRt := isOrthonormal_relative hB hA
  rw [show B.axis.transpose.mul A.axis = (relRotation A B).transpose from
    relRotation_swap A B] at hRt
  have hT : relOffset A B =
      (⟨(p.sub A.To).dot A.axis.col0, (p.sub A.To).dot A.axis.col1,
        (p.sub A.To).dot A.axis.col2⟩ : Vector3 K).sub
      ((relRotation A B).mulVec ⟨(p.sub B.To).dot B.axis.col0, (p.sub B.To).dot B.axis.col1,
        (p.sub B.To).dot B.axis.col2⟩) := by
    simp only [relRotation, relOffset, Matrix3.transpose, Matrix3.mul, Matrix3.mulVec,
      Vector3.sub, Matrix3.row0, Matrix3.row1, Matrix3.row2, Matrix3.col0,
      Matrix3.col1, Matrix3.col2, Vector3.dot]
    ext
    · linear_combination A.axis.m00 * (p.x - B.To.x) * g00 + A.axis.m00 * (p.y - B.To.y) * g01 + A.axis.m00 * (p.z - B.To.z) * g02 + A.axis.m10 * (p.x - B.To.x) * g01 + A.axis.m10 * (p.y - B.To.y) * g11 + A.axis.m10 * (p.z - B.To.z) * g12 + A.axis.m20 * (p.x - B.To.x) * g02 + A.axis.m20 * (p.y - B.To.y) * g12 + A.axis.m20 * (p.z - B.To.z) * g22
    · linear_combination A.axis.m01 * (p.x - B.To.x) * g00 + A.axis.m01 * (p.y - B.To.y) * g01 + A.axis.m01 * (p.z - B.To.z) * g02 + A.axis.m11 * (p.x - B.To.x) * g01 + A.axis.m11 * (p.y - B.To.y) * g11 + A.axis.m11 * (p.z - B.To.z) * g12 + A.axis.m21 * (p.x - B.To.x) * g02 + A.axis.m21 * (p.y - B.To.y) * g12 + A.axis.m21 * (p.z - B.To.z) * g22
    · linear_combination A.axis.m02 * (p.x - B.To.x) * g00 + A.axis.m02 * (p.y - B.To.y) * g01 + A.axis.m02 * (p.z - B.To.z) * g02 + A.axis.m12 * (p.x - B.To.x) * g01 + A.axis.m12 * (p.y - B.To.y) * g11 + A.axis.m12 * (p.z - B.To.z) * g12 + A.axis.m22 * (p.x - B.To.x) * g02 + A.axis.m22 * (p.y - B.To.y) * g12 + A.axis.m22 * (p.z - B.To.z) * g22
  rw [overlap_eq, obbDisjoint_common_point _ _ _ _ _ _ hRt hR hT hux huy huz hvx hvy hvz]
  rfl

/-- Claim C5 as amended: in exact arithmetic, two boxes with orthonormal axis
frames that both contain some point `p` are reported as overlapping. -/
theorem overlap_of_common_point (A B : OBB K) (hA : A.axis.IsOrthonormal)
    (hB : B.axis.IsOrthonormal) (p : Vector3 K) (hpA : A.contain p = true)
    (hpB : B.contain p = true) : A.overlap B = true :=
  overlap_eq_true_of_contain A B hA hB p hpA hpB

/-! ## Instances of the symmetric and of the common-point properties -/

theorem sampleA_orthonormal : (sampleA : OBB ℚ).axis.IsOrthonormal := by
  norm_num [Matrix3.IsOrthonormal, sampleA, Matrix3.col0, Matrix3.col1, Matrix3.col2,
    Vector3.dot]

theorem sampleB_orthonormal : (sampleB : OBB ℚ).axis.IsOrthonormal := by
  norm_num [Matrix3.IsOrthonormal, sampleB, Matrix3.col0, Matrix3.col1, Matrix3.col2,
    Vector3.dot]

/-- The symmetry of claim C1 at the two sample boxes. -/
theorem overlap_comm_witness :
    (sampleA : OBB ℚ).axis.IsOrthonormal ∧ (sampleB : OBB ℚ).axis.IsOrthonormal ∧
      (sampleA : OBB ℚ).overlap sampleB = (sampleB : OBB ℚ).overlap sampleA :=
  ⟨sampleA_orthonormal, sampleB_orthonormal,
    overlap_comm sampleA sampleB sampleA_orthonormal sampleB_orthonormal⟩

/-- The self-overlap of claim C2 at the unit sample box. -/
theorem overlap_self_witness :
    (0 : ℚ) ≤ (sampleA : OBB ℚ).extent.x ∧ (0 : ℚ) ≤ (sampleA : OBB ℚ).extent.y ∧
      (0 : ℚ) ≤ (sampleA : OBB ℚ).extent.z ∧ (sampleA : OBB ℚ).overlap sampleA = true :=
  ⟨by norm_num [sampleA], by norm_num [sampleA], by norm_num [sampleA],
    overlap_self sampleA (by norm_num [sampleA]) (by norm_num [sampleA])
      (by norm_num [sampleA])⟩

theorem sampleA_contain_origin : (sampleA : OBB ℚ).contain ⟨0, 0, 0⟩ = true := by
  norm_num [OBB.contain, sampleA, Matrix3.col0, Matrix3.col1, Matrix3.col2, Vector3.dot,
    Vector3.sub]

theorem sampleB_contain_origin : (sampleB : OBB ℚ).contain ⟨0, 0, 0⟩ = true := by
  norm_num [OBB.contain, sampleB, Matrix3.col0, Matrix3.col1, Matrix3.col2, Vector3.dot,
    Vector3.sub]

/-- The property of claim C5 at the two sample boxes, which share the origin. -/
theorem overlap_of_common_point_witness :
    (sampleA : OBB ℚ).axis.IsOrthonormal ∧ (sampleB : OBB ℚ).axis.IsOrthonormal ∧
      (sampleA : OBB ℚ).contain ⟨0, 0, 0⟩ = true ∧ (sampleB : OBB ℚ).contain ⟨0, 0, 0⟩ = true ∧
      (sampleA : OBB ℚ).overlap sampleB = true :=
  ⟨sampleA_orthonormal, sampleB_orthonormal, sampleA_contain_origin, sampleB_contain_origin,
    overlap_of_common_point sampleA sampleB sampleA_orthonormal sampleB_orthonormal ⟨0, 0, 0⟩
      sampleA_contain_origin sampleB_contain_origin⟩

/-! ## Merging: the choice of the strategy and the incremental forms -/

/-- Claim C8: `A + B` is the result of `merge_largedist` when the distance of
the two centres is strictly greater than twice the sum of the largest
half-extents of the two boxes, and the result of `merge_smalldist` otherwise,
equality of the distance and the threshold included. -/
theorem add_dispatch (sqrt : K → K) (real_max : K) (G : GeometryRoutines K) (A B : OBB K) :
    ((A.To.sub B.To).norm sqrt >
        2 * (max (max A.extent.x A.extent.y) A.extent.z +
          max (max B.extent.x B.extent.y) B.extent.z) →
      A.add sqrt real_max G B = merge_largedist sqrt G A B) ∧
    ((A.To.sub B.To).norm sqrt ≤
        2 * (max (max A.extent.x A.extent.y) A.extent.z +
          max (max B.extent.x B.extent.y) B.extent.z) →
      A.add sqrt real_max G B = merge_smalldist sqrt real_max A B) := by
  constructor
  · intro h
    exact if_pos h
  · intro h
    exact if_neg (not_lt.mpr h)

theorem sqrt_64 : Real.sqrt 64 = 8 := by
  rw [show (64 : ℝ) = 8 ^ 2 by norm_num]
  exact Real.sqrt_sq (by norm_num)

theorem sqrt_16 : Real.sqrt 16 = 4 := by
  rw [show (16 : ℝ) = 4 ^ 2 by norm_num]
  exact Real.sqrt_sq (by norm_num)

/-- Both strategies of claim C8 are taken: at distance `8` of the centres
(threshold `4`) the far-apart one, at distance `4` the close one. -/
theorem add_dispatch_witness (G : GeometryRoutines ℝ) :
    OBB.add Real.sqrt maxDouble G sampleA sampleFar =
        merge_largedist Real.sqrt G sampleA sampleFar ∧
      OBB.add Real.sqrt maxDouble G sampleA sampleEdge =
        merge_smalldist Real.sqrt maxDouble sampleA sampleEdge := by
  constructor
  · apply (add_dispatch Real.sqrt maxDouble G sampleA sampleFar).1
    have e : ((0 : ℝ) - 8) * (0 - 8) + (0 - 0) * (0 - 0) + (0 - 0) * (0 - 0) = 64 := by norm_num
    simp only [sampleA, sampleFar, Vector3.norm, Vector3.squaredNorm, Vector3.dot, Vector3.sub,
      e, sqrt_64]
    norm_num
  · apply (add_dispatch Real.sqrt maxDouble G sampleA sampleEdge).2
    have e : ((0 : ℝ) - 4) * (0 - 4) + (0 - 0) * (0 - 0) + (0 - 0) * (0 - 0) = 16 := by norm_num
    simp only [sampleA, sampleEdge, Vector3.norm, Vector3.squaredNorm, Vector3.dot, Vector3.sub,
      e, sqrt_16]
    norm_num

/-- Claim C9: after `A += B` the box is `A + B`, and after `A += p` it is
`A + D` for the box `D` centred at `p` with zero half-extents and the frame of
`A`. -/
theorem addAssign_eq_add (sqrt : K → K) (real_max : K) (G : GeometryRoutines K) (A B : OBB K)
    (p : Vector3 K) :
    A.addAssign sqrt real_max G B = A.add sqrt real_max G B ∧
      A.addAssignPoint sqrt real_max G p = A.add sqrt real_max G ⟨A.axis, p, Vector3.zero⟩ :=
  ⟨rfl, rfl⟩

/-! ## The close strategy on the two sample boxes -/

theorem sqrt_81_25 : Real.sqrt (81 / 25) = 9 / 5 := by
  rw [show (81 / 25 : ℝ) = (9 / 5) ^ 2 by norm_num]
  exact Real.sqrt_sq (by norm_num)

theorem sampleA_quaternion :
    Quaternion.ofMatrix Real.sqrt (sampleA : OBB ℝ).axis = ⟨9 / 10, -1 / 10, 3 / 10, -3 / 10⟩ := by
  have e : (16 / 25 + 4 / 5 + 4 / 5 + 1 : ℝ) = 81 / 25 := by norm_num
  simp only [Quaternion.ofMatrix, sampleA, Matrix3.trace, e, sqrt_81_25]
  norm_num

theorem sampleB_quaternion :
    Quaternion.ofMatrix Real.sqrt (sampleB : OBB ℝ).axis = ⟨9 / 10, 1 / 10, -3 / 10, 3 / 10⟩ := by
  have e : (16 / 25 + 4 / 5 + 4 / 5 + 1 : ℝ) = 81 / 25 := by norm_num
  simp only [Quaternion.ofMatrix, sampleB, Matrix3.trace, e, sqrt_81_25]
  norm_num

/-- The two sample frames are inverse rotations: their average is the identity. -/
theorem sample_smalldistAxis :
    smalldistAxis Real.sqrt (sampleA : OBB ℝ) sampleB = Matrix3.identity := by
  have e : (9 / 10 + 9 / 10 : ℝ) * (9 / 10 + 9 / 10) = 81 / 25 := by norm_num
  simp only [smalldistAxis, sampleA_quaternion, sampleB_quaternion, Quaternion.dot,
    Quaternion.neg, Quaternion.add, Quaternion.normalize, Quaternion.toRotationMatrix,
    Matrix3.identity]
  norm_num [e, sqrt_81_25]

theorem sampleA_vertices : computeVertices (sampleA : OBB ℝ) =
    [⟨-43 / 25, -1 / 5, 1 / 25⟩, ⟨-11 / 25, -7 / 5, -23 / 25⟩, ⟨13 / 25, 1 / 5, -41 / 25⟩,
     ⟨-19 / 25, 7 / 5, -17 / 25⟩, ⟨-13 / 25, -1 / 5, 41 / 25⟩, ⟨19 / 25, -7 / 5, 17 / 25⟩,
     ⟨43 / 25, 1 / 5, -1 / 25⟩, ⟨11 / 25, 7 / 5, 23 / 25⟩] := by
  simp only [computeVertices, sampleA, Matrix3.col0, Matrix3.col1, Matrix3.col2, Vector3.smul,
    Vector3.add, Vector3.sub]
  norm_num

theorem sampleB_vertices : computeVertices (sampleB : OBB ℝ) =
    [⟨11 / 250, -23 / 250, -7 / 50⟩, ⟨43 / 250, 1 / 250, -1 / 50⟩,
     ⟨13 / 250, 41 / 250, -1 / 50⟩, ⟨-19 / 250, 17 / 250, -7 / 50⟩,
     ⟨-13 / 250, -41 / 250, 1 / 50⟩, ⟨19 / 250, -17 / 250, 7 / 50⟩,
     ⟨-11 / 250, 23 / 250, 7 / 50⟩, ⟨-43 / 250, -1 / 250, 1 / 50⟩] := by
  simp only [computeVertices, sampleB, Matrix3.col0, Matrix3.col1, Matrix3.col2, Vector3.smul,
    Vector3.add, Vector3.sub]
  norm_num

theorem sample_smalldistMidpoint :
    smalldistMidpoint (sampleA : OBB ℝ) sampleB = ⟨0, 0, 0⟩ := by
  simp [smalldistMidpoint, sampleA, sampleB, Vector3.add, Vector3.smul]

/-- The first vertex of `sampleA` has the least projection on the first new
axis, `-43/25`, and is never recorded in `pmin`: the tracked value is `-19/25`. -/
theorem sample_smalldistMinMax :
    smalldistMinMax Real.sqrt maxDouble (sampleA : OBB ℝ) sampleB =
      (⟨43 / 25, 7 / 5, 41 / 25⟩, ⟨-19 / 25, -7 / 5, -41 / 25⟩) := by
  rw [smalldistMinMax]
  simp only [sample_smalldistAxis, sampleA_vertices, sampleB_vertices, sample_smalldistMidpoint]
  simp only [List.foldl_cons, List.foldl_nil, minmaxStep, trackMinMax, Matrix3.identity,
    Matrix3.col0, Matrix3.col1, Matrix3.col2, Vector3.sub, Vector3.dot, maxDouble]
  norm_num

theorem sample_merge_smalldist :
    merge_smalldist Real.sqrt maxDouble (sampleA : OBB ℝ) sampleB =
      ⟨Matrix3.identity, ⟨12 / 25, 0, 0⟩, ⟨31 / 25, 7 / 5, 41 / 25⟩⟩ := by
  rw [merge_smalldist]
  simp only [sample_smalldistAxis, sample_smalldistMinMax, sample_smalldistMidpoint]
  simp only [Matrix3.identity, Matrix3.col0, Matrix3.col1, Matrix3.col2, Vector3.add,
    Vector3.smul]
  norm_num

theorem sample_add (G : GeometryRoutines ℝ) :
    OBB.add Real.sqrt maxDouble G sampleA sampleB =
      merge_smalldist Real.sqrt maxDouble sampleA sampleB := by
  rw [OBB.add]
  have h : ¬ ((sampleA : OBB ℝ).To.sub (sampleB : OBB ℝ).To).norm Real.sqrt >
      2 * (max (max (sampleA : OBB ℝ).extent.x (sampleA : OBB ℝ).extent.y)
        (sampleA : OBB ℝ).extent.z +
        max (max (sampleB : OBB ℝ).extent.x (sampleB : OBB ℝ).extent.y)
        (sampleB : OBB ℝ).extent.z) := by
    simp only [sampleA, sampleB, Vector3.norm, Vector3.squaredNorm, Vector3.dot, Vector3.sub]
    norm_num
  exact if_neg h

/-- Claim C4 fails on the code: the two sample boxes have orthonormal frames
and positive half-extents, the point `(-43/25, -1/5, 1/25)` is the first corner
vertex that `computeVertices` gives for `sampleA`, and the merged box
`sampleA + sampleB` does not contain it. -/
theorem merge_misses_first_vertex (G : GeometryRoutines ℝ) :
    (sampleA : OBB ℝ).axis.IsOrthonormal ∧ (sampleB : OBB ℝ).axis.IsOrthonormal ∧
      (computeVertices (sampleA : OBB ℝ)).head? = some ⟨-43 / 25, -1 / 5, 1 / 25⟩ ∧
      (OBB.add Real.sqrt maxDouble G sampleA sampleB).contain ⟨-43 / 25, -1 / 5, 1 / 25⟩
        = false := by
  refine ⟨?_, ?_, ?_, ?_⟩
  · norm_num [Matrix3.IsOrthonormal, sampleA, Matrix3.col0, Matrix3.col1, Matrix3.col2,
      Vector3.dot]
  · norm_num [Matrix3.IsOrthonormal, sampleB, Matrix3.col0, Matrix3.col1, Matrix3.col2,
      Vector3.dot]
  · rw [sampleA_vertices]
    rfl
  · rw [sample_add, sample_merge_smalldist]
    simp only [OBB.contain, Matrix3.identity, Matrix3.col0, Matrix3.col1, Matrix3.col2,
      Vector3.sub, Vector3.dot]
    norm_num

/-- Claim C10 fails on the code: on the first new axis of
`merge_smalldist(sampleA, sampleB)` the projections of the sixteen corner
vertices range from `-43/25` to `43/25`, so the tight fit has half-extent
`43/25` and keeps the midpoint as centre, but the returned half-extent is
`31/25` and the returned centre is moved by `12/25` along that axis. -/
theorem smalldist_not_tight :
    projMin (smalldistAxis Real.sqrt (sampleA : OBB ℝ) sampleB).col0
        (smalldistMidpoint (sampleA : OBB ℝ) sampleB)
        (computeVertices (sampleA : OBB ℝ) ++ computeVertices sampleB) = -43 / 25 ∧
      projMax (smalldistAxis Real.sqrt (sampleA : OBB ℝ) sampleB).col0
        (smalldistMidpoint (sampleA : OBB ℝ) sampleB)
        (computeVertices (sampleA : OBB ℝ) ++ computeVertices sampleB) = 43 / 25 ∧
      (merge_smalldist Real.sqrt maxDouble (sampleA : OBB ℝ) sampleB).extent.x = 31 / 25 ∧
      (merge_smalldist Real.sqrt maxDouble (sampleA : OBB ℝ) sampleB).To =
        (smalldistMidpoint (sampleA : OBB ℝ) sampleB).add
          ((smalldistAxis Real.sqrt (sampleA : OBB ℝ) sampleB).col0.smul (12 / 25)) := by
  rw [sample_merge_smalldist, sample_smalldistAxis, sample_smalldistMidpoint, sampleA_vertices,
    sampleB_vertices]
  simp only [projMin, projMax, List.cons_append, List.nil_append, List.foldl_cons,
    List.foldl_nil, Matrix3.identity, Matrix3.col0, Vector3.sub, Vector3.dot, Vector3.add,
    Vector3.smul]
  norm_num

/-! ## The fifteen comparisons by axis -/

theorem exists_fin_three_iff (P : Fin 3 → Prop) : (∃ i, P i) ↔ P 0 ∨ P 1 ∨ P 2 := by
  constructor
  · rintro ⟨i, h⟩
    fin_cases i
    · exact Or.inl h
    · exact Or.inr (Or.inl h)
    · exact Or.inr (Or.inr h)
  · rintro (h | h | h)
    · exact ⟨0, h⟩
    · exact ⟨1, h⟩
    · exact ⟨2, h⟩

/-- The answer of `obbDisjoint` in terms of the candidate axes taken by index. -/
theorem obbDisjoint_iff_exists_axis (B : Matrix3 K) (T a b : Vector3 K) :
    obbDisjoint B T a b = true ↔
      (∃ i, separatesOnAxisA B T a b i) ∨ (∃ j, separatesOnAxisB B T a b j) ∨
        ∃ i j, separatesOnCross B T a b i j := by
  have f01 : (0 : Fin 3) + 1 = 1 := rfl
  have f02 : (0 : Fin 3) + 2 = 2 := rfl
  have f11 : (1 : Fin 3) + 1 = 2 := rfl
  have f12 : (1 : Fin 3) + 2 = 0 := rfl
  have f21 : (2 : Fin 3) + 1 = 0 := rfl
  have f22 : (2 : Fin 3) + 2 = 1 := rfl
  rw [obbDisjoint_eq_true_iff]
  simp only [exists_fin_three_iff, separatesOnAxisA, separatesOnAxisB, separatesOnCross, biased,
    f01, f02, f11, f12, f21, f22, Matrix3.coeff, Matrix3.row, Matrix3.row0, Matrix3.row1,
    Matrix3.row2, Vector3.get, or_assoc]
  constructor
  · rintro (h | h | h | h | h | h | h | h | h | h | h | h | h | h | h)
    · exact Or.inl (by linarith)
    · exact Or.inr (Or.inr (Or.inr (Or.inl (by linarith))))
    · exact Or.inr (Or.inl (by linarith))
    · exact Or.inr (Or.inr (Or.inl (by linarith)))
    · exact Or.inr (Or.inr (Or.inr (Or.inr (Or.inl (by linarith)))))
    · exact Or.inr (Or.inr (Or.inr (Or.inr (Or.inr (Or.inl (by linarith))))))
    · exact Or.inr (Or.inr (Or.inr (Or.inr (Or.inr (Or.inr (Or.inl (by linarith)))))))
    · exact Or.inr (Or.inr (Or.inr (Or.inr (Or.inr (Or.inr (Or.inr (Or.inl (by linarith))))))))
    · exact Or.inr (Or.inr (Or.inr (Or.inr (Or.inr (Or.inr (Or.inr (Or.inr (Or.inl (by linarith)))))))))
    · exact Or.inr (Or.inr (Or.inr (Or.inr (Or.inr (Or.inr (Or.inr (Or.inr (Or.inr (Or.inl (by linarith))))))))))
    · exact Or.inr (Or.inr (Or.inr (Or.inr (Or.inr (Or.inr (Or.inr (Or.inr (Or.inr (Or.inr (Or.inl (by linarith)))))))))))
    · exact Or.inr (Or.inr (Or.inr (Or.inr (Or.inr (Or.inr (Or.inr (Or.inr (Or.inr (Or.inr (Or.inr (Or.inl (by linarith))))))))))))
    · exact Or.inr (Or.inr (Or.inr (Or.inr (Or.inr (Or.inr (Or.inr (Or.inr (Or.inr (Or.inr (Or.inr (Or.inr (Or.inl (by linarith)))))))))))))
    · exact Or.inr (Or.inr (Or.inr (Or.inr (Or.inr (Or.inr (Or.inr (Or.inr (Or.inr (Or.inr (Or.inr (Or.inr (Or.inr (Or.inl (by linarith))))))))))))))
    · exact Or.inr (Or.inr (Or.inr (Or.inr (Or.inr (Or.inr (Or.inr (Or.inr (Or.inr (Or.inr (Or.inr (Or.inr (Or.inr (Or.inr (by linarith))))))))))))))
  · rintro (h | h | h | h | h | h | h | h | h | h | h | h | h | h | h)
    · exact Or.inl (by linarith)
    · exact Or.inr (Or.inr (Or.inl (by linarith)))
    · exact Or.inr (Or.inr (Or.inr (Or.inl (by linarith))))
    · exact Or.inr (Or.inl (by linarith))
    · exact Or.inr (Or.inr (Or.inr (Or.inr (Or.inl (by linarith)))))
    · exact Or.inr (Or.inr (Or.inr (Or.inr (Or.inr (Or.inl (by linarith))))))
    · exact Or.inr (Or.inr (Or.inr (Or.inr (Or.inr (Or.inr (Or.inl (by linarith)))))))
    · exact Or.inr (Or.inr (Or.inr (Or.inr (Or.inr (Or.inr (Or.inr (Or.inl (by linarith))))))))
    · exact Or.inr (Or.inr (Or.inr (Or.inr (Or.inr (Or.inr (Or.inr (Or.inr (Or.inl (by linarith)))))))))
    · exact Or.inr (Or.inr (Or.inr (Or.inr (Or.inr (Or.inr (Or.inr (Or.inr (Or.inr (Or.inl (by linarith))))))))))
    · exact Or.inr (Or.inr (Or.inr (Or.inr (Or.inr (Or.inr (Or.inr (Or.inr (Or.inr (Or.inr (Or.inl (by linarith)))))))))))
    · exact Or.inr (Or.inr (Or.inr (Or.inr (Or.inr (Or.inr (Or.inr (Or.inr (Or.inr (Or.inr (Or.inr (Or.inl (by linarith))))))))))))
    · exact Or.inr (Or.inr (Or.inr (Or.inr (Or.inr (Or.inr (Or.inr (Or.inr (Or.inr (Or.inr (Or.inr (Or.inr (Or.inl (by linarith)))))))))))))
    · exact Or.inr (Or.inr (Or.inr (Or.inr (Or.inr (Or.inr (Or.inr (Or.inr (Or.inr (Or.inr (Or.inr (Or.inr (Or.inr (Or.inl (by linarith))))))))))))))
    · exact Or.inr (Or.inr (Or.inr (Or.inr (Or.inr (Or.inr (Or.inr (Or.inr (Or.inr (Or.inr (Or.inr (Or.inr (Or.inr (Or.inr (by linarith))))))))))))))

theorem axisTests_any (B : Matrix3 K) (T a b : Vector3 K) :
    (axisTests B T a b).any id = obbDisjoint B T a b := by
  rw [Bool.eq_iff_iff, obbDisjoint_iff_exists_axis, List.any_eq_true]
  simp only [axisTests, List.mem_append, List.mem_map, List.mem_flatMap, List.mem_finRange,
    true_and, id]
  constructor
  · rintro ⟨x, (⟨i, hi⟩ | ⟨j, hj⟩) | ⟨i, j, hij⟩, hx⟩
    · subst hi
      exact Or.inl ⟨i, of_decide_eq_true hx⟩
    · subst hj
      exact Or.inr (Or.inl ⟨j, of_decide_eq_true hx⟩)
    · subst hij
      exact Or.inr (Or.inr ⟨i, j, of_decide_eq_true hx⟩)
  · rintro (⟨i, h⟩ | ⟨j, h⟩ | ⟨i, j, h⟩)
    · exact ⟨true, Or.inl (Or.inl ⟨i, decide_eq_true h⟩), rfl⟩
    · exact ⟨true, Or.inl (Or.inr ⟨j, decide_eq_true h⟩), rfl⟩
    · exact ⟨true, Or.inr ⟨i, j, decide_eq_true h⟩, rfl⟩

/-- Claim C18: `obbDisjoint(B, T, a, b)` is `true` exactly when one of the
fifteen inequalities `|L·T| > r_a(L) + r_b(L)` holds, for `L` among the three
axes of the first box, the three axes of the second box and the nine cross
products, the radii being taken with `|B| + 1e-6` in every coefficient; and
the fifteen comparisons give the same answer in whatever order they are tried. -/
theorem obbDisjoint_iff_some_axis_separates (B : Matrix3 K) (T a b : Vector3 K) :
    (obbDisjoint B T a b = true ↔
      (∃ i, separatesOnAxisA B T a b i) ∨ (∃ j, separatesOnAxisB B T a b j) ∨
        ∃ i j, separatesOnCross B T a b i j) ∧
    ∀ order : List Bool, order.Perm (axisTests B T a b) →
      order.any id = obbDisjoint B T a b := by
  refine ⟨obbDisjoint_iff_exists_axis B T a b, fun order h => ?_⟩
  rw [← axisTests_any, Bool.eq_iff_iff, List.any_eq_true, List.any_eq_true]
  constructor
  · rintro ⟨x, hx, h1⟩
    exact ⟨x, h.mem_iff.mp hx, h1⟩
  · rintro ⟨x, hx, h1⟩
    exact ⟨x, h.mem_iff.mpr hx, h1⟩

/-! ## The distance query -/

/-- Claim C11: for every pair of boxes and every state of the two
out-pointers, `distance` returns the value `0`, whatever its arguments, and
leaves what the out-pointers refer to as it was. -/
theorem distance_sentinel (A B : OBB K) (P Q : Option (Vector3 K)) :
    (A.distance B P Q).value = 0 ∧ (A.distance B P Q).P = P ∧ (A.distance B P Q).Q = Q :=
  ⟨rfl, rfl, rfl⟩

/-! ## The choice of the eigenvectors in the far-apart strategy -/

/-- Claim C20: the indices `(min, mid, max)` chosen from the eigenvalues `s`
are three different indices with `s[min] ≤ s[mid] ≤ s[max]`; the second axis
of the merged box is the row `max` of the eigenvector matrix, the third axis
the row `mid`, and `min` plays no part in the merged box. -/
theorem eigenOrder_sorted (sqrt : K → K) (G : GeometryRoutines K) (b1 b2 : OBB K)
    (s : Vector3 K) :
    ((eigenOrder s).1 ≠ (eigenOrder s).2.1 ∧ (eigenOrder s).2.1 ≠ (eigenOrder s).2.2 ∧
      (eigenOrder s).1 ≠ (eigenOrder s).2.2) ∧
    (s.get (eigenOrder s).1 ≤ s.get (eigenOrder s).2.1 ∧
      s.get (eigenOrder s).2.1 ≤ s.get (eigenOrder s).2.2) ∧
    (merge_largedist sqrt G b1 b2).axis =
      Matrix3.ofCols ((b1.To.sub b2.To).normalize sqrt)
        ((largedistEigen sqrt G b1 b2).2.row (eigenOrder (largedistEigen sqrt G b1 b2).1).2.2)
        ((largedistEigen sqrt G b1 b2).2.row (eigenOrder (largedistEigen sqrt G b1 b2).1).2.1) ∧
    (merge_largedist sqrt G b1 b2).To =
      (G.getExtentAndCenter (computeVertices b1 ++ computeVertices b2)
        (merge_largedist sqrt G b1 b2).axis).1 ∧
    (merge_largedist sqrt G b1 b2).extent =
      (G.getExtentAndCenter (computeVertices b1 ++ computeVertices b2)
        (merge_largedist sqrt G b1 b2).axis).2 := by
  refine ⟨?_, ?_, rfl, rfl, rfl⟩
  · simp only [eigenOrder]
    split_ifs <;> decide
  · simp only [eigenOrder]
    split_ifs <;> simp only [Vector3.get] at * <;> constructor <;> linarith

/-! ## The order on contacts -/

theorem StrictWeakWith.isStrictWeakOrder {α : Type} {r : α → α → Bool} {E : α → α → Prop}
    (h : StrictWeakWith r E) : IsStrictWeakOrder r := by
  refine ⟨h.irrefl, ?_, h.trans, ?_⟩
  · intro a b hab
    by_contra hba
    have hba2 : r b a = true := by simpa using hba
    have := h.trans a b a hab hba2
    rw [h.irrefl a] at this
    exact Bool.noConfusion this
  · intro a b c hab hbc
    exact (h.incomp a c).mpr (h.etrans a b c ((h.incomp a b).mp hab) ((h.incomp b c).mp hbc))

/-- One more key in front of a lexicographic comparison keeps it a strict
weak order. -/
theorem StrictWeakWith.step {α β : Type} [LinearOrder β] (k : α → β) {r : α → α → Bool}
    {E : α → α → Prop} (h : StrictWeakWith r E) :
    StrictWeakWith (fun a b => if k a = k b then r a b else decide (k a < k b))
      (fun a b => k a = k b ∧ E a b) := by
  constructor
  · intro a
    simp only [if_true]
    exact h.irrefl a
  · intro a b c hab hbc
    simp only at hab hbc ⊢
    by_cases e1 : k a = k b
    · by_cases e2 : k b = k c
      · rw [if_pos e1] at hab
        rw [if_pos e2] at hbc
        rw [if_pos (e1.trans e2)]
        exact h.trans a b c hab hbc
      · rw [if_neg e2] at hbc
        rw [if_neg (by rw [e1]; exact e2)]
        rw [e1]
        exact hbc
    · rw [if_neg e1] at hab
      have l1 : k a < k b := of_decide_eq_true hab
      by_cases e2 : k b = k c
      · rw [if_neg (by rw [← e2]; exact e1)]
        rw [← e2]
        exact hab
      · rw [if_neg e2] at hbc
        have l2 : k b < k c := of_decide_eq_true hbc
        have l3 : k a < k c := lt_trans l1 l2
        rw [if_neg (ne_of_lt l3)]
        exact decide_eq_true l3
  · intro a b
    by_cases e1 : k a = k b
    · rw [if_pos e1, if_pos e1.symm, h.incomp a b]
      exact ⟨fun hE => ⟨e1, hE⟩, fun hE => hE.2⟩
    · rw [if_neg e1, if_neg (Ne.symm e1)]
      constructor
      · rintro ⟨h1, h2⟩
        exfalso
        have n1 : ¬ k a < k b := of_decide_eq_false h1
        have n2 : ¬ k b < k a := of_decide_eq_false h2
        exact e1 (le_antisymm (not_lt.mp n2) (not_lt.mp n1))
      · rintro ⟨h1, _⟩
        exact absurd h1 e1
  · rintro a b c ⟨h1, h2⟩ ⟨h3, h4⟩
    exact ⟨h1.trans h3, h.etrans a b c h2 h4⟩

theorem lexScalars_strictWeak (scalars : List (Contact K → K)) :
    StrictWeakWith (lexScalars scalars) (fun c d => ∀ f ∈ scalars, f c = f d) := by
  induction scalars with
  | nil =>
    constructor
    · intro a
      rfl
    · intro a b c hab
      exact Bool.noConfusion hab
    · intro a b
      simp [lexScalars]
    · intro a b c _ _ f hf
      exact absurd hf (List.not_mem_nil f)
  | cons f fs ih =>
    have h := StrictWeakWith.step f ih
    constructor
    · exact h.irrefl
    · exact h.trans
    · intro a b
      rw [show ((lexScalars (f :: fs) a b = false ∧ lexScalars (f :: fs) b a = false) ↔
        f a = f b ∧ ∀ g ∈ fs, g a = g b) from h.incomp a b]
      simp only [List.mem_cons, forall_eq_or_imp]
    · intro a b c h1 h2 g hg
      exact (h1 g hg).trans (h2 g hg)

/-- Claim C17: the comparison of contacts is a strict weak order, for every
choice of the scalar fields compared after `(b1, b2)`: it is irreflexive,
asymmetric and transitive, and incomparability under it is transitive. -/
theorem contact_lt_strict_weak_order (scalars : List (Contact K → K)) :
    IsStrictWeakOrder (Contact.lt scalars) :=
  (StrictWeakWith.step (fun c : Contact K => c.b1)
    (StrictWeakWith.step (fun c : Contact K => c.b2)
      (lexScalars_strictWeak scalars))).isStrictWeakOrder

/-! ## The bias of the test against the geometry of the boxes -/

theorem cubeUnit_orthonormal : (cubeUnit : OBB ℚ).axis.IsOrthonormal := by
  norm_num [Matrix3.IsOrthonormal, cubeUnit, Matrix3.identity, Matrix3.col0, Matrix3.col1,
    Matrix3.col2, Vector3.dot]

theorem cubeNear_orthonormal : (cubeNear : OBB ℚ).axis.IsOrthonormal := by
  norm_num [Matrix3.IsOrthonormal, cubeNear, Matrix3.identity, Matrix3.col0, Matrix3.col1,
    Matrix3.col2, Vector3.dot]

theorem cubeFar_orthonormal : (cubeFar : OBB ℚ).axis.IsOrthonormal := by
  norm_num [Matrix3.IsOrthonormal, cubeFar, Matrix3.identity, Matrix3.col0, Matrix3.col1,
    Matrix3.col2, Vector3.dot]

/-- Claim C19 as stated fails: the two unit cubes `cubeUnit` and `cubeNear`
have orthonormal frames and non-negative half-extents and no point is
contained in both, yet `overlap` returns `true`. -/
theorem overlap_true_without_common_point :
    (cubeUnit : OBB ℚ).axis.IsOrthonormal ∧ (cubeNear : OBB ℚ).axis.IsOrthonormal ∧
      ((0 : ℚ) ≤ (cubeUnit : OBB ℚ).extent.x ∧ (0 : ℚ) ≤ (cubeUnit : OBB ℚ).extent.y ∧
        (0 : ℚ) ≤ (cubeUnit : OBB ℚ).extent.z) ∧
      ((0 : ℚ) ≤ (cubeNear : OBB ℚ).extent.x ∧ (0 : ℚ) ≤ (cubeNear : OBB ℚ).extent.y ∧
        (0 : ℚ) ≤ (cubeNear : OBB ℚ).extent.z) ∧
      (∀ p : Vector3 ℚ, ¬ ((cubeUnit : OBB ℚ).contain p = true ∧
        (cubeNear : OBB ℚ).contain p = true)) ∧
      (cubeUnit : OBB ℚ).overlap cubeNear = true := by
  refine ⟨cubeUnit_orthonormal, cubeNear_orthonormal, ?_, ?_, ?_, ?_⟩
  · norm_num [cubeUnit]
  · norm_num [cubeNear]
  · rintro p ⟨h1, h2⟩
    rw [contain_eq_true_iff] at h1 h2
    have a1 := abs_le.mp h1.1
    have a2 := abs_le.mp h2.1
    simp only [cubeUnit, cubeNear, Matrix3.identity, Matrix3.col0, Vector3.sub, Vector3.dot]
      at a1 a2
    linarith [a1.2, a2.1]
  · rw [overlap_eq, Bool.not_eq_true', obbDisjoint_eq_false_iff]
    simp only [relRotation, relOffset, cubeUnit, cubeNear, Matrix3.identity, Matrix3.transpose,
      Matrix3.mul, Matrix3.row0, Matrix3.row1, Matrix3.row2, Matrix3.col0, Matrix3.col1,
      Matrix3.col2, Vector3.sub, Vector3.dot]
    norm_num [abs_le]

/-! ## The sweep of a pair of boxes -/

theorem mem_clipWindow (I : Interval K) (p v r t : K) :
    (clipWindow I p v r).Contains t ↔ I.Contains t ∧ |p + t * v| ≤ r := by
  unfold clipWindow
  split_ifs with h1 h2 h3
  · simp only [Interval.Contains, max_le_iff, le_min_iff, abs_le, div_le_iff₀ h1,
      le_div_iff₀ h1]
    constructor
    · rintro ⟨⟨a, b⟩, c, d⟩
      exact ⟨⟨a, c⟩, by linarith, by linarith⟩
    · rintro ⟨⟨a, c⟩, b, d⟩
      exact ⟨⟨a, by linarith⟩, c, by linarith⟩
  · simp only [Interval.Contains, max_le_iff, le_min_iff, abs_le, div_le_iff_of_neg h2,
      le_div_iff_of_neg h2]
    constructor
    · rintro ⟨⟨a, b⟩, c, d⟩
      exact ⟨⟨a, c⟩, by linarith, by linarith⟩
    · rintro ⟨⟨a, c⟩, b, d⟩
      exact ⟨⟨a, by linarith⟩, c, by linarith⟩
  · have hv : v = 0 := le_antisymm (not_lt.mp h1) (not_lt.mp h2)
    subst hv
    simp only [Interval.Contains, mul_zero, add_zero]
    constructor
    · rintro ⟨a, b⟩
      linarith
    · rintro ⟨_, c⟩
      exact absurd c (not_le.mpr h3)
  · have hv : v = 0 := le_antisymm (not_lt.mp h1) (not_lt.mp h2)
    subst hv
    simp only [mul_zero, add_zero]
    exact ⟨fun h => ⟨h, not_lt.mp h3⟩, fun h => h.1⟩

theorem mem_foldl_clipWindow (ws : List (K × K × K)) (I : Interval K) (t : K) :
    (ws.foldl (fun I w => clipWindow I w.1 w.2.1 w.2.2) I).Contains t ↔
      I.Contains t ∧ ∀ w ∈ ws, |w.1 + t * w.2.1| ≤ w.2.2 := by
  induction ws generalizing I with
  | nil => simp
  | cons w ws ih =>
    rw [List.foldl_cons, ih, mem_clipWindow]
    simp only [List.mem_cons, forall_eq_or_imp]
    tauto

theorem axisWindows_iff (B : Matrix3 K) (T D a b : Vector3 K) (t : K) :
    (∀ w ∈ axisWindows B T D a b, |w.1 + t * w.2.1| ≤ w.2.2) ↔
      obbDisjoint B (T.add (D.smul t)) a b = false := by
  rw [obbDisjoint_eq_false_iff]
  simp only [axisWindows, List.forall_mem_cons, List.not_mem_nil, false_imp_iff, implies_true,
    and_true, Matrix3.cwiseAbs, Matrix3.addScalar, Matrix3.row0, Matrix3.row1, Matrix3.row2,
    Matrix3.col0, Matrix3.col1, Matrix3.col2, Vector3.dot, Vector3.add, Vector3.smul]
  constructor
  · rintro ⟨h1, h2, h3, h4, h5, h6, h7, h8, h9, h10, h11, h12, h13, h14, h15⟩
    exact ⟨by convert h1 using 2; ring,
      by convert h2 using 2; ring,
      by convert h3 using 2; ring,
      by convert h4 using 2; ring,
      by convert h5 using 2; ring,
      by convert h6 using 2; ring,
      by convert h7 using 2; ring,
      by convert h8 using 2; ring,
      by convert h9 using 2; ring,
      by convert h10 using 2; ring,
      by convert h11 using 2; ring,
      by convert h12 using 2; ring,
      by convert h13 using 2; ring,
      by convert h14 using 2; ring,
      by convert h15 using 2; ring⟩
  · rintro ⟨h1, h2, h3, h4, h5, h6, h7, h8, h9, h10, h11, h12, h13, h14, h15⟩
    exact ⟨by convert h1 using 2; ring,
      by convert h2 using 2; ring,
      by convert h3 using 2; ring,
      by convert h4 using 2; ring,
      by convert h5 using 2; ring,
      by convert h6 using 2; ring,
      by convert h7 using 2; ring,
      by convert h8 using 2; ring,
      by convert h9 using 2; ring,
      by convert h10 using 2; ring,
      by convert h11 using 2; ring,
      by convert h12 using 2; ring,
      by convert h13 using 2; ring,
      by convert h14 using 2; ring,
      by convert h15 using 2; ring⟩

/-- The sweep interval holds exactly the times of `[0, 1]` at which the static
test does not separate the boxes. -/
theorem mem_sweepInterval (B : Matrix3 K) (T D a b : Vector3 K) (t : K) :
    (sweepInterval B T D a b).Contains t ↔
      (0 ≤ t ∧ t ≤ 1) ∧ obbDisjoint B (T.add (D.smul t)) a b = false := by
  rw [sweepInterval, mem_foldl_clipWindow, axisWindows_iff]
  rfl

/-- The sweep interval is empty exactly when the static test separates the
boxes at every time of `[0, 1]`. -/
theorem sweepInterval_empty_iff (B : Matrix3 K) (T D a b : Vector3 K) :
    (sweepInterval B T D a b).upper < (sweepInterval B T D a b).lower ↔
      ∀ t, 0 ≤ t → t ≤ 1 → obbDisjoint B (T.add (D.smul t)) a b = true := by
  constructor
  · intro h t h0 h1
    by_contra hn
    have hf : obbDisjoint B (T.add (D.smul t)) a b = false := by simpa using hn
    have hc := (mem_sweepInterval B T D a b t).mpr ⟨⟨h0, h1⟩, hf⟩
    have := le_trans hc.1 hc.2
    exact absurd h (not_lt.mpr this)
  · intro h
    by_contra hn
    have hle := not_lt.mp hn
    have hc : (sweepInterval B T D a b).Contains (sweepInterval B T D a b).lower :=
      ⟨le_refl _, hle⟩
    obtain ⟨⟨h0, h1⟩, hf⟩ := (mem_sweepInterval B T D a b _).mp hc
    rw [h _ h0 h1] at hf
    exact Bool.noConfusion hf

/-- The answer of `IsDisjoint` in terms of the static test along the sweep. -/
theorem isDisjoint_iff (A : OBB K) (d : TranslationalDisplacement K) (B : OBB K) (eps : K) :
    (IsDisjoint A d B eps).1 = true ↔
      ∀ t, 0 ≤ t → t ≤ 1 →
        obbDisjoint (relRotation A B)
          ((relOffset A B).add ((d.unit_axis_in_shape1.smul d.scalar_displacement).smul t))
          A.extent B.extent = true := by
  rw [← sweepInterval_empty_iff]
  unfold IsDisjoint
  simp only
  split_ifs with h
  · simp [h]
  · simp [h]

theorem foldl_clipWindow_static (ws : List (K × K × K)) (I : Interval K)
    (hv : ∀ w ∈ ws, w.2.1 = 0) (hw : ∀ w ∈ ws, |w.1| ≤ w.2.2) :
    ws.foldl (fun I w => clipWindow I w.1 w.2.1 w.2.2) I = I := by
  induction ws generalizing I with
  | nil => rfl
  | cons w ws ih =>
    have h0 : w.2.1 = 0 := hv w (List.mem_cons_self w ws)
    have h1 : |w.1| ≤ w.2.2 := hw w (List.mem_cons_self w ws)
    have hc : clipWindow I w.1 w.2.1 w.2.2 = I := by
      unfold clipWindow
      rw [h0, if_neg (lt_irrefl 0), if_neg (lt_irrefl 0), if_neg (not_lt.mpr h1)]
    rw [List.foldl_cons, hc]
    exact ih I (fun x hx => hv x (List.mem_cons_of_mem w hx))
      (fun x hx => hw x (List.mem_cons_of_mem w hx))

theorem axisWindows_velocity_zero (B : Matrix3 K) (T a b : Vector3 K) :
    ∀ w ∈ axisWindows B T ⟨0, 0, 0⟩ a b, w.2.1 = 0 := by
  simp [axisWindows, Matrix3.col0, Matrix3.col1, Matrix3.col2, Vector3.dot]

theorem add_smul_zero (T : Vector3 K) (t : K) : T.add ((⟨0, 0, 0⟩ : Vector3 K).smul t) = T := by
  simp [Vector3.add, Vector3.smul]

/-- Claim C15: for a displacement with `scalar_displacement == 0` (and a
non-negative tolerance) `IsDisjoint(A, displacement, B, interval, eps)` is the
negation of `overlap(A, B)`, and when it answers `false` the interval it
reports is `[0, 1]`. -/
theorem isDisjoint_zero_displacement (A B : OBB K) (d : TranslationalDisplacement K) (eps : K)
    (hs : d.scalar_displacement = 0) (heps : 0 ≤ eps) :
    (IsDisjoint A d B eps).1 = (!A.overlap B) ∧
      ((IsDisjoint A d B eps).1 = false → (IsDisjoint A d B eps).2 = ⟨0, 1⟩) := by
  have hD : d.unit_axis_in_shape1.smul d.scalar_displacement = ⟨0, 0, 0⟩ := by
    rw [hs]
    simp [Vector3.smul]
  rw [overlap_eq, Bool.not_not]
  cases hst : obbDisjoint (relRotation A B) (relOffset A B) A.extent B.extent with
  | true =>
    have h1 : (IsDisjoint A d B eps).1 = true := by
      rw [isDisjoint_iff, hD]
      intro t _ _
      rw [add_smul_zero]
      exact hst
    rw [h1]
    exact ⟨rfl, fun h => Bool.noConfusion h⟩
  | false =>
    have hw : ∀ w ∈ axisWindows (relRotation A B) (relOffset A B) ⟨0, 0, 0⟩ A.extent B.extent,
        |w.1| ≤ w.2.2 := by
      have := (axisWindows_iff (relRotation A B) (relOffset A B) ⟨0, 0, 0⟩ A.extent B.extent
        0).mpr (by rw [add_smul_zero]; exact hst)
      intro w hw
      have h2 := this w hw
      rwa [zero_mul, add_zero] at h2
    have hI : sweepInterval (relRotation A B) (relOffset A B)
        (d.unit_axis_in_shape1.smul d.scalar_displacement) A.extent B.extent = ⟨0, 1⟩ := by
      rw [hD, sweepInterval]
      exact foldl_clipWindow_static _ _ (axisWindows_velocity_zero _ _ _ _) hw
    have h2 : IsDisjoint A d B eps = (false, ⟨0, 1⟩) := by
      unfold IsDisjoint
      simp only [hI]
      rw [if_neg (by norm_num)]
      have e1 : max 0 (0 - eps) = 0 := max_eq_left (by linarith)
      have e2 : min 1 (1 + eps) = 1 := min_eq_left (by linarith)
      rw [e1, e2]
    rw [h2]
    exact ⟨rfl, fun _ => rfl⟩

/-- Claim C15 at the two sample boxes, a displacement of length zero along the
first axis and the tolerance `1e-4`. -/
theorem isDisjoint_zero_displacement_witness :
    (⟨⟨1, 0, 0⟩, 0⟩ : TranslationalDisplacement ℚ).scalar_displacement = 0 ∧
      (0 : ℚ) ≤ 1 / 10000 ∧
      (IsDisjoint (sampleA : OBB ℚ) ⟨⟨1, 0, 0⟩, 0⟩ sampleB (1 / 10000)).1 =
        (!(sampleA : OBB ℚ).overlap sampleB) ∧
      ((IsDisjoint (sampleA : OBB ℚ) ⟨⟨1, 0, 0⟩, 0⟩ sampleB (1 / 10000)).1 = false →
        (IsDisjoint (sampleA : OBB ℚ) ⟨⟨1, 0, 0⟩, 0⟩ sampleB (1 / 10000)).2 = ⟨0, 1⟩) :=
  ⟨rfl, by norm_num,
    isDisjoint_zero_displacement sampleA sampleB ⟨⟨1, 0, 0⟩, 0⟩ (1 / 10000) rfl (by norm_num)⟩

/-! ## Shrinking a box inside a box -/

theorem gt_shift {x z r r2 : K} (y : K) (h : |x| > r) (hy : |y| ≤ r - r2) (e : z = x - y) :
    |z| > r2 := by
  have h1 : |x| ≤ |x - y| + |y| := by
    have := abs_add (x - y) y
    rwa [sub_add_cancel] at this
  rw [e]
  linarith

theorem abs_mul_le_bias_sub (r d c c2 : K) (h : |d| + c2 ≤ c) :
    |r * d| ≤ (|r| + 1 / 1000000) * (c - c2) :=
  abs_mul_le_bias r d (c - c2) (by linarith)

theorem gt_shift_three {x z : K} (s q1 d1 c1 k1 q2 d2 c2 k2 q3 d3 c3 k3 : K)
    (h : |x| > s + ((|q1| + 1 / 1000000) * c1 + (|q2| + 1 / 1000000) * c2 +
      (|q3| + 1 / 1000000) * c3))
    (h1 : |d1| + k1 ≤ c1) (h2 : |d2| + k2 ≤ c2) (h3 : |d3| + k3 ≤ c3)
    (e : z = x - (q1 * d1 + q2 * d2 + q3 * d3)) :
    |z| > s + ((|q1| + 1 / 1000000) * k1 + (|q2| + 1 / 1000000) * k2 +
      (|q3| + 1 / 1000000) * k3) := by
  have b1 := abs_le.mp (abs_mul_le_bias_sub q1 d1 c1 k1 h1)
  have b2 := abs_le.mp (abs_mul_le_bias_sub q2 d2 c2 k2 h2)
  have b3 := abs_le.mp (abs_mul_le_bias_sub q3 d3 c3 k3 h3)
  exact gt_shift (q1 * d1 + q2 * d2 + q3 * d3) h (abs_le.mpr ⟨by linarith, by linarith⟩) e

theorem gt_shift_two {x z : K} (s1 s2 q1 d1 c1 k1 q2 d2 c2 k2 : K)
    (h : |x| > c1 * (|q1| + 1 / 1000000) + c2 * (|q2| + 1 / 1000000) + s1 + s2)
    (h1 : |d1| + k1 ≤ c1) (h2 : |d2| + k2 ≤ c2)
    (e : z = x - (q1 * d1 - q2 * d2) ∨ z = x - (q2 * d2 - q1 * d1)) :
    |z| > k1 * (|q1| + 1 / 1000000) + k2 * (|q2| + 1 / 1000000) + s1 + s2 := by
  have b1 := abs_le.mp (abs_mul_le_bias_sub q1 d1 c1 k1 h1)
  have b2 := abs_le.mp (abs_mul_le_bias_sub q2 d2 c2 k2 h2)
  rcases e with e | e
  · exact gt_shift (q1 * d1 - q2 * d2) h (abs_le.mpr ⟨by linarith, by linarith⟩) e
  · exact gt_shift (q2 * d2 - q1 * d1) h (abs_le.mpr ⟨by linarith, by linarith⟩) e

/-- The first box made smaller inside itself: when the centre moves by `δ` in
the frame of the box and each half-extent shrinks by at least `|δ|`, every
successful test of `obbDisjoint` stays successful. -/
theorem obbDisjoint_shrink_first (R : Matrix3 K) (T a b δ a2 : Vector3 K)
    (hx : |δ.x| + a2.x ≤ a.x) (hy : |δ.y| + a2.y ≤ a.y) (hz : |δ.z| + a2.z ≤ a.z)
    (h : obbDisjoint R T a b = true) : obbDisjoint R (T.sub δ) a2 b = true := by
  rw [obbDisjoint_eq_true_iff] at h ⊢
  simp only [Vector3.sub]
  rcases h with h | h | h | h | h | h | h | h | h | h | h | h | h | h | h
  · refine Or.inl ?_
    exact gt_shift δ.x h (by linarith) (by ring)
  · refine Or.inr (Or.inl ?_)
    exact gt_shift_three b.x R.m00 δ.x a.x a2.x R.m10 δ.y a.y a2.y R.m20 δ.z a.z a2.z h hx hy hz (by ring)
  · refine Or.inr (Or.inr (Or.inl ?_))
    exact gt_shift δ.y h (by linarith) (by ring)
  · refine Or.inr (Or.inr (Or.inr (Or.inl ?_)))
    exact gt_shift δ.z h (by linarith) (by ring)
  · refine Or.inr (Or.inr (Or.inr (Or.inr (Or.inl ?_))))
    exact gt_shift_three b.y R.m01 δ.x a.x a2.x R.m11 δ.y a.y a2.y R.m21 δ.z a.z a2.z h hx hy hz (by ring)
  · refine Or.inr (Or.inr (Or.inr (Or.inr (Or.inr (Or.inl ?_)))))
    exact gt_shift_three b.z R.m02 δ.x a.x a2.x R.m12 δ.y a.y a2.y R.m22 δ.z a.z a2.z h hx hy hz (by ring)
  · refine Or.inr (Or.inr (Or.inr (Or.inr (Or.inr (Or.inr (Or.inl ?_))))))
    exact gt_shift_two (b.y * (|R.m02| + 1 / 1000000)) (b.z * (|R.m01| + 1 / 1000000)) R.m20 δ.y a.y a2.y R.m10 δ.z a.z a2.z
      h hy hz (Or.inr (by ring))
  · refine Or.inr (Or.inr (Or.inr (Or.inr (Or.inr (Or.inr (Or.inr (Or.inl ?_)))))))
    exact gt_shift_two (b.x * (|R.m02| + 1 / 1000000)) (b.z * (|R.m00| + 1 / 1000000)) R.m21 δ.y a.y a2.y R.m11 δ.z a.z a2.z
      h hy hz (Or.inr (by ring))
  · refine Or.inr (Or.inr (Or.inr (Or.inr (Or.inr (Or.inr (Or.inr (Or.inr (Or.inl ?_))))))))
    exact gt_shift_two (b.x * (|R.m01| + 1 / 1000000)) (b.y * (|R.m00| + 1 / 1000000)) R.m22 δ.y a.y a2.y R.m12 δ.z a.z a2.z
      h hy hz (Or.inr (by ring))
  · refine Or.inr (Or.inr (Or.inr (Or.inr (Or.inr (Or.inr (Or.inr (Or.inr (Or.inr (Or.inl ?_)))))))))
    exact gt_shift_two (b.y * (|R.m12| + 1 / 1000000)) (b.z * (|R.m11| + 1 / 1000000)) R.m20 δ.x a.x a2.x R.m00 δ.z a.z a2.z
      h hx hz (Or.inl (by ring))
  · refine Or.inr (Or.inr (Or.inr (Or.inr (Or.inr (Or.inr (Or.inr (Or.inr (Or.inr (Or.inr (Or.inl ?_))))))))))
    exact gt_shift_two (b.x * (|R.m12| + 1 / 1000000)) (b.z * (|R.m10| + 1 / 1000000)) R.m21 δ.x a.x a2.x R.m01 δ.z a.z a2.z
      h hx hz (Or.inl (by ring))
  · refine Or.inr (Or.inr (Or.inr (Or.inr (Or.inr (Or.inr (Or.inr (Or.inr (Or.inr (Or.inr (Or.inr (Or.inl ?_)))))))))))
    exact gt_shift_two (b.x * (|R.m11| + 1 / 1000000)) (b.y * (|R.m10| + 1 / 1000000)) R.m22 δ.x a.x a2.x R.m02 δ.z a.z a2.z
      h hx hz (Or.inl (by ring))
  · refine Or.inr (Or.inr (Or.inr (Or.inr (Or.inr (Or.inr (Or.inr (Or.inr (Or.inr (Or.inr (Or.inr (Or.inr (Or.inl ?_))))))))))))
    exact gt_shift_two (b.y * (|R.m22| + 1 / 1000000)) (b.z * (|R.m21| + 1 / 1000000)) R.m10 δ.x a.x a2.x R.m00 δ.y a.y a2.y
      h hx hy (Or.inr (by ring))
  · refine Or.inr (Or.inr (Or.inr (Or.inr (Or.inr (Or.inr (Or.inr (Or.inr (Or.inr (Or.inr (Or.inr (Or.inr (Or.inr (Or.inl ?_)))))))))))))
    exact gt_shift_two (b.x * (|R.m22| + 1 / 1000000)) (b.z * (|R.m20| + 1 / 1000000)) R.m11 δ.x a.x a2.x R.m01 δ.y a.y a2.y
      h hx hy (Or.inr (by ring))
  · refine Or.inr (Or.inr (Or.inr (Or.inr (Or.inr (Or.inr (Or.inr (Or.inr (Or.inr (Or.inr (Or.inr (Or.inr (Or.inr (Or.inr (?_))))))))))))))
    exact gt_shift_two (b.x * (|R.m21| + 1 / 1000000)) (b.y * (|R.m20| + 1 / 1000000)) R.m12 δ.x a.x a2.x R.m02 δ.y a.y a2.y
      h hx hy (Or.inr (by ring))

theorem transpose_transpose {F : Type} (R : Matrix3 F) : R.transpose.transpose = R := rfl

/-- The second box made smaller inside itself: the offset moves by `R δ`, for
`δ` the move of the centre in the frame of the second box. -/
theorem obbDisjoint_shrink_second (R : Matrix3 K) (T a b δ b2 : Vector3 K)
    (hrows : R.transpose.IsOrthonormal) (hcols : R.IsOrthonormal)
    (hx : |δ.x| + b2.x ≤ b.x) (hy : |δ.y| + b2.y ≤ b.y) (hz : |δ.z| + b2.z ≤ b.z)
    (h : obbDisjoint R T a b = true) : obbDisjoint R (T.add (R.mulVec δ)) a b2 = true := by
  have h1 := obbDisjoint_swap_imp R T a b hrows h
  have h2 := obbDisjoint_shrink_first _ _ _ _ δ b2 hx hy hz h1
  have h3 := obbDisjoint_swap_imp R.transpose _ b2 a (by rw [transpose_transpose]; exact hcols) h2
  rw [transpose_transpose] at h3
  have e : (R.mulVec ((R.transpose.mulVec T).neg.sub δ)).neg = T.add (R.mulVec δ) := by
    obtain ⟨g00, g11, g22, g01, g02, g12⟩ := hrows
    simp only [Matrix3.transpose, Matrix3.col0, Matrix3.col1, Matrix3.col2, Vector3.dot]
      at g00 g11 g22 g01 g02 g12
    simp only [Matrix3.transpose, Matrix3.mulVec, Vector3.neg, Vector3.sub, Vector3.add,
      Matrix3.row0, Matrix3.row1, Matrix3.row2, Vector3.dot]
    ext
    · linear_combination T.x * g00 + T.y * g01 + T.z * g02
    · linear_combination T.x * g01 + T.y * g11 + T.z * g12
    · linear_combination T.x * g02 + T.y * g12 + T.z * g22
  rw [e] at h3
  exact h3

/-! ## The cells of a layered heightmap -/

theorem Pixel.ancestor_zero (q : Pixel) : q.ancestor 0 = q := by
  simp [Pixel.ancestor]

theorem Pixel.ancestor_succ (q : Pixel) (l : Nat) :
    q.ancestor (l + 1) = (q.ancestor l).parent := by
  simp [Pixel.ancestor, Pixel.parent, Nat.pow_succ, Nat.div_div_eq_div_mul]

theorem Pixel.mem_children_iff (c p : Pixel) : c ∈ p.children ↔ c.parent = p := by
  cases c
  cases p
  simp only [Pixel.children, Pixel.parent, List.mem_cons, Pixel.mk.injEq, List.mem_singleton,
    List.not_mem_nil, or_false]
  omega

theorem shapeAt_half {n l x : Nat} (h : x < shapeAt n l) : x / 2 < shapeAt n (l + 1) := by
  simp only [shapeAt]
  omega

theorem LayeredHeightMap.valid_parent {F : Type} {hm : LayeredHeightMap F} {l : Nat} {p : Pixel}
    (h : hm.Valid l p) : hm.Valid (l + 1) p.parent :=
  ⟨shapeAt_half h.1, shapeAt_half h.2⟩

theorem LayeredHeightMap.valid_ancestor {F : Type} {hm : LayeredHeightMap F} {q : Pixel}
    (h : hm.Valid 0 q) (l : Nat) : hm.Valid l (q.ancestor l) := by
  induction l with
  | zero => rwa [Pixel.ancestor_zero]
  | succ l ih =>
    rw [Pixel.ancestor_succ]
    exact LayeredHeightMap.valid_parent ih

theorem LayeredHeightMap.mem_pixels {F : Type} (hm : LayeredHeightMap F) (l : Nat) (p : Pixel) :
    p ∈ hm.pixels l ↔ hm.Valid l p := by
  cases p
  simp only [LayeredHeightMap.pixels, List.mem_flatMap, List.mem_range, List.mem_map,
    Pixel.mk.injEq, LayeredHeightMap.Valid]
  constructor
  · rintro ⟨y, hy, x, hx, rfl, rfl⟩
    exact ⟨hx, hy⟩
  · rintro ⟨hx, hy⟩
    exact ⟨_, hy, _, hx, rfl, rfl⟩

theorem BoxInside.refl (c e : Vector3 K) : BoxInside c e c e := by
  simp [BoxInside]

theorem BoxInside.trans {c e c0 e0 c1 e1 : Vector3 K} (h : BoxInside c e c0 e0)
    (h0 : BoxInside c0 e0 c1 e1) : BoxInside c e c1 e1 := by
  obtain ⟨hx, hy, hz⟩ := h
  obtain ⟨hx0, hy0, hz0⟩ := h0
  refine ⟨?_, ?_, ?_⟩
  · have := abs_sub_le c.x c0.x c1.x
    linarith
  · have := abs_sub_le c.y c0.y c1.y
    linarith
  · have := abs_sub_le c.z c0.z c1.z
    linarith

theorem half_cell_inside (n : Nat) (P hr : K) (hP : 0 ≤ P) :
    |((n : K) + 1 / 2) * P - hr - ((((n / 2 : Nat) : K) + 1 / 2) * (P * 2) - hr)| + P * (1 / 2) ≤
      P * 2 * (1 / 2) := by
  have hc : (n : K) = 2 * ((n / 2 : Nat) : K) + ((n % 2 : Nat) : K) := by
    exact_mod_cast (Nat.div_add_mod n 2).symm
  rcases Nat.mod_two_eq_zero_or_one n with h | h
  · rw [h, Nat.cast_zero, add_zero] at hc
    rw [hc]
    have e : (2 * ((n / 2 : Nat) : K) + 1 / 2) * P - hr -
        ((((n / 2 : Nat) : K) + 1 / 2) * (P * 2) - hr) = -(P / 2) := by ring
    rw [e, abs_neg, abs_of_nonneg (by linarith)]
    linarith
  · rw [h, Nat.cast_one] at hc
    rw [hc]
    have e : (2 * ((n / 2 : Nat) : K) + 1 + 1 / 2) * P - hr -
        ((((n / 2 : Nat) : K) + 1 / 2) * (P * 2) - hr) = P / 2 := by ring
    rw [e, abs_of_nonneg (by linarith)]
    linarith

theorem LayeredHeightMap.cell_inside_parent (hm : LayeredHeightMap K) (l : Nat) (c : Pixel)
    (hx : 0 ≤ hm.pitch_x) (hy : 0 ≤ hm.pitch_y)
    (hh : hm.height_mm l c.x c.y ≤ hm.height_mm (l + 1) c.parent.x c.parent.y) :
    BoxInside (hm.cellCentre l c) ((hm.cellSide l c).smul (1 / 2))
      (hm.cellCentre (l + 1) c.parent) ((hm.cellSide (l + 1) c.parent).smul (1 / 2)) := by
  have h2 : (0 : K) ≤ 2 ^ l := by positivity
  have e : ∀ p : K, p * 2 ^ (l + 1) = p * 2 ^ l * 2 := fun p => by ring
  simp only [BoxInside, LayeredHeightMap.cellCentre, LayeredHeightMap.cellSide, Vector3.smul,
    Pixel.parent, e]
  refine ⟨half_cell_inside c.x _ _ (mul_nonneg hx h2), half_cell_inside c.y _ _ (mul_nonneg hy h2),
    ?_⟩
  have hk : (hm.height_mm l c.x c.y : K) ≤ (hm.height_mm (l + 1) (c.x / 2) (c.y / 2) : K) := by
    exact_mod_cast hh
  rw [abs_of_nonpos (by linarith)]
  linarith

theorem LayeredHeightMap.cell_inside_ancestor (hm : LayeredHeightMap K)
    (hinv : hm.AggregationInvariant) (hx : 0 ≤ hm.pitch_x) (hy : 0 ≤ hm.pitch_y) (q : Pixel)
    (hq : hm.Valid 0 q) (l : Nat) (hl : l ≤ hm.n_layers - 1) :
    BoxInside (hm.cellCentre 0 q) ((hm.cellSide 0 q).smul (1 / 2))
      (hm.cellCentre l (q.ancestor l)) ((hm.cellSide l (q.ancestor l)).smul (1 / 2)) := by
  induction l with
  | zero =>
    rw [Pixel.ancestor_zero]
    exact BoxInside.refl _ _
  | succ l ih =>
    refine (ih (by omega)).trans ?_
    rw [Pixel.ancestor_succ]
    refine hm.cell_inside_parent l _ hx hy ?_
    exact hinv l _ _ (by omega) (LayeredHeightMap.valid_parent (LayeredHeightMap.valid_ancestor hq l))
      ((Pixel.mem_children_iff _ _).mpr rfl) (LayeredHeightMap.valid_ancestor hq l)

/-! ## The sweep of nested boxes -/

theorem Matrix3.mul_identity (M : Matrix3 K) : M.mul Matrix3.identity = M := by
  cases M
  simp [Matrix3.mul, Matrix3.identity, Matrix3.row0, Matrix3.row1, Matrix3.row2, Matrix3.col0,
    Matrix3.col1, Matrix3.col2, Vector3.dot]

theorem LayeredHeightMap.cellOBB_eq (hm : LayeredHeightMap K) (tf : Transform3 K) (l : Nat)
    (p : Pixel) :
    hm.cellOBB tf l p = if hm.Valid l p then some (hm.cellBox tf l p) else none := by
  unfold LayeredHeightMap.cellOBB LayeredHeightMap.pixelToBox
  split_ifs <;>
    simp [computeBV, Transform3.mul, Matrix3.mul_identity, LayeredHeightMap.cellBox]

theorem isDisjoint_fst_eps (A : OBB K) (d : TranslationalDisplacement K) (B : OBB K)
    (e1 e2 : K) : (IsDisjoint A d B e1).1 = (IsDisjoint A d B e2).1 := by
  unfold IsDisjoint
  simp only
  split_ifs <;> rfl

theorem isDisjoint_shrink_first (Rm : Matrix3 K) (hR : Rm.IsOrthonormal)
    (t c e c0 e0 : Vector3 K) (hin : BoxInside c e c0 e0) (d : TranslationalDisplacement K)
    (B : OBB K) (eps eps2 : K)
    (h : (IsDisjoint ⟨Rm, (Rm.mulVec c0).add t, e0⟩ d B eps).1 = true) :
    (IsDisjoint ⟨Rm, (Rm.mulVec c).add t, e⟩ d B eps2).1 = true := by
  rw [isDisjoint_iff] at h ⊢
  intro s hs0 hs1
  have h1 := obbDisjoint_shrink_first _ _ _ _ (c.sub c0) e hin.1 hin.2.1 hin.2.2 (h s hs0 hs1)
  have eT : ∀ X : Vector3 K, (relOffset ⟨Rm, (Rm.mulVec c).add t, e⟩ B).add X =
      ((relOffset ⟨Rm, (Rm.mulVec c0).add t, e0⟩ B).add X).sub (c.sub c0) := by
    intro X
    obtain ⟨g00, g11, g22, g01, g02, g12⟩ := hR
    simp only [Matrix3.col0, Matrix3.col1, Matrix3.col2, Vector3.dot] at g00 g11 g22 g01 g02 g12
    simp only [relOffset, Vector3.add, Vector3.sub, Matrix3.mulVec, Matrix3.row0, Matrix3.row1,
      Matrix3.row2, Matrix3.col0, Matrix3.col1, Matrix3.col2, Vector3.dot, Vector3.mk.injEq]
    refine ⟨?_, ?_, ?_⟩
    · linear_combination (-(c.x - c0.x)) * g00 - (c.y - c0.y) * g01 - (c.z - c0.z) * g02
    · linear_combination (-(c.x - c0.x)) * g01 - (c.y - c0.y) * g11 - (c.z - c0.z) * g12
    · linear_combination (-(c.x - c0.x)) * g02 - (c.y - c0.y) * g12 - (c.z - c0.z) * g22
  rw [eT]
  exact h1

theorem isDisjoint_shrink_second (A : OBB K) (hA : A.axis.IsOrthonormal) (Rm : Matrix3 K)
    (hR : Rm.IsOrthonormal) (t c e c0 e0 : Vector3 K) (hin : BoxInside c e c0 e0)
    (d : TranslationalDisplacement K) (eps eps2 : K)
    (h : (IsDisjoint A d ⟨Rm, (Rm.mulVec c0).add t, e0⟩ eps).1 = true) :
    (IsDisjoint A d ⟨Rm, (Rm.mulVec c).add t, e⟩ eps2).1 = true := by
  rw [isDisjoint_iff] at h ⊢
  intro s hs0 hs1
  have hrel : (A.axis.transpose.mul Rm).IsOrthonormal := isOrthonormal_relative hA hR
  have h1 := obbDisjoint_shrink_second _ _ _ _ (c.sub c0) e (isOrthonormal_transpose hrel) hrel
    hin.1 hin.2.1 hin.2.2 (h s hs0 hs1)
  have eT : ∀ X : Vector3 K, (relOffset A ⟨Rm, (Rm.mulVec c).add t, e⟩).add X =
      ((relOffset A ⟨Rm, (Rm.mulVec c0).add t, e0⟩).add X).add
        ((A.axis.transpose.mul Rm).mulVec (c.sub c0)) := by
    intro X
    simp only [relOffset, Vector3.add, Vector3.sub, Matrix3.mulVec, Matrix3.mul,
      Matrix3.transpose, Matrix3.row0, Matrix3.row1,
      Matrix3.row2, Matrix3.col0, Matrix3.col1, Matrix3.col2, Vector3.dot, Vector3.mk.injEq]
    refine ⟨?_, ?_, ?_⟩ <;> ring
  rw [eT]
  exact h1

theorem HeightMapPair.cellsCollide_iff (q : HeightMapPair K) (l1 l2 : Nat) (p1 p2 : Pixel) :
    q.cellsCollide l1 l2 p1 p2 = true ↔
      q.hm1.Valid l1 p1 ∧ q.hm2.Valid l2 p2 ∧
        (IsDisjoint (q.hm1.cellBox q.tf1 l1 p1) q.displacement (q.hm2.cellBox q.tf2 l2 p2)
          q.time_epsilon).1 = false := by
  unfold HeightMapPair.cellsCollide
  rw [LayeredHeightMap.cellOBB_eq, LayeredHeightMap.cellOBB_eq]
  by_cases h1 : q.hm1.Valid l1 p1 <;> by_cases h2 : q.hm2.Valid l2 p2 <;> simp [h1, h2]

theorem HeightMapPair.cellsCollide_ancestor (q : HeightMapPair K) (hq : q.WellFormed)
    (q1 q2 : Pixel) (h : q.cellsCollide 0 0 q1 q2 = true) (l1 l2 : Nat)
    (hl1 : l1 ≤ q.hm1.n_layers - 1) (hl2 : l2 ≤ q.hm2.n_layers - 1) :
    q.cellsCollide l1 l2 (q1.ancestor l1) (q2.ancestor l2) = true := by
  obtain ⟨hi1, hi2, hx1, hy1, hx2, hy2, ho1, ho2⟩ := hq
  rw [HeightMapPair.cellsCollide_iff] at h ⊢
  obtain ⟨hv1, hv2, hd⟩ := h
  refine ⟨LayeredHeightMap.valid_ancestor hv1 l1, LayeredHeightMap.valid_ancestor hv2 l2, ?_⟩
  by_contra hne
  rw [Bool.not_eq_false] at hne
  have s1 := isDisjoint_shrink_first q.tf1.linear ho1 q.tf1.translation _ _ _ _
    (q.hm1.cell_inside_ancestor hi1 hx1 hy1 q1 hv1 l1 hl1) q.displacement _ q.time_epsilon
    q.time_epsilon hne
  have s2 := isDisjoint_shrink_second _ ho1 q.tf2.linear ho2 q.tf2.translation _ _ _ _
    (q.hm2.cell_inside_ancestor hi2 hx2 hy2 q2 hv2 l2 hl2) q.displacement q.time_epsilon
    q.time_epsilon s1
  rw [LayeredHeightMap.cellBox, LayeredHeightMap.cellBox, s2] at hd
  exact Bool.noConfusion hd

/-! ## The heightmap-pair sweep against the brute-force test -/

theorem HeightMapPair.mem_contactsBelow (q : HeightMapPair K) (hq : q.WellFormed)
    (c : Contact K) (l1 : Nat) :
    ∀ (l2 : Nat) (p1 p2 : Pixel), l1 ≤ q.hm1.n_layers - 1 → l2 ≤ q.hm2.n_layers - 1 →
      (c ∈ q.contactsBelow l1 l2 p1 p2 ↔
        ∃ q1 q2 : Pixel, q1.ancestor l1 = p1 ∧ q2.ancestor l2 = p2 ∧
          q.cellsCollide 0 0 q1 q2 = true ∧ c = cellContact q1 q2) := by
  induction l1 with
  | zero =>
    intro l2
    induction l2 with
    | zero =>
      intro p1 p2 _ _
      rw [HeightMapPair.contactsBelow]
      constructor
      · intro h
        split_ifs at h with hc
        · rw [List.mem_singleton] at h
          exact ⟨p1, p2, Pixel.ancestor_zero _, Pixel.ancestor_zero _, hc, h⟩
        · simp at h
      · rintro ⟨q1, q2, e1, e2, hc, rfl⟩
        rw [Pixel.ancestor_zero] at e1 e2
        subst e1 e2
        rw [if_pos hc]
        exact List.mem_singleton_self _
    | succ l2 ih =>
      intro p1 p2 h1 h2
      rw [HeightMapPair.contactsBelow]
      constructor
      · intro h
        split_ifs at h with hc
        · rw [List.mem_flatMap] at h
          obtain ⟨c2, hc2, hmem⟩ := h
          obtain ⟨q1, q2, e1, e2, hcol, rfl⟩ := (ih p1 c2 h1 (by omega)).mp hmem
          refine ⟨q1, q2, e1, ?_, hcol, rfl⟩
          rw [Pixel.ancestor_succ, e2]
          exact (Pixel.mem_children_iff _ _).mp hc2
        · simp at h
      · rintro ⟨q1, q2, e1, e2, hcol, rfl⟩
        have hc := q.cellsCollide_ancestor hq q1 q2 hcol 0 (l2 + 1) h1 h2
        rw [e1, e2] at hc
        rw [if_pos hc, List.mem_flatMap]
        refine ⟨q2.ancestor l2, (Pixel.mem_children_iff _ _).mpr ?_,
          (ih p1 _ h1 (by omega)).mpr ⟨q1, q2, e1, rfl, hcol, rfl⟩⟩
        rw [← e2, Pixel.ancestor_succ]
  | succ l1 ih =>
    intro l2
    cases l2 with
    | zero =>
      intro p1 p2 h1 h2
      rw [HeightMapPair.contactsBelow]
      constructor
      · intro h
        split_ifs at h with hc
        · rw [List.mem_flatMap] at h
          obtain ⟨c1, hc1, hmem⟩ := h
          obtain ⟨q1, q2, e1, e2, hcol, rfl⟩ := (ih 0 c1 p2 (by omega) h2).mp hmem
          refine ⟨q1, q2, ?_, e2, hcol, rfl⟩
          rw [Pixel.ancestor_succ, e1]
          exact (Pixel.mem_children_iff _ _).mp hc1
        · simp at h
      · rintro ⟨q1, q2, e1, e2, hcol, rfl⟩
        have hc := q.cellsCollide_ancestor hq q1 q2 hcol (l1 + 1) 0 h1 h2
        rw [e1, e2] at hc
        rw [if_pos hc, List.mem_flatMap]
        refine ⟨q1.ancestor l1, (Pixel.mem_children_iff _ _).mpr ?_,
          (ih 0 _ p2 (by omega) h2).mpr ⟨q1, q2, rfl, e2, hcol, rfl⟩⟩
        rw [← e1, Pixel.ancestor_succ]
    | succ l2 =>
      intro p1 p2 h1 h2
      rw [HeightMapPair.contactsBelow]
      constructor
      · intro h
        split_ifs at h with hc
        · rw [List.mem_flatMap] at h
          obtain ⟨c1, hc1, hmem⟩ := h
          rw [List.mem_flatMap] at hmem
          obtain ⟨c2, hc2, hmem⟩ := hmem
          obtain ⟨q1, q2, e1, e2, hcol, rfl⟩ := (ih l2 c1 c2 (by omega) (by omega)).mp hmem
          refine ⟨q1, q2, ?_, ?_, hcol, rfl⟩
          · rw [Pixel.ancestor_succ, e1]
            exact (Pixel.mem_children_iff _ _).mp hc1
          · rw [Pixel.ancestor_succ, e2]
            exact (Pixel.mem_children_iff _ _).mp hc2
        · simp at h
      · rintro ⟨q1, q2, e1, e2, hcol, rfl⟩
        have hc := q.cellsCollide_ancestor hq q1 q2 hcol (l1 + 1) (l2 + 1) h1 h2
        rw [e1, e2] at hc
        rw [if_pos hc, List.mem_flatMap]
        refine ⟨q1.ancestor l1, (Pixel.mem_children_iff _ _).mpr ?_, ?_⟩
        · rw [← e1, Pixel.ancestor_succ]
        rw [List.mem_flatMap]
        refine ⟨q2.ancestor l2, (Pixel.mem_children_iff _ _).mpr ?_,
          (ih l2 _ _ (by omega) (by omega)).mpr ⟨q1, q2, rfl, rfl, hcol, rfl⟩⟩
        rw [← e2, Pixel.ancestor_succ]

theorem take_eq_of_length_take_lt {α : Type} (l : List α) (n : Nat)
    (h : (l.take n).length < n) : l.take n = l := by
  rw [List.length_take] at h
  exact List.take_of_length_le (by omega)

theorem mem_runHeightMapPair (q : HeightMapPair K) (request : ContinuousCollisionRequest)
    (hq : q.WellFormed)
    (hcap : (RunHeightMapPair q request []).length < request.num_max_contacts) (c : Contact K) :
    c ∈ RunHeightMapPair q request [] ↔
      ∃ q1 q2 : Pixel, q.cellsCollide 0 0 q1 q2 = true ∧ c = cellContact q1 q2 := by
  simp only [RunHeightMapPair, List.nil_append, List.length_nil, Nat.sub_zero] at hcap ⊢
  rw [take_eq_of_length_take_lt _ _ hcap]
  simp only [List.mem_flatMap, LayeredHeightMap.mem_pixels]
  constructor
  · rintro ⟨p1, _, p2, _, hmem⟩
    obtain ⟨q1, q2, _, _, hcol, e⟩ :=
      (q.mem_contactsBelow hq c _ _ p1 p2 le_rfl le_rfl).mp hmem
    exact ⟨q1, q2, hcol, e⟩
  · rintro ⟨q1, q2, hcol, e⟩
    have hv := (q.cellsCollide_iff 0 0 q1 q2).mp hcol
    exact ⟨_, LayeredHeightMap.valid_ancestor hv.1 _, _, LayeredHeightMap.valid_ancestor hv.2.1 _,
      (q.mem_contactsBelow hq c _ _ _ _ le_rfl le_rfl).mpr ⟨q1, q2, rfl, rfl, hcol, e⟩⟩

theorem mem_naiveContactSet (q : HeightMapPair K) (pr : Int × Int) :
    pr ∈ naiveContactSet q ↔
      ∃ q1 q2 : Pixel, q.cellsCollide 0 0 q1 q2 = true ∧
        pr = (encodePixel q1, encodePixel q2) := by
  simp only [naiveContactSet, List.mem_flatMap, LayeredHeightMap.mem_pixels,
    HeightMapPair.cellsCollide_iff, LayeredHeightMap.cellOBB_eq]
  constructor
  · rintro ⟨p1, hv1, p2, hv2, h⟩
    rw [if_pos hv1, if_pos hv2] at h
    simp only at h
    split_ifs at h with hd
    · rw [List.mem_singleton] at h
      refine ⟨p1, p2, ⟨hv1, hv2, ?_⟩, h⟩
      rw [isDisjoint_fst_eps _ _ _ _ (1 / 10000)]
      simpa using hd
    · simp at h
  · rintro ⟨p1, p2, ⟨hv1, hv2, hd⟩, rfl⟩
    refine ⟨p1, hv1, p2, hv2, ?_⟩
    rw [if_pos hv1, if_pos hv2]
    simp only
    rw [isDisjoint_fst_eps _ _ _ _ (1 / 10000)] at hd
    rw [hd]
    simp

theorem length_flatMap_le {α β : Type} (l : List α) (f : α → List β) (n : Nat)
    (h : ∀ a ∈ l, (f a).length ≤ n) : (l.flatMap f).length ≤ l.length * n := by
  induction l with
  | nil => simp
  | cons a l ih =>
    rw [List.flatMap_cons, List.length_append, List.length_cons, Nat.succ_mul]
    have h1 := h a (List.mem_cons_self a l)
    have h2 := ih (fun b hb => h b (List.mem_cons_of_mem a hb))
    omega

theorem Pixel.length_children (p : Pixel) : p.children.length = 4 := rfl

theorem HeightMapPair.length_contactsBelow (q : HeightMapPair K) (l1 : Nat) :
    ∀ (l2 : Nat) (p1 p2 : Pixel), (q.contactsBelow l1 l2 p1 p2).length ≤ 4 ^ l1 * 4 ^ l2 := by
  induction l1 with
  | zero =>
    intro l2
    induction l2 with
    | zero =>
      intro p1 p2
      rw [HeightMapPair.contactsBelow]
      split_ifs <;> simp
    | succ l2 ih =>
      intro p1 p2
      rw [HeightMapPair.contactsBelow]
      split_ifs
      · have := length_flatMap_le p2.children (fun c2 => q.contactsBelow 0 l2 p1 c2) _
          (fun c2 _ => ih p1 c2)
        rw [Pixel.length_children] at this
        rw [pow_succ]
        omega
      · simp
  | succ l1 ih =>
    intro l2
    cases l2 with
    | zero =>
      intro p1 p2
      rw [HeightMapPair.contactsBelow]
      split_ifs
      · have := length_flatMap_le p1.children (fun c1 => q.contactsBelow l1 0 c1 p2) _
          (fun c1 _ => ih 0 c1 p2)
        rw [Pixel.length_children] at this
        rw [pow_succ]
        omega
      · simp
    | succ l2 =>
      intro p1 p2
      rw [HeightMapPair.contactsBelow]
      split_ifs
      · have := length_flatMap_le p1.children
          (fun c1 => p2.children.flatMap (fun c2 => q.contactsBelow l1 l2 c1 c2)) (4 * (4 ^ l1 * 4 ^ l2))
          (fun c1 _ => by
            have := length_flatMap_le p2.children (fun c2 => q.contactsBelow l1 l2 c1 c2) _
              (fun c2 _ => ih l2 c1 c2)
            rwa [Pixel.length_children] at this)
        rw [Pixel.length_children] at this
        rw [pow_succ, pow_succ]
        have e : 4 ^ l1 * 4 * (4 ^ l2 * 4) = 4 * (4 * (4 ^ l1 * 4 ^ l2)) := by ring
        rw [e]
        exact this
      · simp

theorem length_runHeightMapPair_le (q : HeightMapPair K) (request : ContinuousCollisionRequest) :
    (RunHeightMapPair q request []).length ≤
      (q.hm1.pixels (q.hm1.n_layers - 1)).length *
        ((q.hm2.pixels (q.hm2.n_layers - 1)).length *
          (4 ^ (q.hm1.n_layers - 1) * 4 ^ (q.hm2.n_layers - 1))) := by
  simp only [RunHeightMapPair, List.nil_append, List.length_nil, Nat.sub_zero]
  rw [List.length_take]
  refine le_trans (min_le_right _ _) ?_
  refine length_flatMap_le _ _ _ (fun p1 _ => ?_)
  exact length_flatMap_le _ _ _ (fun p2 _ => q.length_contactsBelow _ _ p1 p2)

theorem sampleHeightMap_invariant : (sampleHeightMap : LayeredHeightMap K).AggregationInvariant := by
  intro l p c hl _ _ hc
  have h0 : l = 0 := by
    simp only [sampleHeightMap] at hl
    omega
  subst h0
  simp only [LayeredHeightMap.Valid, LayeredHeightMap.full_shape_x, LayeredHeightMap.full_shape_y,
    sampleHeightMap, shapeAt] at hc
  simp only [sampleHeightMap]
  simp only [if_true, zero_add, one_ne_zero, if_false]
  omega

theorem sampleHeightMapPair_wellFormed : (sampleHeightMapPair : HeightMapPair K).WellFormed := by
  refine ⟨sampleHeightMap_invariant, sampleHeightMap_invariant, ?_, ?_, ?_, ?_, ?_, ?_⟩ <;>
    simp [sampleHeightMapPair, sampleHeightMap, Matrix3.IsOrthonormal, Matrix3.identity,
      Matrix3.col0, Matrix3.col1, Matrix3.col2, Vector3.dot]

theorem sampleHeightMapPair_cap (request : ContinuousCollisionRequest)
    (h : 16 < request.num_max_contacts) :
    (RunHeightMapPair (sampleHeightMapPair : HeightMapPair K) request []).length <
      request.num_max_contacts := by
  refine lt_of_le_of_lt (length_runHeightMapPair_le _ _) ?_
  have e : ((sampleHeightMapPair : HeightMapPair K).hm1.pixels
      ((sampleHeightMapPair : HeightMapPair K).hm1.n_layers - 1)).length *
      (((sampleHeightMapPair : HeightMapPair K).hm2.pixels
        ((sampleHeightMapPair : HeightMapPair K).hm2.n_layers - 1)).length *
        (4 ^ ((sampleHeightMapPair : HeightMapPair K).hm1.n_layers - 1) *
          4 ^ ((sampleHeightMapPair : HeightMapPair K).hm2.n_layers - 1))) = 16 := by
    simp [sampleHeightMapPair, sampleHeightMap, LayeredHeightMap.pixels,
      LayeredHeightMap.full_shape_x, LayeredHeightMap.full_shape_y, shapeAt, List.range_succ,
      Function.comp_def]
  rw [e]
  exact h

/-- Claim C12: for two heightmaps that satisfy the aggregation invariant, with
non-negative pitches and rigid placements, and for any displacement, when the
cap on the number of contacts is not reached, the pairs `(b1, b2)` of the
contacts that `RunHeightMapPair` produces are exactly the pairs of codes that
the brute-force test of all pairs of bottom cells keeps. -/
theorem runHeightMapPair_eq_naive (q : HeightMapPair K) (request : ContinuousCollisionRequest)
    (hq : q.WellFormed)
    (hcap : (RunHeightMapPair q request []).length < request.num_max_contacts)
    (pr : Int × Int) :
    pr ∈ (RunHeightMapPair q request []).map (fun c => (c.b1, c.b2)) ↔
      pr ∈ naiveContactSet q := by
  rw [mem_naiveContactSet, List.mem_map]
  constructor
  · rintro ⟨c, hc, rfl⟩
    obtain ⟨q1, q2, hcol, rfl⟩ := (mem_runHeightMapPair q request hq hcap c).mp hc
    exact ⟨q1, q2, hcol, rfl⟩
  · rintro ⟨q1, q2, hcol, rfl⟩
    exact ⟨cellContact q1 q2, (mem_runHeightMapPair q request hq hcap _).mpr ⟨q1, q2, hcol, rfl⟩,
      rfl⟩

theorem runHeightMapPair_eq_naive_witness :
    (sampleHeightMapPair : HeightMapPair ℚ).WellFormed ∧
    (RunHeightMapPair (sampleHeightMapPair : HeightMapPair ℚ) ⟨1000000⟩ []).length < 1000000 ∧
    ((65536, 0) ∈ (RunHeightMapPair (sampleHeightMapPair : HeightMapPair ℚ) ⟨1000000⟩ []).map
        (fun c => (c.b1, c.b2)) ↔
      (65536, 0) ∈ naiveContactSet (sampleHeightMapPair : HeightMapPair ℚ)) :=
  ⟨sampleHeightMapPair_wellFormed, sampleHeightMapPair_cap ⟨1000000⟩ (by decide),
    runHeightMapPair_eq_naive sampleHeightMapPair ⟨1000000⟩ sampleHeightMapPair_wellFormed
      (sampleHeightMapPair_cap ⟨1000000⟩ (by decide)) (65536, 0)⟩

/-! ## The pixel codec -/

theorem shapeAt_le (n l : Nat) : shapeAt n l ≤ n := by
  induction l with
  | zero => exact le_rfl
  | succ l ih =>
    simp only [shapeAt]
    omega

theorem decodePixel_encodePixel (p : Pixel) (hx : p.x < 65536) (hy : p.y < 65536) :
    decodePixel (encodePixel p) = p := by
  cases p with
  | mk x y =>
    simp only at hx hy
    simp only [decodePixel, encodePixel, Pixel.mk.injEq]
    split_ifs <;> omega

/-- Claim C14: in a heightmap whose coordinates fit 16 bits, decoding the code of
a valid pixel of a layer gives the pixel back, and so no other valid pixel of
the layer has the same code. -/
theorem pixel_codec_round_trip {F : Type} (hm : LayeredHeightMap F) (l : Nat) (p : Pixel)
    (hsx : hm.bottom_shape_x ≤ 65536) (hsy : hm.bottom_shape_y ≤ 65536) (hv : hm.Valid l p) :
    decodePixel (encodePixel p) = p ∧
      ∀ p2 : Pixel, hm.Valid l p2 → encodePixel p2 = encodePixel p → p2 = p := by
  have hb : ∀ r : Pixel, hm.Valid l r → decodePixel (encodePixel r) = r := by
    intro r hr
    have h1 := shapeAt_le hm.bottom_shape_x l
    have h2 := shapeAt_le hm.bottom_shape_y l
    obtain ⟨hr1, hr2⟩ := hr
    simp only [LayeredHeightMap.full_shape_x, LayeredHeightMap.full_shape_y] at hr1 hr2
    exact decodePixel_encodePixel r (by omega) (by omega)
  refine ⟨hb p hv, fun p2 hv2 e => ?_⟩
  rw [← hb p2 hv2, e, hb p hv]

theorem pixel_codec_round_trip_witness :
    (sampleHeightMap : LayeredHeightMap ℚ).bottom_shape_x ≤ 65536 ∧
    (sampleHeightMap : LayeredHeightMap ℚ).bottom_shape_y ≤ 65536 ∧
    (sampleHeightMap : LayeredHeightMap ℚ).Valid 0 ⟨1, 0⟩ ∧
    decodePixel (encodePixel ⟨1, 0⟩) = ⟨1, 0⟩ ∧
      ∀ p2 : Pixel, (sampleHeightMap : LayeredHeightMap ℚ).Valid 0 p2 →
        encodePixel p2 = encodePixel ⟨1, 0⟩ → p2 = ⟨1, 0⟩ :=
  ⟨by decide, by decide, by decide,
    pixel_codec_round_trip sampleHeightMap 0 ⟨1, 0⟩ (by decide) (by decide) (by decide)⟩

/-! ## The aggregation invariant under height updates -/

theorem le_foldl_max_init (L : List Nat) (i : Nat) : i ≤ L.foldl max i := by
  induction L generalizing i with
  | nil => exact le_rfl
  | cons a L ih => exact le_trans (le_max_left i a) (ih (max i a))

theorem le_foldl_max (L : List Nat) (i a : Nat) (h : a ∈ L) : a ≤ L.foldl max i := by
  induction L generalizing i with
  | nil => simp at h
  | cons b L ih =>
    rw [List.foldl_cons]
    rcases List.mem_cons.mp h with rfl | h
    · exact le_trans (le_max_right i a) (le_foldl_max_init L _)
    · exact ih _ h

theorem foldl_max_le (L : List Nat) (i b : Nat) (hi : i ≤ b) (h : ∀ a ∈ L, a ≤ b) :
    L.foldl max i ≤ b := by
  induction L generalizing i with
  | nil => exact hi
  | cons a L ih =>
    rw [List.foldl_cons]
    exact ih _ (max_le hi (h a (List.mem_cons_self a L)))
      (fun c hc => h c (List.mem_cons_of_mem a hc))

theorem LayeredHeightMap.le_aggregate {F : Type} (hm : LayeredHeightMap F) (l : Nat) (p c : Pixel)
    (hc : c ∈ p.children) (hv : hm.Valid l c) : hm.height_mm l c.x c.y ≤ hm.aggregate l p := by
  unfold LayeredHeightMap.aggregate
  refine le_foldl_max _ _ _ ?_
  rw [List.mem_map]
  exact ⟨c, List.mem_filter.mpr ⟨hc, decide_eq_true hv⟩, rfl⟩

theorem LayeredHeightMap.aggregate_le {F : Type} (hm : LayeredHeightMap F) (l : Nat) (p : Pixel)
    (b : Nat) (h : ∀ c ∈ p.children, hm.Valid l c → hm.height_mm l c.x c.y ≤ b) :
    hm.aggregate l p ≤ b := by
  unfold LayeredHeightMap.aggregate
  refine foldl_max_le _ _ _ (Nat.zero_le b) ?_
  intro a ha
  rw [List.mem_map] at ha
  obtain ⟨c, hc, rfl⟩ := ha
  rw [List.mem_filter] at hc
  exact h c hc.1 (of_decide_eq_true hc.2)

theorem LayeredHeightMap.height_setHeight {F : Type} (hm : LayeredHeightMap F) (l : Nat)
    (p : Pixel) (h l2 : Nat) (c : Pixel) :
    (hm.setHeight l p h).height_mm l2 c.x c.y =
      if l2 = l ∧ c = p then h else hm.height_mm l2 c.x c.y := by
  cases c
  cases p
  simp only [LayeredHeightMap.setHeight, Pixel.mk.injEq]

theorem LayeredHeightMap.invariantExcept_raise {F : Type} {hm : LayeredHeightMap F} {l : Nat}
    {p : Pixel} (h : hm.InvariantExcept l p) :
    (hm.setHeight (l + 1) p.parent (hm.aggregate l p.parent)).InvariantExcept (l + 1)
      p.parent := by
  intro l2 p2 c hl hv hc hvc hne
  rw [LayeredHeightMap.height_setHeight, LayeredHeightMap.height_setHeight, if_neg hne]
  split_ifs with hp
  · obtain ⟨e1, e2⟩ := hp
    have e : l2 = l := by omega
    subst e
    subst e2
    exact hm.le_aggregate l2 _ c hc hvc
  · refine h l2 p2 c hl hv hc hvc ?_
    rintro ⟨rfl, rfl⟩
    exact hp ⟨rfl, ((Pixel.mem_children_iff _ _).mp hc).symm⟩

theorem LayeredHeightMap.propagate_invariant {F : Type} (k : Nat) :
    ∀ (hm : LayeredHeightMap F) (l : Nat) (p : Pixel), hm.InvariantExcept l p →
      hm.n_layers ≤ l + k + 1 → (LayeredHeightMap.propagate k hm l p).AggregationInvariant := by
  induction k with
  | zero =>
    intro hm l p h hn l2 p2 c hl hv hc hvc
    refine h l2 p2 c hl hv hc hvc ?_
    rintro ⟨rfl, -⟩
    simp only [LayeredHeightMap.propagate] at hl
    omega
  | succ k ih =>
    intro hm l p h hn
    simp only [LayeredHeightMap.propagate]
    refine ih _ _ _ (LayeredHeightMap.invariantExcept_raise h) ?_
    show hm.n_layers ≤ l + 1 + k + 1
    omega

theorem LayeredHeightMap.updateCell_invariant {F : Type} (hm : LayeredHeightMap F) (p : Pixel)
    (h : Nat) (hinv : hm.AggregationInvariant) : (hm.updateCell p h).AggregationInvariant := by
  refine LayeredHeightMap.propagate_invariant _ _ _ _ ?_ ?_
  · intro l2 p2 c hl hv hc hvc hne
    rw [LayeredHeightMap.height_setHeight, LayeredHeightMap.height_setHeight, if_neg hne,
      if_neg (by rintro ⟨e, -⟩; omega)]
    exact hinv l2 p2 c hl hv hc hvc
  · show hm.n_layers ≤ 0 + (hm.n_layers - 1) + 1
    omega

theorem foldl_preserves {α β : Type} (P : α → Prop) (f : α → β → α)
    (hf : ∀ a b, P a → P (f a b)) (L : List β) : ∀ a, P a → P (L.foldl f a) := by
  induction L with
  | nil => exact fun a h => h
  | cons b L ih => exact fun a h => ih _ (hf a b h)

theorem LayeredHeightMap.updateHeightsByPointCloud3D_invariant {F : Type}
    (cellOf : Vector3 F → Option (Pixel × Nat)) (hm : LayeredHeightMap F)
    (points : List (Vector3 F)) (hinv : hm.AggregationInvariant) :
    (hm.updateHeightsByPointCloud3D cellOf points).AggregationInvariant := by
  unfold LayeredHeightMap.updateHeightsByPointCloud3D
  refine foldl_preserves LayeredHeightMap.AggregationInvariant _ ?_ points hm hinv
  intro a pt ha
  cases h : cellOf pt with
  | none => exact ha
  | some r =>
    obtain ⟨p, z⟩ := r
    simp only
    split_ifs
    · exact a.updateCell_invariant _ _ ha
    · exact ha

theorem LayeredHeightMap.visitCells_invariant (visitor : Pixel → K × K → Nat → Bool × Nat)
    (ps : List Pixel) : ∀ hm : LayeredHeightMap K, hm.AggregationInvariant →
      (LayeredHeightMap.visitCells visitor ps hm).AggregationInvariant := by
  induction ps with
  | nil => exact fun hm h => h
  | cons p ps ih =>
    intro hm h
    simp only [LayeredHeightMap.visitCells]
    split_ifs
    · exact hm.updateCell_invariant _ _ h
    · exact ih _ (hm.updateCell_invariant _ _ h)

theorem applyUpdates_invariant (hm : LayeredHeightMap K) (updates : List (HeightUpdate K))
    (hinv : hm.AggregationInvariant) : (applyUpdates hm updates).AggregationInvariant := by
  unfold applyUpdates
  refine foldl_preserves LayeredHeightMap.AggregationInvariant _ ?_ updates hm hinv
  intro a u ha
  cases u with
  | pointCloud cellOf points => exact a.updateHeightsByPointCloud3D_invariant cellOf points ha
  | functor visitor => exact LayeredHeightMap.visitCells_invariant visitor _ a ha

theorem flatHeightMap_invariant {F : Type} (pitch : F) (n sx sy : Nat) :
    (flatHeightMap pitch n sx sy).AggregationInvariant :=
  fun _ _ _ _ _ _ _ => le_rfl

/-- Claim C16: from a heightmap that satisfies the aggregation invariant, after any
sequence of height updates, from point clouds or from visitors of the bottom
layer, every cell of every coarser layer stores a height that is at least the
maximum of the heights of the finer cells it aggregates. -/
theorem aggregation_invariant_after_updates (hm : LayeredHeightMap K)
    (updates : List (HeightUpdate K)) (hinv : hm.AggregationInvariant) (l : Nat) (p : Pixel) :
    l + 1 < (applyUpdates hm updates).n_layers → (applyUpdates hm updates).Valid (l + 1) p →
      (applyUpdates hm updates).aggregate l p ≤
        (applyUpdates hm updates).height_mm (l + 1) p.x p.y := by
  intro hl hv
  exact LayeredHeightMap.aggregate_le _ l p _
    (fun c hc hvc => applyUpdates_invariant hm updates hinv l p c hl hv hc hvc)

theorem aggregation_invariant_after_updates_witness :
    (flatHeightMap (1 : ℚ) 3 4 4).AggregationInvariant ∧
    0 + 1 < (applyUpdates (flatHeightMap (1 : ℚ) 3 4 4)
      [.functor (fun p _ _ => (false, 10 * (p.x + p.y))),
       .pointCloud (fun _ => some (⟨1, 2⟩, 700)) [⟨0, 0, 7 / 10⟩]]).n_layers ∧
    (applyUpdates (flatHeightMap (1 : ℚ) 3 4 4)
      [.functor (fun p _ _ => (false, 10 * (p.x + p.y))),
       .pointCloud (fun _ => some (⟨1, 2⟩, 700)) [⟨0, 0, 7 / 10⟩]]).Valid (0 + 1) ⟨0, 1⟩ ∧
    (applyUpdates (flatHeightMap (1 : ℚ) 3 4 4)
      [.functor (fun p _ _ => (false, 10 * (p.x + p.y))),
       .pointCloud (fun _ => some (⟨1, 2⟩, 700)) [⟨0, 0, 7 / 10⟩]]).aggregate 0 ⟨0, 1⟩ ≤
    (applyUpdates (flatHeightMap (1 : ℚ) 3 4 4)
      [.functor (fun p _ _ => (false, 10 * (p.x + p.y))),
       .pointCloud (fun _ => some (⟨1, 2⟩, 700)) [⟨0, 0, 7 / 10⟩]]).height_mm (0 + 1) 0 1 :=
  ⟨flatHeightMap_invariant 1 3 4 4, by decide, by decide,
    aggregation_invariant_after_updates (flatHeightMap (1 : ℚ) 3 4 4)
      [.functor (fun p _ _ => (false, 10 * (p.x + p.y))),
       .pointCloud (fun _ => some (⟨1, 2⟩, 700)) [⟨0, 0, 7 / 10⟩]]
      (flatHeightMap_invariant 1 3 4 4) 0 ⟨0, 1⟩ (by decide) (by decide)⟩

/-! ## Ties among the eigenvalues -/

/-- Claim C21 as stated fails: among the eigenvalues `(1, 0, 1)` the two
largest are equal, at the indices `0` and `2`, and the selection of
`merge_largedist` takes the smaller index `0` as `max` and the larger index `2`
as `mid`. -/
theorem eigenOrder_tie_takes_smaller_index :
    (⟨1, 0, 1⟩ : Vector3 ℚ).get 0 = (⟨1, 0, 1⟩ : Vector3 ℚ).get 2 ∧
      (⟨1, 0, 1⟩ : Vector3 ℚ).get 1 < (⟨1, 0, 1⟩ : Vector3 ℚ).get 0 ∧
      eigenOrder (⟨1, 0, 1⟩ : Vector3 ℚ) = (1, 2, 0) := by
  refine ⟨rfl, by norm_num [Vector3.get], ?_⟩
  norm_num [eigenOrder, Vector3.get]

/-! ## The two overloads of `obbDisjoint` and the free function `overlap` -/

/-- Claim C23: for every transform `tf` and all half-extents `a`, `b`, the
overload `obbDisjoint(tf, a, b)` returns what `obbDisjoint(tf.linear(),
tf.translation(), a, b)` returns. -/
theorem obbDisjoint_transform_eq (tf : Transform3 K) (a b : Vector3 K) :
    tf.obbDisjoint a b = obbDisjoint tf.linear tf.translation a b := by
  unfold Transform3.obbDisjoint obbDisjoint
  rfl

theorem Matrix3.identity_mul (M : Matrix3 K) : Matrix3.identity.mul M = M := by
  cases M
  simp [Matrix3.mul, Matrix3.identity, Matrix3.row0, Matrix3.row1, Matrix3.row2, Matrix3.col0,
    Matrix3.col1, Matrix3.col2, Vector3.dot]

theorem Matrix3.identity_mulVec (v : Vector3 K) : Matrix3.identity.mulVec v = v := by
  cases v
  simp [Matrix3.mulVec, Matrix3.identity, Matrix3.row0, Matrix3.row1, Matrix3.row2, Vector3.dot]

theorem Vector3.add_zero (v : Vector3 K) : v.add Vector3.zero = v := by
  cases v
  simp [Vector3.add, Vector3.zero]

/-- Claim C24: with the identity for `R0` and the zero vector for `T0`, the
free function `overlap(R0, T0, b1, b2)` returns what the member
`b1.overlap(b2)` returns. -/
theorem overlap_identity_zero (b1 b2 : OBB K) :
    overlap Matrix3.identity Vector3.zero b1 b2 = b1.overlap b2 := by
  simp only [overlap, OBB.overlap, Matrix3.identity_mul, Matrix3.identity_mulVec,
    Vector3.add_zero]
  simp only [Vector3.dot_comm]

/-! ## Growing and moving the boxes -/

theorem three_terms_mono {s s2 c1 c2 c3 k1 k2 k3 : K} (q1 q2 q3 : K) (hs : s ≤ s2)
    (h1 : c1 ≤ k1) (h2 : c2 ≤ k2) (h3 : c3 ≤ k3) :
    s + ((|q1| + 1 / 1000000) * c1 + (|q2| + 1 / 1000000) * c2 + (|q3| + 1 / 1000000) * c3) ≤
      s2 + ((|q1| + 1 / 1000000) * k1 + (|q2| + 1 / 1000000) * k2 +
        (|q3| + 1 / 1000000) * k3) := by
  have e1 := mul_le_mul_of_nonneg_left h1 (bias_nonneg q1)
  have e2 := mul_le_mul_of_nonneg_left h2 (bias_nonneg q2)
  have e3 := mul_le_mul_of_nonneg_left h3 (bias_nonneg q3)
  linarith

theorem four_terms_mono {c1 c2 c3 c4 k1 k2 k3 k4 : K} (q1 q2 q3 q4 : K)
    (h1 : c1 ≤ k1) (h2 : c2 ≤ k2) (h3 : c3 ≤ k3) (h4 : c4 ≤ k4) :
    c1 * (|q1| + 1 / 1000000) + c2 * (|q2| + 1 / 1000000) + c3 * (|q3| + 1 / 1000000) +
        c4 * (|q4| + 1 / 1000000) ≤
      k1 * (|q1| + 1 / 1000000) + k2 * (|q2| + 1 / 1000000) + k3 * (|q3| + 1 / 1000000) +
        k4 * (|q4| + 1 / 1000000) := by
  have e1 := mul_le_mul_of_nonneg_right h1 (bias_nonneg q1)
  have e2 := mul_le_mul_of_nonneg_right h2 (bias_nonneg q2)
  have e3 := mul_le_mul_of_nonneg_right h3 (bias_nonneg q3)
  have e4 := mul_le_mul_of_nonneg_right h4 (bias_nonneg q4)
  linarith

/-- With larger half-extents no comparison of `obbDisjoint` that failed can
succeed. -/
theorem obbDisjoint_false_of_le (B : Matrix3 K) (T a b a2 b2 : Vector3 K) (ha : a.le a2)
    (hb : b.le b2) (h : obbDisjoint B T a b = false) : obbDisjoint B T a2 b2 = false := by
  rw [obbDisjoint_eq_false_iff] at h ⊢
  obtain ⟨hax, hay, haz⟩ := ha
  obtain ⟨hbx, hby, hbz⟩ := hb
  obtain ⟨h1, h2, h3, h4, h5, h6, h7, h8, h9, h10, h11, h12, h13, h14, h15⟩ := h
  exact ⟨le_trans h1 (three_terms_mono _ _ _ hax hbx hby hbz),
    le_trans h2 (three_terms_mono _ _ _ hbx hax hay haz),
    le_trans h3 (three_terms_mono _ _ _ hay hbx hby hbz),
    le_trans h4 (three_terms_mono _ _ _ haz hbx hby hbz),
    le_trans h5 (three_terms_mono _ _ _ hby hax hay haz),
    le_trans h6 (three_terms_mono _ _ _ hbz hax hay haz),
    le_trans h7 (four_terms_mono _ _ _ _ hay haz hby hbz),
    le_trans h8 (four_terms_mono _ _ _ _ hay haz hbx hbz),
    le_trans h9 (four_terms_mono _ _ _ _ hay haz hbx hby),
    le_trans h10 (four_terms_mono _ _ _ _ hax haz hby hbz),
    le_trans h11 (four_terms_mono _ _ _ _ hax haz hbx hbz),
    le_trans h12 (four_terms_mono _ _ _ _ hax haz hbx hby),
    le_trans h13 (four_terms_mono _ _ _ _ hax hay hby hbz),
    le_trans h14 (four_terms_mono _ _ _ _ hax hay hbx hbz),
    le_trans h15 (four_terms_mono _ _ _ _ hax hay hbx hby)⟩

/-- Claim C25: `obbDisjoint` is monotone in the half-extents.  For `a ≤ a2`
and `b ≤ b2` componentwise, when the larger boxes are found disjoint so are
the smaller ones, and when the smaller boxes are not found disjoint neither
are the larger ones. -/
theorem obbDisjoint_monotone (B : Matrix3 K) (T a b a2 b2 : Vector3 K) (ha : a.le a2)
    (hb : b.le b2) :
    (obbDisjoint B T a2 b2 = true → obbDisjoint B T a b = true) ∧
      (obbDisjoint B T a b = false → obbDisjoint B T a2 b2 = false) := by
  refine ⟨fun h => ?_, obbDisjoint_false_of_le B T a b a2 b2 ha hb⟩
  by_contra hn
  rw [Bool.not_eq_true] at hn
  rw [obbDisjoint_false_of_le B T a b a2 b2 ha hb hn] at h
  exact Bool.noConfusion h

theorem obbDisjoint_monotone_witness :
    (⟨1 / 2, 1 / 2, 1 / 2⟩ : Vector3 ℚ).le ⟨1, 1, 1⟩ ∧
    (⟨1 / 4, 1 / 4, 1 / 4⟩ : Vector3 ℚ).le ⟨1, 1, 1⟩ ∧
    ((obbDisjoint Matrix3.identity (⟨3, 0, 0⟩ : Vector3 ℚ) ⟨1, 1, 1⟩ ⟨1, 1, 1⟩ = true →
        obbDisjoint Matrix3.identity (⟨3, 0, 0⟩ : Vector3 ℚ) ⟨1 / 2, 1 / 2, 1 / 2⟩
          ⟨1 / 4, 1 / 4, 1 / 4⟩ = true) ∧
      (obbDisjoint Matrix3.identity (⟨3, 0, 0⟩ : Vector3 ℚ) ⟨1 / 2, 1 / 2, 1 / 2⟩
          ⟨1 / 4, 1 / 4, 1 / 4⟩ = false →
        obbDisjoint Matrix3.identity (⟨3, 0, 0⟩ : Vector3 ℚ) ⟨1, 1, 1⟩ ⟨1, 1, 1⟩ = false)) :=
  ⟨by norm_num [Vector3.le], by norm_num [Vector3.le],
    obbDisjoint_monotone Matrix3.identity ⟨3, 0, 0⟩ ⟨1 / 2, 1 / 2, 1 / 2⟩ ⟨1 / 4, 1 / 4, 1 / 4⟩
      ⟨1, 1, 1⟩ ⟨1, 1, 1⟩ (by norm_num [Vector3.le]) (by norm_num [Vector3.le])⟩

/-- Claim C26 as amended: in exact arithmetic, `translate` changes the centre
only, and moving both boxes by the same vector does not change the answer of
`overlap`. -/
theorem overlap_translate (A B : OBB K) (t : Vector3 K) :
    (translate A t).overlap (translate B t) = A.overlap B ∧
      (translate A t).axis = A.axis ∧ (translate A t).extent = A.extent ∧
      (translate A t).To = A.To.add t := by
  refine ⟨?_, rfl, rfl, rfl⟩
  have e : (B.To.add t).sub (A.To.add t) = B.To.sub A.To := by
    simp [Vector3.add, Vector3.sub]
  simp only [OBB.overlap, translate, e]

/-! ## The corner vertices -/

theorem computeVertices_eq_corners (b : OBB K) :
    computeVertices b = vertexSigns.map (corner b) := by
  simp only [computeVertices, vertexSigns, corner, List.map, Vector3.add, Vector3.sub,
    Vector3.smul, if_true, Bool.false_eq_true, if_false, List.cons.injEq, Vector3.mk.injEq,
    and_true]
  refine ⟨⟨?_, ?_, ?_⟩, ⟨?_, ?_, ?_⟩, ⟨?_, ?_, ?_⟩, ⟨?_, ?_, ?_⟩, ⟨?_, ?_, ?_⟩, ⟨?_, ?_, ?_⟩,
    ⟨?_, ?_, ?_⟩, ⟨?_, ?_, ?_⟩⟩ <;> ring

/-- The projections of a corner on the three axes of its box, relative to the
centre, are the half-extents with the signs of the corner. -/
theorem corner_projections (b : OBB K) (hb : b.axis.IsOrthonormal) (s : Bool × Bool × Bool) :
    ((corner b s).sub b.To).dot b.axis.col0 = (if s.1 then 1 else -1) * b.extent.x ∧
    ((corner b s).sub b.To).dot b.axis.col1 = (if s.2.1 then 1 else -1) * b.extent.y ∧
    ((corner b s).sub b.To).dot b.axis.col2 = (if s.2.2 then 1 else -1) * b.extent.z := by
  obtain ⟨h00, h11, h22, h01, h02, h12⟩ := hb
  simp only [Matrix3.col0, Matrix3.col1, Matrix3.col2, Vector3.dot] at h00 h11 h22 h01 h02 h12
  simp only [corner, Vector3.add, Vector3.sub, Vector3.smul, Vector3.dot, Matrix3.col0,
    Matrix3.col1, Matrix3.col2]
  refine ⟨?_, ?_, ?_⟩
  · linear_combination ((if s.1 then 1 else -1) * b.extent.x) * h00 +
      ((if s.2.1 then 1 else -1) * b.extent.y) * h01 +
      ((if s.2.2 then 1 else -1) * b.extent.z) * h02
  · linear_combination ((if s.1 then 1 else -1) * b.extent.x) * h01 +
      ((if s.2.1 then 1 else -1) * b.extent.y) * h11 +
      ((if s.2.2 then 1 else -1) * b.extent.z) * h12
  · linear_combination ((if s.1 then 1 else -1) * b.extent.x) * h02 +
      ((if s.2.1 then 1 else -1) * b.extent.y) * h12 +
      ((if s.2.2 then 1 else -1) * b.extent.z) * h22

theorem abs_sign_mul_le (t : Bool) {e : K} (he : 0 ≤ e) : |(if t then 1 else -1) * e| ≤ e := by
  cases t
  · simp [abs_of_nonneg he]
  · simp [abs_of_nonneg he]

theorem contain_corner (b : OBB K) (hb : b.axis.IsOrthonormal) (hx : 0 ≤ b.extent.x)
    (hy : 0 ≤ b.extent.y) (hz : 0 ≤ b.extent.z) (s : Bool × Bool × Bool) :
    b.contain (corner b s) = true := by
  rw [contain_eq_true_iff]
  obtain ⟨p0, p1, p2⟩ := corner_projections b hb s
  rw [p0, p1, p2]
  exact ⟨abs_sign_mul_le _ hx, abs_sign_mul_le _ hy, abs_sign_mul_le _ hz⟩

/-- Claim C27 as amended: in exact arithmetic, for a box with an orthonormal
frame and non-negative half-extents, `computeVertices` gives the eight points
`To ± extent0 * axis0 ± extent1 * axis1 ± extent2 * axis2`, each of the eight
choices of the signs once, and the box contains each of them. -/
theorem computeVertices_corners_contained (b : OBB K) (hb : b.axis.IsOrthonormal)
    (hx : 0 ≤ b.extent.x) (hy : 0 ≤ b.extent.y) (hz : 0 ≤ b.extent.z) :
    computeVertices b = vertexSigns.map (corner b) ∧ vertexSigns.Nodup ∧
      (∀ s : Bool × Bool × Bool, s ∈ vertexSigns) ∧
      ∀ v ∈ computeVertices b, b.contain v = true := by
  refine ⟨computeVertices_eq_corners b, by decide, by decide, ?_⟩
  intro v hv
  rw [computeVertices_eq_corners, List.mem_map] at hv
  obtain ⟨s, _, rfl⟩ := hv
  exact contain_corner b hb hx hy hz s

theorem computeVertices_corners_contained_witness :
    (sampleA : OBB ℚ).axis.IsOrthonormal ∧ 0 ≤ (sampleA : OBB ℚ).extent.x ∧
    0 ≤ (sampleA : OBB ℚ).extent.y ∧ 0 ≤ (sampleA : OBB ℚ).extent.z ∧
    (computeVertices (sampleA : OBB ℚ) = vertexSigns.map (corner sampleA) ∧ vertexSigns.Nodup ∧
      (∀ s : Bool × Bool × Bool, s ∈ vertexSigns) ∧
      ∀ v ∈ computeVertices (sampleA : OBB ℚ), (sampleA : OBB ℚ).contain v = true) :=
  ⟨sampleA_orthonormal, by norm_num [sampleA], by norm_num [sampleA], by norm_num [sampleA],
    computeVertices_corners_contained sampleA sampleA_orthonormal (by norm_num [sampleA])
      (by norm_num [sampleA]) (by norm_num [sampleA])⟩

/-! ## The far-apart strategy has distinct centres -/

theorem isSqrt_zero {sqrt : K → K} (hs : IsSqrt sqrt) : sqrt 0 = 0 := by
  have h := (hs 0 le_rfl).2
  exact mul_self_eq_zero.mp h

theorem isSqrt_pos {sqrt : K → K} (hs : IsSqrt sqrt) {z : K} (hz : 0 < z) : 0 < sqrt z := by
  obtain ⟨h0, h1⟩ := hs z hz.le
  rcases h0.lt_or_eq with h | h
  · exact h
  · rw [← h] at h1
    linarith

theorem isSqrt_real : IsSqrt Real.sqrt :=
  fun z hz => ⟨Real.sqrt_nonneg z, Real.mul_self_sqrt hz⟩

theorem Vector3.squaredNorm_nonneg (v : Vector3 K) : 0 ≤ v.squaredNorm := by
  simp only [Vector3.squaredNorm, Vector3.dot]
  nlinarith [mul_self_nonneg v.x, mul_self_nonneg v.y, mul_self_nonneg v.z]

theorem Vector3.normalize_eq_div {sqrt : K → K} (hs : IsSqrt sqrt) (v : Vector3 K)
    (hv : 0 < v.squaredNorm) :
    v.normalize sqrt = ⟨v.x / v.norm sqrt, v.y / v.norm sqrt, v.z / v.norm sqrt⟩ ∧
      (v.normalize sqrt).dot (v.normalize sqrt) = 1 := by
  have hn : v.normalize sqrt = ⟨v.x / v.norm sqrt, v.y / v.norm sqrt, v.z / v.norm sqrt⟩ := by
    simp only [Vector3.normalize, Vector3.norm]
    rw [if_pos hv]
  refine ⟨hn, ?_⟩
  rw [hn]
  have hp := isSqrt_pos hs hv
  have hq := (hs _ hv.le).2
  simp only [Vector3.norm, Vector3.dot]
  have e : v.x / sqrt v.squaredNorm * (v.x / sqrt v.squaredNorm) +
      v.y / sqrt v.squaredNorm * (v.y / sqrt v.squaredNorm) +
      v.z / sqrt v.squaredNorm * (v.z / sqrt v.squaredNorm) =
      (v.x * v.x + v.y * v.y + v.z * v.z) / (sqrt v.squaredNorm * sqrt v.squaredNorm) := by
    field_simp
  rw [e, hq]
  simp only [Vector3.squaredNorm, Vector3.dot] at hv ⊢
  exact div_self hv.ne'

/-- Claim C22: for boxes with non-negative half-extents, whenever `A + B` takes
the far-apart strategy the two centres are different and the norm of their
difference is not zero, so the normalisation divides by a non-zero number,
and the first axis of the merged box is the difference of the centres divided
by its norm, a vector of length one. -/
theorem largedist_first_axis_unit (sqrt : K → K) (hs : IsSqrt sqrt) (real_max : K)
    (G : GeometryRoutines K) (A B : OBB K)
    (hA : 0 ≤ A.extent.x ∧ 0 ≤ A.extent.y ∧ 0 ≤ A.extent.z)
    (hB : 0 ≤ B.extent.x ∧ 0 ≤ B.extent.y ∧ 0 ≤ B.extent.z)
    (hd : (A.To.sub B.To).norm sqrt >
      2 * (max (max A.extent.x A.extent.y) A.extent.z +
        max (max B.extent.x B.extent.y) B.extent.z)) :
    A.add sqrt real_max G B = merge_largedist sqrt G A B ∧ A.To ≠ B.To ∧
      (A.To.sub B.To).norm sqrt ≠ 0 ∧
      (A.add sqrt real_max G B).axis.col0 =
        ⟨(A.To.sub B.To).x / (A.To.sub B.To).norm sqrt,
         (A.To.sub B.To).y / (A.To.sub B.To).norm sqrt,
         (A.To.sub B.To).z / (A.To.sub B.To).norm sqrt⟩ ∧
      (A.add sqrt real_max G B).axis.col0.dot (A.add sqrt real_max G B).axis.col0 = 1 := by
  have hadd : A.add sqrt real_max G B = merge_largedist sqrt G A B := by
    rw [OBB.add]
    exact if_pos hd
  have hm : 0 ≤ max (max A.extent.x A.extent.y) A.extent.z +
      max (max B.extent.x B.extent.y) B.extent.z :=
    add_nonneg (le_trans hA.2.2 (le_max_right _ _)) (le_trans hB.2.2 (le_max_right _ _))
  have hpos : 0 < (A.To.sub B.To).norm sqrt := by linarith
  have hz : 0 < (A.To.sub B.To).squaredNorm := by
    rcases (Vector3.squaredNorm_nonneg (A.To.sub B.To)).lt_or_eq with h | h
    · exact h
    · rw [Vector3.norm, ← h, isSqrt_zero hs] at hpos
      exact absurd hpos (lt_irrefl 0)
  have hne : A.To ≠ B.To := by
    intro e
    rw [e] at hz
    simp [Vector3.squaredNorm, Vector3.dot, Vector3.sub] at hz
  obtain ⟨hn, hu⟩ := Vector3.normalize_eq_div hs (A.To.sub B.To) hz
  have hcol : (A.add sqrt real_max G B).axis.col0 = (A.To.sub B.To).normalize sqrt := by
    rw [hadd]
    simp only [merge_largedist, Matrix3.ofCols, Matrix3.col0]
  refine ⟨hadd, hne, hpos.ne', ?_, ?_⟩
  · rw [hcol, hn]
  · rw [hcol, hu]

/-! ## The tracked minimum and maximum of `merge_smalldist` -/

theorem foldl_minmaxStep_get (axis : Matrix3 K) (To : Vector3 K) (vs : List (Vector3 K))
    (j : Fin 3) : ∀ st : Vector3 K × Vector3 K,
      (((vs.foldl (minmaxStep axis To) st).1.get j, (vs.foldl (minmaxStep axis To) st).2.get j) :
          K × K) =
        (projections (axis.col j) To vs).foldl (fun pm d => trackMinMax d pm)
          (st.1.get j, st.2.get j) := by
  induction vs with
  | nil => exact fun st => rfl
  | cons v vs ih =>
    intro st
    simp only [List.foldl_cons, projections, List.map_cons]
    rw [ih]
    fin_cases j <;> rfl

theorem trackMinMax_fst (d : K) (pm : K × K) : (trackMinMax d pm).1 = max pm.1 d := by
  unfold trackMinMax
  split_ifs with h1 h2
  · exact (max_eq_right h1.le).symm
  · exact (max_eq_left (not_lt.mp h1)).symm
  · exact (max_eq_left (not_lt.mp h1)).symm

theorem trackMinMax_snd (d : K) (pm : K × K) :
    (trackMinMax d pm).2 = pm.2 ∨ (trackMinMax d pm).2 = d := by
  unfold trackMinMax
  split_ifs
  · exact Or.inl rfl
  · exact Or.inr rfl
  · exact Or.inl rfl

theorem trackMinMax_between (d : K) (pm : K × K) (h : pm.2 ≤ pm.1) :
    (trackMinMax d pm).2 ≤ (trackMinMax d pm).1 ∧ (trackMinMax d pm).2 ≤ pm.2 ∧
      pm.1 ≤ (trackMinMax d pm).1 ∧ (trackMinMax d pm).2 ≤ d ∧ d ≤ (trackMinMax d pm).1 := by
  unfold trackMinMax
  split_ifs with h1 h2
  · exact ⟨by simp only; linarith, le_rfl, h1.le, by simp only; linarith, le_rfl⟩
  · exact ⟨by simp only; linarith, h2.le, le_rfl, le_rfl, not_lt.mp h1⟩
  · exact ⟨h, le_rfl, le_rfl, not_lt.mp h2, not_lt.mp h1⟩

theorem foldl_track_between (ds : List K) : ∀ pm : K × K, pm.2 ≤ pm.1 →
    (ds.foldl (fun pm d => trackMinMax d pm) pm).2 ≤
        (ds.foldl (fun pm d => trackMinMax d pm) pm).1 ∧
      (ds.foldl (fun pm d => trackMinMax d pm) pm).2 ≤ pm.2 ∧
      pm.1 ≤ (ds.foldl (fun pm d => trackMinMax d pm) pm).1 ∧
      ∀ d ∈ ds, (ds.foldl (fun pm d => trackMinMax d pm) pm).2 ≤ d ∧
        d ≤ (ds.foldl (fun pm d => trackMinMax d pm) pm).1 := by
  induction ds with
  | nil => exact fun pm h => ⟨h, le_rfl, le_rfl, fun d hd => absurd hd (List.not_mem_nil d)⟩
  | cons a ds ih =>
    intro pm h
    obtain ⟨t1, t2, t3, t4, t5⟩ := trackMinMax_between a pm h
    obtain ⟨r1, r2, r3, r4⟩ := ih _ t1
    rw [List.foldl_cons]
    refine ⟨r1, le_trans r2 t2, le_trans t3 r3, ?_⟩
    intro d hd
    rcases List.mem_cons.mp hd with rfl | hd
    · exact ⟨le_trans r2 t4, le_trans t5 r3⟩
    · exact r4 d hd

theorem foldl_track_fst (ds : List K) : ∀ pm : K × K,
    (ds.foldl (fun pm d => trackMinMax d pm) pm).1 = ds.foldl max pm.1 := by
  induction ds with
  | nil => exact fun pm => rfl
  | cons a ds ih =>
    intro pm
    rw [List.foldl_cons, List.foldl_cons, ih, trackMinMax_fst]

theorem foldl_track_snd (ds : List K) : ∀ pm : K × K,
    (ds.foldl (fun pm d => trackMinMax d pm) pm).2 = pm.2 ∨
      (ds.foldl (fun pm d => trackMinMax d pm) pm).2 ∈ ds := by
  induction ds with
  | nil => exact fun pm => Or.inl rfl
  | cons a ds ih =>
    intro pm
    rw [List.foldl_cons]
    rcases ih (trackMinMax a pm) with h | h
    · rcases trackMinMax_snd a pm with e | e
      · exact Or.inl (h.trans e)
      · exact Or.inr (by rw [h, e]; exact List.mem_cons_self a ds)
    · exact Or.inr (List.mem_cons_of_mem a h)

theorem projections_computeVertices (d To : Vector3 K) (b : OBB K) :
    ∃ p0 p1 p2 p3 p4 p5 p6 p7 : K,
      projections d To (computeVertices b) = [p0, p1, p2, p3, p4, p5, p6, p7] ∧
        p1 - p0 = p2 - p3 := by
  refine ⟨_, _, _, _, _, _, _, _, rfl, ?_⟩
  simp only [Vector3.sub, Vector3.add, Vector3.smul, Vector3.dot]
  ring

theorem foldl_max_projections (d To : Vector3 K) (M : K) (v : Vector3 K) (vs : List (Vector3 K))
    (h : -M < (v.sub To).dot d) :
    (projections d To (v :: vs)).foldl max (-M) = projMax d To (v :: vs) := by
  simp only [projections, List.map_cons, List.foldl_cons, projMax, max_eq_right h.le,
    List.foldl_map]

theorem smalldistFirstLoop_get (sqrt : K → K) (real_max : K) (b1 b2 : OBB K) (j : Fin 3) :
    (((smalldistFirstLoop sqrt real_max b1 b2).1.get j,
        (smalldistFirstLoop sqrt real_max b1 b2).2.get j) : K × K) =
      (projections ((smalldistAxis sqrt b1 b2).col j) (smalldistMidpoint b1 b2)
        (computeVertices b1)).foldl (fun pm d => trackMinMax d pm) (-real_max, real_max) := by
  rw [smalldistFirstLoop, foldl_minmaxStep_get]
  fin_cases j <;> rfl

theorem smalldistMinMax_get (sqrt : K → K) (real_max : K) (b1 b2 : OBB K) (j : Fin 3) :
    (((smalldistMinMax sqrt real_max b1 b2).1.get j,
        (smalldistMinMax sqrt real_max b1 b2).2.get j) : K × K) =
      (projections ((smalldistAxis sqrt b1 b2).col j) (smalldistMidpoint b1 b2)
        (computeVertices b2)).foldl (fun pm d => trackMinMax d pm)
        ((smalldistFirstLoop sqrt real_max b1 b2).1.get j,
          (smalldistFirstLoop sqrt real_max b1 b2).2.get j) := by
  rw [smalldistMinMax, foldl_minmaxStep_get]
  rfl

theorem Quaternion.toRotationMatrix_orthonormal (q : Quaternion K) (hq : q.dot q = 1) :
    q.toRotationMatrix.IsOrthonormal := by
  simp only [Quaternion.dot] at hq
  simp only [Matrix3.IsOrthonormal, Quaternion.toRotationMatrix, Matrix3.col0, Matrix3.col1,
    Matrix3.col2, Vector3.dot]
  refine ⟨?_, ?_, ?_, ?_, ?_, ?_⟩
  · linear_combination (4 * (q.y * q.y + q.z * q.z)) * hq
  · linear_combination (4 * (q.x * q.x + q.z * q.z)) * hq
  · linear_combination (4 * (q.x * q.x + q.y * q.y)) * hq
  · linear_combination (-4 * (q.x * q.y)) * hq
  · linear_combination (-4 * (q.x * q.z)) * hq
  · linear_combination (-4 * (q.y * q.z)) * hq

theorem Quaternion.eq_zero_of_dot_self {q : Quaternion K} (h : ¬ q.dot q > 0) :
    q = ⟨0, 0, 0, 0⟩ := by
  simp only [Quaternion.dot, gt_iff_lt, not_lt] at h
  have hw := mul_self_nonneg q.w
  have hx := mul_self_nonneg q.x
  have hy := mul_self_nonneg q.y
  have hz := mul_self_nonneg q.z
  have ew : q.w = 0 := mul_self_eq_zero.mp (le_antisymm (by linarith) hw)
  have ex : q.x = 0 := mul_self_eq_zero.mp (le_antisymm (by linarith) hx)
  have ey : q.y = 0 := mul_self_eq_zero.mp (le_antisymm (by linarith) hy)
  have ez : q.z = 0 := mul_self_eq_zero.mp (le_antisymm (by linarith) hz)
  cases q
  simp only at ew ex ey ez
  rw [ew, ex, ey, ez]

theorem Quaternion.normalize_dot_self {sqrt : K → K} (hs : IsSqrt sqrt) (q : Quaternion K)
    (hz : q.dot q > 0) : (q.normalize sqrt).dot (q.normalize sqrt) = 1 := by
  have hp := isSqrt_pos hs hz
  have hq := (hs _ hz.le).2
  simp only [Quaternion.normalize]
  rw [if_pos hz]
  have e : (⟨q.w / sqrt (q.dot q), q.x / sqrt (q.dot q), q.y / sqrt (q.dot q),
      q.z / sqrt (q.dot q)⟩ : Quaternion K).dot
      ⟨q.w / sqrt (q.dot q), q.x / sqrt (q.dot q), q.y / sqrt (q.dot q),
        q.z / sqrt (q.dot q)⟩ = q.dot q / (sqrt (q.dot q) * sqrt (q.dot q)) := by
    simp only [Quaternion.dot]
    field_simp
  rw [e, hq]
  exact div_self hz.ne'

/-- The averaged frame is orthonormal whatever the two quaternions are: the
sum is normalised to a unit quaternion, and the zero sum, which `normalize`
leaves alone, gives the identity. -/
theorem smalldistAxis_orthonormal {sqrt : K → K} (hs : IsSqrt sqrt) (b1 b2 : OBB K) :
    (smalldistAxis sqrt b1 b2).IsOrthonormal := by
  unfold smalldistAxis
  simp only
  generalize (Quaternion.ofMatrix sqrt b1.axis).add
    (if (Quaternion.ofMatrix sqrt b1.axis).dot (Quaternion.ofMatrix sqrt b2.axis) < 0 then
      (Quaternion.ofMatrix sqrt b2.axis).neg else Quaternion.ofMatrix sqrt b2.axis) = q
  by_cases hz : q.dot q > 0
  · exact Quaternion.toRotationMatrix_orthonormal _ (Quaternion.normalize_dot_self hs q hz)
  · have e : q.normalize sqrt = ⟨0, 0, 0, 0⟩ := by
      simp only [Quaternion.normalize]
      rw [if_neg hz]
      exact Quaternion.eq_zero_of_dot_self hz
    rw [e]
    simp [Matrix3.IsOrthonormal, Quaternion.toRotationMatrix, Matrix3.col0, Matrix3.col1,
      Matrix3.col2, Vector3.dot]

theorem abs_sub_half_le_iff (d pmax pmin : K) :
    |d - 1 / 2 * (pmax + pmin)| ≤ 1 / 2 * (pmax - pmin) ↔ pmin ≤ d ∧ d ≤ pmax := by
  rw [abs_le]
  constructor
  · rintro ⟨h1, h2⟩
    exact ⟨by linarith, by linarith⟩
  · rintro ⟨h1, h2⟩
    exact ⟨by linarith, by linarith⟩

theorem forall_fin_three_iff (P : Fin 3 → Prop) : (∀ i, P i) ↔ P 0 ∧ P 1 ∧ P 2 := by
  constructor
  · exact fun h => ⟨h 0, h 1, h 2⟩
  · rintro ⟨h0, h1, h2⟩ i
    fin_cases i
    · exact h0
    · exact h1
    · exact h2

/-- A box in an orthonormal frame whose centre and half-extents are set from
the bounds `pmin` and `pmax` as in lines 288-291 contains a point exactly when
the projections of the point, relative to `To`, lie between the bounds. -/
theorem contain_recentred (axis : Matrix3 K) (hax : axis.IsOrthonormal)
    (To pmax pmin v : Vector3 K) :
    (⟨axis,
        ((To.add (axis.col0.smul (1 / 2 * (pmax.x + pmin.x)))).add
          (axis.col1.smul (1 / 2 * (pmax.y + pmin.y)))).add
          (axis.col2.smul (1 / 2 * (pmax.z + pmin.z))),
        ⟨1 / 2 * (pmax.x - pmin.x), 1 / 2 * (pmax.y - pmin.y),
          1 / 2 * (pmax.z - pmin.z)⟩⟩ : OBB K).contain v = true ↔
      (pmin.x ≤ (v.sub To).dot axis.col0 ∧ (v.sub To).dot axis.col0 ≤ pmax.x) ∧
      (pmin.y ≤ (v.sub To).dot axis.col1 ∧ (v.sub To).dot axis.col1 ≤ pmax.y) ∧
      (pmin.z ≤ (v.sub To).dot axis.col2 ∧ (v.sub To).dot axis.col2 ≤ pmax.z) := by
  rw [contain_eq_true_iff]
  obtain ⟨h00, h11, h22, h01, h02, h12⟩ := hax
  simp only [Matrix3.col0, Matrix3.col1, Matrix3.col2, Vector3.dot] at h00 h11 h22 h01 h02 h12
  rw [← abs_sub_half_le_iff, ← abs_sub_half_le_iff, ← abs_sub_half_le_iff]
  simp only [Matrix3.col0, Matrix3.col1, Matrix3.col2, Vector3.dot, Vector3.sub, Vector3.add,
    Vector3.smul]
  have e0 : (v.x - (To.x + axis.m00 * (1 / 2 * (pmax.x + pmin.x)) +
        axis.m01 * (1 / 2 * (pmax.y + pmin.y)) + axis.m02 * (1 / 2 * (pmax.z + pmin.z)))) *
        axis.m00 +
      (v.y - (To.y + axis.m10 * (1 / 2 * (pmax.x + pmin.x)) +
        axis.m11 * (1 / 2 * (pmax.y + pmin.y)) + axis.m12 * (1 / 2 * (pmax.z + pmin.z)))) *
        axis.m10 +
      (v.z - (To.z + axis.m20 * (1 / 2 * (pmax.x + pmin.x)) +
        axis.m21 * (1 / 2 * (pmax.y + pmin.y)) + axis.m22 * (1 / 2 * (pmax.z + pmin.z)))) *
        axis.m20 =
      (v.x - To.x) * axis.m00 + (v.y - To.y) * axis.m10 + (v.z - To.z) * axis.m20 -
        1 / 2 * (pmax.x + pmin.x) := by
    linear_combination (-(1 / 2 * (pmax.x + pmin.x))) * h00 -
      (1 / 2 * (pmax.y + pmin.y)) * h01 - (1 / 2 * (pmax.z + pmin.z)) * h02
  have e1 : (v.x - (To.x + axis.m00 * (1 / 2 * (pmax.x + pmin.x)) +
        axis.m01 * (1 / 2 * (pmax.y + pmin.y)) + axis.m02 * (1 / 2 * (pmax.z + pmin.z)))) *
        axis.m01 +
      (v.y - (To.y + axis.m10 * (1 / 2 * (pmax.x + pmin.x)) +
        axis.m11 * (1 / 2 * (pmax.y + pmin.y)) + axis.m12 * (1 / 2 * (pmax.z + pmin.z)))) *
        axis.m11 +
      (v.z - (To.z + axis.m20 * (1 / 2 * (pmax.x + pmin.x)) +
        axis.m21 * (1 / 2 * (pmax.y + pmin.y)) + axis.m22 * (1 / 2 * (pmax.z + pmin.z)))) *
        axis.m21 =
      (v.x - To.x) * axis.m01 + (v.y - To.y) * axis.m11 + (v.z - To.z) * axis.m21 -
        1 / 2 * (pmax.y + pmin.y) := by
    linear_combination (-(1 / 2 * (pmax.x + pmin.x))) * h01 -
      (1 / 2 * (pmax.y + pmin.y)) * h11 - (1 / 2 * (pmax.z + pmin.z)) * h12
  have e2 : (v.x - (To.x + axis.m00 * (1 / 2 * (pmax.x + pmin.x)) +
        axis.m01 * (1 / 2 * (pmax.y + pmin.y)) + axis.m02 * (1 / 2 * (pmax.z + pmin.z)))) *
        axis.m02 +
      (v.y - (To.y + axis.m10 * (1 / 2 * (pmax.x + pmin.x)) +
        axis.m11 * (1 / 2 * (pmax.y + pmin.y)) + axis.m12 * (1 / 2 * (pmax.z + pmin.z)))) *
        axis.m12 +
      (v.z - (To.z + axis.m20 * (1 / 2 * (pmax.x + pmin.x)) +
        axis.m21 * (1 / 2 * (pmax.y + pmin.y)) + axis.m22 * (1 / 2 * (pmax.z + pmin.z)))) *
        axis.m22 =
      (v.x - To.x) * axis.m02 + (v.y - To.y) * axis.m12 + (v.z - To.z) * axis.m22 -
        1 / 2 * (pmax.z + pmin.z) := by
    linear_combination (-(1 / 2 * (pmax.x + pmin.x))) * h02 -
      (1 / 2 * (pmax.y + pmin.y)) * h12 - (1 / 2 * (pmax.z + pmin.z)) * h22
  rw [e0, e1, e2]

/-- The merged box of `merge_smalldist` contains a point exactly when, on each
new axis, the projection of the point relative to the midpoint lies between
the tracked `pmin` and `pmax`. -/
theorem merge_smalldist_contain_iff {sqrt : K → K} (hs : IsSqrt sqrt) (real_max : K)
    (b1 b2 : OBB K) (v : Vector3 K) :
    (merge_smalldist sqrt real_max b1 b2).contain v = true ↔
      ∀ j : Fin 3,
        (smalldistMinMax sqrt real_max b1 b2).2.get j ≤
            (v.sub (smalldistMidpoint b1 b2)).dot ((smalldistAxis sqrt b1 b2).col j) ∧
          (v.sub (smalldistMidpoint b1 b2)).dot ((smalldistAxis sqrt b1 b2).col j) ≤
            (smalldistMinMax sqrt real_max b1 b2).1.get j := by
  rw [forall_fin_three_iff]
  exact contain_recentred _ (smalldistAxis_orthonormal hs b1 b2) _ _ _ v

/-! ## The quaternion of a proper rotation -/

/-- The ten products of two coefficients of a quaternion, given by the
coefficients of a matrix as for a rotation, make the quaternion a unit
quaternion whose rotation matrix is that matrix. -/
theorem quat_of_relations (R : Matrix3 K) (q : Quaternion K)
    (hww : 4 * (q.w * q.w) = 1 + R.m00 + R.m11 + R.m22)
    (hxx : 4 * (q.x * q.x) = 1 + R.m00 - R.m11 - R.m22)
    (hyy : 4 * (q.y * q.y) = 1 - R.m00 + R.m11 - R.m22)
    (hzz : 4 * (q.z * q.z) = 1 - R.m00 - R.m11 + R.m22)
    (hwx : 4 * (q.w * q.x) = R.m21 - R.m12)
    (hwy : 4 * (q.w * q.y) = R.m02 - R.m20)
    (hwz : 4 * (q.w * q.z) = R.m10 - R.m01)
    (hxy : 4 * (q.x * q.y) = R.m01 + R.m10)
    (hxz : 4 * (q.x * q.z) = R.m02 + R.m20)
    (hyz : 4 * (q.y * q.z) = R.m12 + R.m21) :
    q.dot q = 1 ∧ q.toRotationMatrix = R := by
  constructor
  · simp only [Quaternion.dot]
    linear_combination (1 / 4) * hww + (1 / 4) * hxx + (1 / 4) * hyy + (1 / 4) * hzz
  · cases R
    simp only [Quaternion.toRotationMatrix, Matrix3.mk.injEq] at *
    refine ⟨?_, ?_, ?_, ?_, ?_, ?_, ?_, ?_, ?_⟩
    · linear_combination (-1 / 2) * hyy + (-1 / 2) * hzz
    · linear_combination (1 / 2) * hxy - (1 / 2) * hwz
    · linear_combination (1 / 2) * hxz + (1 / 2) * hwy
    · linear_combination (1 / 2) * hxy + (1 / 2) * hwz
    · linear_combination (-1 / 2) * hxx + (-1 / 2) * hzz
    · linear_combination (1 / 2) * hyz - (1 / 2) * hwx
    · linear_combination (1 / 2) * hxz - (1 / 2) * hwy
    · linear_combination (1 / 2) * hyz + (1 / 2) * hwx
    · linear_combination (-1 / 2) * hxx + (-1 / 2) * hyy

theorem quat_sq (s A : K) (hss : s * s = A) : 4 * (1 / 2 * s * (1 / 2 * s)) = A := by
  linear_combination hss

theorem quat_pivot_left (s P T : K) (hs : s ≠ 0) (e : P = T) :
    4 * (1 / 2 * s * (P * (1 / 2 / s))) = T := by
  rw [← e]
  field_simp
  ring

theorem quat_pivot_right (s P T : K) (hs : s ≠ 0) (e : P = T) :
    4 * (P * (1 / 2 / s) * (1 / 2 * s)) = T := by
  rw [← e]
  field_simp
  ring

theorem quat_off (s A P Q T : K) (hs : s ≠ 0) (hss : s * s = A) (hm : P * Q = A * T) :
    4 * (P * (1 / 2 / s) * (Q * (1 / 2 / s))) = T := by
  have hA : A ≠ 0 := by
    rw [← hss]
    exact mul_ne_zero hs hs
  have e : 4 * (P * (1 / 2 / s) * (Q * (1 / 2 / s))) = P * Q / (s * s) := by
    field_simp
    ring
  rw [e, hm, hss]
  exact mul_div_cancel_left₀ T hA

/-- The branch of `Quaternion.ofMatrix` with the pivot `w`: for a proper
rotation the quaternion has unit length and gives the rotation back. -/
theorem quat_branch_w (R : Matrix3 K) (hR : R.IsProperRotation) (s : K) (hs : s ≠ 0)
    (hss : s * s = R.m00 + R.m11 + R.m22 + 1) :
    (⟨1 / 2 * s,
      (R.m21 - R.m12) * (1 / 2 / s),
      (R.m02 - R.m20) * (1 / 2 / s),
      (R.m10 - R.m01) * (1 / 2 / s)⟩ : Quaternion K).dot
        ⟨1 / 2 * s,
          (R.m21 - R.m12) * (1 / 2 / s),
          (R.m02 - R.m20) * (1 / 2 / s),
          (R.m10 - R.m01) * (1 / 2 / s)⟩ = 1 ∧
      (⟨1 / 2 * s,
        (R.m21 - R.m12) * (1 / 2 / s),
        (R.m02 - R.m20) * (1 / 2 / s),
        (R.m10 - R.m01) * (1 / 2 / s)⟩ : Quaternion K).toRotationMatrix = R := by
  obtain ⟨hc, hdet⟩ := hR
  have hr := isOrthonormal_transpose hc
  obtain ⟨_, k00, k01, k02, k10, k11, k12, k20, k21, k22⟩ := cofactor_of_orthonormal_rows R hr
  rw [hdet, one_mul] at k00 k01 k02 k10 k11 k12 k20 k21 k22
  obtain ⟨c00, c11, c22, c01, c02, c12⟩ := hc
  obtain ⟨r00, r11, r22, r01, r02, r12⟩ := hr
  simp only [Matrix3.col0, Matrix3.col1, Matrix3.col2, Vector3.dot] at c00 c11 c22 c01 c02 c12
  simp only [Matrix3.transpose, Matrix3.col0, Matrix3.col1, Matrix3.col2,
    Vector3.dot] at r00 r11 r22 r01 r02 r12
  refine quat_of_relations R _ ?_ ?_ ?_ ?_ ?_ ?_ ?_ ?_ ?_ ?_
  · exact quat_sq s _ (by linear_combination hss)
  · exact quat_off s (R.m00 + R.m11 + R.m22 + 1) _ _ _ hs hss
      (by linear_combination (1) * c11 + (1) * c22 + (-1) * r00 + (2) * k00)
  · exact quat_off s (R.m00 + R.m11 + R.m22 + 1) _ _ _ hs hss
      (by linear_combination (1) * c00 + (1) * c22 + (-1) * r11 + (2) * k11)
  · exact quat_off s (R.m00 + R.m11 + R.m22 + 1) _ _ _ hs hss
      (by linear_combination (-1) * c22 + (1) * r00 + (1) * r11 + (2) * k22)
  · exact quat_pivot_left s _ _ hs (by ring)
  · exact quat_pivot_left s _ _ hs (by ring)
  · exact quat_pivot_left s _ _ hs (by ring)
  · exact quat_off s (R.m00 + R.m11 + R.m22 + 1) _ _ _ hs hss
      (by linear_combination (-1) * c01 + (-1) * r01 + (1) * k01 + (1) * k10)
  · exact quat_off s (R.m00 + R.m11 + R.m22 + 1) _ _ _ hs hss
      (by linear_combination (-1) * c02 + (-1) * r02 + (1) * k02 + (1) * k20)
  · exact quat_off s (R.m00 + R.m11 + R.m22 + 1) _ _ _ hs hss
      (by linear_combination (-1) * c12 + (-1) * r12 + (1) * k12 + (1) * k21)

/-- The branch of `Quaternion.ofMatrix` with the pivot `x`: for a proper
rotation the quaternion has unit length and gives the rotation back. -/
theorem quat_branch_x (R : Matrix3 K) (hR : R.IsProperRotation) (s : K) (hs : s ≠ 0)
    (hss : s * s = R.m00 - R.m11 - R.m22 + 1) :
    (⟨(R.m21 - R.m12) * (1 / 2 / s),
      1 / 2 * s,
      (R.m10 + R.m01) * (1 / 2 / s),
      (R.m20 + R.m02) * (1 / 2 / s)⟩ : Quaternion K).dot
        ⟨(R.m21 - R.m12) * (1 / 2 / s),
          1 / 2 * s,
          (R.m10 + R.m01) * (1 / 2 / s),
          (R.m20 + R.m02) * (1 / 2 / s)⟩ = 1 ∧
      (⟨(R.m21 - R.m12) * (1 / 2 / s),
        1 / 2 * s,
        (R.m10 + R.m01) * (1 / 2 / s),
        (R.m20 + R.m02) * (1 / 2 / s)⟩ : Quaternion K).toRotationMatrix = R := by
  obtain ⟨hc, hdet⟩ := hR
  have hr := isOrthonormal_transpose hc
  obtain ⟨_, k00, k01, k02, k10, k11, k12, k20, k21, k22⟩ := cofactor_of_orthonormal_rows R hr
  rw [hdet, one_mul] at k00 k01 k02 k10 k11 k12 k20 k21 k22
  obtain ⟨c00, c11, c22, c01, c02, c12⟩ := hc
  obtain ⟨r00, r11, r22, r01, r02, r12⟩ := hr
  simp only [Matrix3.col0, Matrix3.col1, Matrix3.col2, Vector3.dot] at c00 c11 c22 c01 c02 c12
  simp only [Matrix3.transpose, Matrix3.col0, Matrix3.col1, Matrix3.col2,
    Vector3.dot] at r00 r11 r22 r01 r02 r12
  refine quat_of_relations R _ ?_ ?_ ?_ ?_ ?_ ?_ ?_ ?_ ?_ ?_
  · exact quat_off s (R.m00 - R.m11 - R.m22 + 1) _ _ _ hs hss
      (by linear_combination (1) * c11 + (1) * c22 + (-1) * r00 + (2) * k00)
  · exact quat_sq s _ (by linear_combination hss)
  · exact quat_off s (R.m00 - R.m11 - R.m22 + 1) _ _ _ hs hss
      (by linear_combination (-1) * c22 + (1) * r00 + (1) * r11 + (-2) * k22)
  · exact quat_off s (R.m00 - R.m11 - R.m22 + 1) _ _ _ hs hss
      (by linear_combination (1) * c00 + (1) * c22 + (-1) * r11 + (-2) * k11)
  · exact quat_pivot_right s _ _ hs (by ring)
  · exact quat_off s (R.m00 - R.m11 - R.m22 + 1) _ _ _ hs hss
      (by linear_combination (-1) * c02 + (1) * r02 + (1) * k02 + (-1) * k20)
  · exact quat_off s (R.m00 - R.m11 - R.m22 + 1) _ _ _ hs hss
      (by linear_combination (1) * c01 + (-1) * r01 + (-1) * k01 + (1) * k10)
  · exact quat_pivot_left s _ _ hs (by ring)
  · exact quat_pivot_left s _ _ hs (by ring)
  · exact quat_off s (R.m00 - R.m11 - R.m22 + 1) _ _ _ hs hss
      (by linear_combination (1) * c12 + (1) * r12 + (1) * k12 + (1) * k21)

/-- The branch of `Quaternion.ofMatrix` with the pivot `y`: for a proper
rotation the quaternion has unit length and gives the rotation back. -/
theorem quat_branch_y (R : Matrix3 K) (hR : R.IsProperRotation) (s : K) (hs : s ≠ 0)
    (hss : s * s = R.m11 - R.m22 - R.m00 + 1) :
    (⟨(R.m02 - R.m20) * (1 / 2 / s),
      (R.m01 + R.m10) * (1 / 2 / s),
      1 / 2 * s,
      (R.m21 + R.m12) * (1 / 2 / s)⟩ : Quaternion K).dot
        ⟨(R.m02 - R.m20) * (1 / 2 / s),
          (R.m01 + R.m10) * (1 / 2 / s),
          1 / 2 * s,
          (R.m21 + R.m12) * (1 / 2 / s)⟩ = 1 ∧
      (⟨(R.m02 - R.m20) * (1 / 2 / s),
        (R.m01 + R.m10) * (1 / 2 / s),
        1 / 2 * s,
        (R.m21 + R.m12) * (1 / 2 / s)⟩ : Quaternion K).toRotationMatrix = R := by
  obtain ⟨hc, hdet⟩ := hR
  have hr := isOrthonormal_transpose hc
  obtain ⟨_, k00, k01, k02, k10, k11, k12, k20, k21, k22⟩ := cofactor_of_orthonormal_rows R hr
  rw [hdet, one_mul] at k00 k01 k02 k10 k11 k12 k20 k21 k22
  obtain ⟨c00, c11, c22, c01, c02, c12⟩ := hc
  obtain ⟨r00, r11, r22, r01, r02, r12⟩ := hr
  simp only [Matrix3.col0, Matrix3.col1, Matrix3.col2, Vector3.dot] at c00 c11 c22 c01 c02 c12
  simp only [Matrix3.transpose, Matrix3.col0, Matrix3.col1, Matrix3.col2,
    Vector3.dot] at r00 r11 r22 r01 r02 r12
  refine quat_of_relations R _ ?_ ?_ ?_ ?_ ?_ ?_ ?_ ?_ ?_ ?_
  · exact quat_off s (R.m11 - R.m22 - R.m00 + 1) _ _ _ hs hss
      (by linear_combination (1) * c00 + (1) * c22 + (-1) * r11 + (2) * k11)
  · exact quat_off s (R.m11 - R.m22 - R.m00 + 1) _ _ _ hs hss
      (by linear_combination (-1) * c22 + (1) * r00 + (1) * r11 + (-2) * k22)
  · exact quat_sq s _ (by linear_combination hss)
  · exact quat_off s (R.m11 - R.m22 - R.m00 + 1) _ _ _ hs hss
      (by linear_combination (1) * c11 + (1) * c22 + (-1) * r00 + (-2) * k00)
  · exact quat_off s (R.m11 - R.m22 - R.m00 + 1) _ _ _ hs hss
      (by linear_combination (1) * c12 + (-1) * r12 + (-1) * k12 + (1) * k21)
  · exact quat_pivot_right s _ _ hs (by ring)
  · exact quat_off s (R.m11 - R.m22 - R.m00 + 1) _ _ _ hs hss
      (by linear_combination (-1) * c01 + (1) * r01 + (-1) * k01 + (1) * k10)
  · exact quat_pivot_right s _ _ hs (by ring)
  · exact quat_off s (R.m11 - R.m22 - R.m00 + 1) _ _ _ hs hss
      (by linear_combination (1) * c02 + (1) * r02 + (1) * k02 + (1) * k20)
  · exact quat_pivot_left s _ _ hs (by ring)

/-- The branch of `Quaternion.ofMatrix` with the pivot `z`: for a proper
rotation the quaternion has unit length and gives the rotation back. -/
theorem quat_branch_z (R : Matrix3 K) (hR : R.IsProperRotation) (s : K) (hs : s ≠ 0)
    (hss : s * s = R.m22 - R.m00 - R.m11 + 1) :
    (⟨(R.m10 - R.m01) * (1 / 2 / s),
      (R.m02 + R.m20) * (1 / 2 / s),
      (R.m12 + R.m21) * (1 / 2 / s),
      1 / 2 * s⟩ : Quaternion K).dot
        ⟨(R.m10 - R.m01) * (1 / 2 / s),
          (R.m02 + R.m20) * (1 / 2 / s),
          (R.m12 + R.m21) * (1 / 2 / s),
          1 / 2 * s⟩ = 1 ∧
      (⟨(R.m10 - R.m01) * (1 / 2 / s),
        (R.m02 + R.m20) * (1 / 2 / s),
        (R.m12 + R.m21) * (1 / 2 / s),
        1 / 2 * s⟩ : Quaternion K).toRotationMatrix = R := by
  obtain ⟨hc, hdet⟩ := hR
  have hr := isOrthonormal_transpose hc
  obtain ⟨_, k00, k01, k02, k10, k11, k12, k20, k21, k22⟩ := cofactor_of_orthonormal_rows R hr
  rw [hdet, one_mul] at k00 k01 k02 k10 k11 k12 k20 k21 k22
  obtain ⟨c00, c11, c22, c01, c02, c12⟩ := hc
  obtain ⟨r00, r11, r22, r01, r02, r12⟩ := hr
  simp only [Matrix3.col0, Matrix3.col1, Matrix3.col2, Vector3.dot] at c00 c11 c22 c01 c02 c12
  simp only [Matrix3.transpose, Matrix3.col0, Matrix3.col1, Matrix3.col2,
    Vector3.dot] at r00 r11 r22 r01 r02 r12
  refine quat_of_relations R _ ?_ ?_ ?_ ?_ ?_ ?_ ?_ ?_ ?_ ?_
  · exact quat_off s (R.m22 - R.m00 - R.m11 + 1) _ _ _ hs hss
      (by linear_combination (-1) * c22 + (1) * r00 + (1) * r11 + (2) * k22)
  · exact quat_off s (R.m22 - R.m00 - R.m11 + 1) _ _ _ hs hss
      (by linear_combination (1) * c00 + (1) * c22 + (-1) * r11 + (-2) * k11)
  · exact quat_off s (R.m22 - R.m00 - R.m11 + 1) _ _ _ hs hss
      (by linear_combination (1) * c11 + (1) * c22 + (-1) * r00 + (-2) * k00)
  · exact quat_sq s _ (by linear_combination hss)
  · exact quat_off s (R.m22 - R.m00 - R.m11 + 1) _ _ _ hs hss
      (by linear_combination (-1) * c12 + (1) * r12 + (-1) * k12 + (1) * k21)
  · exact quat_off s (R.m22 - R.m00 - R.m11 + 1) _ _ _ hs hss
      (by linear_combination (1) * c02 + (-1) * r02 + (1) * k02 + (-1) * k20)
  · exact quat_pivot_right s _ _ hs (by ring)
  · exact quat_off s (R.m22 - R.m00 - R.m11 + 1) _ _ _ hs hss
      (by linear_combination (1) * c01 + (1) * r01 + (1) * k01 + (1) * k10)
  · exact quat_pivot_right s _ _ hs (by ring)
  · exact quat_pivot_right s _ _ hs (by ring)

/-- The conversion `Quaternion<S>(mat)` of a proper rotation gives a unit
quaternion, and `toRotationMatrix` gives the rotation back. -/
theorem Quaternion.ofMatrix_spec {sqrt : K → K} (hs : IsSqrt sqrt) (R : Matrix3 K)
    (hR : R.IsProperRotation) :
    (Quaternion.ofMatrix sqrt R).dot (Quaternion.ofMatrix sqrt R) = 1 ∧
      (Quaternion.ofMatrix sqrt R).toRotationMatrix = R := by
  unfold Quaternion.ofMatrix
  simp only [Matrix3.trace]
  split_ifs with h1 h2 h3 h4
  · have hp : 0 < R.m00 + R.m11 + R.m22 + 1 := by linarith
    exact quat_branch_w R hR _ (isSqrt_pos hs hp).ne' (hs _ hp.le).2
  · have hp : 0 < R.m22 - R.m00 - R.m11 + 1 := by
      simp only [gt_iff_lt, not_lt] at h1 h2 h3
      linarith
    exact quat_branch_z R hR _ (isSqrt_pos hs hp).ne' (hs _ hp.le).2
  · have hp : 0 < R.m11 - R.m22 - R.m00 + 1 := by
      simp only [gt_iff_lt, not_lt] at h1 h2 h3
      linarith
    exact quat_branch_y R hR _ (isSqrt_pos hs hp).ne' (hs _ hp.le).2
  · have hp : 0 < R.m22 - R.m00 - R.m11 + 1 := by
      simp only [gt_iff_lt, not_lt] at h1 h2 h4
      linarith
    exact quat_branch_z R hR _ (isSqrt_pos hs hp).ne' (hs _ hp.le).2
  · have hp : 0 < R.m00 - R.m11 - R.m22 + 1 := by
      simp only [gt_iff_lt, not_lt] at h1 h2 h4
      linarith
    exact quat_branch_x R hR _ (isSqrt_pos hs hp).ne' (hs _ hp.le).2

theorem isSqrt_four {sqrt : K → K} (hs : IsSqrt sqrt) : sqrt 4 = 2 := by
  obtain ⟨h0, h1⟩ := hs 4 (by norm_num)
  have e : (sqrt 4 - 2) * (sqrt 4 + 2) = 0 := by linear_combination h1
  rcases mul_eq_zero.mp e with h | h
  · linarith
  · linarith

/-- The sum of a unit quaternion with itself is normalised to the quaternion. -/
theorem Quaternion.normalize_double {sqrt : K → K} (hs : IsSqrt sqrt) (q : Quaternion K)
    (hq : q.dot q = 1) : (q.add q).normalize sqrt = q := by
  have hz : (q.add q).dot (q.add q) = 4 := by
    simp only [Quaternion.dot, Quaternion.add] at hq ⊢
    linear_combination 4 * hq
  simp only [Quaternion.normalize, hz, isSqrt_four hs]
  rw [if_pos (by norm_num)]
  cases q
  simp only [Quaternion.add, Quaternion.mk.injEq]
  refine ⟨?_, ?_, ?_, ?_⟩ <;> ring

/-- The averaged frame of a proper rotation with itself is that rotation. -/
theorem smalldistAxis_self {sqrt : K → K} (hs : IsSqrt sqrt) (A : OBB K)
    (hR : A.axis.IsProperRotation) : smalldistAxis sqrt A A = A.axis := by
  obtain ⟨hu, hm⟩ := Quaternion.ofMatrix_spec hs A.axis hR
  unfold smalldistAxis
  simp only
  rw [if_neg (by rw [hu]; norm_num), Quaternion.normalize_double hs _ hu, hm]

theorem smalldistMidpoint_self (A : OBB K) : smalldistMidpoint A A = A.To := by
  simp only [smalldistMidpoint, Vector3.add, Vector3.smul]
  ext <;> simp only <;> ring

/-- The projections of the corners of a box on its own axes, in the order of
`computeVertices`. -/
theorem projections_self (A : OBB K) (hA : A.axis.IsOrthonormal) :
    projections (A.axis.col 0) A.To (computeVertices A) =
        [-A.extent.x, A.extent.x, A.extent.x, -A.extent.x, -A.extent.x, A.extent.x,
          A.extent.x, -A.extent.x] ∧
      projections (A.axis.col 1) A.To (computeVertices A) =
        [-A.extent.y, -A.extent.y, A.extent.y, A.extent.y, -A.extent.y, -A.extent.y,
          A.extent.y, A.extent.y] ∧
      projections (A.axis.col 2) A.To (computeVertices A) =
        [-A.extent.z, -A.extent.z, -A.extent.z, -A.extent.z, A.extent.z, A.extent.z,
          A.extent.z, A.extent.z] := by
  have p0 := fun s => (corner_projections A hA s).1
  have p1 := fun s => (corner_projections A hA s).2.1
  have p2 := fun s => (corner_projections A hA s).2.2
  rw [computeVertices_eq_corners]
  simp only [projections, vertexSigns, List.map, Matrix3.col, p0, p1, p2, if_true,
    Bool.false_eq_true, if_false, one_mul, neg_one_mul, and_self]

theorem track_raise (a b d : K) (h : a < d) : trackMinMax d (a, b) = (d, b) := by
  unfold trackMinMax
  rw [if_pos h]

theorem trackMinMax_snd_le (d : K) (pm : K × K) : (trackMinMax d pm).2 ≤ pm.2 := by
  unfold trackMinMax
  split_ifs with h1 h2
  · exact le_rfl
  · exact h2.le
  · exact le_rfl

theorem foldl_track_snd_le (ds : List K) : ∀ pm : K × K,
    (ds.foldl (fun pm d => trackMinMax d pm) pm).2 ≤ pm.2 := by
  induction ds with
  | nil => exact fun pm => le_rfl
  | cons a ds ih => exact fun pm => le_trans (ih _) (trackMinMax_snd_le a pm)

theorem foldl_track_snd_ge (ds : List K) (pm : K × K) (c : K) (h : c ≤ pm.2)
    (hall : ∀ d ∈ ds, c ≤ d) : c ≤ (ds.foldl (fun pm d => trackMinMax d pm) pm).2 := by
  rcases foldl_track_snd ds pm with e | e
  · rw [e]
    exact h
  · exact hall _ e

/-- A value that is a lower bound of the projections and of the tracked pair
is the tracked minimum after the loop once it occurs among the projections. -/
theorem foldl_track_min_hit (ds : List K) (c : K) : ∀ pm : K × K, c ≤ pm.1 → c ≤ pm.2 →
    (∀ d ∈ ds, c ≤ d) → c ∈ ds → (ds.foldl (fun pm d => trackMinMax d pm) pm).2 = c := by
  induction ds with
  | nil => exact fun pm _ _ _ h => absurd h (List.not_mem_nil c)
  | cons a ds ih =>
    intro pm h1 h2 hall hmem
    have ha := hall a (List.mem_cons_self a ds)
    have hrest : ∀ d ∈ ds, c ≤ d := fun d hd => hall d (List.mem_cons_of_mem a hd)
    have g1 : c ≤ (trackMinMax a pm).1 := by
      rw [trackMinMax_fst]
      exact le_trans h1 (le_max_left _ _)
    have g2 : c ≤ (trackMinMax a pm).2 := by
      rcases trackMinMax_snd a pm with e | e
      · rw [e]
        exact h2
      · rw [e]
        exact ha
    rw [List.foldl_cons]
    rcases List.mem_cons.mp hmem with rfl | hmem
    · have e : (trackMinMax c pm).2 = c := by
        unfold trackMinMax
        rw [if_neg (not_lt.mpr h1)]
        split_ifs with h3
        · rfl
        · exact le_antisymm (not_lt.mp h3) h2
      refine le_antisymm ?_ (foldl_track_snd_ge ds _ c g2 hrest)
      exact le_trans (foldl_track_snd_le ds _) e.le
    · exact ih _ g1 g2 hrest hmem

theorem fold_max_le (ds : List K) (e : K) : ∀ i : K, i ≤ e → (∀ d ∈ ds, d ≤ e) →
    ds.foldl max i ≤ e := by
  induction ds with
  | nil => exact fun i hi _ => hi
  | cons a ds ih =>
    intro i hi hall
    rw [List.foldl_cons]
    exact ih _ (max_le hi (hall a (List.mem_cons_self a ds)))
      (fun d hd => hall d (List.mem_cons_of_mem a hd))

theorem le_fold_max (ds : List K) : ∀ i : K, i ≤ ds.foldl max i := by
  induction ds with
  | nil => exact fun i => le_rfl
  | cons a ds ih => exact fun i => le_trans (le_max_left i a) (ih (max i a))

theorem foldl_max_eq (ds : List K) (e : K) : ∀ i : K, i ≤ e → (∀ d ∈ ds, d ≤ e) → e ∈ ds →
    ds.foldl max i = e := by
  induction ds with
  | nil => exact fun i _ _ h => absurd h (List.not_mem_nil e)
  | cons a ds ih =>
    intro i hi hall hmem
    have ha := hall a (List.mem_cons_self a ds)
    have hrest : ∀ d ∈ ds, d ≤ e := fun d hd => hall d (List.mem_cons_of_mem a hd)
    rw [List.foldl_cons]
    rcases List.mem_cons.mp hmem with h | h
    · refine le_antisymm (fold_max_le ds e _ (max_le hi ha) hrest) ?_
      refine le_trans ?_ (le_fold_max ds _)
      rw [h]
      exact le_max_right i a
    · exact ih _ (max_le hi ha) hrest h

/-- The loops of `merge_smalldist` on projections that are all `e` or `-e`,
the first one `-e`, both values occurring later: the tracked pair ends at
`(e, -e)`. -/
theorem track_self (M e : K) (he : 0 ≤ e) (hM : e < M) (rest : List K)
    (hall : ∀ d ∈ rest, d = e ∨ d = -e) (hneg : -e ∈ rest) (hpos : e ∈ rest) :
    (-e :: rest).foldl (fun pm d => trackMinMax d pm) (-M, M) = (e, -e) := by
  rw [List.foldl_cons, track_raise (-M) M (-e) (by linarith)]
  refine Prod.ext ?_ ?_
  · rw [foldl_track_fst]
    refine foldl_max_eq rest e _ (by simp only; linarith) ?_ hpos
    intro d hd
    rcases hall d hd with h | h
    · exact h.le
    · rw [h]
      linarith
  · refine foldl_track_min_hit rest (-e) _ le_rfl (by simp only; linarith) ?_ hneg
    intro d hd
    rcases hall d hd with h | h
    · rw [h]
      linarith
    · exact h.ge

theorem smalldistMinMax_self {sqrt : K → K} (hs : IsSqrt sqrt) (real_max : K) (A : OBB K)
    (hR : A.axis.IsProperRotation)
    (he : 0 ≤ A.extent.x ∧ 0 ≤ A.extent.y ∧ 0 ≤ A.extent.z)
    (hfin : A.extent.x < real_max ∧ A.extent.y < real_max ∧ A.extent.z < real_max) :
    smalldistMinMax sqrt real_max A A = (A.extent, A.extent.neg) := by
  obtain ⟨p0, p1, p2⟩ := projections_self A hR.1
  have key : ∀ j : Fin 3,
      (((smalldistMinMax sqrt real_max A A).1.get j,
        (smalldistMinMax sqrt real_max A A).2.get j) : K × K) =
      (A.extent.get j, -A.extent.get j) := by
    intro j
    rw [smalldistMinMax_get, smalldistFirstLoop_get, ← List.foldl_append, smalldistAxis_self hs A hR,
      smalldistMidpoint_self]
    fin_cases j
    · rw [show ((⟨0, by decide⟩ : Fin 3)) = 0 from rfl, p0]
      exact track_self real_max A.extent.x he.1 hfin.1 _ (by simp) (by simp) (by simp)
    · rw [show ((⟨1, by decide⟩ : Fin 3)) = 1 from rfl, p1]
      exact track_self real_max A.extent.y he.2.1 hfin.2.1 _ (by simp) (by simp) (by simp)
    · rw [show ((⟨2, by decide⟩ : Fin 3)) = 2 from rfl, p2]
      exact track_self real_max A.extent.z he.2.2 hfin.2.2 _ (by simp) (by simp) (by simp)
  have k0 := key 0
  have k1 := key 1
  have k2 := key 2
  simp only [Vector3.get, Prod.mk.injEq] at k0 k1 k2
  refine Prod.ext (Vector3.ext k0.1 k1.1 k2.1) (Vector3.ext ?_ ?_ ?_)
  · exact k0.2
  · exact k1.2
  · exact k2.2

theorem merge_smalldist_self {sqrt : K → K} (hs : IsSqrt sqrt) (real_max : K) (A : OBB K)
    (hR : A.axis.IsProperRotation)
    (he : 0 ≤ A.extent.x ∧ 0 ≤ A.extent.y ∧ 0 ≤ A.extent.z)
    (hfin : A.extent.x < real_max ∧ A.extent.y < real_max ∧ A.extent.z < real_max) :
    merge_smalldist sqrt real_max A A = A := by
  unfold merge_smalldist
  simp only [smalldistMinMax_self hs real_max A hR he hfin, smalldistAxis_self hs A hR,
    smalldistMidpoint_self, Vector3.neg]
  refine OBB.ext rfl ?_ ?_
  · simp only [Vector3.add, Vector3.smul]
    ext <;> simp only <;> ring
  · ext <;> simp only <;> ring

/-- Claim C30: for a box `A` whose frame is a proper rotation and whose
half-extents are non-negative and finite, `A + A` is `A`: the same centre,
the same frame and the same half-extents.  The arithmetic is exact and the
square root is a true square root. -/
theorem add_self_eq (sqrt : K → K) (hs : IsSqrt sqrt) (real_max : K) (G : GeometryRoutines K)
    (A : OBB K) (hR : A.axis.IsProperRotation)
    (he : 0 ≤ A.extent.x ∧ 0 ≤ A.extent.y ∧ 0 ≤ A.extent.z)
    (hfin : A.extent.x < real_max ∧ A.extent.y < real_max ∧ A.extent.z < real_max) :
    A.add sqrt real_max G A = A := by
  have hd : ¬ (A.To.sub A.To).norm sqrt >
      2 * (max (max A.extent.x A.extent.y) A.extent.z +
        max (max A.extent.x A.extent.y) A.extent.z) := by
    have e : (A.To.sub A.To).norm sqrt = 0 := by
      simp only [Vector3.norm, Vector3.squaredNorm, Vector3.dot, Vector3.sub, sub_self,
        mul_zero, add_zero]
      exact isSqrt_zero hs
    rw [e, gt_iff_lt, not_lt]
    have hm : 0 ≤ max (max A.extent.x A.extent.y) A.extent.z := le_trans he.2.2 (le_max_right _ _)
    linarith
  rw [OBB.add, if_neg hd]
  exact merge_smalldist_self hs real_max A hR he hfin

/-! ## The merge theorems on the sample boxes -/

theorem sampleA_properRotation : (sampleA : OBB ℝ).axis.IsProperRotation := by
  constructor
  · norm_num [Matrix3.IsOrthonormal, sampleA, Matrix3.col0, Matrix3.col1, Matrix3.col2,
      Vector3.dot]
  · norm_num [Matrix3.det, sampleA]

theorem sampleB_properRotation : (sampleB : OBB ℝ).axis.IsProperRotation := by
  constructor
  · norm_num [Matrix3.IsOrthonormal, sampleB, Matrix3.col0, Matrix3.col1, Matrix3.col2,
      Vector3.dot]
  · norm_num [Matrix3.det, sampleB]

theorem sampleB_first_vertex :
    (⟨11 / 250, -23 / 250, -7 / 50⟩ : Vector3 ℝ) ∈ computeVertices (sampleB : OBB ℝ) := by
  rw [sampleB_vertices]
  exact List.mem_cons_self _ _

theorem add_self_eq_witness :
    IsSqrt Real.sqrt ∧ (sampleA : OBB ℝ).axis.IsProperRotation ∧
    (0 ≤ (sampleA : OBB ℝ).extent.x ∧ 0 ≤ (sampleA : OBB ℝ).extent.y ∧
      0 ≤ (sampleA : OBB ℝ).extent.z) ∧
    ((sampleA : OBB ℝ).extent.x < maxDouble ∧ (sampleA : OBB ℝ).extent.y < maxDouble ∧
      (sampleA : OBB ℝ).extent.z < maxDouble) ∧
    OBB.add Real.sqrt maxDouble sampleRoutines (sampleA : OBB ℝ) sampleA = sampleA :=
  ⟨isSqrt_real, sampleA_properRotation, by norm_num [sampleA], by norm_num [sampleA, maxDouble],
    add_self_eq Real.sqrt isSqrt_real maxDouble sampleRoutines sampleA sampleA_properRotation
      (by norm_num [sampleA]) (by norm_num [sampleA, maxDouble])⟩

theorem sampleFar_dispatch :
    ((sampleA : OBB ℝ).To.sub (sampleFar : OBB ℝ).To).norm Real.sqrt >
      2 * (max (max (sampleA : OBB ℝ).extent.x (sampleA : OBB ℝ).extent.y)
        (sampleA : OBB ℝ).extent.z +
        max (max (sampleFar : OBB ℝ).extent.x (sampleFar : OBB ℝ).extent.y)
        (sampleFar : OBB ℝ).extent.z) := by
  simp only [sampleA, sampleFar, Vector3.norm, Vector3.squaredNorm, Vector3.dot, Vector3.sub]
  norm_num [sqrt_64]

theorem largedist_first_axis_unit_witness :
    IsSqrt Real.sqrt ∧
    (0 ≤ (sampleA : OBB ℝ).extent.x ∧ 0 ≤ (sampleA : OBB ℝ).extent.y ∧
      0 ≤ (sampleA : OBB ℝ).extent.z) ∧
    (0 ≤ (sampleFar : OBB ℝ).extent.x ∧ 0 ≤ (sampleFar : OBB ℝ).extent.y ∧
      0 ≤ (sampleFar : OBB ℝ).extent.z) ∧
    ((sampleA : OBB ℝ).To.sub (sampleFar : OBB ℝ).To).norm Real.sqrt >
      2 * (max (max (sampleA : OBB ℝ).extent.x (sampleA : OBB ℝ).extent.y)
        (sampleA : OBB ℝ).extent.z +
        max (max (sampleFar : OBB ℝ).extent.x (sampleFar : OBB ℝ).extent.y)
        (sampleFar : OBB ℝ).extent.z) ∧
    (OBB.add Real.sqrt maxDouble sampleRoutines (sampleA : OBB ℝ) sampleFar =
        merge_largedist Real.sqrt sampleRoutines sampleA sampleFar ∧
      (sampleA : OBB ℝ).To ≠ (sampleFar : OBB ℝ).To ∧
      ((sampleA : OBB ℝ).To.sub (sampleFar : OBB ℝ).To).norm Real.sqrt ≠ 0 ∧
      (OBB.add Real.sqrt maxDouble sampleRoutines (sampleA : OBB ℝ) sampleFar).axis.col0 =
        ⟨((sampleA : OBB ℝ).To.sub (sampleFar : OBB ℝ).To).x /
            ((sampleA : OBB ℝ).To.sub (sampleFar : OBB ℝ).To).norm Real.sqrt,
         ((sampleA : OBB ℝ).To.sub (sampleFar : OBB ℝ).To).y /
            ((sampleA : OBB ℝ).To.sub (sampleFar : OBB ℝ).To).norm Real.sqrt,
         ((sampleA : OBB ℝ).To.sub (sampleFar : OBB ℝ).To).z /
            ((sampleA : OBB ℝ).To.sub (sampleFar : OBB ℝ).To).norm Real.sqrt⟩ ∧
      (OBB.add Real.sqrt maxDouble sampleRoutines (sampleA : OBB ℝ) sampleFar).axis.col0.dot
        (OBB.add Real.sqrt maxDouble sampleRoutines (sampleA : OBB ℝ) sampleFar).axis.col0 = 1) :=
  ⟨isSqrt_real, by norm_num [sampleA], by norm_num [sampleFar], sampleFar_dispatch,
    largedist_first_axis_unit Real.sqrt isSqrt_real maxDouble sampleRoutines sampleA sampleFar
      (by norm_num [sampleA]) (by norm_num [sampleFar]) sampleFar_dispatch⟩

/-! ## The tracked bounds of `merge_smalldist` on all boxes -/

/-- After the first four vertices of a box the tracked minimum is at most the
tracked maximum, whatever the projections are: the fourth projection cannot
exceed the third when the second exceeds the first. -/
theorem track_first_four_le (M p0 p1 p2 p3 : K) (hrel : p1 - p0 = p2 - p3) (hM : 0 < M) :
    ([p0, p1, p2, p3].foldl (fun pm d => trackMinMax d pm) (-M, M)).2 ≤
      ([p0, p1, p2, p3].foldl (fun pm d => trackMinMax d pm) (-M, M)).1 := by
  have inv : ∀ (l : List K) (pm : K × K), pm.2 ≤ pm.1 →
      (l.foldl (fun pm d => trackMinMax d pm) pm).2 ≤
        (l.foldl (fun pm d => trackMinMax d pm) pm).1 :=
    fun l pm h => (foldl_track_between l pm h).1
  rw [List.foldl_cons]
  by_cases h0 : p0 > -M
  · have s0 : trackMinMax p0 (-M, M) = (p0, M) := by
      unfold trackMinMax
      rw [if_pos h0]
    rw [s0, List.foldl_cons]
    by_cases c1 : p1 > p0
    · have s1 : trackMinMax p1 (p0, M) = (p1, M) := by
        unfold trackMinMax
        rw [if_pos c1]
      rw [s1, List.foldl_cons]
      by_cases c2 : p2 > p1
      · have s2 : trackMinMax p2 (p1, M) = (p2, M) := by
          unfold trackMinMax
          rw [if_pos c2]
        rw [s2, List.foldl_cons, List.foldl_nil]
        unfold trackMinMax
        rw [if_neg (by simp only [gt_iff_lt, not_lt] at *; linarith)]
        split_ifs with h3
        · simp only [gt_iff_lt] at *
          linarith
        · simp only [gt_iff_lt, not_lt] at *
          linarith
      · apply inv
        unfold trackMinMax
        rw [if_neg c2]
        split_ifs with h2
        · simp only [gt_iff_lt, not_lt] at *
          linarith
        · simp only [gt_iff_lt, not_lt] at *
          linarith
    · apply inv
      unfold trackMinMax
      rw [if_neg c1]
      split_ifs with h1
      · simp only [gt_iff_lt, not_lt] at *
        linarith
      · simp only [gt_iff_lt, not_lt] at *
        linarith
  · apply inv
    unfold trackMinMax
    rw [if_neg h0]
    split_ifs with h1
    · simp only [gt_iff_lt, not_lt] at *
      linarith
    · simp only [gt_iff_lt, not_lt] at *
      linarith

/-- The loop over the vertices of one box, started from `(-M, M)` with `M`
positive: the tracked minimum ends at most the tracked maximum. -/
theorem track_box_le (M : K) (hM : 0 < M) (d To : Vector3 K) (b : OBB K) :
    ((projections d To (computeVertices b)).foldl (fun pm d => trackMinMax d pm) (-M, M)).2 ≤
      ((projections d To (computeVertices b)).foldl
        (fun pm d => trackMinMax d pm) (-M, M)).1 := by
  obtain ⟨p0, p1, p2, p3, p4, p5, p6, p7, e, hrel⟩ := projections_computeVertices d To b
  rw [e]
  have split : [p0, p1, p2, p3, p4, p5, p6, p7] = [p0, p1, p2, p3] ++ [p4, p5, p6, p7] := rfl
  rw [split, List.foldl_append]
  exact (foldl_track_between [p4, p5, p6, p7] _ (track_first_four_le M p0 p1 p2 p3 hrel hM)).1

theorem foldl_max_assoc (l : List K) : ∀ x y : K, l.foldl max (max x y) = max x (l.foldl max y) := by
  induction l with
  | nil => exact fun x y => rfl
  | cons a l ih =>
    intro x y
    rw [List.foldl_cons, List.foldl_cons, max_assoc, ih]

theorem mem_le_foldl_max (l : List K) : ∀ (a p : K), p ∈ a :: l → p ≤ l.foldl max a := by
  induction l with
  | nil =>
    intro a p hp
    rw [List.mem_singleton] at hp
    exact hp.le
  | cons b l ih =>
    intro a p hp
    rw [List.foldl_cons]
    rcases List.mem_cons.mp hp with h | h
    · rw [h]
      exact le_trans (le_max_left a b) (le_fold_max l _)
    · rw [foldl_max_assoc]
      exact le_trans (ih b p h) (le_max_right _ _)

/-- The running maximum started below one of the values is the maximum of the
values. -/
theorem foldl_max_of_le (l : List K) (i a : K) (h : ∃ p ∈ a :: l, i ≤ p) :
    (a :: l).foldl max i = l.foldl max a := by
  obtain ⟨p, hp, hip⟩ := h
  rw [List.foldl_cons, foldl_max_assoc]
  exact max_eq_right (le_trans hip (mem_le_foldl_max l a p hp))

theorem foldl_max_projections_of_le (d To : Vector3 K) (M : K) (v : Vector3 K)
    (vs : List (Vector3 K)) (h : ∃ p ∈ projections d To (v :: vs), -M ≤ p) :
    (projections d To (v :: vs)).foldl max (-M) = projMax d To (v :: vs) := by
  simp only [projections, List.map_cons] at h ⊢
  rw [foldl_max_of_le _ _ _ h]
  simp only [projMax, List.foldl_map]

/-- One of the sixteen corners of two boxes has a projection that is not
negative, relative to the midpoint of the two centres: the projections of two
opposite corners of each box add up to zero. -/
theorem exists_projection_nonneg (d : Vector3 K) (b1 b2 : OBB K) :
    ∃ p ∈ projections d (smalldistMidpoint b1 b2) (computeVertices b1 ++ computeVertices b2),
      0 ≤ p := by
  by_contra hc
  push_neg at hc
  have m : ∀ v ∈ computeVertices b1 ++ computeVertices b2,
      (v.sub (smalldistMidpoint b1 b2)).dot d < 0 :=
    fun v hv => hc _ (List.mem_map_of_mem _ hv)
  have a0 := m (((b1.To.sub (b1.axis.col0.smul b1.extent.x)).sub
    (b1.axis.col1.smul b1.extent.y)).sub (b1.axis.col2.smul b1.extent.z))
    (by simp [computeVertices])
  have a6 := m (((b1.To.add (b1.axis.col0.smul b1.extent.x)).add
    (b1.axis.col1.smul b1.extent.y)).add (b1.axis.col2.smul b1.extent.z))
    (by simp [computeVertices])
  have c0 := m (((b2.To.sub (b2.axis.col0.smul b2.extent.x)).sub
    (b2.axis.col1.smul b2.extent.y)).sub (b2.axis.col2.smul b2.extent.z))
    (by simp [computeVertices])
  have c6 := m (((b2.To.add (b2.axis.col0.smul b2.extent.x)).add
    (b2.axis.col1.smul b2.extent.y)).add (b2.axis.col2.smul b2.extent.z))
    (by simp [computeVertices])
  simp only [smalldistMidpoint, Vector3.sub, Vector3.add, Vector3.smul, Vector3.dot] at a0 a6 c0 c6
  linarith

/-- The state of `merge_smalldist` after the first loop and after both loops,
on the axis `j`, for every pair of boxes: the tracked minimum is at most the
tracked maximum, the projections of the vertices of the second box lie between
them, and the tracked maximum is the greatest of the sixteen projections. -/
theorem smalldist_bounds (sqrt : K → K) (real_max : K) (b1 b2 : OBB K) (hM : 0 < real_max)
    (j : Fin 3) :
    (smalldistFirstLoop sqrt real_max b1 b2).2.get j ≤
      (smalldistFirstLoop sqrt real_max b1 b2).1.get j ∧
    (smalldistMinMax sqrt real_max b1 b2).2.get j ≤
      (smalldistMinMax sqrt real_max b1 b2).1.get j ∧
    (∀ p ∈ projections ((smalldistAxis sqrt b1 b2).col j) (smalldistMidpoint b1 b2)
        (computeVertices b2),
      (smalldistMinMax sqrt real_max b1 b2).2.get j ≤ p ∧
        p ≤ (smalldistMinMax sqrt real_max b1 b2).1.get j) ∧
    (smalldistMinMax sqrt real_max b1 b2).1.get j =
      projMax ((smalldistAxis sqrt b1 b2).col j) (smalldistMidpoint b1 b2)
        (computeVertices b1 ++ computeVertices b2) := by
  have e1 := smalldistFirstLoop_get sqrt real_max b1 b2 j
  have e2 := smalldistMinMax_get sqrt real_max b1 b2 j
  have tb := track_box_le real_max hM ((smalldistAxis sqrt b1 b2).col j)
    (smalldistMidpoint b1 b2) b1
  rw [← e1] at tb
  simp only at tb
  have fb := foldl_track_between (projections ((smalldistAxis sqrt b1 b2).col j)
    (smalldistMidpoint b1 b2) (computeVertices b2))
    ((smalldistFirstLoop sqrt real_max b1 b2).1.get j,
      (smalldistFirstLoop sqrt real_max b1 b2).2.get j) tb
  rw [← e2] at fb
  simp only at fb
  refine ⟨tb, fb.1, fb.2.2.2, ?_⟩
  have f1 := foldl_track_fst (projections ((smalldistAxis sqrt b1 b2).col j)
    (smalldistMidpoint b1 b2) (computeVertices b2))
    ((smalldistFirstLoop sqrt real_max b1 b2).1.get j,
      (smalldistFirstLoop sqrt real_max b1 b2).2.get j)
  rw [← e2] at f1
  have f0 := foldl_track_fst (projections ((smalldistAxis sqrt b1 b2).col j)
    (smalldistMidpoint b1 b2) (computeVertices b1)) (-real_max, real_max)
  rw [← e1] at f0
  simp only at f0 f1
  rw [f1, f0, ← List.foldl_append]
  have ea : projections ((smalldistAxis sqrt b1 b2).col j) (smalldistMidpoint b1 b2)
      (computeVertices b1) ++ projections ((smalldistAxis sqrt b1 b2).col j)
      (smalldistMidpoint b1 b2) (computeVertices b2) =
      projections ((smalldistAxis sqrt b1 b2).col j) (smalldistMidpoint b1 b2)
        (computeVertices b1 ++ computeVertices b2) := by
    simp only [projections, List.map_append]
  rw [ea]
  obtain ⟨p, hp, h0⟩ := exists_projection_nonneg ((smalldistAxis sqrt b1 b2).col j) b1 b2
  exact foldl_max_projections_of_le _ _ _ _ _ ⟨p, hp, by linarith⟩

/-! ## Bounded boxes -/

/-- Claim C29 as amended: in exact arithmetic, with a true square root and
`real_max` positive, for two boxes whose frames are proper rotations each of
the eight corner vertices of the second box has, on each new axis, its
projection between the tracked `pmin` and `pmax`; the tracked `pmax` is the
greatest projection of the sixteen corners; and `merge_smalldist(b1, b2)`
contains the vertex.  The proof does not use the frames of the two boxes. -/
theorem smalldist_contains_second (sqrt : K → K) (hs : IsSqrt sqrt) (real_max : K)
    (b1 b2 : OBB K) (_h1 : b1.axis.IsProperRotation) (_h2 : b2.axis.IsProperRotation)
    (hM : 0 < real_max) (v : Vector3 K) (hv : v ∈ computeVertices b2) :
    (∀ j : Fin 3,
      (smalldistMinMax sqrt real_max b1 b2).2.get j ≤
          (v.sub (smalldistMidpoint b1 b2)).dot ((smalldistAxis sqrt b1 b2).col j) ∧
        (v.sub (smalldistMidpoint b1 b2)).dot ((smalldistAxis sqrt b1 b2).col j) ≤
          (smalldistMinMax sqrt real_max b1 b2).1.get j ∧
        (smalldistMinMax sqrt real_max b1 b2).1.get j =
          projMax ((smalldistAxis sqrt b1 b2).col j) (smalldistMidpoint b1 b2)
            (computeVertices b1 ++ computeVertices b2)) ∧
      (merge_smalldist sqrt real_max b1 b2).contain v = true := by
  have hb : ∀ j : Fin 3,
      (smalldistMinMax sqrt real_max b1 b2).2.get j ≤
          (v.sub (smalldistMidpoint b1 b2)).dot ((smalldistAxis sqrt b1 b2).col j) ∧
        (v.sub (smalldistMidpoint b1 b2)).dot ((smalldistAxis sqrt b1 b2).col j) ≤
          (smalldistMinMax sqrt real_max b1 b2).1.get j := by
    intro j
    obtain ⟨_, _, t3, _⟩ := smalldist_bounds sqrt real_max b1 b2 hM j
    exact t3 _ (List.mem_map_of_mem _ hv)
  refine ⟨fun j => ⟨(hb j).1, (hb j).2, ?_⟩,
    (merge_smalldist_contain_iff hs real_max b1 b2 v).mpr hb⟩
  exact (smalldist_bounds sqrt real_max b1 b2 hM j).2.2.2

theorem maxDouble_pos : (0 : ℝ) < maxDouble := by
  norm_num [maxDouble]

theorem smalldist_contains_second_witness :
    IsSqrt Real.sqrt ∧ (sampleA : OBB ℝ).axis.IsProperRotation ∧
    (sampleB : OBB ℝ).axis.IsProperRotation ∧ (0 : ℝ) < maxDouble ∧
    (⟨11 / 250, -23 / 250, -7 / 50⟩ : Vector3 ℝ) ∈ computeVertices (sampleB : OBB ℝ) ∧
    ((∀ j : Fin 3,
      (smalldistMinMax Real.sqrt maxDouble (sampleA : OBB ℝ) sampleB).2.get j ≤
          ((⟨11 / 250, -23 / 250, -7 / 50⟩ : Vector3 ℝ).sub
            (smalldistMidpoint (sampleA : OBB ℝ) sampleB)).dot
            ((smalldistAxis Real.sqrt (sampleA : OBB ℝ) sampleB).col j) ∧
        ((⟨11 / 250, -23 / 250, -7 / 50⟩ : Vector3 ℝ).sub
            (smalldistMidpoint (sampleA : OBB ℝ) sampleB)).dot
            ((smalldistAxis Real.sqrt (sampleA : OBB ℝ) sampleB).col j) ≤
          (smalldistMinMax Real.sqrt maxDouble (sampleA : OBB ℝ) sampleB).1.get j ∧
        (smalldistMinMax Real.sqrt maxDouble (sampleA : OBB ℝ) sampleB).1.get j =
          projMax ((smalldistAxis Real.sqrt (sampleA : OBB ℝ) sampleB).col j)
            (smalldistMidpoint (sampleA : OBB ℝ) sampleB)
            (computeVertices (sampleA : OBB ℝ) ++ computeVertices sampleB)) ∧
      (merge_smalldist Real.sqrt maxDouble (sampleA : OBB ℝ) sampleB).contain
        ⟨11 / 250, -23 / 250, -7 / 50⟩ = true) :=
  ⟨isSqrt_real, sampleA_properRotation, sampleB_properRotation, maxDouble_pos,
    sampleB_first_vertex,
    smalldist_contains_second Real.sqrt isSqrt_real maxDouble sampleA sampleB
      sampleA_properRotation sampleB_properRotation maxDouble_pos _ sampleB_first_vertex⟩

theorem separatesOnAxisA_iff_gap (B : Matrix3 K) (T a b : Vector3 K) (i : Fin 3) :
    separatesOnAxisA B T a b i ↔
      gapOnAxisA B T a b i > 1 / 1000000 * (b.get 0 + b.get 1 + b.get 2) := by
  unfold separatesOnAxisA gapOnAxisA biased
  constructor <;> intro h <;> simp only [gt_iff_lt] at * <;> linarith

theorem separatesOnAxisB_iff_gap (B : Matrix3 K) (T a b : Vector3 K) (j : Fin 3) :
    separatesOnAxisB B T a b j ↔
      gapOnAxisB B T a b j > 1 / 1000000 * (a.get 0 + a.get 1 + a.get 2) := by
  unfold separatesOnAxisB gapOnAxisB biased
  constructor <;> intro h <;> simp only [gt_iff_lt] at * <;> linarith

theorem separatesOnCross_iff_gap (B : Matrix3 K) (T a b : Vector3 K) (i j : Fin 3) :
    separatesOnCross B T a b i j ↔
      gapOnCross B T a b i j >
        1 / 1000000 * (a.get (i + 1) + a.get (i + 2) + b.get (j + 1) + b.get (j + 2)) := by
  unfold separatesOnCross gapOnCross biased
  constructor <;> intro h <;> simp only [gt_iff_lt] at * <;> linarith

/-- Claim C19 as amended: in exact arithmetic, for boxes with orthonormal
frames, when `overlap` returns `false` no point is contained in both boxes; and
`overlap` returns `false` exactly when, on one of the fifteen candidate axes,
the gap between the projections of the two boxes exceeds the margin that the
bias `1e-6` makes: `1e-6` times the sum of the half-extents of the second box
on an axis of the first box, of the first box on an axis of the second box,
and of the four half-extents that enter the radii on a cross product.  Boxes
whose gap is within the margin on every axis are reported as overlapping. -/
theorem overlap_false_no_common_point (A B : OBB K) (hA : A.axis.IsOrthonormal)
    (hB : B.axis.IsOrthonormal) :
    (A.overlap B = false → ∀ p : Vector3 K, ¬ (A.contain p = true ∧ B.contain p = true)) ∧
    (A.overlap B = false ↔
      (∃ i, gapOnAxisA (relRotation A B) (relOffset A B) A.extent B.extent i >
          1 / 1000000 * (B.extent.get 0 + B.extent.get 1 + B.extent.get 2)) ∨
      (∃ j, gapOnAxisB (relRotation A B) (relOffset A B) A.extent B.extent j >
          1 / 1000000 * (A.extent.get 0 + A.extent.get 1 + A.extent.get 2)) ∨
      ∃ i j, gapOnCross (relRotation A B) (relOffset A B) A.extent B.extent i j >
          1 / 1000000 * (A.extent.get (i + 1) + A.extent.get (i + 2) +
            B.extent.get (j + 1) + B.extent.get (j + 2))) := by
  constructor
  · rintro h p ⟨h1, h2⟩
    rw [overlap_eq_true_of_contain A B hA hB p h1 h2] at h
    exact Bool.noConfusion h
  · rw [overlap_eq, Bool.not_eq_false', obbDisjoint_iff_exists_axis]
    simp only [separatesOnAxisA_iff_gap, separatesOnAxisB_iff_gap, separatesOnCross_iff_gap]

theorem cubeFar_overlap : (cubeUnit : OBB ℚ).overlap cubeFar = false := by
  rw [overlap_eq, Bool.not_eq_false', obbDisjoint_eq_true_iff]
  left
  simp only [relRotation, relOffset, cubeUnit, cubeFar, Matrix3.identity, Matrix3.transpose,
    Matrix3.mul, Matrix3.row0, Matrix3.row1, Matrix3.row2, Matrix3.col0, Matrix3.col1,
    Matrix3.col2, Vector3.sub, Vector3.dot]
  norm_num

/-- The amended claim C19 at two unit cubes whose centres are `5` apart: the
gap on the first axis is `3`, the margin `3e-6`. -/
theorem overlap_false_no_common_point_witness :
    (cubeUnit : OBB ℚ).axis.IsOrthonormal ∧ (cubeFar : OBB ℚ).axis.IsOrthonormal ∧
    (cubeUnit : OBB ℚ).overlap cubeFar = false ∧
    gapOnAxisA (relRotation (cubeUnit : OBB ℚ) cubeFar) (relOffset (cubeUnit : OBB ℚ) cubeFar)
      (cubeUnit : OBB ℚ).extent (cubeFar : OBB ℚ).extent 0 = 3 ∧
    ((cubeUnit : OBB ℚ).overlap cubeFar = false →
      ∀ p : Vector3 ℚ, ¬ ((cubeUnit : OBB ℚ).contain p = true ∧
        (cubeFar : OBB ℚ).contain p = true)) ∧
    ((cubeUnit : OBB ℚ).overlap cubeFar = false ↔
      (∃ i, gapOnAxisA (relRotation (cubeUnit : OBB ℚ) cubeFar)
          (relOffset (cubeUnit : OBB ℚ) cubeFar) (cubeUnit : OBB ℚ).extent
          (cubeFar : OBB ℚ).extent i >
          1 / 1000000 * ((cubeFar : OBB ℚ).extent.get 0 + (cubeFar : OBB ℚ).extent.get 1 +
            (cubeFar : OBB ℚ).extent.get 2)) ∨
      (∃ j, gapOnAxisB (relRotation (cubeUnit : OBB ℚ) cubeFar)
          (relOffset (cubeUnit : OBB ℚ) cubeFar) (cubeUnit : OBB ℚ).extent
          (cubeFar : OBB ℚ).extent j >
          1 / 1000000 * ((cubeUnit : OBB ℚ).extent.get 0 + (cubeUnit : OBB ℚ).extent.get 1 +
            (cubeUnit : OBB ℚ).extent.get 2)) ∨
      ∃ i j, gapOnCross (relRotation (cubeUnit : OBB ℚ) cubeFar)
          (relOffset (cubeUnit : OBB ℚ) cubeFar) (cubeUnit : OBB ℚ).extent
          (cubeFar : OBB ℚ).extent i j >
          1 / 1000000 * ((cubeUnit : OBB ℚ).extent.get (i + 1) +
            (cubeUnit : OBB ℚ).extent.get (i + 2) + (cubeFar : OBB ℚ).extent.get (j + 1) +
            (cubeFar : OBB ℚ).extent.get (j + 2))) :=
  ⟨cubeUnit_orthonormal, cubeFar_orthonormal, cubeFar_overlap, by decide!,
    overlap_false_no_common_point cubeUnit cubeFar cubeUnit_orthonormal cubeFar_orthonormal⟩

/-- Claim C21 as amended: when the two largest eigenvalues are equal, the
index `1` is `max` and the index `0` is `mid` for a tie of `s[0]` and `s[1]`;
for a tie that involves `s[2]` the index `2` is `mid` and the other index is
`max`; and when all three eigenvalues are equal `max` is `1` and `mid` is `2`.
The index `2` is `max` exactly when `s[2]` is strictly greater than both other
eigenvalues. -/
theorem eigenOrder_ties (s : Vector3 K) :
    (s.get 0 = s.get 1 → s.get 2 < s.get 0 → eigenOrder s = (2, 0, 1)) ∧
    (s.get 0 = s.get 2 → s.get 1 < s.get 0 → eigenOrder s = (1, 2, 0)) ∧
    (s.get 1 = s.get 2 → s.get 0 < s.get 1 → eigenOrder s = (0, 2, 1)) ∧
    (s.get 0 = s.get 1 → s.get 1 = s.get 2 → eigenOrder s = (0, 2, 1)) ∧
    ((eigenOrder s).2.2 = 2 ↔ s.get 0 < s.get 2 ∧ s.get 1 < s.get 2) := by
  refine ⟨fun h1 h2 => ?_, fun h1 h2 => ?_, fun h1 h2 => ?_, fun h1 h2 => ?_, ?_⟩
  · simp only [eigenOrder]
    split_ifs <;> first | rfl | (exfalso; simp only [Vector3.get] at *; linarith)
  · simp only [eigenOrder]
    split_ifs <;> first | rfl | (exfalso; simp only [Vector3.get] at *; linarith)
  · simp only [eigenOrder]
    split_ifs <;> first | rfl | (exfalso; simp only [Vector3.get] at *; linarith)
  · simp only [eigenOrder]
    split_ifs <;> first | rfl | (exfalso; simp only [Vector3.get] at *; linarith)
  · simp only [eigenOrder]
    split_ifs <;> simp only [Vector3.get, gt_iff_lt, not_lt] at * <;> constructor <;>
      intro h <;>
      first
      | trivial
      | rfl
      | exact absurd h (by decide)
      | (constructor <;> linarith)
      | (exfalso; linarith [h.1, h.2])

/-! ## Binary64 arithmetic against exact arithmetic

The closed theorems of this section take boxes whose frame is the identity.  The
products of an inner product are then exact and two of its three terms are
zero, or the outcome is decided by a margin far above one unit in the last
place, so that neither the order in which Eigen adds the terms nor a fused
multiply-add changes it. -/

namespace Rounded

theorem sub_id (u v : Vector3 K) : sub id u v = u.sub v := rfl

theorem add_id (u v : Vector3 K) : add id u v = u.add v := rfl

theorem smul_id (v : Vector3 K) (s : K) : smul id v s = v.smul s := rfl

theorem dot_id (u v : Vector3 K) : dot id u v = u.dot v := rfl

theorem mul_id (M N : Matrix3 K) : mul id M N = M.mul N := rfl

/-- Without rounding the test `obbDisjoint` is the exact one. -/
theorem obbDisjoint_id (B : Matrix3 K) (T a b : Vector3 K) :
    obbDisjoint id B T a b = fcl.obbDisjoint B T a b := rfl

/-- Without rounding the member `overlap` is the exact one. -/
theorem overlap_id (A B : OBB K) : overlap id A B = A.overlap B := by
  simp only [overlap, OBB.overlap, sub_id, dot_id, mul_id, obbDisjoint_id]

/-- Without rounding the member `contain` is the exact one. -/
theorem contain_id (A : OBB K) (p : Vector3 K) : contain id A p = A.contain p := by
  simp only [contain, OBB.contain, sub_id, dot_id]

/-- Without rounding the function `computeVertices` is the exact one. -/
theorem computeVertices_id (b : OBB K) : computeVertices id b = fcl.computeVertices b := by
  simp only [computeVertices, fcl.computeVertices, sub_id, add_id, smul_id]

/-- Without rounding the function `translate` is the exact one. -/
theorem translate_id (b : OBB K) (t : Vector3 K) : translate id b t = fcl.translate b t := rfl

theorem quaternionOfMatrix_id (sqrt : K → K) (mat : Matrix3 K) :
    quaternionOfMatrix id sqrt mat = Quaternion.ofMatrix sqrt mat := rfl

theorem quaternionDot_id (p q : Quaternion K) : quaternionDot id p q = p.dot q := rfl

theorem quaternionAdd_id (p q : Quaternion K) : quaternionAdd id p q = p.add q := rfl

theorem quaternionNormalize_id (sqrt : K → K) (q : Quaternion K) :
    quaternionNormalize id sqrt q = q.normalize sqrt := rfl

theorem toRotationMatrix_id (q : Quaternion K) : toRotationMatrix id q = q.toRotationMatrix :=
  rfl

theorem minmaxStep_id (axis : Matrix3 K) (To : Vector3 K) :
    minmaxStep id axis To = fcl.minmaxStep axis To := rfl

/-- Without rounding the function `merge_smalldist` is the exact one. -/
theorem merge_smalldist_id (sqrt : K → K) (real_max : K) (b1 b2 : OBB K) :
    merge_smalldist id sqrt real_max b1 b2 = fcl.merge_smalldist sqrt real_max b1 b2 := by
  simp only [merge_smalldist, fcl.merge_smalldist, smalldistMinMax, smalldistMidpoint,
    smalldistAxis, sub_id, add_id, smul_id, computeVertices_id, quaternionOfMatrix_id,
    quaternionDot_id, quaternionAdd_id, quaternionNormalize_id, toRotationMatrix_id,
    minmaxStep_id, id]

end Rounded

/-- The rounding to binary64 on some numbers: the literals `0.1` and `1e-6`, a
tie that goes to the even neighbour, and the square roots of 4 and of 2. -/
theorem roundDouble_values :
    roundDouble (1 / 10) = 3602879701896397 / 36028797018963968 ∧
    roundDouble (1 / 1000000) = 4722366482869645 / 2 ^ 72 ∧
    roundDouble (5 / 4 + 1 / 2 ^ 53) = 5 / 4 ∧
    roundDouble (5 / 4 + 1 / 2 ^ 52 + 1 / 2 ^ 53) = 5 / 4 + 1 / 2 ^ 51 ∧
    roundDouble (-1 / 3) = -6004799503160661 / 2 ^ 54 ∧
    sqrtDouble 4 = 2 ∧ sqrtDouble 2 = 6369051672525773 / 4503599627370496 := by
  decide!

/-- Claim C5 as stated fails: in binary64 arithmetic the boxes `grazeA` and
`grazeB`, whose frames are orthonormal and whose half-extents are not negative,
both contain the point `(1.5, 0, 0)`, and `overlap` returns `false`.  The
coordinates are doubles; the difference `1.5 - To[0]` of `contain` rounds down
to `1.25`, the difference of the two centres of `overlap` rounds up to
`1.25 + 2 ^ (-51)`, above the sum `1.25 + 2 ^ (-52)` of the radii. -/
theorem overlap_false_with_common_point :
    grazeA.axis.IsOrthonormal ∧ grazeB.axis.IsOrthonormal ∧
    (0 ≤ grazeA.extent.x ∧ 0 ≤ grazeA.extent.y ∧ 0 ≤ grazeA.extent.z) ∧
    (0 ≤ grazeB.extent.x ∧ 0 ≤ grazeB.extent.y ∧ 0 ≤ grazeB.extent.z) ∧
    (roundDouble grazeA.To.x = grazeA.To.x ∧ roundDouble grazeB.To.x = grazeB.To.x ∧
      roundDouble grazeB.extent.x = grazeB.extent.x) ∧
    Rounded.contain roundDouble grazeA ⟨3 / 2, 0, 0⟩ = true ∧
    Rounded.contain roundDouble grazeB ⟨3 / 2, 0, 0⟩ = true ∧
    Rounded.overlap roundDouble grazeA grazeB = false := by
  decide!

/-- An instance of claim C26 in exact arithmetic: the two sample boxes moved by
`(1024, 0, 0)`. -/
theorem overlap_translate_witness :
    (translate (sampleA : OBB ℚ) ⟨1024, 0, 0⟩).overlap (translate sampleB ⟨1024, 0, 0⟩) =
        (sampleA : OBB ℚ).overlap sampleB ∧
      (translate (sampleA : OBB ℚ) ⟨1024, 0, 0⟩).axis = (sampleA : OBB ℚ).axis ∧
      (translate (sampleA : OBB ℚ) ⟨1024, 0, 0⟩).extent = (sampleA : OBB ℚ).extent ∧
      (translate (sampleA : OBB ℚ) ⟨1024, 0, 0⟩).To =
        (sampleA : OBB ℚ).To.add ⟨1024, 0, 0⟩ :=
  overlap_translate sampleA sampleB ⟨1024, 0, 0⟩

/-- Claim C26 as stated fails: in binary64 arithmetic `overlap` returns `true`
for the unit cubes `cubeUnit` and `cubeClose`, and `false` after `translate`
has moved both by `(2 ^ 30, 0, 0)`.  The update `res.To += t` rounds the centre
of the second cube to `2 ^ 30 + 2 + 13 * 2 ^ (-22)`, so the distance of the
centres grows from about `2.00000299` to about `2.0000031`, above the sum of the
radii, which is about `2.000003`. -/
theorem overlap_changes_under_translation :
    (roundDouble cubeClose.To.x = cubeClose.To.x ∧
      roundDouble (1073741824 : ℚ) = 1073741824) ∧
    Rounded.overlap roundDouble cubeUnit cubeClose = true ∧
    (Rounded.translate roundDouble cubeUnit ⟨1073741824, 0, 0⟩).To = ⟨1073741824, 0, 0⟩ ∧
    (Rounded.translate roundDouble cubeClose ⟨1073741824, 0, 0⟩).To =
      ⟨1073741824 + 2 + 13 / 2 ^ 22, 0, 0⟩ ∧
    Rounded.overlap roundDouble (Rounded.translate roundDouble cubeUnit ⟨1073741824, 0, 0⟩)
      (Rounded.translate roundDouble cubeClose ⟨1073741824, 0, 0⟩) = false := by
  decide!

/-- Claim C27 as stated fails: in binary64 arithmetic the box `slabBox`, with
the identity frame, the centre `(1, 0, 0)` and the half-extents `(0.1, 1, 1)`,
does not contain four of the eight vertices that `computeVertices` gives.  The
corner coordinate `1 + 0.1` rounds to `1.1`, a double above the sum, and
`1.1 - 1` is above the double `0.1`. -/
theorem corner_not_contained :
    slabBox.axis.IsOrthonormal ∧
    (0 ≤ slabBox.extent.x ∧ 0 ≤ slabBox.extent.y ∧ 0 ≤ slabBox.extent.z) ∧
    (Rounded.computeVertices roundDouble slabBox)[1]? =
      some ⟨2476979795053773 / 2251799813685248, -1, -1⟩ ∧
    roundDouble (2476979795053773 / 2251799813685248 - 1) > slabBox.extent.x ∧
    (Rounded.computeVertices roundDouble slabBox).map
        (fun v => Rounded.contain roundDouble slabBox v) =
      [true, false, false, true, true, false, false, true] := by
  decide!

/-- Claim C29 as stated fails: in binary64 arithmetic the box that
`merge_smalldist` gives for `thinBox` and `wideBox`, two boxes with the identity
frame, does not contain four of the eight corner vertices of the second box.
The merged box has the centre `0.19999999999999998` and the half-extent `0.3` on
the first axis, and for the corners at `0.5` the difference
`0.5 - 0.19999999999999998` rounds to `0.30000000000000004`. -/
theorem rounded_merge_misses_corner :
    (thinBox.axis.IsOrthonormal ∧ thinBox.axis.det = 1) ∧
    (wideBox.axis.IsOrthonormal ∧ wideBox.axis.det = 1) ∧
    (Rounded.merge_smalldist roundDouble sqrtDouble maxDouble thinBox wideBox).axis =
      Matrix3.identity ∧
    (Rounded.merge_smalldist roundDouble sqrtDouble maxDouble thinBox wideBox).To =
      ⟨7205759403792793 / 36028797018963968, 0, 0⟩ ∧
    (Rounded.merge_smalldist roundDouble sqrtDouble maxDouble thinBox wideBox).extent =
      ⟨5404319552844595 / 18014398509481984, 1, 1⟩ ∧
    (Rounded.computeVertices roundDouble wideBox)[1]? = some ⟨1 / 2, -1, -1⟩ ∧
    (Rounded.computeVertices roundDouble wideBox).map
        (fun v => Rounded.contain roundDouble
          (Rounded.merge_smalldist roundDouble sqrtDouble maxDouble thinBox wideBox) v) =
      [true, false, false, true, true, false, false, true] := by
  decide!

/-! ## The cylinder mesh generator -/

namespace test

/-- Whatever `std::hash<int>` is, `PairHash` gives the keys `(a, b)` and
`(b, a)` different values as soon as the hashes of `a` and `b` differ: the two
values differ by the larger hash. -/
theorem pairHash_swap_ne (hash : Int → Nat) (a b : Int)
    (h : hash a % 2 ^ 64 ≠ hash b % 2 ^ 64) :
    PairHash hash (a, b) ≠ PairHash hash (b, a) := by
  have hA : hash a % 2 ^ 64 < 2 ^ 64 := Nat.mod_lt _ (by norm_num)
  have hB : hash b % 2 ^ 64 < 2 ^ 64 := Nat.mod_lt _ (by norm_num)
  simp only [PairHash]
  generalize hash a % 2 ^ 64 = A at h hA ⊢
  generalize hash b % 2 ^ 64 = B at h hB ⊢
  generalize hAA : A * A = S
  generalize hBB : B * B = T
  norm_num at hA hB ⊢
  split_ifs <;> omega

/-- The element of a vector at an index inside the vector. -/
theorem vectorAt_eq_some {α : Type} (v : List α) (i : Int) (h0 : 0 ≤ i) (h1 : i < v.length) :
    ∃ x, vectorAt v i = some x := by
  have h : i.toNat < v.length := by omega
  exact ⟨v[i.toNat], by simp [vectorAt, h0, List.getElem?_eq_getElem h]⟩

/-- A vector has an element only at an index inside the vector. -/
theorem vectorAt_some_lt {α : Type} (v : List α) (i : Int) (x : α) (h : vectorAt v i = some x) :
    0 ≤ i ∧ i < v.length := by
  unfold vectorAt at h
  split_ifs at h with h0
  have := (List.getElem?_eq_some.1 h).1
  omega

/-- The function `CreateNewVertex` on two indices inside the vectors. -/
theorem createNewVertex_eq (sqrt : K → K) (kEps : K) (a b : Int) (st : VertexStore K)
    (radius : K) (ta tb : CylinderVertexType) (A B P : Vector3 K)
    (hta : vectorAt st.split_vertex_type a = some ta)
    (htb : vectorAt st.split_vertex_type b = some tb)
    (hA : vectorAt st.split_mesh_vertices a = some A)
    (hB : vectorAt st.split_mesh_vertices b = some B)
    (hP : ProjectMidPoint sqrt kEps A B (CylinderVertexType.min ta tb) radius = some P) :
    CreateNewVertex sqrt kEps a b st radius =
      some ((st.split_mesh_vertices.length : Int),
        ⟨st.split_mesh_vertices ++ [P], st.split_vertex_type ++ [CylinderVertexType.min ta tb],
          Function.update st.vertex_map (a, b) (some (st.split_mesh_vertices.length : Int))⟩) := by
  simp [CreateNewVertex, hta, htb, hA, hB, hP]

/-- The square root of a square of a number that is not negative. -/
theorem isSqrt_mul_self {sqrt : K → K} (hs : IsSqrt sqrt) (d : K) (hd : 0 ≤ d) :
    sqrt (d * d) = d := by
  obtain ⟨h0, h1⟩ := hs (d * d) (mul_nonneg hd hd)
  rcases mul_self_eq_mul_self_iff.1 h1 with h | h
  · exact h
  · have : d = 0 := by linarith
    rw [h, this, neg_zero]

/-- Claim C31 fails on the code: the functor `PairHash` is not commutative.
For every `std::hash<int>`, two indices with different hashes get different
values in the two orders; with the hash of libstdc++ the key `(1, 0)` hashes
to 2 and the key `(0, 1)` to 1.  The keys `(a, b)` and `(b, a)` are
different keys of the parents-to-child map: what `CreateNewVertex` records under
`(a, b)` leaves the entry of `(b, a)` as it was. -/
theorem pairHash_not_commutative :
    (∀ (hash : Int → Nat) (a b : Int), hash a % 2 ^ 64 ≠ hash b % 2 ^ 64 →
      PairHash hash (a, b) ≠ PairHash hash (b, a)) ∧
    PairHash identityHash (1, 0) = 2 ∧ PairHash identityHash (0, 1) = 1 ∧
    (∀ (sqrt : K → K) (kEps : K) (a b : Int) (st : VertexStore K) (radius : K)
      (r : Int × VertexStore K), a ≠ b → CreateNewVertex sqrt kEps a b st radius = some r →
      r.2.vertex_map (a, b) = some r.1 ∧ r.2.vertex_map (b, a) = st.vertex_map (b, a)) := by
  refine ⟨pairHash_swap_ne, by decide, by decide, ?_⟩
  intro sqrt kEps a b st radius r hab hr
  simp only [CreateNewVertex, Option.bind_eq_some] at hr
  obtain ⟨ta, _, tb, _, A, _, B, _, P, _, hr⟩ := hr
  rw [Option.some.injEq] at hr
  subst hr
  have hne : (b, a) ≠ (a, b) := fun e => hab (Prod.mk.inj e).2
  simp [Function.update_noteq hne]

/-- Claim C37: on two indices inside the vectors, `CreateNewVertex` has a
result exactly when the projection of the midpoint of the two parents has one
(the assertion of `ProjectOntoCylinderSide` holds), which it always has unless
both parents are of the type `kSide`.  It then returns the number of vertices
before the call, appends one vertex (the projected midpoint) and one type,
records the returned index under the key `(a, b)` and leaves the other keys
alone; the type is the one of the two parents that comes first in the order
`kInternal`, `kCap`, `kSide`. -/
theorem createNewVertex_appends (sqrt : K → K) (kEps : K) (a b : Int) (st : VertexStore K)
    (radius : K) (ta tb : CylinderVertexType) (A B : Vector3 K)
    (hta : vectorAt st.split_vertex_type a = some ta)
    (htb : vectorAt st.split_vertex_type b = some tb)
    (hA : vectorAt st.split_mesh_vertices a = some A)
    (hB : vectorAt st.split_mesh_vertices b = some B) :
    (∀ P : Vector3 K,
      ProjectMidPoint sqrt kEps A B (CylinderVertexType.min ta tb) radius = some P →
      ∃ st' : VertexStore K,
        CreateNewVertex sqrt kEps a b st radius =
          some ((st.split_mesh_vertices.length : Int), st') ∧
        st'.split_mesh_vertices = st.split_mesh_vertices ++ [P] ∧
        st'.split_mesh_vertices.length = st.split_mesh_vertices.length + 1 ∧
        st'.split_vertex_type = st.split_vertex_type ++ [CylinderVertexType.min ta tb] ∧
        st'.split_vertex_type.length = st.split_vertex_type.length + 1 ∧
        st'.vertex_map (a, b) = some (st.split_mesh_vertices.length : Int) ∧
        (∀ key, key ≠ (a, b) → st'.vertex_map key = st.vertex_map key)) ∧
    (ProjectMidPoint sqrt kEps A B (CylinderVertexType.min ta tb) radius = none →
      CreateNewVertex sqrt kEps a b st radius = none) ∧
    (CylinderVertexType.min ta tb ≠ CylinderVertexType.kSide →
      ProjectMidPoint sqrt kEps A B (CylinderVertexType.min ta tb) radius =
        some (ProjectMidpointToMiddleCylinder sqrt kEps A B)) ∧
    (CylinderVertexType.min ta tb = CylinderVertexType.kSide ↔
      ta = CylinderVertexType.kSide ∧ tb = CylinderVertexType.kSide) ∧
    (CylinderVertexType.min ta tb).toNat = min ta.toNat tb.toNat ∧
    (CylinderVertexType.min ta tb = ta ∨ CylinderVertexType.min ta tb = tb) := by
  refine ⟨fun P hP => ⟨_, createNewVertex_eq sqrt kEps a b st radius ta tb A B P hta htb hA hB hP,
    rfl, by simp, rfl, by simp, by simp, fun key hk => Function.update_noteq hk _ _⟩, ?_, ?_, ?_,
    ?_, ?_⟩
  · intro hP
    simp [CreateNewVertex, hta, htb, hA, hB, hP]
  · intro h
    cases hm : CylinderVertexType.min ta tb with
    | kSide => exact absurd hm h
    | kCap => rfl
    | kInternal => rfl
  · cases ta <;> cases tb <;> decide
  · cases ta <;> cases tb <;> decide
  · cases ta <;> cases tb <;> decide

theorem createNewVertex_appends_witness :
    vectorAt [CylinderVertexType.kSide, CylinderVertexType.kCap] 0 =
      some CylinderVertexType.kSide ∧
    vectorAt [CylinderVertexType.kSide, CylinderVertexType.kCap] 1 =
      some CylinderVertexType.kCap ∧
    vectorAt [(⟨1, 0, 0⟩ : Vector3 ℚ), ⟨0, 0, 0⟩] 0 = some ⟨1, 0, 0⟩ ∧
    vectorAt [(⟨1, 0, 0⟩ : Vector3 ℚ), ⟨0, 0, 0⟩] 1 = some ⟨0, 0, 0⟩ ∧
    ((∀ P : Vector3 ℚ,
      ProjectMidPoint (fun x => x) 0 ⟨1, 0, 0⟩ ⟨0, 0, 0⟩
        (CylinderVertexType.min CylinderVertexType.kSide CylinderVertexType.kCap) 1 = some P →
      ∃ st' : VertexStore ℚ,
        CreateNewVertex (fun x => x) 0 0 1
            (⟨[⟨1, 0, 0⟩, ⟨0, 0, 0⟩], [CylinderVertexType.kSide, CylinderVertexType.kCap],
              fun _ => none⟩ : VertexStore ℚ) 1 = some (((2 : Nat) : Int), st') ∧
        st'.split_mesh_vertices = [(⟨1, 0, 0⟩ : Vector3 ℚ), ⟨0, 0, 0⟩] ++ [P] ∧
        st'.split_mesh_vertices.length = 2 + 1 ∧
        st'.split_vertex_type = [CylinderVertexType.kSide, CylinderVertexType.kCap] ++
          [CylinderVertexType.min CylinderVertexType.kSide CylinderVertexType.kCap] ∧
        st'.split_vertex_type.length = 2 + 1 ∧
        st'.vertex_map (0, 1) = some ((2 : Nat) : Int) ∧
        (∀ key, key ≠ (0, 1) → st'.vertex_map key = none)) ∧
    (ProjectMidPoint (fun x => x) 0 (⟨1, 0, 0⟩ : Vector3 ℚ) ⟨0, 0, 0⟩
        (CylinderVertexType.min CylinderVertexType.kSide CylinderVertexType.kCap) 1 = none →
      CreateNewVertex (fun x => x) 0 0 1
          (⟨[⟨1, 0, 0⟩, ⟨0, 0, 0⟩], [CylinderVertexType.kSide, CylinderVertexType.kCap],
            fun _ => none⟩ : VertexStore ℚ) 1 = none) ∧
    (CylinderVertexType.min CylinderVertexType.kSide CylinderVertexType.kCap ≠
        CylinderVertexType.kSide →
      ProjectMidPoint (fun x => x) 0 (⟨1, 0, 0⟩ : Vector3 ℚ) ⟨0, 0, 0⟩
        (CylinderVertexType.min CylinderVertexType.kSide CylinderVertexType.kCap) 1 =
        some (ProjectMidpointToMiddleCylinder (fun x => x) 0 ⟨1, 0, 0⟩ ⟨0, 0, 0⟩)) ∧
    (CylinderVertexType.min CylinderVertexType.kSide CylinderVertexType.kCap =
        CylinderVertexType.kSide ↔
      CylinderVertexType.kSide = CylinderVertexType.kSide ∧
        CylinderVertexType.kCap = CylinderVertexType.kSide) ∧
    (CylinderVertexType.min CylinderVertexType.kSide CylinderVertexType.kCap).toNat =
      min CylinderVertexType.kSide.toNat CylinderVertexType.kCap.toNat ∧
    (CylinderVertexType.min CylinderVertexType.kSide CylinderVertexType.kCap =
        CylinderVertexType.kSide ∨
      CylinderVertexType.min CylinderVertexType.kSide CylinderVertexType.kCap =
        CylinderVertexType.kCap)) :=
  ⟨rfl, rfl, rfl, rfl,
    createNewVertex_appends (fun x => x) 0 0 1
      (⟨[⟨1, 0, 0⟩, ⟨0, 0, 0⟩], [CylinderVertexType.kSide, CylinderVertexType.kCap],
        fun _ => none⟩ : VertexStore ℚ) 1 CylinderVertexType.kSide CylinderVertexType.kCap
      ⟨1, 0, 0⟩ ⟨0, 0, 0⟩ rfl rfl rfl rfl⟩

/-- Claim C35: `ProjectMidpointToMiddleCylinder` returns the midpoint itself
when the squared distance of the midpoint from the z-axis is at most
`kEps * kEps`; otherwise the vector it normalises is not zero, and the result
has the height of the midpoint and lies at the distance from the z-axis that
is the mean of the distances of `p` and of `q`, so on the cylinder of `p` and
`q` when they share one. -/
theorem projectMidpoint_middle_cylinder (sqrt : K → K) (hs : IsSqrt sqrt) (kEps : K)
    (p q : Vector3 K) :
    ((⟨(p.x + q.x) / 2, (p.y + q.y) / 2⟩ : Vector2 K).squaredNorm ≤ kEps * kEps →
      ProjectMidpointToMiddleCylinder sqrt kEps p q =
        ⟨(p.x + q.x) / 2, (p.y + q.y) / 2, (p.z + q.z) / 2⟩) ∧
    (¬ (⟨(p.x + q.x) / 2, (p.y + q.y) / 2⟩ : Vector2 K).squaredNorm ≤ kEps * kEps →
      0 < (⟨(p.x + q.x) / 2, (p.y + q.y) / 2⟩ : Vector2 K).squaredNorm ∧
      (⟨(p.x + q.x) / 2, (p.y + q.y) / 2⟩ : Vector2 K).norm sqrt ≠ 0 ∧
      (ProjectMidpointToMiddleCylinder sqrt kEps p q).z = (p.z + q.z) / 2 ∧
      (⟨(ProjectMidpointToMiddleCylinder sqrt kEps p q).x,
          (ProjectMidpointToMiddleCylinder sqrt kEps p q).y⟩ : Vector2 K).norm sqrt =
        ((⟨p.x, p.y⟩ : Vector2 K).norm sqrt + (⟨q.x, q.y⟩ : Vector2 K).norm sqrt) / 2 ∧
      ∀ r : K, (⟨p.x, p.y⟩ : Vector2 K).norm sqrt = r → (⟨q.x, q.y⟩ : Vector2 K).norm sqrt = r →
        (⟨(ProjectMidpointToMiddleCylinder sqrt kEps p q).x,
          (ProjectMidpointToMiddleCylinder sqrt kEps p q).y⟩ : Vector2 K).norm sqrt = r) := by
  constructor
  · intro h
    simp only [ProjectMidpointToMiddleCylinder, if_pos h]
  · intro h
    have hpos : 0 < (⟨(p.x + q.x) / 2, (p.y + q.y) / 2⟩ : Vector2 K).squaredNorm :=
      lt_of_le_of_lt (mul_self_nonneg kEps) (not_le.1 h)
    have hsq := hs _ hpos.le
    have hn : sqrt (⟨(p.x + q.x) / 2, (p.y + q.y) / 2⟩ : Vector2 K).squaredNorm ≠ 0 :=
      (isSqrt_pos hs hpos).ne'
    have hp0 : 0 ≤ (⟨p.x, p.y⟩ : Vector2 K).norm sqrt :=
      (hs _ (add_nonneg (mul_self_nonneg _) (mul_self_nonneg _))).1
    have hq0 : 0 ≤ (⟨q.x, q.y⟩ : Vector2 K).norm sqrt :=
      (hs _ (add_nonneg (mul_self_nonneg _) (mul_self_nonneg _))).1
    have key : (⟨(ProjectMidpointToMiddleCylinder sqrt kEps p q).x,
          (ProjectMidpointToMiddleCylinder sqrt kEps p q).y⟩ : Vector2 K).norm sqrt =
        ((⟨p.x, p.y⟩ : Vector2 K).norm sqrt + (⟨q.x, q.y⟩ : Vector2 K).norm sqrt) / 2 := by
      simp only [ProjectMidpointToMiddleCylinder, if_neg h, Vector2.normalize, gt_iff_lt,
        if_pos hpos]
      rw [Vector2.norm]
      have e : (⟨((⟨p.x, p.y⟩ : Vector2 K).norm sqrt + (⟨q.x, q.y⟩ : Vector2 K).norm sqrt) / 2 *
            ((p.x + q.x) / 2 /
              sqrt (⟨(p.x + q.x) / 2, (p.y + q.y) / 2⟩ : Vector2 K).squaredNorm),
          ((⟨p.x, p.y⟩ : Vector2 K).norm sqrt + (⟨q.x, q.y⟩ : Vector2 K).norm sqrt) / 2 *
            ((p.y + q.y) / 2 /
              sqrt (⟨(p.x + q.x) / 2, (p.y + q.y) / 2⟩ : Vector2 K).squaredNorm)⟩ :
            Vector2 K).squaredNorm =
          (((⟨p.x, p.y⟩ : Vector2 K).norm sqrt + (⟨q.x, q.y⟩ : Vector2 K).norm sqrt) / 2) *
            (((⟨p.x, p.y⟩ : Vector2 K).norm sqrt + (⟨q.x, q.y⟩ : Vector2 K).norm sqrt) / 2) := by
        generalize ((⟨p.x, p.y⟩ : Vector2 K).norm sqrt + (⟨q.x, q.y⟩ : Vector2 K).norm sqrt) / 2
          = d
        have h2 := hsq.2
        generalize sqrt (⟨(p.x + q.x) / 2, (p.y + q.y) / 2⟩ : Vector2 K).squaredNorm = s
          at h2 hn
        simp only [Vector2.squaredNorm] at h2 ⊢
        field_simp
        linear_combination (-4 * d * d) * h2
      rw [e]
      exact isSqrt_mul_self hs _ (div_nonneg (add_nonneg hp0 hq0) (by norm_num))
    refine ⟨hpos, hn, ?_, key, ?_⟩
    · simp only [ProjectMidpointToMiddleCylinder, if_neg h]
    · intro r hp hq
      rw [key, hp, hq]
      ring

theorem projectMidpoint_middle_cylinder_witness :
    IsSqrt Real.sqrt ∧
    (((⟨((3 : ℝ) + 0) / 2, ((0 : ℝ) + 4) / 2⟩ : Vector2 ℝ).squaredNorm ≤ 0 * 0 →
      ProjectMidpointToMiddleCylinder Real.sqrt 0 (⟨3, 0, 1⟩ : Vector3 ℝ) ⟨0, 4, 2⟩ =
        ⟨((3 : ℝ) + 0) / 2, ((0 : ℝ) + 4) / 2, ((1 : ℝ) + 2) / 2⟩) ∧
    (¬ (⟨((3 : ℝ) + 0) / 2, ((0 : ℝ) + 4) / 2⟩ : Vector2 ℝ).squaredNorm ≤ 0 * 0 →
      0 < (⟨((3 : ℝ) + 0) / 2, ((0 : ℝ) + 4) / 2⟩ : Vector2 ℝ).squaredNorm ∧
      (⟨((3 : ℝ) + 0) / 2, ((0 : ℝ) + 4) / 2⟩ : Vector2 ℝ).norm Real.sqrt ≠ 0 ∧
      (ProjectMidpointToMiddleCylinder Real.sqrt 0 (⟨3, 0, 1⟩ : Vector3 ℝ) ⟨0, 4, 2⟩).z =
        ((1 : ℝ) + 2) / 2 ∧
      (⟨(ProjectMidpointToMiddleCylinder Real.sqrt 0 (⟨3, 0, 1⟩ : Vector3 ℝ) ⟨0, 4, 2⟩).x,
          (ProjectMidpointToMiddleCylinder Real.sqrt 0 (⟨3, 0, 1⟩ : Vector3 ℝ) ⟨0, 4, 2⟩).y⟩ :
            Vector2 ℝ).norm Real.sqrt =
        ((⟨3, 0⟩ : Vector2 ℝ).norm Real.sqrt + (⟨0, 4⟩ : Vector2 ℝ).norm Real.sqrt) / 2 ∧
      ∀ r : ℝ, (⟨3, 0⟩ : Vector2 ℝ).norm Real.sqrt = r →
        (⟨0, 4⟩ : Vector2 ℝ).norm Real.sqrt = r →
        (⟨(ProjectMidpointToMiddleCylinder Real.sqrt 0 (⟨3, 0, 1⟩ : Vector3 ℝ) ⟨0, 4, 2⟩).x,
          (ProjectMidpointToMiddleCylinder Real.sqrt 0 (⟨3, 0, 1⟩ : Vector3 ℝ) ⟨0, 4, 2⟩).y⟩ :
            Vector2 ℝ).norm Real.sqrt = r)) :=
  ⟨isSqrt_real, projectMidpoint_middle_cylinder Real.sqrt isSqrt_real 0 ⟨3, 0, 1⟩ ⟨0, 4, 2⟩⟩

/-- The conversion to `int` keeps the value, which is in the range of `int`. -/
theorem toInt_eq_some (x y : Int) (h : toInt x = some y) :
    y = x ∧ -2147483648 ≤ x ∧ x ≤ 2147483647 := by
  unfold toInt at h
  split_ifs at h with hx
  rw [Option.some.injEq] at h
  exact ⟨h.symm, hx⟩

/-- The number of subdivisions, when it has a value, is the larger of 2 and the
floor of the computed quotient. -/
theorem subdivisions_eq_some [FloorRing K] (div : K → K → K) (height radius : K) (s : Int)
    (hs : subdivisions div height radius = some s) :
    s = max 2 ⌊div height radius⌋ ∧ 2 ≤ s ∧ s ≤ 2147483647 := by
  unfold subdivisions at hs
  rw [show (2 : K) = ((2 : Int) : K) by norm_num, ← Int.cast_max, Int.floor_intCast] at hs
  obtain ⟨h1, _, h3⟩ := toInt_eq_some _ _ hs
  exact ⟨h1, by rw [h1]; exact le_max_left _ _, by rw [h1]; exact h3⟩

/-- The number of subdivisions has a value when the larger of 2 and the floor
of the computed quotient is in the range of `int`. -/
theorem subdivisions_of_le [FloorRing K] (div : K → K → K) (height radius : K)
    (h : max 2 ⌊div height radius⌋ ≤ 2147483647) :
    subdivisions div height radius = some (max 2 ⌊div height radius⌋) := by
  unfold subdivisions
  rw [show (2 : K) = ((2 : Int) : K) by norm_num, ← Int.cast_max, Int.floor_intCast]
  have h2 : (2 : Int) ≤ max 2 ⌊div height radius⌋ := le_max_left _ _
  unfold toInt
  rw [if_pos ⟨by omega, h⟩]

/-- What a loop puts into a vector comes from one of its passes. -/
theorem mem_foldl_of {α β : Type} (f : List α → β → List α) (Q : β → α → Prop)
    (hf : ∀ l b x, x ∈ f l b → x ∈ l ∨ Q b x) (bs : List β) (l : List α) (x : α)
    (h : x ∈ bs.foldl f l) : x ∈ l ∨ ∃ b ∈ bs, Q b x := by
  induction bs generalizing l with
  | nil => exact Or.inl h
  | cons b bs ih =>
    rcases ih _ h with h1 | ⟨c, hc, h1⟩
    · rcases hf l b x h1 with h2 | h2
      · exact Or.inl h2
      · exact Or.inr ⟨b, List.mem_cons_self _ _, h2⟩
    · exact Or.inr ⟨c, List.mem_cons_of_mem _ hc, h1⟩

/-- A loop whose passes each add `c` elements adds `c` times the number of
passes. -/
theorem length_foldl_add {α β : Type} (f : List α → β → List α) (c : Nat)
    (hf : ∀ l b, (f l b).length = l.length + c) (bs : List β) (l : List α) :
    (bs.foldl f l).length = l.length + c * bs.length := by
  induction bs generalizing l with
  | nil => simp
  | cons b bs ih =>
    rw [List.foldl_cons, ih, hf, List.length_cons]
    ring

/-- The tetrahedra of the prisms `(j, i)` with `j < n` use vertices below
`5 * (n + 1)`. -/
theorem prismTetrahedra_inRange (n j i : Nat) (hj : j < n) (hi : i < 4) (t : MeshSimplex)
    (ht : t ∈ prismTetrahedra j i) : t.InRange (5 * (n + 1)) := by
  interval_cases i <;>
    simp only [prismTetrahedra, List.mem_cons, List.mem_singleton, List.not_mem_nil,
      or_false] at ht <;>
    rcases ht with h | h | h <;> subst h <;>
    simp only [MeshSimplex.InRange] <;> norm_num <;> omega

/-- The types after the loop of `MakeCylinderMeshLevel0` that marks the
internal vertices, pass by pass. -/
theorem types_loop (n : Nat) (T0 : List CylinderVertexType) (hlen : T0.length = 5 * (n + 1))
    (hc : T0.count CylinderVertexType.kCap = 2)
    (hi : T0.count CylinderVertexType.kInternal = 0)
    (hside : ∀ k, k < n - 1 → T0[5 * (k + 1) + 4]? = some CylinderVertexType.kSide)
    (m : Nat) (hm : m ≤ n - 1) :
    ((List.range m).foldl
        (fun vt k => vt.set (5 * (k + 1) + 4) CylinderVertexType.kInternal) T0).length =
      5 * (n + 1) ∧
    ((List.range m).foldl
        (fun vt k => vt.set (5 * (k + 1) + 4) CylinderVertexType.kInternal) T0).count
      CylinderVertexType.kCap = 2 ∧
    ((List.range m).foldl
        (fun vt k => vt.set (5 * (k + 1) + 4) CylinderVertexType.kInternal) T0).count
      CylinderVertexType.kInternal = m ∧
    ∀ k, m ≤ k → k < n - 1 →
      ((List.range m).foldl
        (fun vt k => vt.set (5 * (k + 1) + 4) CylinderVertexType.kInternal) T0)[5 * (k + 1) + 4]? =
        some CylinderVertexType.kSide := by
  induction m with
  | zero => exact ⟨hlen, hc, hi, fun k _ hk => hside k hk⟩
  | succ m ih =>
    obtain ⟨h1, h2, h3, h4⟩ := ih (by omega)
    rw [List.range_succ, List.foldl_append]
    simp only [List.foldl_cons, List.foldl_nil]
    generalize (List.range m).foldl
        (fun vt k => vt.set (5 * (k + 1) + 4) CylinderVertexType.kInternal) T0 = T at h1 h2 h3 h4
    have hlt : 5 * (m + 1) + 4 < T.length := by omega
    have hm4 := h4 m le_rfl (by omega)
    rw [List.getElem?_eq_getElem hlt, Option.some.injEq] at hm4
    refine ⟨by rw [List.length_set, h1], ?_, ?_, ?_⟩
    · rw [List.count_set _ _ _ _ hlt, hm4, h2]
      decide
    · rw [List.count_set _ _ _ _ hlt, hm4, h3]
      simp
    · intro k hk1 hk2
      rw [List.getElem?_set_ne (by omega)]
      exact h4 k (by omega) hk2

/-- The types after the two writes of `MakeCylinderMeshLevel0` that mark the
centres of the caps. -/
theorem types_caps (n : Nat) (hn : 2 ≤ n) :
    (((List.replicate (5 * (n + 1)) CylinderVertexType.kSide).set 4
        CylinderVertexType.kCap).set (5 * n + 4) CylinderVertexType.kCap).length =
      5 * (n + 1) ∧
    (((List.replicate (5 * (n + 1)) CylinderVertexType.kSide).set 4
        CylinderVertexType.kCap).set (5 * n + 4) CylinderVertexType.kCap).count
      CylinderVertexType.kCap = 2 ∧
    (((List.replicate (5 * (n + 1)) CylinderVertexType.kSide).set 4
        CylinderVertexType.kCap).set (5 * n + 4) CylinderVertexType.kCap).count
      CylinderVertexType.kInternal = 0 ∧
    ∀ k, k < n - 1 →
      (((List.replicate (5 * (n + 1)) CylinderVertexType.kSide).set 4
        CylinderVertexType.kCap).set (5 * n + 4) CylinderVertexType.kCap)[5 * (k + 1) + 4]? =
        some CylinderVertexType.kSide := by
  have h4 : 4 < (List.replicate (5 * (n + 1)) CylinderVertexType.kSide).length := by
    rw [List.length_replicate]
    omega
  have h5 : 5 * n + 4 < ((List.replicate (5 * (n + 1)) CylinderVertexType.kSide).set 4
      CylinderVertexType.kCap).length := by
    rw [List.length_set, List.length_replicate]
    omega
  refine ⟨by simp, ?_, ?_, ?_⟩
  · rw [List.count_set _ _ _ _ h5, List.count_set _ _ _ _ h4,
      List.getElem_set_ne (by omega), List.getElem_replicate, List.getElem_replicate,
      List.count_replicate]
    simp
  · rw [List.count_set _ _ _ _ h5, List.count_set _ _ _ _ h4,
      List.getElem_set_ne (by omega), List.getElem_replicate, List.getElem_replicate,
      List.count_replicate]
    simp
  · intro k hk
    rw [List.getElem?_set_ne (by omega), List.getElem?_set_ne (by omega),
      List.getElem?_eq_getElem (by rw [List.length_replicate]; omega), List.getElem_replicate]

/-- The level-0 mesh, when `MakeCylinderMeshLevel0` returns one from empty
vectors: with `s` subdivisions, `5 * (s + 1)` fits in an `int`, and the mesh has
`5 * (s + 1)` vertices and vertex types, two of them `kCap` and `s - 1` of them
`kInternal`, and `12 * s` tetrahedra with indices inside the vertex vector. -/
theorem level0_spec [FloorRing K] (div : K → K → K) (height radius : K)
    (m : List MeshSimplex × List (Vector3 K) × List CylinderVertexType)
    (hm : MakeCylinderMeshLevel0 div height radius [] [] [] = some m) :
    subdivisions div height radius = some (max 2 ⌊div height radius⌋) ∧
    5 * (max 2 ⌊div height radius⌋ + 1) ≤ 2147483647 ∧
    m.2.1.length = 5 * ((max 2 ⌊div height radius⌋).toNat + 1) ∧
    m.2.2.length = 5 * ((max 2 ⌊div height radius⌋).toNat + 1) ∧
    m.1.length = 12 * (max 2 ⌊div height radius⌋).toNat ∧
    (∀ t ∈ m.1, t.InRange (5 * ((max 2 ⌊div height radius⌋).toNat + 1))) ∧
    m.2.2.count CylinderVertexType.kCap = 2 ∧
    m.2.2.count CylinderVertexType.kInternal = (max 2 ⌊div height radius⌋).toNat - 1 := by
  simp only [MakeCylinderMeshLevel0, Option.bind_eq_some] at hm
  obtain ⟨s, hs, hm⟩ := hm
  obtain ⟨hs1, hs2, _⟩ := subdivisions_eq_some div height radius s hs
  rw [← hs1]
  split_ifs at hm with h5
  rw [Option.some.injEq] at hm
  subst hm
  have hn : 2 ≤ s.toNat := by omega
  have e1 : ∀ k : Nat, (5 * ((k : Int) + 1) + 4).toNat = 5 * (k + 1) + 4 := fun k => by omega
  have e2 : (5 * (s + 1)).toNat = 5 * (s.toNat + 1) := by omega
  have e3 : (5 * s + 4).toNat = 5 * s.toNat + 4 := by omega
  have e4 : (4 : Int).toNat = 4 := rfl
  simp only [e1, e2, e3, e4, resize, List.take_nil, List.nil_append, List.length_nil,
    Nat.sub_zero]
  obtain ⟨c1, c2, c3, c4⟩ := types_caps _ hn
  obtain ⟨t1, t2, t3, _⟩ := types_loop _ _ c1 c2 c3 c4 _ le_rfl
  refine ⟨hs, h5, ?_, t1, ?_, ?_, t2, t3⟩
  · rw [add_slice_vertices, List.length_append,
      length_foldl_add _ 5 (fun l b => by simp [add_slice_vertices])]
    simp only [List.length_nil, List.length_range, List.length_cons]
    ring
  · rw [length_foldl_add _ 12 _ _ _, List.length_range, List.length_nil]
    · ring
    · intro l b
      rw [length_foldl_add _ 3 (fun l b => by simp [prismTetrahedra])]
      simp
  · intro t ht
    rcases mem_foldl_of _ (fun (j : Nat) x => ∃ i ∈ List.range 4, x ∈ prismTetrahedra j i)
        (fun l j x hx => mem_foldl_of _ (fun (i : Nat) x => x ∈ prismTetrahedra j i)
          (fun l i x hx => List.mem_append.1 hx) _ _ _ hx) _ _ _ ht with h | ⟨j, hj, i, hi, h⟩
    · exact absurd h (List.not_mem_nil _)
    · exact prismTetrahedra_inRange _ j i (List.mem_range.1 hj) (List.mem_range.1 hi) t h

/-- The function `MakeCylinderMeshLevel0` returns a mesh when `5 * (s + 1)`
fits in an `int`, and only then. -/
theorem level0_isSome_iff [FloorRing K] (div : K → K → K) (height radius : K)
    (tetrahedra : List MeshSimplex) (vertices : List (Vector3 K))
    (vertex_type : List CylinderVertexType) :
    (∃ m, MakeCylinderMeshLevel0 div height radius tetrahedra vertices vertex_type = some m) ↔
      5 * (max 2 ⌊div height radius⌋ + 1) ≤ 2147483647 := by
  constructor
  · rintro ⟨m, hm⟩
    simp only [MakeCylinderMeshLevel0, Option.bind_eq_some] at hm
    obtain ⟨s, hs, hm⟩ := hm
    obtain ⟨hs1, _, _⟩ := subdivisions_eq_some div height radius s hs
    rw [← hs1]
    split_ifs at hm with h5
    exact h5
  · intro h
    have h2 : (2 : Int) ≤ max 2 ⌊div height radius⌋ := le_max_left _ _
    rw [MakeCylinderMeshLevel0, subdivisions_of_le div height radius (by omega),
      Option.some_bind, if_pos h]
    exact ⟨_, rfl⟩

/-- An index inside a vector is inside every vector that extends it. -/
theorem index_lift {α : Type} {l l' : List α} {i : Int} (h : 0 ≤ i ∧ i < l.length)
    (p : l <+: l') : 0 ≤ i ∧ i < l'.length :=
  ⟨h.1, lt_of_lt_of_le h.2 (Nat.cast_le.2 p.length_le)⟩

/-- A simplex inside a vector is inside every longer vector. -/
theorem MeshSimplex.InRange.mono {t : MeshSimplex} {n m : Nat} (h : t.InRange n) (hnm : n ≤ m) :
    t.InRange m := by
  unfold MeshSimplex.InRange at h ⊢
  omega

/-- The closure `get_child_vertex` on a pair of parents that the map has. -/
theorem get_child_vertex_some (sqrt : K → K) (kEps : K) (radius : K) (p q : Int)
    (st : VertexStore K) (child : Int) (h : st.vertex_map (p, q) = some child) :
    get_child_vertex sqrt kEps radius p q st = some (child, st) := by
  simp only [get_child_vertex, h]

/-- The closure `get_child_vertex` on a pair of parents that the map does not
have. -/
theorem get_child_vertex_none (sqrt : K → K) (kEps : K) (radius : K) (p q : Int)
    (st : VertexStore K) (h : st.vertex_map (p, q) = none) :
    get_child_vertex sqrt kEps radius p q st = CreateNewVertex sqrt kEps p q st radius := by
  simp only [get_child_vertex, h]

/-- A vector that extends another one has the same elements at the indices of
that one. -/
theorem vectorAt_prefix_eq {α : Type} {l l' : List α} {i : Int} (p : l <+: l')
    (h : 0 ≤ i ∧ i < l.length) : vectorAt l' i = vectorAt l i := by
  obtain ⟨t, rfl⟩ := p
  have hi : i.toNat < l.length := by omega
  simp only [vectorAt, if_pos h.1, List.getElem?_append_left hi]

/-- The type of a child is `kSide` when both parents are of that type, and
only then. -/
theorem min_eq_kSide (ta tb : CylinderVertexType) :
    CylinderVertexType.min ta tb = CylinderVertexType.kSide ↔
      ta = CylinderVertexType.kSide ∧ tb = CylinderVertexType.kSide := by
  cases ta <;> cases tb <;> decide

/-- The projection of the midpoint of two parents has a value when the midpoint
meets the precondition of `ProjectOntoCylinderSide`, which is asked only of a
child of the type `kSide`. -/
theorem projectMidPoint_isSome (sqrt : K → K) (kEps : K) (A B : Vector3 K)
    (v_type : CylinderVertexType) (radius : K)
    (h : v_type = CylinderVertexType.kSide → SideMidpointClear sqrt radius A B) :
    ∃ P, ProjectMidPoint sqrt kEps A B v_type radius = some P := by
  cases v_type with
  | kSide =>
    have hc := h rfl
    unfold SideMidpointClear at hc
    simp only [ProjectMidPoint, ProjectOntoCylinderSide, if_pos hc]
    exact ⟨_, rfl⟩
  | kCap => exact ⟨_, rfl⟩
  | kInternal => exact ⟨_, rfl⟩

/-- The projection of the midpoint of two parents has a value only when the
midpoint meets the precondition of `ProjectOntoCylinderSide`. -/
theorem projectMidPoint_kSide_some (sqrt : K → K) (kEps : K) (A B P : Vector3 K) (radius : K)
    (h : ProjectMidPoint sqrt kEps A B CylinderVertexType.kSide radius = some P) :
    SideMidpointClear sqrt radius A B := by
  simp only [ProjectMidPoint, ProjectOntoCylinderSide] at h
  split_ifs at h with hc
  exact hc

/-- The closure `get_child_vertex` on two indices inside the vectors returns
the index of a vertex; it only appends to the vectors, and it adds a vertex
exactly when the pair `(p, q)` is not yet a key of the map. -/
theorem get_child_vertex_spec (sqrt : K → K) (kEps : K) (radius : K) (p q : Int)
    (st : VertexStore K) (n0 : Nat) (S : Finset (Int × Int)) (hw : st.Tracks n0 S)
    (hp : 0 ≤ p ∧ p < st.split_mesh_vertices.length)
    (hq : 0 ≤ q ∧ q < st.split_mesh_vertices.length)
    (hclear : ∀ A B : Vector3 K, vectorAt st.split_mesh_vertices p = some A →
      vectorAt st.split_mesh_vertices q = some B →
      vectorAt st.split_vertex_type p = some CylinderVertexType.kSide →
      vectorAt st.split_vertex_type q = some CylinderVertexType.kSide →
      SideMidpointClear sqrt radius A B) :
    ∃ r, get_child_vertex sqrt kEps radius p q st = some r ∧ r.2.Tracks n0 (insert (p, q) S) ∧
      st.split_mesh_vertices <+: r.2.split_mesh_vertices ∧
      st.split_vertex_type <+: r.2.split_vertex_type ∧
      (0 ≤ r.1 ∧ r.1 < r.2.split_mesh_vertices.length) := by
  obtain ⟨hw, hk, hn⟩ := hw
  cases h : st.vertex_map (p, q) with
  | some child =>
    have hm : (p, q) ∈ S := (hk _).1 (by rw [h]; exact Option.some_ne_none _)
    refine ⟨(child, st), get_child_vertex_some sqrt kEps radius p q st child h, ?_,
      List.prefix_refl _, List.prefix_refl _, hw.2 _ _ h⟩
    rw [Finset.insert_eq_of_mem hm]
    exact ⟨hw, hk, hn⟩
  | none =>
    have hm : (p, q) ∉ S := fun hm => (hk _).2 hm h
    obtain ⟨ta, hta⟩ := vectorAt_eq_some st.split_vertex_type p hp.1 (by rw [hw.1]; exact hp.2)
    obtain ⟨tb, htb⟩ := vectorAt_eq_some st.split_vertex_type q hq.1 (by rw [hw.1]; exact hq.2)
    obtain ⟨A, hA⟩ := vectorAt_eq_some st.split_mesh_vertices p hp.1 hp.2
    obtain ⟨B, hB⟩ := vectorAt_eq_some st.split_mesh_vertices q hq.1 hq.2
    obtain ⟨P, hP⟩ := projectMidPoint_isSome sqrt kEps A B (CylinderVertexType.min ta tb) radius
      (fun hk => hclear A B hA hB (by rw [hta, ((min_eq_kSide ta tb).1 hk).1])
        (by rw [htb, ((min_eq_kSide ta tb).1 hk).2]))
    rw [get_child_vertex_none sqrt kEps radius p q st h,
      createNewVertex_eq sqrt kEps p q st radius ta tb A B P hta htb hA hB hP]
    refine ⟨_, rfl, ⟨?_, ?_, ?_⟩, List.prefix_append _ _, List.prefix_append _ _, ?_⟩
    · constructor
      · simp [hw.1]
      · intro key child hk
        simp only [List.length_append, List.length_singleton, Nat.cast_add, Nat.cast_one]
        simp only at hk
        by_cases e : key = (p, q)
        · rw [e, Function.update_same, Option.some.injEq] at hk
          omega
        · rw [Function.update_noteq e] at hk
          have := hw.2 _ _ hk
          omega
    · intro key
      simp only [Finset.mem_insert]
      by_cases e : key = (p, q)
      · rw [e, Function.update_same]
        exact ⟨fun _ => Or.inl rfl, fun _ => Option.some_ne_none _⟩
      · rw [Function.update_noteq e, hk key]
        exact ⟨Or.inr, fun h' => h'.resolve_left e⟩
    · simp only [List.length_append, List.length_singleton]
      rw [Finset.card_insert_of_not_mem hm, hn]
      ring
    · simp only [List.length_append, List.length_singleton, Nat.cast_add, Nat.cast_one]
      omega

/-- The function `RefineCylinderTetrahdron` on a tetrahedron inside the vertex
vector returns; it appends eight tetrahedra, all inside the new vertex vector,
keeps the containers well formed and only appends to the vectors. -/
theorem refineCylinderTetrahdron_spec (sqrt : K → K) (kEps : K) (radius : K) (tet : MeshSimplex)
    (st : VertexStore K) (ts : List MeshSimplex) (n0 : Nat) (S : Finset (Int × Int))
    (hw : st.Tracks n0 S) (ht : tet.InRange st.split_mesh_vertices.length)
    (hclear : ∀ key ∈ parentPairs tet, ∀ A B : Vector3 K,
      vectorAt st.split_mesh_vertices key.1 = some A →
      vectorAt st.split_mesh_vertices key.2 = some B →
      vectorAt st.split_vertex_type key.1 = some CylinderVertexType.kSide →
      vectorAt st.split_vertex_type key.2 = some CylinderVertexType.kSide →
      SideMidpointClear sqrt radius A B) :
    ∃ r, RefineCylinderTetrahdron sqrt kEps tet st ts radius = some r ∧
      r.1.Tracks n0 (S ∪ (parentPairs tet).toFinset) ∧
      st.split_mesh_vertices <+: r.1.split_mesh_vertices ∧
      st.split_vertex_type <+: r.1.split_vertex_type ∧
      r.2.length = ts.length + 8 ∧
      ∀ t ∈ r.2, t ∈ ts ∨ t.InRange r.1.split_mesh_vertices.length := by
  obtain ⟨ha, hb, hc, hd⟩ := ht
  have hlen := hw.1.1
  have lift : ∀ (st' : VertexStore K) (x y : Int),
      st.split_mesh_vertices <+: st'.split_mesh_vertices →
      st.split_vertex_type <+: st'.split_vertex_type →
      (0 ≤ x ∧ x < st.split_mesh_vertices.length) →
      (0 ≤ y ∧ y < st.split_mesh_vertices.length) → (x, y) ∈ parentPairs tet →
      ∀ A B : Vector3 K, vectorAt st'.split_mesh_vertices x = some A →
        vectorAt st'.split_mesh_vertices y = some B →
        vectorAt st'.split_vertex_type x = some CylinderVertexType.kSide →
        vectorAt st'.split_vertex_type y = some CylinderVertexType.kSide →
        SideMidpointClear sqrt radius A B := by
    intro st' x y pv pt hx hy hm A B h1 h2 h3 h4
    rw [vectorAt_prefix_eq pv hx] at h1
    rw [vectorAt_prefix_eq pv hy] at h2
    rw [vectorAt_prefix_eq pt (by rw [hlen]; exact hx)] at h3
    rw [vectorAt_prefix_eq pt (by rw [hlen]; exact hy)] at h4
    exact hclear (x, y) hm A B h1 h2 h3 h4
  have m01 : (tet.v0, tet.v1) ∈ parentPairs tet := by simp [parentPairs]
  have m02 : (tet.v0, tet.v2) ∈ parentPairs tet := by simp [parentPairs]
  have m03 : (tet.v0, tet.v3) ∈ parentPairs tet := by simp [parentPairs]
  have m12 : (tet.v1, tet.v2) ∈ parentPairs tet := by simp [parentPairs]
  have m13 : (tet.v1, tet.v3) ∈ parentPairs tet := by simp [parentPairs]
  have m23 : (tet.v2, tet.v3) ∈ parentPairs tet := by simp [parentPairs]
  obtain ⟨e, he, we, pe, qe, re⟩ := get_child_vertex_spec sqrt kEps radius tet.v0 tet.v1 st
    n0 S hw ha hb (lift st _ _ (List.prefix_refl _) (List.prefix_refl _) ha hb m01)
  obtain ⟨f, hf, wf, pf, qf, rf⟩ := get_child_vertex_spec sqrt kEps radius tet.v0 tet.v2 e.2 _ _ we
    (index_lift ha pe) (index_lift hc pe) (lift e.2 _ _ pe qe ha hc m02)
  have p2 := pe.trans pf
  have q2 := qe.trans qf
  obtain ⟨g, hg, wg, pg, qg, rg⟩ := get_child_vertex_spec sqrt kEps radius tet.v0 tet.v3 f.2 _ _ wf
    (index_lift ha p2) (index_lift hd p2) (lift f.2 _ _ p2 q2 ha hd m03)
  have p3 := p2.trans pg
  have q3 := q2.trans qg
  obtain ⟨h, hh, wh, ph, qh, rh⟩ := get_child_vertex_spec sqrt kEps radius tet.v1 tet.v2 g.2 _ _ wg
    (index_lift hb p3) (index_lift hc p3) (lift g.2 _ _ p3 q3 hb hc m12)
  have p4 := p3.trans ph
  have q4 := q3.trans qh
  obtain ⟨i, hi, wi, pi, qi, ri⟩ := get_child_vertex_spec sqrt kEps radius tet.v1 tet.v3 h.2 _ _ wh
    (index_lift hb p4) (index_lift hd p4) (lift h.2 _ _ p4 q4 hb hd m13)
  have p5 := p4.trans pi
  have q5 := q4.trans qi
  obtain ⟨j, hj, wj, pj, qj, rj⟩ := get_child_vertex_spec sqrt kEps radius tet.v2 tet.v3 i.2 _ _ wi
    (index_lift hc p5) (index_lift hd p5) (lift i.2 _ _ p5 q5 hc hd m23)
  have p6 := p5.trans pj
  refine ⟨(j.2, ts ++
      [⟨tet.v0, e.1, f.1, g.1⟩, ⟨tet.v1, h.1, e.1, i.1⟩, ⟨f.1, h.1, tet.v2, j.1⟩,
        ⟨j.1, g.1, i.1, tet.v3⟩, ⟨g.1, h.1, i.1, e.1⟩, ⟨g.1, f.1, h.1, e.1⟩,
        ⟨g.1, i.1, h.1, j.1⟩, ⟨g.1, h.1, f.1, j.1⟩]),
    by simp only [RefineCylinderTetrahdron, he, hf, hg, hh, hi, hj, Option.some_bind],
    ?_, p6, ((((qe.trans qf).trans qg).trans qh).trans qi).trans qj, by simp, ?_⟩
  · have e : S ∪ (parentPairs tet).toFinset =
        insert (tet.v2, tet.v3) (insert (tet.v1, tet.v3) (insert (tet.v1, tet.v2)
          (insert (tet.v0, tet.v3) (insert (tet.v0, tet.v2) (insert (tet.v0, tet.v1) S))))) := by
      ext k
      simp only [parentPairs, Finset.mem_union, List.mem_toFinset, List.mem_cons,
        List.mem_singleton, List.not_mem_nil, or_false, Finset.mem_insert]
      tauto
    rw [e]
    exact wj
  have a' := index_lift ha p6
  have b' := index_lift hb p6
  have c' := index_lift hc p6
  have d' := index_lift hd p6
  have e' := index_lift re ((((pf.trans pg).trans ph).trans pi).trans pj)
  have f' := index_lift rf (((pg.trans ph).trans pi).trans pj)
  have g' := index_lift rg ((ph.trans pi).trans pj)
  have h' := index_lift rh (pi.trans pj)
  have i' := index_lift ri pj
  intro t htm
  rcases List.mem_append.1 htm with h0 | h0
  · exact Or.inl h0
  · right
    simp only [List.mem_cons, List.mem_singleton, List.not_mem_nil, or_false] at h0
    rcases h0 with h0 | h0 | h0 | h0 | h0 | h0 | h0 | h0 <;> subst h0
    · exact ⟨a', e', f', g'⟩
    · exact ⟨b', h', e', i'⟩
    · exact ⟨f', h', c', rj⟩
    · exact ⟨rj, g', i', d'⟩
    · exact ⟨g', h', i', e'⟩
    · exact ⟨g', f', h', e'⟩
    · exact ⟨g', i', h', rj⟩
    · exact ⟨g', h', f', rj⟩

/-- The parents that a tetrahedron inside the vertex vector lists are inside
the vertex vector. -/
theorem parentPairs_inRange (t : MeshSimplex) (n : Nat) (h : t.InRange n) (key : Int × Int)
    (hk : key ∈ parentPairs t) : (0 ≤ key.1 ∧ key.1 < n) ∧ (0 ≤ key.2 ∧ key.2 < n) := by
  obtain ⟨h0, h1, h2, h3⟩ := h
  simp only [parentPairs, List.mem_cons, List.mem_singleton, List.not_mem_nil, or_false] at hk
  rcases hk with e | e | e | e | e | e <;> subst e
  · exact ⟨h0, h1⟩
  · exact ⟨h0, h2⟩
  · exact ⟨h0, h3⟩
  · exact ⟨h1, h2⟩
  · exact ⟨h1, h3⟩
  · exact ⟨h2, h3⟩

/-- The loop of `RefineCylinderMesh` over tetrahedra inside the vertex vector
returns; it appends eight tetrahedra for each one of them. -/
theorem refineTetrahedra_spec (sqrt : K → K) (kEps : K) (radius : K) (tets : List MeshSimplex)
    (s : VertexStore K × List MeshSimplex) (n0 : Nat) (S : Finset (Int × Int))
    (hw : s.1.Tracks n0 S) (ht : ∀ t ∈ tets, t.InRange s.1.split_mesh_vertices.length)
    (hclear : SideEdgesClear sqrt s.1.split_mesh_vertices tets s.1.split_vertex_type radius) :
    ∃ r, refineTetrahedra sqrt kEps radius tets s = some r ∧
      r.1.Tracks n0 (S ∪ (tets.flatMap parentPairs).toFinset) ∧
      s.1.split_mesh_vertices <+: r.1.split_mesh_vertices ∧
      s.1.split_vertex_type <+: r.1.split_vertex_type ∧
      r.2.length = s.2.length + 8 * tets.length ∧
      ∀ t ∈ r.2, t ∈ s.2 ∨ t.InRange r.1.split_mesh_vertices.length := by
  induction tets generalizing s S with
  | nil =>
    exact ⟨s, rfl, by simpa using hw, List.prefix_refl _, List.prefix_refl _, by simp,
      fun t h => Or.inl h⟩
  | cons t ts ih =>
    obtain ⟨r1, h1, w1, p1, q1, l1, m1⟩ := refineCylinderTetrahdron_spec sqrt kEps radius t s.1 s.2
      n0 S hw (ht t (List.mem_cons_self _ _)) (hclear t (List.mem_cons_self _ _))
    have hlen := hw.1.1
    obtain ⟨r2, h2, w2, p2, q2, l2, m2⟩ := ih r1 _ w1
      (fun u hu => (ht u (List.mem_cons_of_mem _ hu)).mono p1.length_le)
      (by
        intro u hu key hkey A B h1 h2 h3 h4
        have hr := parentPairs_inRange u _ (ht u (List.mem_cons_of_mem _ hu)) key hkey
        rw [vectorAt_prefix_eq p1 hr.1] at h1
        rw [vectorAt_prefix_eq p1 hr.2] at h2
        rw [vectorAt_prefix_eq q1 (by rw [hlen]; exact hr.1)] at h3
        rw [vectorAt_prefix_eq q1 (by rw [hlen]; exact hr.2)] at h4
        exact hclear u (List.mem_cons_of_mem _ hu) key hkey A B h1 h2 h3 h4)
    refine ⟨r2, by simp only [refineTetrahedra, h1, Option.some_bind, h2], ?_, p1.trans p2,
      q1.trans q2, ?_, ?_⟩
    · have e : S ∪ ((t :: ts).flatMap parentPairs).toFinset =
          S ∪ (parentPairs t).toFinset ∪ (ts.flatMap parentPairs).toFinset := by
        rw [List.flatMap_cons, List.toFinset_append, Finset.union_assoc]
      rw [e]
      exact w2
    · rw [l2, l1, List.length_cons]
      ring
    · intro u hu
      rcases m2 u hu with h | h
      · rcases m1 u h with h' | h'
        · exact Or.inl h'
        · exact Or.inr (h'.mono p2.length_le)
      · exact Or.inr h

/-- The function `RefineCylinderMesh` on a mesh whose tetrahedra are inside the
vertex vector, with one type for each vertex and an empty vector of output
tetrahedra, returns a mesh of the same kind with eight times the tetrahedra. -/
theorem refineCylinderMesh_spec (sqrt : K → K) (kEps : K) (vertices : List (Vector3 K))
    (tetrahedra : List MeshSimplex) (vertex_type : List CylinderVertexType) (radius : K)
    (hlen : vertex_type.length = vertices.length)
    (hidx : ∀ t ∈ tetrahedra, t.InRange vertices.length)
    (hclear : SideEdgesClear sqrt vertices tetrahedra vertex_type radius) :
    ∃ r, RefineCylinderMesh sqrt kEps vertices tetrahedra vertex_type radius [] = some r ∧
      r.2.1.length = 8 * tetrahedra.length ∧ vertices <+: r.1 ∧ vertex_type <+: r.2.2 ∧
      r.2.2.length = r.1.length ∧ (∀ t ∈ r.2.1, t.InRange r.1.length) ∧
      r.1.length = vertices.length + (orderedEdges tetrahedra).length := by
  obtain ⟨r, h, w, p, q, l, m⟩ := refineTetrahedra_spec sqrt kEps radius tetrahedra
    (⟨vertices, vertex_type, fun _ => none⟩, []) vertices.length ∅
    ⟨⟨hlen, fun _ _ h => by simp at h⟩, fun _ => by simp, by simp⟩ hidx hclear
  refine ⟨(r.1.split_mesh_vertices, r.2, r.1.split_vertex_type),
    by simp only [RefineCylinderMesh, h, Option.map_some'], by simpa using l, p, q, w.1.1, ?_,
    ?_⟩
  swap
  · rw [w.2.2, Finset.empty_union, List.card_toFinset, orderedEdges]
  intro t ht
  rcases m t ht with h' | h'
  · exact absurd h' (List.not_mem_nil _)
  · exact h'

/-- The refinement loop of `MakeCylinderBVHTetrahedronModel` on such a mesh
returns after `L` levels when the mesh of every level meets the precondition of
a refinement, each level multiplying the number of tetrahedra by eight. -/
theorem refineLevels_spec (sqrt : K → K) (kEps : K) (radius : K) (L : Nat)
    (m : List (Vector3 K) × List MeshSimplex × List CylinderVertexType)
    (hlen : m.2.2.length = m.1.length) (hidx : ∀ t ∈ m.2.1, t.InRange m.1.length)
    (hclear : RefinementClear sqrt kEps radius L m) :
    ∃ r, refineLevels sqrt kEps radius L m = some r ∧ r.2.1.length = m.2.1.length * 8 ^ L ∧
      m.1 <+: r.1 ∧ r.2.2.length = r.1.length ∧ ∀ t ∈ r.2.1, t.InRange r.1.length := by
  induction L generalizing m with
  | zero => exact ⟨m, rfl, by simp, List.prefix_refl _, hlen, hidx⟩
  | succ L ih =>
    obtain ⟨hc1, hc2⟩ := hclear
    obtain ⟨r1, h1, l1, p1, _, e1, i1, _⟩ :=
      refineCylinderMesh_spec sqrt kEps m.1 m.2.1 m.2.2 radius hlen hidx hc1
    obtain ⟨r2, h2, l2, p2, e2, i2⟩ := ih r1 e1 i1 (hc2 r1 h1)
    refine ⟨r2, by simp only [refineLevels, h1, Option.some_bind, h2], ?_, p1.trans p2, e2, i2⟩
    rw [l2, l1, pow_succ]
    ring

/-- What a call of `get_child_vertex` that returns leaves behind: the containers
stay well formed, the pair `(p, q)` is a key of the map, and the vectors are
only appended to. -/
theorem get_child_vertex_of_some (sqrt : K → K) (kEps : K) (radius : K) (p q : Int)
    (st : VertexStore K) (n0 : Nat) (S : Finset (Int × Int)) (hw : st.Tracks n0 S)
    (hp : 0 ≤ p ∧ p < st.split_mesh_vertices.length)
    (hq : 0 ≤ q ∧ q < st.split_mesh_vertices.length) (r : Int × VertexStore K)
    (h : get_child_vertex sqrt kEps radius p q st = some r) :
    r.2.Tracks n0 (insert (p, q) S) ∧
      st.split_mesh_vertices <+: r.2.split_mesh_vertices ∧
      st.split_vertex_type <+: r.2.split_vertex_type ∧
      (0 ≤ r.1 ∧ r.1 < r.2.split_mesh_vertices.length) := by
  obtain ⟨hw, hk, hn⟩ := hw
  cases hmap : st.vertex_map (p, q) with
  | some child =>
    have hm : (p, q) ∈ S := (hk _).1 (by rw [hmap]; exact Option.some_ne_none _)
    rw [get_child_vertex_some sqrt kEps radius p q st child hmap, Option.some.injEq] at h
    subst h
    refine ⟨?_, List.prefix_refl _, List.prefix_refl _, hw.2 _ _ hmap⟩
    rw [Finset.insert_eq_of_mem hm]
    exact ⟨hw, hk, hn⟩
  | none =>
    have hm : (p, q) ∉ S := fun hm => (hk _).2 hm hmap
    obtain ⟨ta, hta⟩ := vectorAt_eq_some st.split_vertex_type p hp.1 (by rw [hw.1]; exact hp.2)
    obtain ⟨tb, htb⟩ := vectorAt_eq_some st.split_vertex_type q hq.1 (by rw [hw.1]; exact hq.2)
    obtain ⟨A, hA⟩ := vectorAt_eq_some st.split_mesh_vertices p hp.1 hp.2
    obtain ⟨B, hB⟩ := vectorAt_eq_some st.split_mesh_vertices q hq.1 hq.2
    rw [get_child_vertex_none sqrt kEps radius p q st hmap] at h
    cases hP : ProjectMidPoint sqrt kEps A B (CylinderVertexType.min ta tb) radius with
    | none =>
      have e : CreateNewVertex sqrt kEps p q st radius = none := by
        simp [CreateNewVertex, hta, htb, hA, hB, hP]
      rw [e] at h
      exact Option.noConfusion h
    | some P =>
      rw [createNewVertex_eq sqrt kEps p q st radius ta tb A B P hta htb hA hB hP,
        Option.some.injEq] at h
      subst h
      refine ⟨⟨?_, ?_, ?_⟩, List.prefix_append _ _, List.prefix_append _ _, ?_⟩
      · constructor
        · simp [hw.1]
        · intro key child hk
          simp only [List.length_append, List.length_singleton, Nat.cast_add, Nat.cast_one]
          simp only at hk
          by_cases e : key = (p, q)
          · rw [e, Function.update_same, Option.some.injEq] at hk
            omega
          · rw [Function.update_noteq e] at hk
            have := hw.2 _ _ hk
            omega
      · intro key
        simp only [Finset.mem_insert]
        by_cases e : key = (p, q)
        · rw [e, Function.update_same]
          exact ⟨fun _ => Or.inl rfl, fun _ => Option.some_ne_none _⟩
        · rw [Function.update_noteq e, hk key]
          exact ⟨Or.inr, fun h' => h'.resolve_left e⟩
      · simp only [List.length_append, List.length_singleton]
        rw [Finset.card_insert_of_not_mem hm, hn]
        ring
      · simp only [List.length_append, List.length_singleton, Nat.cast_add, Nat.cast_one]
        omega

/-- What a call of `RefineCylinderTetrahdron` that returns leaves behind: eight
more tetrahedra, all inside the new vertex vector. -/
theorem refineCylinderTetrahdron_of_some (sqrt : K → K) (kEps : K) (radius : K)
    (tet : MeshSimplex) (st : VertexStore K) (ts : List MeshSimplex) (n0 : Nat)
    (S : Finset (Int × Int)) (hw : st.Tracks n0 S)
    (ht : tet.InRange st.split_mesh_vertices.length) (r : VertexStore K × List MeshSimplex)
    (hr : RefineCylinderTetrahdron sqrt kEps tet st ts radius = some r) :
    r.1.Tracks n0 (S ∪ (parentPairs tet).toFinset) ∧
      st.split_mesh_vertices <+: r.1.split_mesh_vertices ∧
      st.split_vertex_type <+: r.1.split_vertex_type ∧
      r.2.length = ts.length + 8 ∧
      ∀ t ∈ r.2, t ∈ ts ∨ t.InRange r.1.split_mesh_vertices.length := by
  obtain ⟨ha, hb, hc, hd⟩ := ht
  simp only [RefineCylinderTetrahdron, Option.bind_eq_some, Option.some.injEq] at hr
  obtain ⟨e, he, f, hf, g, hg, h, hh, i, hi, j, hj, rfl⟩ := hr
  obtain ⟨we, pe, qe, re⟩ := get_child_vertex_of_some sqrt kEps radius tet.v0 tet.v1 st
    n0 S hw ha hb e he
  obtain ⟨wf, pf, qf, rf⟩ := get_child_vertex_of_some sqrt kEps radius tet.v0 tet.v2 e.2 _ _ we
    (index_lift ha pe) (index_lift hc pe) f hf
  have p2 := pe.trans pf
  obtain ⟨wg, pg, qg, rg⟩ := get_child_vertex_of_some sqrt kEps radius tet.v0 tet.v3 f.2 _ _ wf
    (index_lift ha p2) (index_lift hd p2) g hg
  have p3 := p2.trans pg
  obtain ⟨wh, ph, qh, rh⟩ := get_child_vertex_of_some sqrt kEps radius tet.v1 tet.v2 g.2 _ _ wg
    (index_lift hb p3) (index_lift hc p3) h hh
  have p4 := p3.trans ph
  obtain ⟨wi, pi, qi, ri⟩ := get_child_vertex_of_some sqrt kEps radius tet.v1 tet.v3 h.2 _ _ wh
    (index_lift hb p4) (index_lift hd p4) i hi
  have p5 := p4.trans pi
  obtain ⟨wj, pj, qj, rj⟩ := get_child_vertex_of_some sqrt kEps radius tet.v2 tet.v3 i.2 _ _ wi
    (index_lift hc p5) (index_lift hd p5) j hj
  have p6 := p5.trans pj
  refine ⟨?_, p6, ((((qe.trans qf).trans qg).trans qh).trans qi).trans qj, by simp, ?_⟩
  · have e : S ∪ (parentPairs tet).toFinset =
        insert (tet.v2, tet.v3) (insert (tet.v1, tet.v3) (insert (tet.v1, tet.v2)
          (insert (tet.v0, tet.v3) (insert (tet.v0, tet.v2) (insert (tet.v0, tet.v1) S))))) := by
      ext k
      simp only [parentPairs, Finset.mem_union, List.mem_toFinset, List.mem_cons,
        List.mem_singleton, List.not_mem_nil, or_false, Finset.mem_insert]
      tauto
    rw [e]
    exact wj
  have a' := index_lift ha p6
  have b' := index_lift hb p6
  have c' := index_lift hc p6
  have d' := index_lift hd p6
  have e' := index_lift re ((((pf.trans pg).trans ph).trans pi).trans pj)
  have f' := index_lift rf (((pg.trans ph).trans pi).trans pj)
  have g' := index_lift rg ((ph.trans pi).trans pj)
  have h' := index_lift rh (pi.trans pj)
  have i' := index_lift ri pj
  intro t htm
  rcases List.mem_append.1 htm with h0 | h0
  · exact Or.inl h0
  · right
    simp only [List.mem_cons, List.mem_singleton, List.not_mem_nil, or_false] at h0
    rcases h0 with h0 | h0 | h0 | h0 | h0 | h0 | h0 | h0 <;> subst h0
    · exact ⟨a', e', f', g'⟩
    · exact ⟨b', h', e', i'⟩
    · exact ⟨f', h', c', rj⟩
    · exact ⟨rj, g', i', d'⟩
    · exact ⟨g', h', i', e'⟩
    · exact ⟨g', f', h', e'⟩
    · exact ⟨g', i', h', rj⟩
    · exact ⟨g', h', f', rj⟩

/-- What the loop of `RefineCylinderMesh` leaves behind when it runs to its
end: eight tetrahedra for each one of the input. -/
theorem refineTetrahedra_of_some (sqrt : K → K) (kEps : K) (radius : K)
    (tets : List MeshSimplex) (s : VertexStore K × List MeshSimplex) (n0 : Nat)
    (S : Finset (Int × Int)) (hw : s.1.Tracks n0 S)
    (ht : ∀ t ∈ tets, t.InRange s.1.split_mesh_vertices.length)
    (r : VertexStore K × List MeshSimplex)
    (hr : refineTetrahedra sqrt kEps radius tets s = some r) :
    r.1.Tracks n0 (S ∪ (tets.flatMap parentPairs).toFinset) ∧
      s.1.split_mesh_vertices <+: r.1.split_mesh_vertices ∧
      s.1.split_vertex_type <+: r.1.split_vertex_type ∧
      r.2.length = s.2.length + 8 * tets.length ∧
      ∀ t ∈ r.2, t ∈ s.2 ∨ t.InRange r.1.split_mesh_vertices.length := by
  induction tets generalizing s S with
  | nil =>
    simp only [refineTetrahedra, Option.some.injEq] at hr
    subst hr
    exact ⟨by simpa using hw, List.prefix_refl _, List.prefix_refl _, by simp,
      fun t h => Or.inl h⟩
  | cons t ts ih =>
    simp only [refineTetrahedra, Option.bind_eq_some] at hr
    obtain ⟨r1, h1, h2⟩ := hr
    obtain ⟨w1, p1, q1, l1, m1⟩ := refineCylinderTetrahdron_of_some sqrt kEps radius t s.1 s.2
      n0 S hw (ht t (List.mem_cons_self _ _)) r1 h1
    obtain ⟨w2, p2, q2, l2, m2⟩ := ih r1 _ w1
      (fun u hu => (ht u (List.mem_cons_of_mem _ hu)).mono p1.length_le) h2
    refine ⟨?_, p1.trans p2, q1.trans q2, ?_, ?_⟩
    · have e : S ∪ ((t :: ts).flatMap parentPairs).toFinset =
          S ∪ (parentPairs t).toFinset ∪ (ts.flatMap parentPairs).toFinset := by
        rw [List.flatMap_cons, List.toFinset_append, Finset.union_assoc]
      rw [e]
      exact w2
    · rw [l2, l1, List.length_cons]
      ring
    · intro u hu
      rcases m2 u hu with h | h
      · rcases m1 u h with h' | h'
        · exact Or.inl h'
        · exact Or.inr (h'.mono p2.length_le)
      · exact Or.inr h

/-- What a call of `RefineCylinderMesh` that returns gives, on a mesh whose
tetrahedra are inside the vertex vector, with one type for each vertex and an
empty vector of output tetrahedra. -/
theorem refineCylinderMesh_of_some (sqrt : K → K) (kEps : K) (vertices : List (Vector3 K))
    (tetrahedra : List MeshSimplex) (vertex_type : List CylinderVertexType) (radius : K)
    (hlen : vertex_type.length = vertices.length)
    (hidx : ∀ t ∈ tetrahedra, t.InRange vertices.length)
    (r : List (Vector3 K) × List MeshSimplex × List CylinderVertexType)
    (hr : RefineCylinderMesh sqrt kEps vertices tetrahedra vertex_type radius [] = some r) :
    r.2.1.length = 8 * tetrahedra.length ∧ vertices <+: r.1 ∧ vertex_type <+: r.2.2 ∧
      r.2.2.length = r.1.length ∧ (∀ t ∈ r.2.1, t.InRange r.1.length) ∧
      r.1.length = vertices.length + (orderedEdges tetrahedra).length := by
  simp only [RefineCylinderMesh, Option.map_eq_some'] at hr
  obtain ⟨s, hs, rfl⟩ := hr
  obtain ⟨w, p, q, l, m⟩ := refineTetrahedra_of_some sqrt kEps radius tetrahedra
    (⟨vertices, vertex_type, fun _ => none⟩, []) vertices.length ∅
    ⟨⟨hlen, fun _ _ h => by simp at h⟩, fun _ => by simp, by simp⟩ hidx s hs
  refine ⟨by simpa using l, p, q, w.1.1, ?_, ?_⟩
  · intro t ht
    rcases m t ht with h' | h'
    · exact absurd h' (List.not_mem_nil _)
    · exact h'
  · rw [w.2.2, Finset.empty_union, List.card_toFinset, orderedEdges]

/-- What the refinement loop of `MakeCylinderBVHTetrahedronModel` gives when its
`L` levels run to the end: each level multiplies the number of tetrahedra by
eight. -/
theorem refineLevels_of_some (sqrt : K → K) (kEps : K) (radius : K) (L : Nat)
    (m : List (Vector3 K) × List MeshSimplex × List CylinderVertexType)
    (hlen : m.2.2.length = m.1.length) (hidx : ∀ t ∈ m.2.1, t.InRange m.1.length)
    (r : List (Vector3 K) × List MeshSimplex × List CylinderVertexType)
    (hr : refineLevels sqrt kEps radius L m = some r) :
    r.2.1.length = m.2.1.length * 8 ^ L ∧ m.1 <+: r.1 ∧ r.2.2.length = r.1.length ∧
      ∀ t ∈ r.2.1, t.InRange r.1.length := by
  induction L generalizing m with
  | zero =>
    simp only [refineLevels, Option.some.injEq] at hr
    subst hr
    exact ⟨by simp, List.prefix_refl _, hlen, hidx⟩
  | succ L ih =>
    simp only [refineLevels, Option.bind_eq_some] at hr
    obtain ⟨r1, h1, h2⟩ := hr
    obtain ⟨l1, p1, -, e1, i1, -⟩ :=
      refineCylinderMesh_of_some sqrt kEps m.1 m.2.1 m.2.2 radius hlen hidx r1 h1
    obtain ⟨l2, p2, e2, i2⟩ := ih r1 e1 i1 h2
    refine ⟨?_, p1.trans p2, e2, i2⟩
    rw [l2, l1, pow_succ]
    ring

/-- Claim C33: one call of `RefineCylinderMesh` on a mesh of `N` tetrahedra
whose vertex indices are inside the vertex vector, with one type for each vertex,
whose edges between two vertices of the type `kSide` meet the precondition of
`ProjectOntoCylinderSide`, and with an empty vector of output tetrahedra,
returns `8 * N` tetrahedra; the vertices and the types of the input stay where
they were, the two vectors still have the same length and the new tetrahedra
are inside the new vertex vector.  Hence `L` levels of refinement that run to
the end give `N * 8 ^ L` tetrahedra, and they run to the end when the mesh of
every level meets the precondition. -/
theorem refineCylinderMesh_counts (sqrt : K → K) (kEps : K) (vertices : List (Vector3 K))
    (tetrahedra : List MeshSimplex) (vertex_type : List CylinderVertexType) (radius : K)
    (hlen : vertex_type.length = vertices.length)
    (hidx : ∀ t ∈ tetrahedra, t.InRange vertices.length)
    (hclear : SideEdgesClear sqrt vertices tetrahedra vertex_type radius) :
    (∃ r, RefineCylinderMesh sqrt kEps vertices tetrahedra vertex_type radius [] = some r ∧
      r.2.1.length = 8 * tetrahedra.length ∧ vertices <+: r.1 ∧
      (∀ i : Nat, i < vertices.length → r.1[i]? = vertices[i]?) ∧ vertex_type <+: r.2.2 ∧
      r.2.2.length = r.1.length ∧ ∀ t ∈ r.2.1, t.InRange r.1.length) ∧
    (∀ (L : Nat) (r : List (Vector3 K) × List MeshSimplex × List CylinderVertexType),
      refineLevels sqrt kEps radius L (vertices, tetrahedra, vertex_type) = some r →
        r.2.1.length = tetrahedra.length * 8 ^ L ∧ vertices <+: r.1 ∧
        r.2.2.length = r.1.length) ∧
    ∀ L : Nat, RefinementClear sqrt kEps radius L (vertices, tetrahedra, vertex_type) →
      ∃ r, refineLevels sqrt kEps radius L (vertices, tetrahedra, vertex_type) = some r ∧
        r.2.1.length = tetrahedra.length * 8 ^ L ∧ vertices <+: r.1 ∧
        r.2.2.length = r.1.length := by
  refine ⟨?_, ?_, ?_⟩
  · obtain ⟨r, h, l, p, q, e, i, _⟩ :=
      refineCylinderMesh_spec sqrt kEps vertices tetrahedra vertex_type radius hlen hidx hclear
    refine ⟨r, h, l, p, ?_, q, e, i⟩
    intro k hk
    obtain ⟨t, ht⟩ := p
    rw [← ht, List.getElem?_append_left hk]
  · intro L r hr
    obtain ⟨l, p, e, -⟩ :=
      refineLevels_of_some sqrt kEps radius L (vertices, tetrahedra, vertex_type) hlen hidx r hr
    exact ⟨l, p, e⟩
  · intro L hL
    obtain ⟨r, h, l, p, e, _⟩ :=
      refineLevels_spec sqrt kEps radius L (vertices, tetrahedra, vertex_type) hlen hidx hL
    exact ⟨r, h, l, p, e⟩

/-- The midpoint of two vertices meets the precondition of
`ProjectOntoCylinderSide` when its squared distance from the z-axis is at least
the square of half the radius, for a positive radius. -/
theorem sideMidpointClear_of_sq {sqrt : K → K} (hs : IsSqrt sqrt) (radius : K) (A B : Vector3 K)
    (hr : 0 < radius)
    (h : radius * radius / 4 ≤ (⟨(A.x + B.x) / 2, (A.y + B.y) / 2⟩ : Vector2 K).squaredNorm) :
    SideMidpointClear sqrt radius A B := by
  have hz : 0 < (⟨(A.x + B.x) / 2, (A.y + B.y) / 2⟩ : Vector2 K).squaredNorm :=
    lt_of_lt_of_le (by positivity) h
  obtain ⟨h0, h1⟩ := hs _ hz.le
  have hp := isSqrt_pos hs hz
  refine ⟨?_, hp.ne'⟩
  unfold Vector2.norm
  by_contra hc
  have hlt := not_le.1 hc
  have := mul_self_lt_mul_self h0 hlt
  rw [h1] at this
  linarith

/-- The level-0 mesh of a cylinder of height 2 and radius 1. -/
theorem level0_two :
    MakeCylinderMeshLevel0 (fun a b => a / b) (2 : ℝ) 1 [] [] [] =
      some ([⟨0, 4, 1, 9⟩, ⟨0, 1, 6, 9⟩, ⟨0, 6, 5, 9⟩, ⟨1, 4, 2, 9⟩, ⟨1, 2, 7, 9⟩, ⟨1, 7, 6, 9⟩,
        ⟨2, 4, 3, 9⟩, ⟨2, 3, 8, 9⟩, ⟨2, 8, 7, 9⟩, ⟨3, 4, 0, 9⟩, ⟨3, 0, 5, 9⟩, ⟨3, 5, 8, 9⟩,
        ⟨5, 9, 6, 14⟩, ⟨5, 6, 11, 14⟩, ⟨5, 11, 10, 14⟩, ⟨6, 9, 7, 14⟩, ⟨6, 7, 12, 14⟩,
        ⟨6, 12, 11, 14⟩, ⟨7, 9, 8, 14⟩, ⟨7, 8, 13, 14⟩, ⟨7, 13, 12, 14⟩, ⟨8, 9, 5, 14⟩,
        ⟨8, 5, 10, 14⟩, ⟨8, 10, 13, 14⟩],
       [⟨1, 0, 1⟩, ⟨0, 1, 1⟩, ⟨-1, 0, 1⟩, ⟨0, -1, 1⟩, ⟨0, 0, 1⟩,
        ⟨1, 0, 0⟩, ⟨0, 1, 0⟩, ⟨-1, 0, 0⟩, ⟨0, -1, 0⟩, ⟨0, 0, 0⟩,
        ⟨1, 0, -1⟩, ⟨0, 1, -1⟩, ⟨-1, 0, -1⟩, ⟨0, -1, -1⟩, ⟨0, 0, -1⟩],
       [CylinderVertexType.kSide, CylinderVertexType.kSide, CylinderVertexType.kSide,
        CylinderVertexType.kSide, CylinderVertexType.kCap, CylinderVertexType.kSide,
        CylinderVertexType.kSide, CylinderVertexType.kSide, CylinderVertexType.kSide,
        CylinderVertexType.kInternal, CylinderVertexType.kSide, CylinderVertexType.kSide,
        CylinderVertexType.kSide, CylinderVertexType.kSide, CylinderVertexType.kCap]) := by
  have hf : max 2 ⌊(fun a b : ℝ => a / b) 2 1⌋ = 2 := by norm_num
  have hsub := subdivisions_of_le (fun a b : ℝ => a / b) 2 1 (by rw [hf]; norm_num)
  rw [hf] at hsub
  rw [MakeCylinderMeshLevel0, hsub, Option.some_bind, if_pos (by norm_num)]
  refine congrArg some (Prod.ext ?_ (Prod.ext ?_ ?_))
  · rfl
  · have h2 : Int.toNat 2 = 2 := rfl
    simp only [h2, List.range_succ, List.range_zero, List.nil_append, List.foldl_cons,
      List.foldl_nil, add_slice_vertices, List.cons_append, List.singleton_append,
      List.foldl_append]
    norm_num
  · rfl

set_option maxRecDepth 100000 in
/-- The 24 tetrahedra of the level-0 mesh of a cylinder of height 2 and radius
1 list 62 ordered pairs of parents, which are 50 undirected edges; all indices
are below 15. -/
theorem level0_two_edges :
    (orderedEdges [⟨0, 4, 1, 9⟩, ⟨0, 1, 6, 9⟩, ⟨0, 6, 5, 9⟩, ⟨1, 4, 2, 9⟩, ⟨1, 2, 7, 9⟩,
        ⟨1, 7, 6, 9⟩, ⟨2, 4, 3, 9⟩, ⟨2, 3, 8, 9⟩, ⟨2, 8, 7, 9⟩, ⟨3, 4, 0, 9⟩, ⟨3, 0, 5, 9⟩,
        ⟨3, 5, 8, 9⟩, ⟨5, 9, 6, 14⟩, ⟨5, 6, 11, 14⟩, ⟨5, 11, 10, 14⟩, ⟨6, 9, 7, 14⟩,
        ⟨6, 7, 12, 14⟩, ⟨6, 12, 11, 14⟩, ⟨7, 9, 8, 14⟩, ⟨7, 8, 13, 14⟩, ⟨7, 13, 12, 14⟩,
        ⟨8, 9, 5, 14⟩, ⟨8, 5, 10, 14⟩, ⟨8, 10, 13, 14⟩]).length = 62 ∧
    (undirectedEdges [⟨0, 4, 1, 9⟩, ⟨0, 1, 6, 9⟩, ⟨0, 6, 5, 9⟩, ⟨1, 4, 2, 9⟩, ⟨1, 2, 7, 9⟩,
        ⟨1, 7, 6, 9⟩, ⟨2, 4, 3, 9⟩, ⟨2, 3, 8, 9⟩, ⟨2, 8, 7, 9⟩, ⟨3, 4, 0, 9⟩, ⟨3, 0, 5, 9⟩,
        ⟨3, 5, 8, 9⟩, ⟨5, 9, 6, 14⟩, ⟨5, 6, 11, 14⟩, ⟨5, 11, 10, 14⟩, ⟨6, 9, 7, 14⟩,
        ⟨6, 7, 12, 14⟩, ⟨6, 12, 11, 14⟩, ⟨7, 9, 8, 14⟩, ⟨7, 8, 13, 14⟩, ⟨7, 13, 12, 14⟩,
        ⟨8, 9, 5, 14⟩, ⟨8, 5, 10, 14⟩, ⟨8, 10, 13, 14⟩]).length = 50 := by
  decide!

/-- The level-0 mesh of a cylinder of height 2 and radius 1 meets the
precondition of a refinement: the midpoint of every edge between two vertices
of the type `kSide` is at least half the radius away from the z-axis. -/
theorem level0_two_clear :
    SideEdgesClear Real.sqrt
      [⟨1, 0, 1⟩, ⟨0, 1, 1⟩, ⟨-1, 0, 1⟩, ⟨0, -1, 1⟩, ⟨0, 0, 1⟩,
        ⟨1, 0, 0⟩, ⟨0, 1, 0⟩, ⟨-1, 0, 0⟩, ⟨0, -1, 0⟩, ⟨0, 0, 0⟩,
        ⟨1, 0, -1⟩, ⟨0, 1, -1⟩, ⟨-1, 0, -1⟩, ⟨0, -1, -1⟩, ⟨0, 0, -1⟩]
      [⟨0, 4, 1, 9⟩, ⟨0, 1, 6, 9⟩, ⟨0, 6, 5, 9⟩, ⟨1, 4, 2, 9⟩, ⟨1, 2, 7, 9⟩, ⟨1, 7, 6, 9⟩,
        ⟨2, 4, 3, 9⟩, ⟨2, 3, 8, 9⟩, ⟨2, 8, 7, 9⟩, ⟨3, 4, 0, 9⟩, ⟨3, 0, 5, 9⟩, ⟨3, 5, 8, 9⟩,
        ⟨5, 9, 6, 14⟩, ⟨5, 6, 11, 14⟩, ⟨5, 11, 10, 14⟩, ⟨6, 9, 7, 14⟩, ⟨6, 7, 12, 14⟩,
        ⟨6, 12, 11, 14⟩, ⟨7, 9, 8, 14⟩, ⟨7, 8, 13, 14⟩, ⟨7, 13, 12, 14⟩, ⟨8, 9, 5, 14⟩,
        ⟨8, 5, 10, 14⟩, ⟨8, 10, 13, 14⟩]
      [CylinderVertexType.kSide, CylinderVertexType.kSide, CylinderVertexType.kSide,
        CylinderVertexType.kSide, CylinderVertexType.kCap, CylinderVertexType.kSide,
        CylinderVertexType.kSide, CylinderVertexType.kSide, CylinderVertexType.kSide,
        CylinderVertexType.kInternal, CylinderVertexType.kSide, CylinderVertexType.kSide,
        CylinderVertexType.kSide, CylinderVertexType.kSide, CylinderVertexType.kCap]
      (1 : ℝ) := by
  intro t ht key hkey A B h1 h2 h3 h4
  simp only [List.mem_cons, List.mem_singleton, List.not_mem_nil, or_false] at ht
  rcases ht with rfl | rfl | rfl | rfl | rfl | rfl | rfl | rfl | rfl | rfl | rfl | rfl | rfl |
    rfl | rfl | rfl | rfl | rfl | rfl | rfl | rfl | rfl | rfl | rfl <;>
  (simp only [parentPairs, List.mem_cons, List.mem_singleton, List.not_mem_nil, or_false]
      at hkey
   rcases hkey with rfl | rfl | rfl | rfl | rfl | rfl <;>
   first
   | (exfalso; revert h3; simp [vectorAt]; done)
   | (exfalso; revert h4; simp [vectorAt]; done)
   | (simp [vectorAt] at h1 h2
      subst h1
      subst h2
      exact sideMidpointClear_of_sq isSqrt_real 1 _ _ one_pos
        (by simp only [Vector2.squaredNorm]; norm_num)))

/-- The precondition on the midpoint does not depend on the order of the two
vertices. -/
theorem sideMidpointClear_comm (sqrt : K → K) (radius : K) (A B : Vector3 K)
    (h : SideMidpointClear sqrt radius A B) : SideMidpointClear sqrt radius B A := by
  unfold SideMidpointClear at h ⊢
  rw [add_comm B.x A.x, add_comm B.y A.y]
  exact h

/-- Claim C32 fails on the code: an edge that two tetrahedra list in opposite
orders gets two child vertices.  With both indices inside the vectors,
neither order in the map and the midpoint meeting the precondition of
`ProjectOntoCylinderSide` when both parents are of the type `kSide`,
`get_child_vertex` creates a vertex for `(p, q)` and another one for `(q, p)`.
One call of `RefineCylinderMesh` on a mesh that meets the precondition adds one
vertex for each ordered pair of parents that the tetrahedra list.  On the
level-0 mesh of a cylinder of height 2 and radius 1, which has 15 vertices and
50 undirected edges, the tetrahedra list 62 ordered pairs and the call adds 62
vertices. -/
theorem refine_duplicates_shared_edges :
    (∀ (sqrt : K → K) (kEps radius : K) (p q : Int) (st : VertexStore K), st.WellFormed →
      (0 ≤ p ∧ p < st.split_mesh_vertices.length) →
      (0 ≤ q ∧ q < st.split_mesh_vertices.length) → p ≠ q →
      (∀ A B : Vector3 K, vectorAt st.split_mesh_vertices p = some A →
        vectorAt st.split_mesh_vertices q = some B →
        vectorAt st.split_vertex_type p = some CylinderVertexType.kSide →
        vectorAt st.split_vertex_type q = some CylinderVertexType.kSide →
        SideMidpointClear sqrt radius A B) →
      st.vertex_map (p, q) = none → st.vertex_map (q, p) = none →
      ∃ r1 r2, get_child_vertex sqrt kEps radius p q st = some r1 ∧
        get_child_vertex sqrt kEps radius q p r1.2 = some r2 ∧
        r1.1 = st.split_mesh_vertices.length ∧ r2.1 = st.split_mesh_vertices.length + 1) ∧
    (∀ (sqrt : K → K) (kEps : K) (vertices : List (Vector3 K)) (tetrahedra : List MeshSimplex)
      (vertex_type : List CylinderVertexType) (radius : K),
      vertex_type.length = vertices.length →
      (∀ t ∈ tetrahedra, t.InRange vertices.length) →
      SideEdgesClear sqrt vertices tetrahedra vertex_type radius →
      ∃ r, RefineCylinderMesh sqrt kEps vertices tetrahedra vertex_type radius [] = some r ∧
        r.1.length = vertices.length + (orderedEdges tetrahedra).length) ∧
    ∃ m, MakeCylinderMeshLevel0 (fun a b => a / b) (2 : ℝ) 1 [] [] [] = some m ∧
      m.2.1.length = 15 ∧ (orderedEdges m.1).length = 62 ∧ (undirectedEdges m.1).length = 50 ∧
      ∀ kEps : ℝ, ∃ r, RefineCylinderMesh Real.sqrt kEps m.2.1 m.1 m.2.2 1 [] = some r ∧
        r.1.length = 15 + 62 := by
  refine ⟨?_, ?_, _, level0_two, rfl, level0_two_edges.1, level0_two_edges.2, ?_⟩
  · intro sqrt kEps radius p q st hw hp hq hpq hclear h1 h2
    obtain ⟨ta, hta⟩ := vectorAt_eq_some st.split_vertex_type p hp.1 (by rw [hw.1]; exact hp.2)
    obtain ⟨tb, htb⟩ := vectorAt_eq_some st.split_vertex_type q hq.1 (by rw [hw.1]; exact hq.2)
    obtain ⟨A, hA⟩ := vectorAt_eq_some st.split_mesh_vertices p hp.1 hp.2
    obtain ⟨B, hB⟩ := vectorAt_eq_some st.split_mesh_vertices q hq.1 hq.2
    obtain ⟨P, hP⟩ := projectMidPoint_isSome sqrt kEps A B (CylinderVertexType.min ta tb) radius
      (fun hk => hclear A B hA hB (by rw [hta, ((min_eq_kSide ta tb).1 hk).1])
        (by rw [htb, ((min_eq_kSide ta tb).1 hk).2]))
    have e1 := createNewVertex_eq sqrt kEps p q st radius ta tb A B P hta htb hA hB hP
    rw [← get_child_vertex_none sqrt kEps radius p q st h1] at e1
    have hne : (q, p) ≠ (p, q) := fun e => hpq (Prod.mk.inj e).2
    have h3 : Function.update st.vertex_map (p, q) (some (st.split_mesh_vertices.length : Int))
        (q, p) = none := by
      rw [Function.update_noteq hne, h2]
    have hp' : 0 ≤ p ∧ p < st.split_vertex_type.length := by rw [hw.1]; exact hp
    have hq' : 0 ≤ q ∧ q < st.split_vertex_type.length := by rw [hw.1]; exact hq
    have hta' : vectorAt (st.split_vertex_type ++ [CylinderVertexType.min ta tb]) q = some tb := by
      rw [vectorAt_prefix_eq (List.prefix_append _ _) hq', htb]
    have htb' : vectorAt (st.split_vertex_type ++ [CylinderVertexType.min ta tb]) p = some ta := by
      rw [vectorAt_prefix_eq (List.prefix_append _ _) hp', hta]
    have hA' : vectorAt (st.split_mesh_vertices ++ [P]) q = some B := by
      rw [vectorAt_prefix_eq (List.prefix_append _ _) hq, hB]
    have hB' : vectorAt (st.split_mesh_vertices ++ [P]) p = some A := by
      rw [vectorAt_prefix_eq (List.prefix_append _ _) hp, hA]
    obtain ⟨P', hP'⟩ := projectMidPoint_isSome sqrt kEps B A (CylinderVertexType.min tb ta) radius
      (fun hk => sideMidpointClear_comm sqrt radius A B
        (hclear A B hA hB (by rw [hta, ((min_eq_kSide tb ta).1 hk).2])
          (by rw [htb, ((min_eq_kSide tb ta).1 hk).1])))
    have e4 := createNewVertex_eq sqrt kEps q p
      ⟨st.split_mesh_vertices ++ [P], st.split_vertex_type ++ [CylinderVertexType.min ta tb],
        Function.update st.vertex_map (p, q) (some (st.split_mesh_vertices.length : Int))⟩
      radius tb ta B A P' hta' htb' hA' hB' hP'
    rw [← get_child_vertex_none sqrt kEps radius q p _ h3] at e4
    exact ⟨_, _, e1, e4, rfl, by simp⟩
  · intro sqrt kEps vertices tetrahedra vertex_type radius hlen hidx hclear
    obtain ⟨r, h, -, -, -, -, -, hn⟩ :=
      refineCylinderMesh_spec sqrt kEps vertices tetrahedra vertex_type radius hlen hidx hclear
    exact ⟨r, h, hn⟩
  · intro kEps
    obtain ⟨r, h, -, -, -, -, -, hn⟩ :=
      refineCylinderMesh_spec Real.sqrt kEps _ _ _ 1 rfl (by decide) level0_two_clear
    exact ⟨r, h, by rw [hn, level0_two_edges.1]; rfl⟩

/-- Claim C33 at a tetrahedron of the level-0 mesh of a cylinder of radius 1:
three vertices of the type `kSide` and one of the type `kInternal`.  The
midpoints of its three edges between vertices of the type `kSide` are
`sqrt (1 / 2)` or `1` away from the z-axis, and one level of refinement gives
eight tetrahedra. -/
theorem refineCylinderMesh_counts_witness :
    ([CylinderVertexType.kSide, CylinderVertexType.kSide, CylinderVertexType.kSide,
        CylinderVertexType.kInternal] : List CylinderVertexType).length =
      ([⟨1, 0, 1⟩, ⟨0, 1, 1⟩, ⟨0, 1, 0⟩, ⟨0, 0, 0⟩] : List (Vector3 ℝ)).length ∧
    (∀ t ∈ ([⟨0, 1, 2, 3⟩] : List MeshSimplex),
      t.InRange ([⟨1, 0, 1⟩, ⟨0, 1, 1⟩, ⟨0, 1, 0⟩, ⟨0, 0, 0⟩] : List (Vector3 ℝ)).length) ∧
    SideEdgesClear Real.sqrt [⟨1, 0, 1⟩, ⟨0, 1, 1⟩, ⟨0, 1, 0⟩, ⟨0, 0, 0⟩] [⟨0, 1, 2, 3⟩]
      [CylinderVertexType.kSide, CylinderVertexType.kSide, CylinderVertexType.kSide,
        CylinderVertexType.kInternal] (1 : ℝ) ∧
    RefinementClear Real.sqrt 0 1 1
      (([⟨1, 0, 1⟩, ⟨0, 1, 1⟩, ⟨0, 1, 0⟩, ⟨0, 0, 0⟩] : List (Vector3 ℝ)), [⟨0, 1, 2, 3⟩],
        [CylinderVertexType.kSide, CylinderVertexType.kSide, CylinderVertexType.kSide,
          CylinderVertexType.kInternal]) ∧
    (∃ r, RefineCylinderMesh Real.sqrt 0 [⟨1, 0, 1⟩, ⟨0, 1, 1⟩, ⟨0, 1, 0⟩, ⟨0, 0, 0⟩]
        [⟨0, 1, 2, 3⟩] [CylinderVertexType.kSide, CylinderVertexType.kSide,
          CylinderVertexType.kSide, CylinderVertexType.kInternal] 1 [] = some r ∧
      r.2.1.length = 8 * ([⟨0, 1, 2, 3⟩] : List MeshSimplex).length ∧
      ([⟨1, 0, 1⟩, ⟨0, 1, 1⟩, ⟨0, 1, 0⟩, ⟨0, 0, 0⟩] : List (Vector3 ℝ)) <+: r.1 ∧
      (∀ i : Nat, i < ([⟨1, 0, 1⟩, ⟨0, 1, 1⟩, ⟨0, 1, 0⟩, ⟨0, 0, 0⟩] : List (Vector3 ℝ)).length →
        r.1[i]? = ([⟨1, 0, 1⟩, ⟨0, 1, 1⟩, ⟨0, 1, 0⟩, ⟨0, 0, 0⟩] : List (Vector3 ℝ))[i]?) ∧
      ([CylinderVertexType.kSide, CylinderVertexType.kSide, CylinderVertexType.kSide,
        CylinderVertexType.kInternal] : List CylinderVertexType) <+: r.2.2 ∧
      r.2.2.length = r.1.length ∧ ∀ t ∈ r.2.1, t.InRange r.1.length) ∧
    ∃ r, refineLevels Real.sqrt 0 1 1
        (([⟨1, 0, 1⟩, ⟨0, 1, 1⟩, ⟨0, 1, 0⟩, ⟨0, 0, 0⟩] : List (Vector3 ℝ)), [⟨0, 1, 2, 3⟩],
          [CylinderVertexType.kSide, CylinderVertexType.kSide, CylinderVertexType.kSide,
            CylinderVertexType.kInternal]) = some r ∧
      r.2.1.length = ([⟨0, 1, 2, 3⟩] : List MeshSimplex).length * 8 ^ 1 ∧
      ([⟨1, 0, 1⟩, ⟨0, 1, 1⟩, ⟨0, 1, 0⟩, ⟨0, 0, 0⟩] : List (Vector3 ℝ)) <+: r.1 ∧
      r.2.2.length = r.1.length :=
  have hclear : SideEdgesClear Real.sqrt [⟨1, 0, 1⟩, ⟨0, 1, 1⟩, ⟨0, 1, 0⟩, ⟨0, 0, 0⟩]
      [⟨0, 1, 2, 3⟩] [CylinderVertexType.kSide, CylinderVertexType.kSide,
        CylinderVertexType.kSide, CylinderVertexType.kInternal] (1 : ℝ) := by
    intro t ht key hkey A B h1 h2 h3 h4
    simp only [List.mem_singleton] at ht
    subst ht
    simp only [parentPairs, List.mem_cons, List.mem_singleton, List.not_mem_nil, or_false]
      at hkey
    rcases hkey with rfl | rfl | rfl | rfl | rfl | rfl <;>
    first
    | (exfalso; revert h4; simp [vectorAt]; done)
    | (simp [vectorAt] at h1 h2
       subst h1
       subst h2
       exact sideMidpointClear_of_sq isSqrt_real 1 _ _ one_pos
         (by simp only [Vector2.squaredNorm]; norm_num))
  have hlevel : RefinementClear Real.sqrt 0 1 1
      (([⟨1, 0, 1⟩, ⟨0, 1, 1⟩, ⟨0, 1, 0⟩, ⟨0, 0, 0⟩] : List (Vector3 ℝ)), [⟨0, 1, 2, 3⟩],
        [CylinderVertexType.kSide, CylinderVertexType.kSide, CylinderVertexType.kSide,
          CylinderVertexType.kInternal]) := ⟨hclear, fun _ _ => trivial⟩
  ⟨rfl, by decide, hclear, hlevel,
    (refineCylinderMesh_counts Real.sqrt 0 [⟨1, 0, 1⟩, ⟨0, 1, 1⟩, ⟨0, 1, 0⟩, ⟨0, 0, 0⟩]
      [⟨0, 1, 2, 3⟩] [CylinderVertexType.kSide, CylinderVertexType.kSide,
        CylinderVertexType.kSide, CylinderVertexType.kInternal] 1 rfl (by decide) hclear).1,
    (refineCylinderMesh_counts Real.sqrt 0 [⟨1, 0, 1⟩, ⟨0, 1, 1⟩, ⟨0, 1, 0⟩, ⟨0, 0, 0⟩]
      [⟨0, 1, 2, 3⟩] [CylinderVertexType.kSide, CylinderVertexType.kSide,
        CylinderVertexType.kSide, CylinderVertexType.kInternal] 1 rfl (by decide) hclear).2.2 1
      hlevel⟩

/-- One refinement of a tetrahedron whose first edge joins the vertices
`(1, 0, 0)` and `(-1, 0, 0)` of the type `kSide` stops at the `assert` of
`ProjectOntoCylinderSide`: the midpoint of the edge is on the z-axis. -/
theorem refineCylinderMesh_stops :
    RefineCylinderMesh Real.sqrt 0 [⟨1, 0, 0⟩, ⟨-1, 0, 0⟩, ⟨0, 1, 0⟩, ⟨0, 0, 1⟩] [⟨0, 1, 2, 3⟩]
      [CylinderVertexType.kSide, CylinderVertexType.kSide, CylinderVertexType.kSide,
        CylinderVertexType.kCap] (1 : ℝ) [] = none := by
  have h : get_child_vertex Real.sqrt 0 (1 : ℝ) 0 1
      ⟨[⟨1, 0, 0⟩, ⟨-1, 0, 0⟩, ⟨0, 1, 0⟩, ⟨0, 0, 1⟩],
        [CylinderVertexType.kSide, CylinderVertexType.kSide, CylinderVertexType.kSide,
          CylinderVertexType.kCap], fun _ => none⟩ = none := by
    simp [get_child_vertex, CreateNewVertex, vectorAt, ProjectMidPoint,
      ProjectOntoCylinderSide, CylinderVertexType.min, CylinderVertexType.toNat, Vector2.norm,
      Vector2.squaredNorm]
  simp only [RefineCylinderMesh, refineTetrahedra, RefineCylinderTetrahdron, h,
    Option.none_bind, Option.map_none']

/-- Claim C36 as amended: from empty vectors, when `5 * (s + 1)` is in the range
of `int` for `s` the larger of 2 and the floor of the computed quotient
`height / radius`, the function `MakeCylinderMeshLevel0` returns `5 * (s + 1)`
vertices, as many vertex types and `12 * s` tetrahedra; the four indices of
every tetrahedron are inside the vertex vector, two vertices have the type
`kCap` and `s - 1` have the type `kInternal`. -/
theorem level0_counts [FloorRing K] (div : K → K → K) (height radius : K)
    (h : 5 * (max 2 ⌊div height radius⌋ + 1) ≤ 2147483647) :
    ∃ m, MakeCylinderMeshLevel0 div height radius [] [] [] = some m ∧
      m.2.1.length = 5 * ((max 2 ⌊div height radius⌋).toNat + 1) ∧
      m.2.2.length = 5 * ((max 2 ⌊div height radius⌋).toNat + 1) ∧
      m.1.length = 12 * (max 2 ⌊div height radius⌋).toNat ∧
      (∀ t ∈ m.1, t.InRange (5 * ((max 2 ⌊div height radius⌋).toNat + 1))) ∧
      m.2.2.count CylinderVertexType.kCap = 2 ∧
      m.2.2.count CylinderVertexType.kInternal = (max 2 ⌊div height radius⌋).toNat - 1 := by
  obtain ⟨m, hm⟩ := (level0_isSome_iff div height radius [] [] []).2 h
  obtain ⟨-, -, h1, h2, h3, h4, h5, h6⟩ := level0_spec div height radius m hm
  exact ⟨m, hm, h1, h2, h3, h4, h5, h6⟩

theorem level0_counts_witness :
    5 * (max 2 ⌊(fun a b : ℚ => a / b) 7 2⌋ + 1) ≤ 2147483647 ∧
    ∃ m, MakeCylinderMeshLevel0 (fun a b : ℚ => a / b) 7 2 [] [] [] = some m ∧
      m.2.1.length = 5 * ((max 2 ⌊(fun a b : ℚ => a / b) 7 2⌋).toNat + 1) ∧
      m.2.2.length = 5 * ((max 2 ⌊(fun a b : ℚ => a / b) 7 2⌋).toNat + 1) ∧
      m.1.length = 12 * (max 2 ⌊(fun a b : ℚ => a / b) 7 2⌋).toNat ∧
      (∀ t ∈ m.1, t.InRange (5 * ((max 2 ⌊(fun a b : ℚ => a / b) 7 2⌋).toNat + 1))) ∧
      m.2.2.count CylinderVertexType.kCap = 2 ∧
      m.2.2.count CylinderVertexType.kInternal =
        (max 2 ⌊(fun a b : ℚ => a / b) 7 2⌋).toNat - 1 :=
  ⟨by decide!, level0_counts (fun a b : ℚ => a / b) 7 2 (by decide!)⟩

/-- The mesh of the cylinder of radius 1 and length 8333334 for the resolution
hint 2, all three positive: the level-0 mesh has 8333334 subdivisions, so
100000008 tetrahedra; the number `refinement_level` is -1 and
`MakeCylinderBVHTetrahedronModel` returns the level-0 mesh, which has more than
the 100 million tetrahedra that the comment of lines 392-394 promises. -/
theorem cylinder_mesh_exceeds_bound :
    0 < (⟨1, 8333334⟩ : Cylinder ℝ).radius ∧ 0 < (⟨1, 8333334⟩ : Cylinder ℝ).lz ∧
    subdivisions (fun a b => a / b) (8333334 : ℝ) 1 = some 8333334 ∧
    refinement_level (Real.logb 2) Real.arcsin Real.pi (1 : ℝ) 2 100000008 = some (-1) ∧
    ∃ m, MakeCylinderBVHTetrahedronModel (fun a b => a / b) Real.sqrt (1 / 4503599627370496)
          (Real.logb 2) Real.arcsin Real.pi (⟨1, 8333334⟩ : Cylinder ℝ) 2 = some m ∧
      m.2.length = 100000008 ∧ 100000000 < m.2.length := by
  have hf : max 2 ⌊(fun a b : ℝ => a / b) 8333334 1⌋ = 8333334 := by norm_num
  have hs := subdivisions_of_le (fun a b : ℝ => a / b) 8333334 1 (by rw [hf]; norm_num)
  rw [hf] at hs
  obtain ⟨m0, hm0⟩ := (level0_isSome_iff (fun a b : ℝ => a / b) 8333334 1 [] [] []).2
    (by rw [hf]; norm_num)
  obtain ⟨-, -, -, -, h3, -⟩ := level0_spec (fun a b : ℝ => a / b) 8333334 1 m0 hm0
  rw [hf] at h3
  have h3' : m0.1.length = 100000008 := h3
  have hL : hintLevel (Real.logb 2) Real.arcsin Real.pi (1 : ℝ) 2 = some 0 := by
    have e1 : Real.pi / Real.arcsin (min (2 : ℝ) (2 * 1) / (2 * 1)) = 2 := by
      rw [show min (2 : ℝ) (2 * 1) / (2 * 1) = 1 by norm_num, Real.arcsin_one]
      field_simp
    have e2 : Real.logb 2 2 = 1 := Real.logb_self_eq_one (by norm_num)
    simp only [hintLevel, e1, e2]
    norm_num [toInt]
  have hfl : ⌊Real.logb 2 (100000000 / ((100000008 : Nat) : ℝ)) / 3⌋ = -1 := by
    rw [Int.floor_eq_iff]
    have h1 : Real.logb 2 (100000000 / ((100000008 : Nat) : ℝ)) < 0 :=
      Real.logb_neg (by norm_num) (by norm_num) (by norm_num)
    have h2 : -1 ≤ Real.logb 2 (100000000 / ((100000008 : Nat) : ℝ)) := by
      rw [Real.le_logb_iff_rpow_le (by norm_num) (by norm_num), Real.rpow_neg_one]
      norm_num
    push_cast at h1 h2 ⊢
    constructor <;> linarith
  have hr : refinement_level (Real.logb 2) Real.arcsin Real.pi (1 : ℝ) 2 100000008 =
      some (-1) := by
    simp only [refinement_level, hL, Option.some_bind, hfl]
    rfl
  refine ⟨by norm_num, by norm_num, hs, hr, (m0.2.1, m0.1), ?_, h3', by rw [h3']; norm_num⟩
  simp only [MakeCylinderBVHTetrahedronModel, hm0, Option.some_bind, h3', hr]
  norm_num [refineLevels]

/-- Claim C36 as stated fails.  For the height `3e9` and the radius `1` the
floor of the quotient is outside the range of `int` and the function has no
result.  For the height `1 - 2 ^ (-53)` and the radius the double `1 / 3` the
quotient is below 3 and the binary64 division rounds it to 3: the function
makes 3 subdivisions, 20 vertices and 36 tetrahedra where
`max(2, floor(height / radius))` is 2. -/
theorem level0_leaves_int_range :
    ((0 : ℚ) < 3000000000 ∧ (0 : ℚ) < 1 ∧
      MakeCylinderMeshLevel0 (fun a b => a / b) (3000000000 : ℚ) 1 [] [] [] = none) ∧
    ((0 : ℚ) < 1 - 1 / 2 ^ 53 ∧ (0 : ℚ) < roundDouble (1 / 3) ∧
      max 2 ⌊(1 - 1 / 2 ^ 53 : ℚ) / roundDouble (1 / 3)⌋ = 2 ∧
      subdivisions (fun a b => roundDouble (a / b)) (1 - 1 / 2 ^ 53) (roundDouble (1 / 3)) =
        some 3 ∧
      ∃ m, MakeCylinderMeshLevel0 (fun a b => roundDouble (a / b)) (1 - 1 / 2 ^ 53)
          (roundDouble (1 / 3)) [] [] [] = some m ∧
        m.2.1.length = 20 ∧ m.1.length = 36) := by
  have hfl : max 2 ⌊(fun a b : ℚ => roundDouble (a / b)) (1 - 1 / 2 ^ 53)
      (roundDouble (1 / 3))⌋ = 3 := by decide!
  refine ⟨⟨by norm_num, by norm_num, ?_⟩, by decide!, by decide!, by decide!, ?_, ?_⟩
  · rw [Option.eq_none_iff_forall_not_mem]
    intro m hm
    have h := (level0_isSome_iff (fun a b : ℚ => a / b) 3000000000 1 [] [] []).1 ⟨m, hm⟩
    revert h
    decide!
  · have h := subdivisions_of_le (fun a b : ℚ => roundDouble (a / b)) (1 - 1 / 2 ^ 53)
      (roundDouble (1 / 3)) (by rw [hfl]; decide)
    rw [hfl] at h
    exact h
  · obtain ⟨m, hm⟩ := (level0_isSome_iff (fun a b : ℚ => roundDouble (a / b)) (1 - 1 / 2 ^ 53)
      (roundDouble (1 / 3)) [] [] []).2 (by rw [hfl]; decide)
    obtain ⟨-, -, h1, -, h3, -⟩ := level0_spec _ _ _ m hm
    rw [hfl] at h1 h3
    exact ⟨m, hm, h1, h3⟩

end test

end Properties

end fcl
